import Mathlib

/-!
# KKR matrix assembly (`buildKKRMatrix_HIP.cpp`): embedding and properties

The kernels of `src/MultipleScattering/buildKKRMatrix_HIP.cpp` are embedded as
Lean functions over explicit device buffers.

Conventions of the embedding:

* `double` is an arbitrary ordered field `K` with exact arithmetic; the libm
  functions the code calls (`sqrt`, `exp`, `cos`, `sin`, `acos`, `asin`) are the
  uninterpreted operations of the class `RealFns`.
* division is the total division of the field (`x / 0 = 0`), whereas the
  `double` division of the code yields an infinity or a NaN for a zero divisor;
  the divisors of `calculateHankelHip` are therefore logged
  (`calculateHankelHipLogged`), and the statements whose truth depends on the
  value of such a quotient are stated for non-zero divisors.
* `deviceDoubleComplex` is the pair of `double`s of the HIP headers, with the
  usual complex operations; a mixed `double`/complex operation promotes the
  real operand by `make_hipDoubleComplex a 0`.
* a device buffer is a total map from element index to value (`Mem`), a store
  through a pointer is `Function.update`; `int` index arithmetic is done in
  `Nat`/`Int` without wrap-around.
* a kernel launch `<<<dim3(numLIZ, numLIZ, 1), threads>>>` runs the blocks one
  after the other, and inside a block the threads one after the other, each
  thread running its strided loop (`gridLaunch`, `blockThreads`).
-/

set_option linter.unusedVariables false
set_option linter.unusedSectionVars false

namespace LSMS

/-! ## Scalars -/

/-- The libm functions called on `double` by the kernels. -/
class RealFns (K : Type) where
  sqrt : K → K
  exp : K → K
  cos : K → K
  sin : K → K
  acos : K → K
  asin : K → K

/-- The HIP complex type: a pair of `double`s (fields `x` and `y`). -/
structure deviceDoubleComplex (K : Type) where
  x : K
  y : K
deriving DecidableEq

namespace deviceDoubleComplex

variable {K : Type}

@[ext]
theorem ext_xy {a b : deviceDoubleComplex K} (hx : a.x = b.x) (hy : a.y = b.y) : a = b := by
  cases a; cases b; simp_all

instance instZero [Zero K] : Zero (deviceDoubleComplex K) := ⟨⟨0, 0⟩⟩

instance instOne [Zero K] [One K] : One (deviceDoubleComplex K) := ⟨⟨1, 0⟩⟩

instance instAdd [Add K] : Add (deviceDoubleComplex K) := ⟨fun a b => ⟨a.x + b.x, a.y + b.y⟩⟩

instance instSub [Sub K] : Sub (deviceDoubleComplex K) := ⟨fun a b => ⟨a.x - b.x, a.y - b.y⟩⟩

instance instNeg [Neg K] : Neg (deviceDoubleComplex K) := ⟨fun a => ⟨-a.x, -a.y⟩⟩

instance instMul [Add K] [Sub K] [Mul K] : Mul (deviceDoubleComplex K) :=
  ⟨fun a b => ⟨a.x * b.x - a.y * b.y, a.x * b.y + a.y * b.x⟩⟩

/-- Complex division (`hipCdiv`) in exact arithmetic. -/
instance instDiv [Add K] [Sub K] [Mul K] [Div K] : Div (deviceDoubleComplex K) :=
  ⟨fun a b =>
    ⟨(a.x * b.x + a.y * b.y) / (b.x * b.x + b.y * b.y),
     (a.y * b.x - a.x * b.y) / (b.x * b.x + b.y * b.y)⟩⟩

@[simp]
theorem zero_x [Zero K] : (0 : deviceDoubleComplex K).x = 0 := rfl

@[simp]
theorem zero_y [Zero K] : (0 : deviceDoubleComplex K).y = 0 := rfl

@[simp]
theorem one_x [Zero K] [One K] : (1 : deviceDoubleComplex K).x = 1 := rfl

@[simp]
theorem one_y [Zero K] [One K] : (1 : deviceDoubleComplex K).y = 0 := rfl

@[simp]
theorem add_x [Add K] (a b : deviceDoubleComplex K) : (a + b).x = a.x + b.x := rfl

@[simp]
theorem add_y [Add K] (a b : deviceDoubleComplex K) : (a + b).y = a.y + b.y := rfl

@[simp]
theorem sub_x [Sub K] (a b : deviceDoubleComplex K) : (a - b).x = a.x - b.x := rfl

@[simp]
theorem sub_y [Sub K] (a b : deviceDoubleComplex K) : (a - b).y = a.y - b.y := rfl

@[simp]
theorem neg_x [Neg K] (a : deviceDoubleComplex K) : (-a).x = -a.x := rfl

@[simp]
theorem neg_y [Neg K] (a : deviceDoubleComplex K) : (-a).y = -a.y := rfl

@[simp]
theorem mul_x [Add K] [Sub K] [Mul K] (a b : deviceDoubleComplex K) :
    (a * b).x = a.x * b.x - a.y * b.y := rfl

@[simp]
theorem mul_y [Add K] [Sub K] [Mul K] (a b : deviceDoubleComplex K) :
    (a * b).y = a.x * b.y + a.y * b.x := rfl

instance instCommRing [CommRing K] : CommRing (deviceDoubleComplex K) where
  add_assoc a b c := by ext <;> simp [add_assoc]
  zero_add a := by ext <;> simp
  add_zero a := by ext <;> simp
  add_comm a b := by ext <;> simp [add_comm]
  neg_add_cancel a := by ext <;> simp
  sub_eq_add_neg a b := by ext <;> simp [sub_eq_add_neg]
  mul_assoc a b c := by ext <;> simp <;> ring
  one_mul a := by ext <;> simp
  mul_one a := by ext <;> simp
  left_distrib a b c := by ext <;> simp <;> ring
  right_distrib a b c := by ext <;> simp <;> ring
  mul_comm a b := by ext <;> simp <;> ring
  zero_mul a := by ext <;> simp
  mul_zero a := by ext <;> simp
  nsmul := nsmulRec
  zsmul := zsmulRec

end deviceDoubleComplex

/-- The constructor `make_hipDoubleComplex(re, im)`. -/
def make_hipDoubleComplex {K : Type} (re im : K) : deviceDoubleComplex K := ⟨re, im⟩

/-! ## Buffers, index macros and loops -/

/-- A device (or shared-memory) buffer, addressed by element index. -/
abbrev Mem (α : Type) := Nat → α

/-- Modelled from the spec: the macro `IDX` is defined in a header that is not
part of the sources at hand; it is the column-major ("Fortran layout") index
recorded in the commented-out definition `(((j)*(lDim))+(i))` at the top of
`buildKKRMatrix_HIP.cpp`. -/
def IDX (i j lDim : Nat) : Nat := j * lDim + i

/-- The macro `IDX3(i, j, k, lDim, mDim)`. -/
def IDX3 (i j k lDim mDim : Nat) : Nat := k * lDim * mDim + j * lDim + i

/-- The index `plmIdxDev(l, m) = l*(l+1)/2 + m` into the Legendre table. -/
def plmIdxDev (l m : Nat) : Nat := l * (l + 1) / 2 + m

/-- The counting loop `for (i = lo; i < hi; i++) body(i)`. -/
def forLoop {σ : Type} (lo hi : Nat) (body : Nat → σ → σ) (s : σ) : σ :=
  (List.range' lo (hi - lo)).foldl (fun s i => body i s) s

/-- The strided loop `for (ij = start; ij < N; ij += blockDim) body(ij)` of one
thread, unrolled at most `fuel` times. -/
def stridedLoop {σ : Type} (blockDim N : Nat) (body : Nat → σ → σ) : Nat → Nat → σ → σ
  | 0, _, s => s
  | fuel + 1, ij, s =>
    if ij < N then stridedLoop blockDim N body fuel (ij + blockDim) (body ij s) else s

/-- All threads `hipThreadIdx_x = 0 .. blockDim-1` of one block running the
strided loop over `ij < N`, one thread after the other. A thread makes at most
`N` iterations, which is the unrolling bound. -/
def blockThreads {σ : Type} (blockDim N : Nat) (body : Nat → σ → σ) (s : σ) : σ :=
  (List.range blockDim).foldl (fun s tid => stridedLoop blockDim N body N tid s) s

/-- A launch over the grid `dim3(numLIZ, numLIZ, 1)`: the block function is run
for every `(hipBlockIdx_x, hipBlockIdx_y) = (ir1, ir2)`. -/
def gridLaunch {σ : Type} (numLIZ : Nat) (block : Nat → Nat → σ → σ) (s : σ) : σ :=
  (List.range numLIZ).foldl
    (fun s ir2 => (List.range numLIZ).foldl (fun s ir1 => block ir1 ir2 s) s) s

/-! ## Shared memory

The dynamic shared memory of a block is one array of bytes that the kernel
splits by byte offsets into the tables `hfn`, `sinmp`, `cosmp` and `plm`. It is
modelled as an array of 8-byte words (one `double` each); a pointer into it is
a word index, a `deviceDoubleComplex` occupies two consecutive words, and the
byte offsets of `sharedMemoryBGijHip` (all multiples of 8) are divided by 8. -/

/-- The value `p[l]` for a pointer `deviceDoubleComplex *p` into shared memory. -/
def loadComplex {K : Type} (sharedMemory : Mem K) (p l : Nat) : deviceDoubleComplex K :=
  ⟨sharedMemory (p + 2 * l), sharedMemory (p + 2 * l + 1)⟩

/-- The store `p[l] = v` for a pointer `deviceDoubleComplex *p` into shared memory. -/
def storeComplex {K : Type} (sharedMemory : Mem K) (p l : Nat) (v : deviceDoubleComplex K) :
    Mem K :=
  Function.update (Function.update sharedMemory (p + 2 * l) v.x) (p + 2 * l + 1) v.y

/-- The result of `sharedMemoryBGijHip`: the size and the four byte offsets it
assigns (`dlmOffset` is left unassigned by the code). -/
structure SharedLayout where
  size : Nat
  hfnOffset : Nat
  sinmpOffset : Nat
  cosmpOffset : Nat
  plmOffset : Nat
deriving DecidableEq

/-- The host function `sharedMemoryBGijHip`, with
`sizeof(deviceDoubleComplex) = 16` and `sizeof(double) = 8`; `ndlm` is
`lsms.angularMomentumIndices.ndlm`. -/
def sharedMemoryBGijHip (maxlmax ndlm : Nat) : SharedLayout :=
  let size := 0
  let hfnOffset := size
  let size := size + 16 * (2 * maxlmax + 1)
  let sinmpOffset := size
  let size := size + 8 * (2 * maxlmax + 1)
  let cosmpOffset := size
  let size := size + 8 * (2 * maxlmax + 1)
  let plmOffset := size
  let size := size + 8 * ndlm
  { size := size, hfnOffset := hfnOffset, sinmpOffset := sinmpOffset,
    cosmpOffset := cosmpOffset, plmOffset := plmOffset }

/-! ## Angular basis evaluator -/

section Basis

variable {K : Type} [LinearOrderedField K] [RealFns K]

/-- The device function `complexExp`: the exponential of a complex number. -/
def complexExp (z : deviceDoubleComplex K) : deviceDoubleComplex K :=
  let mExp := RealFns.exp z.x
  make_hipDoubleComplex (mExp * RealFns.cos z.y) (mExp * RealFns.sin z.y)

/-- The device function `calculateHankelHip` as run by thread 0; `hfn` is the
pointer to the table in shared memory. -/
def calculateHankelHip (prel : deviceDoubleComplex K) (r : K) (lend : Nat)
    (ilp1 : Mem (deviceDoubleComplex K)) (hfn : Nat) (sharedMemory : Mem K) : Mem K :=
  let sqrtm1 : deviceDoubleComplex K := make_hipDoubleComplex 0 1
  let z := prel * make_hipDoubleComplex r 0
  let sharedMemory := storeComplex sharedMemory hfn 0 (make_hipDoubleComplex 0 (-1))
  let sharedMemory :=
    storeComplex sharedMemory hfn 1 (make_hipDoubleComplex (-1) 0 - sqrtm1 / z)
  let sharedMemory := forLoop 1 lend (fun l sharedMemory =>
    storeComplex sharedMemory hfn (l + 1)
      ((make_hipDoubleComplex (2 * (l : K) + 1) 0 * loadComplex sharedMemory hfn l / z)
        - loadComplex sharedMemory hfn (l - 1))) sharedMemory
  let z := complexExp (sqrtm1 * z) / make_hipDoubleComplex r 0
  forLoop 0 (lend + 1) (fun l sharedMemory =>
    storeComplex sharedMemory hfn l (((-(loadComplex sharedMemory hfn l)) * z) * ilp1 l))
    sharedMemory

/-- The device function `calculateSinCosPowersHip`; `sinmp` and `cosmp` are the
pointers to the two tables in shared memory. -/
def calculateSinCosPowersHip (rij : Nat → K) (lend : Nat) (sinmp cosmp : Nat)
    (sharedMemory : Mem K) : Mem K :=
  let ptol : K := 1 / 1000000
  let pmag := RealFns.sqrt (rij 0 * rij 0 + rij 1 * rij 1)
  let sharedMemory := Function.update sharedMemory (cosmp + 0) 1
  let sharedMemory := Function.update sharedMemory (sinmp + 0) 0
  let sharedMemory :=
    if pmag > ptol then
      let sharedMemory := Function.update sharedMemory (cosmp + 1) (rij 0 / pmag)
      Function.update sharedMemory (sinmp + 1) (rij 1 / pmag)
    else
      let sharedMemory := Function.update sharedMemory (cosmp + 1) 0
      Function.update sharedMemory (sinmp + 1) 0
  forLoop 2 (lend + 1) (fun m sharedMemory =>
    let sharedMemory := Function.update sharedMemory (cosmp + m)
      (sharedMemory (cosmp + (m - 1)) * sharedMemory (cosmp + 1)
        - sharedMemory (sinmp + (m - 1)) * sharedMemory (sinmp + 1))
    Function.update sharedMemory (sinmp + m)
      (sharedMemory (sinmp + (m - 1)) * sharedMemory (cosmp + 1)
        + sharedMemory (cosmp + (m - 1)) * sharedMemory (sinmp + 1))) sharedMemory

/-- The device function `associatedLegendreFunctionNormalizedHip`; `Plm` is the
pointer to the table in shared memory. -/
def associatedLegendreFunctionNormalizedHip (x : K) (lmax : Nat) (Plm : Nat)
    (sharedMemory : Mem K) : Mem K :=
  let pi : K := RealFns.acos (-1)
  let y := RealFns.sqrt (1 - x * x)
  let sharedMemory := Function.update sharedMemory (Plm + 0) (RealFns.sqrt (1 / (4 * pi)))
  if lmax < 1 then sharedMemory
  else
    let sharedMemory := forLoop 1 (lmax + 1) (fun m sharedMemory =>
      let sharedMemory := Function.update sharedMemory (Plm + plmIdxDev m m)
        (-(RealFns.sqrt (((2 * m + 1 : Nat) : K) / ((2 * m : Nat) : K))) * y
          * sharedMemory (Plm + plmIdxDev (m - 1) (m - 1)))
      Function.update sharedMemory (Plm + plmIdxDev m (m - 1))
        (RealFns.sqrt (((2 * m + 1 : Nat) : K)) * x
          * sharedMemory (Plm + plmIdxDev (m - 1) (m - 1)))) sharedMemory
    forLoop 0 lmax (fun m sharedMemory =>
      forLoop (m + 2) (lmax + 1) (fun l sharedMemory =>
        let a_lm := RealFns.sqrt
          (((4 * (l : Int) * l - 1 : Int) : K) / (((l : Int) * l - m * m : Int) : K))
        let b_lm := RealFns.sqrt
          (((((l : Int) - 1) * (l - 1) - m * m : Int) : K)
            / ((4 * ((l : Int) - 1) * (l - 1) - 1 : Int) : K))
        Function.update sharedMemory (Plm + plmIdxDev l m)
          (a_lm * (x * sharedMemory (Plm + plmIdxDev (l - 1) m)
            - b_lm * sharedMemory (Plm + plmIdxDev (l - 2) m)))) sharedMemory) sharedMemory

end Basis

/-- The device function `dlmFunction(hfn, cosmp, sinmp, plm, l, m)`; the four
tables are read only. -/
def dlmFunction {K : Type} [CommRing K] (hfn : Mem (deviceDoubleComplex K))
    (cosmp sinmp plm : Mem K) (l : Nat) (m : Int) : deviceDoubleComplex K :=
  let mAbs := m.natAbs
  let dlm := hfn l * make_hipDoubleComplex (plm (plmIdxDev l mAbs)) 0
  if m = 0 then dlm
  else if m < 0 then
    let dlm := dlm * make_hipDoubleComplex (cosmp mAbs) (sinmp mAbs)
    if mAbs % 2 ≠ 0 then -dlm else dlm
  else dlm * make_hipDoubleComplex (cosmp mAbs) (-(sinmp mAbs))

/-! ## Kernels -/

/-- The four tables as the channel-pair loop reads them through the pointers
`hfn`, `sinmp`, `cosmp` and `plm` after the barrier. -/
structure BasisTables (K : Type) where
  hfn : Mem (deviceDoubleComplex K)
  sinmp : Mem K
  cosmp : Mem K
  plm : Mem K

/-- The tables seen through the four byte offsets in a shared memory. -/
def tablesOf {K : Type} (hfnOffset sinmpOffset cosmpOffset plmOffset : Nat)
    (sharedMemory : Mem K) : BasisTables K :=
  { hfn := fun l => loadComplex sharedMemory (hfnOffset / 8) l
    sinmp := fun m => sharedMemory (sinmpOffset / 8 + m)
    cosmp := fun m => sharedMemory (cosmpOffset / 8 + m)
    plm := fun k => sharedMemory (plmOffset / 8 + k) }

/-- The global constant tables of `DeviceConstants`. -/
structure DeviceConstants (K : Type) where
  lofk : Mem Nat
  mofk : Mem Int
  ilp1 : Mem (deviceDoubleComplex K)
  illp : Mem (deviceDoubleComplex K)
  cgnt : Mem K
  ndlj_illp : Nat
  lmaxp1_cgnt : Nat
  ndlj_cgnt : Nat

/-- The loop `for (l3 = l1+l2; l3 >= llow; l3 -= 2)` of `buildGijHipKernel`,
accumulating into `devBgij[cell]`; unrolled at most `fuel` times. -/
def gauntLoop {K : Type} [CommRing K] (c : DeviceConstants K) (sm : BasisTables K)
    (lm1 lm2 : Nat) (m3 llow : Int) (cell : Nat) :
    Nat → Int → Mem (deviceDoubleComplex K) → Mem (deviceDoubleComplex K)
  | 0, _, devBgij => devBgij
  | fuel + 1, l3, devBgij =>
    if llow ≤ l3 then
      gauntLoop c sm lm1 lm2 m3 llow cell fuel (l3 - 2)
        (Function.update devBgij cell
          (devBgij cell
            + make_hipDoubleComplex
                (c.cgnt (IDX3 (Int.tdiv l3 2).toNat lm1 lm2 c.lmaxp1_cgnt c.ndlj_cgnt)) 0
              * dlmFunction sm.hfn sm.cosmp sm.sinmp sm.plm l3.toNat m3))
    else devBgij

/-- One iteration `ij` of the channel-pair loop of `buildGijHipKernel`
(lines 324-365). The test `hipCabs(prel)==0.0` of the HIP library holds exactly
when both components of `prel` are zero. At most `(l1+l2)/2 + 1` values of `l3`
are visited, so the unrolling bound `l1 + l2 + 1` is never reached. -/
def gijChannelPair {K : Type} [CommRing K] [DecidableEq K] (c : DeviceConstants K)
    (sm : BasisTables K) (prel : deviceDoubleComplex K) (pi4 : K)
    (kkri iOffset jOffset nrmat_ns : Nat) (ij : Nat)
    (devBgij : Mem (deviceDoubleComplex K)) : Mem (deviceDoubleComplex K) :=
  let lm2 := ij % kkri
  let lm1 := ij / kkri
  let cell := IDX (iOffset + lm2) (jOffset + lm1) nrmat_ns
  let devBgij := Function.update devBgij cell (make_hipDoubleComplex 0 0)
  let l1 := c.lofk lm1
  let m1 := c.mofk lm1
  let l2 := c.lofk lm2
  let m2 := c.mofk lm2
  let m3 : Int := m2 - m1
  let llow : Int := max (abs m3) (abs ((l1 : Int) - l2))
  let llow : Int := if prel = 0 then (l1 : Int) + l2 else llow
  let devBgij := gauntLoop c sm lm1 lm2 m3 llow cell (l1 + l2 + 1) ((l1 : Int) + l2) devBgij
  Function.update devBgij cell
    (devBgij cell * make_hipDoubleComplex pi4 0 * c.illp (IDX lm2 lm1 c.ndlj_illp))

/-- The launch arguments of `buildGijHipKernel` that are the same for every
block: the LIZ tables, the constant tables, the four shared-memory offsets, the
content of the dynamic shared memory when a block starts, `prel`, the offsets
buffer and the matrix dimension. -/
structure GijArgs (K : Type) where
  LIZPos : Mem K
  LIZlmax : Mem Nat
  c : DeviceConstants K
  hfnOffset : Nat
  sinmpOffset : Nat
  cosmpOffset : Nat
  plmOffset : Nat
  sharedMemory : Mem K
  prel : deviceDoubleComplex K
  offsets : Mem Nat
  nrmat_ns : Nat

/-- The separation `rij` of the sites `ir1` and `ir2` (lines 235-238). -/
def sitesRij {K : Type} [Sub K] (LIZPos : Mem K) (ir1 ir2 : Nat) : Nat → K :=
  fun k => LIZPos (3 * ir1 + k) - LIZPos (3 * ir2 + k)

/-- The shared memory of block `(ir1, ir2)` of `buildGijHipKernel` at the
barrier: thread 0 has run `calculateHankelHip`,
`associatedLegendreFunctionNormalizedHip` and `calculateSinCosPowersHip`
(lines 259-282). -/
def gijSharedMemory {K : Type} [LinearOrderedField K] [RealFns K] (g : GijArgs K)
    (ir1 ir2 : Nat) : Mem K :=
  let rij := sitesRij g.LIZPos ir1 ir2
  let r := RealFns.sqrt (rij 0 * rij 0 + rij 1 * rij 1 + rij 2 * rij 2)
  let lmax1 := g.LIZlmax ir1
  let lmax2 := g.LIZlmax ir2
  let lend := lmax1 + lmax2
  let cosTheta := rij 2 / r
  let sharedMemory := calculateHankelHip g.prel r lend g.c.ilp1 (g.hfnOffset / 8) g.sharedMemory
  let sharedMemory :=
    associatedLegendreFunctionNormalizedHip cosTheta lend (g.plmOffset / 8) sharedMemory
  calculateSinCosPowersHip rij lend (g.sinmpOffset / 8) (g.cosmpOffset / 8) sharedMemory

/-- The constant `pi4 = 4.0*2.0*std::asin(1.0)` of `buildGijHipKernel`. -/
def pi4 {K : Type} [LinearOrderedField K] [RealFns K] : K := 4 * 2 * RealFns.asin 1

/-- The kernel `buildGijHipKernel` for the block `(hipBlockIdx_x, hipBlockIdx_y) =
(ir1, ir2)`, launched with `blockDim` threads: thread 0 fills the tables, then
every thread runs the strided channel-pair loop. -/
def buildGijHipKernel {K : Type} [LinearOrderedField K] [RealFns K] (blockDim : Nat)
    (g : GijArgs K) (ir1 ir2 : Nat)
    (devBgij : Mem (deviceDoubleComplex K)) : Mem (deviceDoubleComplex K) :=
  if ir1 ≠ ir2 then
    let iOffset := g.offsets ir1
    let jOffset := g.offsets ir2
    let lmax1 := g.LIZlmax ir1
    let lmax2 := g.LIZlmax ir2
    let kkri := (lmax1 + 1) * (lmax1 + 1)
    let kkrj := (lmax2 + 1) * (lmax2 + 1)
    let sm := tablesOf g.hfnOffset g.sinmpOffset g.cosmpOffset g.plmOffset
      (gijSharedMemory g ir1 ir2)
    blockThreads blockDim (kkri * kkrj)
      (gijChannelPair g.c sm g.prel pi4 kkri iOffset jOffset g.nrmat_ns) devBgij
  else devBgij

/-- One iteration `ij` of the loop of `setBGijHip` (lines 182-194). -/
def setBGijQuadrants {α : Type} [Zero α] (kkri kkrj iOffset jOffset nrmat_ns : Nat) (ij : Nat)
    (devBgij : Mem α) : Mem α :=
  let i := ij % kkri
  let j := ij / kkri
  let devBgij := Function.update devBgij (IDX (iOffset + kkri + i) (jOffset + j) nrmat_ns) 0
  let devBgij := Function.update devBgij (IDX (iOffset + i) (jOffset + kkrj + j) nrmat_ns) 0
  Function.update devBgij (IDX (iOffset + kkri + i) (jOffset + kkrj + j) nrmat_ns)
    (devBgij (IDX (iOffset + i) (jOffset + j) nrmat_ns))

/-- The kernel `setBGijHip` for the block `(ir1, ir2)`. In the fully
relativistic branch the code only prints a message and writes nothing. -/
def setBGijHip {α : Type} [Zero α] (blockDim : Nat) (fullRelativity : Bool) (n_spin_cant : Nat)
    (LIZlmax offsets : Mem Nat) (nrmat_ns : Nat) (ir1 ir2 : Nat) (devBgij : Mem α) : Mem α :=
  if n_spin_cant = 1 then devBgij
  else
    let iOffset := offsets ir1
    let jOffset := offsets ir2
    let kkri := (LIZlmax ir1 + 1) * (LIZlmax ir1 + 1)
    let kkrj := (LIZlmax ir2 + 1) * (LIZlmax ir2 + 1)
    if !fullRelativity then
      blockThreads blockDim (kkri * kkrj)
        (setBGijQuadrants kkri kkrj iOffset jOffset nrmat_ns) devBgij
    else devBgij

/-- One iteration `ij` of the loop of `buildKKRMatrixMultiplyKernelHip`
(lines 465-475); `tmat_n` is the pointer into the t-matrix store. -/
def multiplyElement {α : Type} [Ring α] (tmat_n : Mem α) (devBgij : Mem α)
    (kkr1_ns iOffset jOffset nrmat_ns : Nat) (ij : Nat) (devM : Mem α) : Mem α :=
  let i := ij % kkr1_ns
  let j := ij / kkr1_ns
  let devM := Function.update devM (IDX (iOffset + i) (jOffset + j) nrmat_ns) 0
  forLoop 0 kkr1_ns (fun k devM =>
    Function.update devM (IDX (iOffset + i) (jOffset + j) nrmat_ns)
      (devM (IDX (iOffset + i) (jOffset + j) nrmat_ns)
        - tmat_n (IDX i k kkr1_ns) * devBgij (IDX (iOffset + k) (jOffset + j) nrmat_ns))) devM

/-- The kernel `buildKKRMatrixMultiplyKernelHip` for the block `(ir1, ir2)`.
The arguments `kkrsz_ns`, `ispin` and `n_spin_pola` are not used by the code. -/
def buildKKRMatrixMultiplyKernelHip {α : Type} [Ring α] (blockDim : Nat)
    (LIZlmax LIZStoreIdx offsets : Mem Nat) (kkrsz_ns ispin n_spin_pola n_spin_cant iie
      blkSizeTmatStore tmatStoreLDim : Nat) (devTmatStore : Mem α) (nrmat_ns : Nat)
    (devBgij : Mem α) (ir1 ir2 : Nat) (devM : Mem α) : Mem α :=
  let iOffset := offsets ir1
  let jOffset := offsets ir2
  if ir1 ≠ ir2 then
    let lmax1 := LIZlmax ir1
    let lmax2 := LIZlmax ir2
    let kkr1 := (lmax1 + 1) * (lmax1 + 1)
    let kkr2 := (lmax2 + 1) * (lmax2 + 1)
    let kkr1_ns := kkr1 * n_spin_cant
    let kkr2_ns := kkr2 * n_spin_cant
    let tmat_n : Mem α := fun idx =>
      devTmatStore (IDX (iie * blkSizeTmatStore) (LIZStoreIdx ir1) tmatStoreLDim + idx)
    blockThreads blockDim (kkr1_ns * kkr2_ns)
      (multiplyElement tmat_n devBgij kkr1_ns iOffset jOffset nrmat_ns) devM
  else devM

/-! ## Host side -/

/-- Modelled from the spec: `zeroMatrixHip` is defined outside the sources at
hand; the spec has the BGij buffer "zeroed then filled" on every build, so it
sets the `lDim * nCol` elements of the matrix to zero. -/
def zeroMatrixHip {α : Type} [Zero α] (devA : Mem α) (lDim nCol : Nat) : Mem α :=
  fun idx => if idx < lDim * nCol then 0 else devA idx

/-- Modelled from the spec: `unitMatrixHip` is defined outside the sources at
hand; the spec has the diagonal blocks of M "pre-initialized to identity", so
it sets the matrix to the identity: element `IDX(i, j, lDim)` is one when
`i = j` and zero otherwise. -/
def unitMatrixHip {α : Type} [Zero α] [One α] (devA : Mem α) (lDim nCol : Nat) : Mem α :=
  fun idx => if idx < lDim * nCol then (if idx % lDim = idx / lDim then 1 else 0) else devA idx

/-- The copy `deviceMemcpy(dst, src, count*sizeof(int), ...)` of `count` elements. -/
def deviceMemcpy {α : Type} (dst src : Mem α) (count : Nat) : Mem α :=
  fun idx => if idx < count then src idx else dst idx

/-- The members of `lsms.relativity`; the code only tests for `full`. -/
inductive RelativityType where
  | none
  | scalar
  | full
deriving DecidableEq

/-- The fields of `LSMSSystemParameters` read by the build; `ndlm` is
`lsms.angularMomentumIndices.ndlm`. -/
structure LSMSSystemParameters where
  n_spin_cant : Nat
  n_spin_pola : Nat
  maxlmax : Nat
  ndlm : Nat
  relativity : RelativityType

/-- The fields of `AtomData` read by the build. `DeviceAtom` is the device copy
of the LIZ tables of the same atom (`numLIZ`, `LIZPos`, `LIZlmax`,
`LIZStoreIdx`), so one record stands for both. -/
structure AtomData (K : Type) where
  numLIZ : Nat
  nrmat : Nat
  kkrsz : Nat
  LIZPos : Mem K
  LIZlmax : Mem Nat
  LIZStoreIdx : Mem Nat

/-- The buffers and sizes handed out by `DeviceStorage`. -/
structure DeviceStorage (K : Type) where
  devBGij : Mem (deviceDoubleComplex K)
  devIpvt : Mem Nat
  blkSizeTmatStore : Nat
  tmatStoreLDim : Nat
  devTmatStore : Mem (deviceDoubleComplex K)

/-- The host vector `offsets` of `buildKKRMatrixLMaxIdenticalHip` (lines 507-509). -/
def offsetsLMaxIdentical (numLIZ kkrsz_ns : Nat) : Mem Nat :=
  forLoop 0 numLIZ (fun ir offsets => Function.update offsets ir (ir * kkrsz_ns)) (fun _ => 0)

/-- The host vector `offsets` of `buildKKRMatrixLMaxDifferentHip` (lines 793-796). -/
def offsetsLMaxDifferent (n_spin_cant numLIZ : Nat) (LIZlmax : Mem Nat) : Mem Nat :=
  forLoop 1 numLIZ (fun ir offsets =>
    Function.update offsets ir
      (offsets (ir - 1) + n_spin_cant * (LIZlmax (ir - 1) + 1) * (LIZlmax (ir - 1) + 1)))
    (Function.update (fun _ => 0) 0 0)

section Build

variable {K : Type} [LinearOrderedField K] [RealFns K]

/-- The arguments with which both build functions launch `buildGijHipKernel`:
the LIZ tables of the atom, the constant tables, the shared-memory offsets of
`sharedMemoryBGijHip(lsms, ...)`, `prel`, the device offsets and `nrmat_ns`. -/
def buildGijArgs (lsms : LSMSSystemParameters) (atom : AtomData K) (c : DeviceConstants K)
    (sharedMemory : Mem K) (prel : deviceDoubleComplex K) (devOffsets : Mem Nat) : GijArgs K :=
  { LIZPos := atom.LIZPos, LIZlmax := atom.LIZlmax, c := c,
    hfnOffset := (sharedMemoryBGijHip lsms.maxlmax lsms.ndlm).hfnOffset,
    sinmpOffset := (sharedMemoryBGijHip lsms.maxlmax lsms.ndlm).sinmpOffset,
    cosmpOffset := (sharedMemoryBGijHip lsms.maxlmax lsms.ndlm).cosmpOffset,
    plmOffset := (sharedMemoryBGijHip lsms.maxlmax lsms.ndlm).plmOffset,
    sharedMemory := sharedMemory, prel := prel, offsets := devOffsets,
    nrmat_ns := lsms.n_spin_cant * atom.nrmat }

/-- The host function `buildKKRMatrixLMaxIdenticalHip` (without the
`COMPARE_ORIGINAL` sections, which are compiled out). `sharedMemory` is the content of the dynamic shared memory when a
block of `buildGijHipKernel` starts. Returns the storage with its updated
buffers and `devM`. -/
def buildKKRMatrixLMaxIdenticalHip (lsms : LSMSSystemParameters) (atom : AtomData K)
    (c : DeviceConstants K) (sharedMemory : Mem K) (d : DeviceStorage K)
    (ispin iie : Nat) (energy prel : deviceDoubleComplex K)
    (devM : Mem (deviceDoubleComplex K)) : DeviceStorage K × Mem (deviceDoubleComplex K) :=
  let nrmat_ns := lsms.n_spin_cant * atom.nrmat
  let kkrsz_ns := lsms.n_spin_cant * atom.kkrsz
  let fullRelativity : Bool := decide (lsms.relativity = RelativityType.full)
  let devBgij := d.devBGij
  let devM := unitMatrixHip devM nrmat_ns nrmat_ns
  let devBgij := zeroMatrixHip devBgij nrmat_ns nrmat_ns
  let devOffsets := d.devIpvt
  let offsets := offsetsLMaxIdentical atom.numLIZ kkrsz_ns
  let devOffsets := deviceMemcpy devOffsets offsets atom.numLIZ
  let threads := 1
  let devBgij := gridLaunch atom.numLIZ
    (buildGijHipKernel threads (buildGijArgs lsms atom c sharedMemory prel devOffsets)) devBgij
  let devBgij := gridLaunch atom.numLIZ
    (setBGijHip threads fullRelativity lsms.n_spin_cant atom.LIZlmax devOffsets nrmat_ns) devBgij
  let threads := 256
  let devM := gridLaunch atom.numLIZ
    (buildKKRMatrixMultiplyKernelHip threads atom.LIZlmax atom.LIZStoreIdx devOffsets kkrsz_ns
      ispin lsms.n_spin_pola lsms.n_spin_cant iie d.blkSizeTmatStore d.tmatStoreLDim
      d.devTmatStore nrmat_ns devBgij) devM
  ({ d with devBGij := devBgij, devIpvt := devOffsets }, devM)

/-- The host function `buildKKRMatrixLMaxDifferentHip`. `sharedMemory` is
the content of the dynamic shared memory when a block of `buildGijHipKernel`
starts. Returns the storage with its updated buffers and `devM`. -/
def buildKKRMatrixLMaxDifferentHip (lsms : LSMSSystemParameters) (atom : AtomData K)
    (c : DeviceConstants K) (sharedMemory : Mem K) (d : DeviceStorage K)
    (ispin iie : Nat) (energy prel : deviceDoubleComplex K)
    (devM : Mem (deviceDoubleComplex K)) : DeviceStorage K × Mem (deviceDoubleComplex K) :=
  let nrmat_ns := lsms.n_spin_cant * atom.nrmat
  let kkrsz_ns := lsms.n_spin_cant * atom.kkrsz
  let fullRelativity : Bool := decide (lsms.relativity = RelativityType.full)
  let devBgij := d.devBGij
  let devM := unitMatrixHip devM nrmat_ns nrmat_ns
  let devBgij := zeroMatrixHip devBgij nrmat_ns nrmat_ns
  let devOffsets := d.devIpvt
  let offsets := offsetsLMaxDifferent lsms.n_spin_cant atom.numLIZ atom.LIZlmax
  let devOffsets := deviceMemcpy devOffsets offsets atom.numLIZ
  let threads := 256
  let devBgij := gridLaunch atom.numLIZ
    (buildGijHipKernel threads (buildGijArgs lsms atom c sharedMemory prel devOffsets)) devBgij
  let devBgij := gridLaunch atom.numLIZ
    (setBGijHip threads fullRelativity lsms.n_spin_cant atom.LIZlmax devOffsets nrmat_ns) devBgij
  let threads := 256
  let devM := gridLaunch atom.numLIZ
    (buildKKRMatrixMultiplyKernelHip threads atom.LIZlmax atom.LIZStoreIdx devOffsets kkrsz_ns
      ispin lsms.n_spin_pola lsms.n_spin_cant iie d.blkSizeTmatStore d.tmatStoreLDim
      d.devTmatStore nrmat_ns devBgij) devM
  ({ d with devBGij := devBgij, devIpvt := devOffsets }, devM)

/-- The flag `lmaxIdentical` computed by `buildKKRMatrixHip` (lines 888-899). -/
def lmaxIdentical (maxlmax numLIZ : Nat) (LIZlmax : Mem Nat) : Bool :=
  let lmaxIdentical := true
  let lmaxIdentical := if LIZlmax 0 ≠ maxlmax then false else lmaxIdentical
  forLoop 0 numLIZ (fun ir lmaxIdentical =>
    if LIZlmax ir ≠ LIZlmax 0 then false else lmaxIdentical) lmaxIdentical

/-- The host function `buildKKRMatrixHip`: the dispatch between the two paths. -/
def buildKKRMatrixHip (lsms : LSMSSystemParameters) (atom : AtomData K)
    (c : DeviceConstants K) (sharedMemory : Mem K) (d : DeviceStorage K)
    (ispin iie : Nat) (energy prel : deviceDoubleComplex K)
    (devM : Mem (deviceDoubleComplex K)) : DeviceStorage K × Mem (deviceDoubleComplex K) :=
  if lmaxIdentical lsms.maxlmax atom.numLIZ atom.LIZlmax then
    buildKKRMatrixLMaxIdenticalHip lsms atom c sharedMemory d ispin iie energy prel devM
  else
    buildKKRMatrixLMaxDifferentHip lsms atom c sharedMemory d ispin iie energy prel devM

end Build

/-! ## Predicates used in the statements -/

section Predicates

variable {α : Type}

/-- Running `f` keeps `v` and leaves cell `c` unchanged or equal to `v`. -/
def Keeps (f : Mem α → Mem α) (c : Nat) (v : Mem α → α) : Prop :=
  ∀ m, v (f m) = v m ∧ (f m c = v m ∨ f m c = m c)

/-- Running `f` keeps `v` and leaves cell `c` equal to `v`. -/
def Sets (f : Mem α → Mem α) (c : Nat) (v : Mem α → α) : Prop :=
  ∀ m, v (f m) = v m ∧ f m c = v m

end Predicates

/-- The number of channels `(lmax+1)^2` of site `ir`, as the kernels compute it. -/
def kkrOf (LIZlmax : Mem Nat) (ir : Nat) : Nat := (LIZlmax ir + 1) * (LIZlmax ir + 1)

/-- The site intervals `[offsets i, offsets i + kkr_i * n_spin_cant)` lie inside
`[0, nrmat_ns)` and are pairwise disjoint. -/
def BlockLayout (numLIZ n_spin_cant nrmat_ns : Nat) (LIZlmax offsets : Mem Nat) : Prop :=
  (∀ i < numLIZ, offsets i + kkrOf LIZlmax i * n_spin_cant ≤ nrmat_ns) ∧
  (∀ i < numLIZ, ∀ j < numLIZ, i ≠ j →
    offsets i + kkrOf LIZlmax i * n_spin_cant ≤ offsets j ∨
    offsets j + kkrOf LIZlmax j * n_spin_cant ≤ offsets i)

instance BlockLayout.instDecidable (numLIZ n_spin_cant nrmat_ns : Nat)
    (LIZlmax offsets : Mem Nat) :
    Decidable (BlockLayout numLIZ n_spin_cant nrmat_ns LIZlmax offsets) := by
  unfold BlockLayout
  infer_instance

/-! ## Quantities named in the statements -/

/-- The values of `l3` visited by the loop `for (l3 = top; l3 >= llow; l3 -= 2)`:
those between `llow` and `top` that differ from `top` by an even number. -/
def l3Range (llow top : Int) : Finset Int :=
  (Finset.Icc llow top).filter (fun l3 => (top - l3) % 2 = 0)

/-- The term `cgnt(l3/2, lm1, lm2) * Dlm(l3, m3)` added by one pass of the `l3`
loop of `buildGijHipKernel` (lines 358-360). -/
def gauntTerm {K : Type} [CommRing K] (c : DeviceConstants K) (sm : BasisTables K)
    (lm1 lm2 : Nat) (m3 l3 : Int) : deviceDoubleComplex K :=
  make_hipDoubleComplex
      (c.cgnt (IDX3 (Int.tdiv l3 2).toNat lm1 lm2 c.lmaxp1_cgnt c.ndlj_cgnt)) 0
    * dlmFunction sm.hfn sm.cosmp sm.sinmp sm.plm l3.toNat m3

/-- The tables that the channel-pair loop of block `(ir1, ir2)` reads. -/
def gijTables {K : Type} [LinearOrderedField K] [RealFns K] (g : GijArgs K)
    (ir1 ir2 : Nat) : BasisTables K :=
  tablesOf g.hfnOffset g.sinmpOffset g.cosmpOffset g.plmOffset (gijSharedMemory g ir1 ir2)

/-- The Gij scalar of the channel pair (`lm2` of site `ir1`, `lm1` of site
`ir2`): the value that the channel-pair iteration of block `(ir1, ir2)` leaves
in its cell when it is run on its own. -/
def gijScalar {K : Type} [LinearOrderedField K] [RealFns K] (g : GijArgs K)
    (ir1 ir2 lm2 lm1 : Nat) : deviceDoubleComplex K :=
  gijChannelPair g.c (gijTables g ir1 ir2) g.prel pi4 (kkrOf g.LIZlmax ir1)
    (g.offsets ir1) (g.offsets ir2) g.nrmat_ns (lm1 * kkrOf g.LIZlmax ir1 + lm2) (fun _ => 0)
    (IDX (g.offsets ir1 + lm2) (g.offsets ir2 + lm1) g.nrmat_ns)

/-! ## Example data

A small local interaction zone used to instantiate the statements: two sites,
the first with `lmax = 1` and the second with `lmax = 0`, two spin components,
so that the blocks have sizes 8 and 2 in a matrix of dimension 10. -/

/-- The cutoffs of the example sites. -/
def exLIZlmax : Mem Nat := fun ir => if ir = 0 then 1 else 0

/-- The offsets of the example sites. -/
def exOffsets : Mem Nat := fun ir => if ir = 0 then 0 else 8

/-- An integer buffer whose element `idx` is `idx + 1`. -/
def exBufferInt : Mem Int := fun idx => (idx : Int) + 1

/-- A stand-in for the libm functions on the rationals, used only to
instantiate statements at concrete inputs: `sqrt` is exact at the perfect
square 25 used in the examples, the other functions are simple rational
functions. No statement depends on the choice. -/
instance exampleFns : RealFns ℚ where
  sqrt := fun q => if q = 25 then 5 else q
  exp := fun q => 1 + q
  cos := fun _ => 1
  sin := fun q => q
  acos := fun _ => 3
  asin := fun _ => 3 / 2

/-- Example system parameters: two spin components, `maxlmax = 1`. -/
def exLsms : LSMSSystemParameters :=
  { n_spin_cant := 2, n_spin_pola := 2, maxlmax := 1, ndlm := 6,
    relativity := RelativityType.none }

/-- Example atom: the two example sites at positions `(0,0,0)` and `(3,4,0)`. -/
def exAtom : AtomData ℚ :=
  { numLIZ := 2, nrmat := 5, kkrsz := 4,
    LIZPos := fun idx => if idx = 3 then 3 else if idx = 4 then 4 else 0,
    LIZlmax := exLIZlmax, LIZStoreIdx := fun ir => ir }

/-- Example constant tables (arbitrary values; `lofk`, `mofk` for `lmax ≤ 1`). -/
def exConstants : DeviceConstants ℚ :=
  { lofk := fun k => if k = 0 then 0 else 1
    mofk := fun k => if k = 0 then 0 else (k : Int) - 2
    ilp1 := fun l => ⟨l + 1, 1⟩
    illp := fun k => ⟨1, k⟩
    cgnt := fun k => k + 1
    ndlj_illp := 4, lmaxp1_cgnt := 2, ndlj_cgnt := 4 }

/-- Example device storage with arbitrary buffer contents. -/
def exStorage : DeviceStorage ℚ :=
  { devBGij := fun idx => ⟨idx, 1⟩, devIpvt := fun idx => idx + 7, blkSizeTmatStore := 100,
    tmatStoreLDim := 100, devTmatStore := fun idx => ⟨idx, 2⟩ }

/-- Example system parameters with one spin component and `maxlmax = 0`. -/
def exLsmsOne : LSMSSystemParameters :=
  { n_spin_cant := 1, n_spin_pola := 1, maxlmax := 0, ndlm := 1,
    relativity := RelativityType.none }

/-- Example atom with two s-only sites. -/
def exAtomS : AtomData ℚ :=
  { numLIZ := 2, nrmat := 2, kkrsz := 1,
    LIZPos := fun idx => if idx = 3 then 3 else if idx = 4 then 4 else 0,
    LIZlmax := fun _ => 0, LIZStoreIdx := fun ir => ir }

/-- Example device storage whose t-matrix store holds, for each of the two
sites, the 8×8 identity matrix in column-major order (element `i + 8*k` of
column `LIZStoreIdx` is one when `i = k`). -/
def exStorageIdentity : DeviceStorage ℚ :=
  { devBGij := fun idx => ⟨idx, 1⟩, devIpvt := fun idx => idx + 7, blkSizeTmatStore := 100,
    tmatStoreLDim := 100,
    devTmatStore := fun idx => if idx % 100 % 8 = idx % 100 / 8 then 1 else 0 }

/-- Example launch arguments of `buildGijHipKernel` for the example atom, with
the shared-memory offsets of `sharedMemoryBGijHip` for `maxlmax = 1` and
`prel = 1 + i`. -/
def exGijArgs : GijArgs ℚ :=
  { LIZPos := exAtom.LIZPos, LIZlmax := exLIZlmax, c := exConstants,
    hfnOffset := (sharedMemoryBGijHip 1 6).hfnOffset,
    sinmpOffset := (sharedMemoryBGijHip 1 6).sinmpOffset,
    cosmpOffset := (sharedMemoryBGijHip 1 6).cosmpOffset,
    plmOffset := (sharedMemoryBGijHip 1 6).plmOffset,
    sharedMemory := fun _ => 0, prel := ⟨1, 1⟩, offsets := exOffsets, nrmat_ns := 10 }

/-- The example BGij after the launches of `buildGijHipKernel` and `setBGijHip`
with 256 threads, started from a zero buffer. -/
def exBgijDoubled : Mem (deviceDoubleComplex ℚ) :=
  gridLaunch 2 (setBGijHip 256 false 2 exGijArgs.LIZlmax exGijArgs.offsets exGijArgs.nrmat_ns)
    (gridLaunch 2 (buildGijHipKernel 256 exGijArgs) (fun _ => 0))

/-- Two buffers agree on the first `N` elements. -/
def AgreeOn {α : Type} (N : Nat) (m m2 : Mem α) : Prop := ∀ idx < N, m idx = m2 idx

/-- Example system parameters whose `atom.kkrsz` will disagree with `maxlmax`:
one spin component, `maxlmax = 1`. -/
def exLsmsUniform : LSMSSystemParameters :=
  { n_spin_cant := 1, n_spin_pola := 1, maxlmax := 1, ndlm := 6,
    relativity := RelativityType.none }

/-- Example atom with two sites of cutoff 1 (4 channels each) whose `kkrsz`
field is 1. -/
def exAtomMismatch : AtomData ℚ :=
  { numLIZ := 2, nrmat := 8, kkrsz := 1,
    LIZPos := fun idx => if idx = 3 then 3 else if idx = 4 then 4 else 0,
    LIZlmax := fun _ => 1, LIZStoreIdx := fun ir => ir }

/-- Example atom with two sites of cutoff 1 and `kkrsz = 4`. -/
def exAtomUniform : AtomData ℚ :=
  { numLIZ := 2, nrmat := 8, kkrsz := 4,
    LIZPos := fun idx => if idx = 3 then 3 else if idx = 4 then 4 else 0,
    LIZlmax := fun _ => 1, LIZStoreIdx := fun ir => ir }

/-- The device function `buildTmatNHip` as run by thread 0: it copies the
t-matrix of the site from the store into `tmat_n`. In the branch
`n_spin_pola != n_spin_cant` (collinear spin-polarized) the code first prints
the line "warning: cant't test building kkrMatrix for collinear spin polarized
yet!" and then copies the block of spin `ispin`. The state of the loops is the
pair of `tmat_n` and the running index `im`. -/
def buildTmatNHip {α : Type} (ispin n_spin_pola n_spin_cant iie blkSizeTmatStore tmatStoreLDim
    kkr1 kkr2 lizStoreIdx : Nat) (devTmatStore : Mem α) (kkrsz_ns : Nat) (tmat_n : Mem α) :
    Mem α :=
  let im := 0
  if n_spin_pola = n_spin_cant then
    let kkrsz := kkrsz_ns / n_spin_cant
    (forLoop 0 n_spin_cant (fun js st =>
      let jsm := kkrsz * kkrsz_ns * js
      forLoop 0 kkr1 (fun j st =>
        forLoop 0 n_spin_cant (fun is st =>
          let jm := jsm + kkrsz_ns * j + kkrsz * is
          let tmat_n := forLoop 0 kkr1 (fun i tmat_n =>
            Function.update tmat_n (st.2 + i)
              (devTmatStore (IDX (iie * blkSizeTmatStore + jm + i) lizStoreIdx tmatStoreLDim)))
            st.1
          (tmat_n, st.2 + kkr1)) st) st) (tmat_n, im)).1
  else
    let kkrsz := kkrsz_ns / n_spin_cant
    let jsm := kkrsz * kkrsz * ispin
    (forLoop 0 kkr1 (fun j st =>
      let jm := jsm + kkrsz_ns * j
      let tmat_n := forLoop 0 kkr1 (fun i tmat_n =>
        Function.update tmat_n (st.2 + i)
          (devTmatStore (IDX (iie * blkSizeTmatStore + jm + i) lizStoreIdx tmatStoreLDim)))
        st.1
      (tmat_n, st.2 + kkr1)) (tmat_n, im)).1

section BasisSpec

variable {K : Type} [LinearOrderedField K] [RealFns K]

/-- The sequence `h` of the Hankel statement: `h[0] = -i`, `h[1] = -1 - i/z`
and `h[l+1] = (2l+1)*h[l]/z - h[l-1]`. -/
def specHankel (z : deviceDoubleComplex K) : Nat → deviceDoubleComplex K
  | 0 => make_hipDoubleComplex 0 (-1)
  | 1 => make_hipDoubleComplex (-1) 0 - make_hipDoubleComplex 0 1 / z
  | l + 2 =>
    (make_hipDoubleComplex (2 * ((l + 1 : Nat) : K) + 1) 0 * specHankel z (l + 1) / z)
      - specHankel z l

/-- The device function `calculateHankelHip` with a log: next to the shared
memory it returns the divisors of the divisions it performs, in program
order (`sqrtm1/z`, `.../z` in every iteration of the recurrence, and
`complexExp(sqrtm1*z)/r`). -/
def calculateHankelHipLogged (prel : deviceDoubleComplex K) (r : K) (lend : Nat)
    (ilp1 : Mem (deviceDoubleComplex K)) (hfn : Nat) (sharedMemory : Mem K) :
    Mem K × List (deviceDoubleComplex K) :=
  let sqrtm1 : deviceDoubleComplex K := make_hipDoubleComplex 0 1
  let z := prel * make_hipDoubleComplex r 0
  let sharedMemory := storeComplex sharedMemory hfn 0 (make_hipDoubleComplex 0 (-1))
  let divisors : List (deviceDoubleComplex K) := [z]
  let sharedMemory :=
    storeComplex sharedMemory hfn 1 (make_hipDoubleComplex (-1) 0 - sqrtm1 / z)
  let st := forLoop 1 lend (fun l st =>
    (storeComplex st.1 hfn (l + 1)
      ((make_hipDoubleComplex (2 * (l : K) + 1) 0 * loadComplex st.1 hfn l / z)
        - loadComplex st.1 hfn (l - 1)), st.2 ++ [z])) (sharedMemory, divisors)
  let divisors := st.2 ++ [make_hipDoubleComplex r 0]
  let z := complexExp (sqrtm1 * z) / make_hipDoubleComplex r 0
  (forLoop 0 (lend + 1) (fun l sharedMemory =>
    storeComplex sharedMemory hfn l (((-(loadComplex sharedMemory hfn l)) * z) * ilp1 l))
    st.1, divisors)

end BasisSpec

/-- The number `u` of the statement on the azimuthal powers:
`(rij_x + i*rij_y)/pmag` when `pmag = sqrt(rij_x^2 + rij_y^2)` exceeds `1e-6`,
and `0` otherwise. -/
def specAzimuth {K : Type} [LinearOrderedField K] [RealFns K] (rij : Nat → K) :
    deviceDoubleComplex K :=
  if RealFns.sqrt (rij 0 * rij 0 + rij 1 * rij 1) > 1 / 1000000 then
    make_hipDoubleComplex (rij 0 / RealFns.sqrt (rij 0 * rij 0 + rij 1 * rij 1))
      (rij 1 / RealFns.sqrt (rij 0 * rij 0 + rij 1 * rij 1))
  else 0

section LegendreSpec

variable {K : Type} [LinearOrderedField K] [RealFns K]

/-- The diagonal of the Legendre table of the statement:
`P(0,0) = sqrt(1/(4*pi))` and
`P(m,m) = -sqrt((2m+1)/(2m)) * sqrt(1-x^2) * P(m-1,m-1)`. -/
def specLegendreDiag (x : K) : Nat → K
  | 0 => RealFns.sqrt (1 / (4 * RealFns.acos (-1)))
  | m + 1 =>
    -(RealFns.sqrt (((2 * (m + 1) + 1 : Nat) : K) / ((2 * (m + 1) : Nat) : K)))
      * RealFns.sqrt (1 - x * x) * specLegendreDiag x m

/-- Column `m` of the Legendre table of the statement, indexed by `n = l - m`:
the diagonal entry `P(m,m)`, the entry `P(m+1,m) = sqrt(2(m+1)+1) * x * P(m,m)`
and `P(l,m) = a_lm*(x*P(l-1,m) - b_lm*P(l-2,m))` for `l = m + n + 2`. -/
def specLegendre (x : K) (m : Nat) : Nat → K
  | 0 => specLegendreDiag x m
  | 1 => RealFns.sqrt (((2 * (m + 1) + 1 : Nat) : K)) * x * specLegendreDiag x m
  | n + 2 =>
    RealFns.sqrt
        (((4 * ((m + (n + 2) : Nat) : Int) * (m + (n + 2) : Nat) - 1 : Int) : K)
          / ((((m + (n + 2) : Nat) : Int) * (m + (n + 2) : Nat) - m * m : Int) : K))
      * (x * specLegendre x m (n + 1)
        - RealFns.sqrt
            ((((((m + (n + 2) : Nat) : Int) - 1) * ((m + (n + 2) : Nat) - 1) - m * m : Int) : K)
              / ((4 * (((m + (n + 2) : Nat) : Int) - 1) * ((m + (n + 2) : Nat) - 1) - 1 : Int)
                  : K))
          * specLegendre x m n)

end LegendreSpec

/-! ## Access check of the Legendre table

The loads and stores of `associatedLegendreFunctionNormalizedHip` on `Plm` are
replayed on the list of the entries stored so far and a flag. A load is
admitted when its entry has been stored, a store when its entry has not been
stored; as a load needs a stored entry, an admitted store never hits an entry
that has been stored or loaded before. -/

/-- One load of `Plm[k]`: the flag stays set only if entry `k` has been
stored. -/
def loadChecked (k : Nat) (st : List Nat × Bool) : List Nat × Bool :=
  (st.1, st.2 && decide (k ∈ st.1))

/-- One store to `Plm[k]`: the flag stays set only if entry `k` has not been
stored; the entry is recorded. -/
def storeChecked (k : Nat) (st : List Nat × Bool) : List Nat × Bool :=
  (k :: st.1, st.2 && !decide (k ∈ st.1))

/-- The loads and stores of `associatedLegendreFunctionNormalizedHip` on the
table, statement by statement in program order. -/
def associatedLegendreChecked (lmax : Nat) : List Nat × Bool :=
  let st : List Nat × Bool := ([], true)
  let st := storeChecked 0 st
  if lmax < 1 then st
  else
    let st := forLoop 1 (lmax + 1) (fun m st =>
      let st := loadChecked (plmIdxDev (m - 1) (m - 1)) st
      let st := storeChecked (plmIdxDev m m) st
      let st := loadChecked (plmIdxDev (m - 1) (m - 1)) st
      storeChecked (plmIdxDev m (m - 1)) st) st
    forLoop 0 lmax (fun m st =>
      forLoop (m + 2) (lmax + 1) (fun l st =>
        let st := loadChecked (plmIdxDev (l - 1) m) st
        let st := loadChecked (plmIdxDev (l - 2) m) st
        storeChecked (plmIdxDev l m) st) st) st

/-- The flag is set and the entries stored so far are exactly the entries
`(l, m) = (m + n, m)` with `D m n`. -/
def AccessGood (D : Nat → Nat → Prop) (st : List Nat × Bool) : Prop :=
  st.2 = true ∧ ∀ k, k ∈ st.1 ↔ ∃ m n, D m n ∧ k = plmIdxDev (m + n) m

/-! ## The Dlm evaluations of the channel-pair loop -/

/-- The values of `l3` for which the loop
`for (l3 = l1+l2; l3 >= llow; l3 -= 2)` of `buildGijHipKernel` calls
`dlmFunction`, in program order; unrolled like `gauntLoop`. -/
def gauntLoopVisits (llow : Int) : Nat → Int → List Int
  | 0, _ => []
  | fuel + 1, l3 => if llow ≤ l3 then l3 :: gauntLoopVisits llow fuel (l3 - 2) else []

/-- The pairs `(l3, m3)` with which iteration `ij` of the channel-pair loop of
`buildGijHipKernel` calls `dlmFunction` (lines 331-360). -/
def gijChannelPairVisits {K : Type} [CommRing K] [DecidableEq K] (c : DeviceConstants K)
    (prel : deviceDoubleComplex K) (kkri ij : Nat) : List (Int × Int) :=
  let lm2 := ij % kkri
  let lm1 := ij / kkri
  let l1 := c.lofk lm1
  let m1 := c.mofk lm1
  let l2 := c.lofk lm2
  let m2 := c.mofk lm2
  let m3 : Int := m2 - m1
  let llow : Int := max (abs m3) (abs ((l1 : Int) - l2))
  let llow : Int := if prel = 0 then (l1 : Int) + l2 else llow
  (gauntLoopVisits llow (l1 + l2 + 1) ((l1 : Int) + l2)).map (fun l3 => (l3, m3))

/-- Example atom whose two sites are separated along the z axis: positions
`(0,0,0)` and `(0,0,5)`, cutoffs 1 and 0. -/
def exAtomZ : AtomData ℚ :=
  { numLIZ := 2, nrmat := 5, kkrsz := 4,
    LIZPos := fun idx => if idx = 5 then 5 else 0,
    LIZlmax := exLIZlmax, LIZStoreIdx := fun ir => ir }

/-! ## The iterations of a block -/

/-- The values of `ij` that one thread visits in the strided loop
`for (ij = start; ij < N; ij += blockDim)`, in program order; unrolled like
`stridedLoop`. -/
def stridedVisits (blockDim N : Nat) : Nat → Nat → List Nat
  | 0, _ => []
  | fuel + 1, ij => if ij < N then ij :: stridedVisits blockDim N fuel (ij + blockDim) else []

/-- The values of `ij` visited by the threads `0 .. blockDim-1` of a block, one
thread after the other as in `blockThreads`. -/
def blockVisits (blockDim N : Nat) : List Nat :=
  (List.range blockDim).flatMap (fun tid => stridedVisits blockDim N N tid)

/-! ## The single-atom test program (`renormalizedAtomNonRelativistic.cpp`) -/

/-- The host function `initOrbitals`: the list of `(n, l)` orbitals generated
for the atomic number `Z`. -/
def initOrbitals (Z : Int) : List (Int × Int) :=
  let orbitals : List (Int × Int) := []
  let orbitals := orbitals ++ [(1, 0)]
  if Z < 3 then orbitals
  else
    let orbitals := orbitals ++ [(2, 0)]
    let orbitals := orbitals ++ [(2, 1)]
    if Z < 11 then orbitals
    else
      let orbitals := orbitals ++ [(3, 0)]
      let orbitals := orbitals ++ [(3, 1)]
      if Z < 19 then orbitals
      else
        let orbitals := orbitals ++ [(3, 2)]
        let orbitals := orbitals ++ [(4, 0)]
        let orbitals := orbitals ++ [(4, 1)]
        if Z < 37 then orbitals
        else
          let orbitals := orbitals ++ [(4, 2)]
          let orbitals := orbitals ++ [(5, 0)]
          let orbitals := orbitals ++ [(5, 1)]
          if Z < 55 then orbitals
          else
            let orbitals := orbitals ++ [(4, 3)]
            let orbitals := orbitals ++ [(5, 2)]
            let orbitals := orbitals ++ [(6, 0)]
            let orbitals := orbitals ++ [(6, 1)]
            if Z < 87 then orbitals
            else
              let orbitals := orbitals ++ [(5, 3)]
              let orbitals := orbitals ++ [(6, 2)]
              let orbitals := orbitals ++ [(7, 0)]
              orbitals ++ [(7, 1)]

/-- The class `AtomOrbital`; the vector `rho` is read at the indices below
`rhotot.size()` only and is taken as a total map. -/
structure AtomOrbital (K : Type) where
  n : Int
  l : Int
  energy : K
  rho : Mem K

/-- How a run of `accumulateDensities` ends: it returns with `rhotot`, or it
indexes `orbitalEnergiesAndDensities` past its end, or the `while` loop has
not ended within the unrolling bound. -/
inductive AccumulateResult (K : Type) where
  | finished (rhotot : Mem K)
  | pastEnd
  | unfinished

/-- The `while (electronsMissing > 0)` loop of `accumulateDensities`, unrolled
at most `fuel` times; `size` is `rhotot.size()`. -/
def accumulateLoop {K : Type} [Ring K] (orbitalEnergiesAndDensities : List (AtomOrbital K))
    (size : Nat) : Nat → Int → Nat → Mem K → AccumulateResult K
  | 0, electronsMissing, _, rhotot =>
    if electronsMissing > 0 then AccumulateResult.unfinished
    else AccumulateResult.finished rhotot
  | fuel + 1, electronsMissing, orbitalIdx, rhotot =>
    if electronsMissing > 0 then
      match orbitalEnergiesAndDensities[orbitalIdx]? with
      | none => AccumulateResult.pastEnd
      | some orbital =>
        if electronsMissing ≥ 2 * (2 * abs orbital.l + 1) then
          let rhotot := forLoop 0 size (fun i rhotot =>
            Function.update rhotot i
              (rhotot i + orbital.rho i * 2 * ((2 * abs orbital.l + 1 : Int) : K))) rhotot
          let electronsMissing := electronsMissing - 2 * (2 * abs orbital.l + 1)
          accumulateLoop orbitalEnergiesAndDensities size fuel electronsMissing
            (orbitalIdx + 1) rhotot
        else
          let rhotot := forLoop 0 size (fun i rhotot =>
            Function.update rhotot i (rhotot i + orbital.rho i * (electronsMissing : K)))
            rhotot
          let electronsMissing := 0
          accumulateLoop orbitalEnergiesAndDensities size fuel electronsMissing
            (orbitalIdx + 1) rhotot
    else AccumulateResult.finished rhotot

/-- The host function `accumulateDensities`. Every pass of the loop takes at
least one of the missing electrons, so `atomicNumber` passes are the
unrolling bound. -/
def accumulateDensities {K : Type} [Ring K]
    (orbitalEnergiesAndDensities : List (AtomOrbital K)) (atomicNumber : Int) (size : Nat)
    (rhotot : Mem K) : AccumulateResult K :=
  let rhotot := forLoop 0 size (fun i rhotot => Function.update rhotot i 0) rhotot
  let electronsMissing := atomicNumber
  let orbitalIdx := 0
  accumulateLoop orbitalEnergiesAndDensities size atomicNumber.toNat electronsMissing
    orbitalIdx rhotot

/-- The capacity `2*(2*|l|+1)` of an orbital, as `accumulateDensities` computes
it. -/
def orbitalCapacity {K : Type} (orbital : AtomOrbital K) : Int := 2 * (2 * abs orbital.l + 1)

/-- The occupations of the statement: the orbitals are filled in order, each
with as many of the electrons still missing as it can hold. -/
def occupations : List Int → Int → List Int
  | [], _ => []
  | capacity :: rest, missing =>
    min capacity (max missing 0) :: occupations rest (missing - min capacity (max missing 0))

/-- The density of the statement: `Σ_k occ_k * rho_k[i]`. -/
def occupiedDensity {K : Type} [Ring K] : List (AtomOrbital K) → List Int → Nat → K
  | orbital :: orbitals, occ :: occs, i =>
    orbital.rho i * (occ : K) + occupiedDensity orbitals occs i
  | _, _, _ => 0

/-- Example orbitals for lithium, in an order that differs from the order of
`initOrbitals 3`, with arbitrary densities. -/
def exOrbitals : List (AtomOrbital ℚ) :=
  [{ n := 2, l := 0, energy := -3, rho := fun i => i + 1 },
   { n := 1, l := 0, energy := -2, rho := fun _ => 1 },
   { n := 2, l := 1, energy := -1, rho := fun i => 2 * i }]

/-! # Properties -/

/-! ## A small logic of buffer transformers

`Keeps f c v`: running `f` leaves the quantity `v` of the buffer unchanged and
leaves the cell `c` either unchanged or equal to `v`. `Sets f c v`: running `f`
leaves `v` unchanged and the cell `c` equal to `v`. Both are closed under the
loops of a kernel launch. -/

section LoopLogic

variable {α : Type}

theorem Sets.keeps {f : Mem α → Mem α} {c : Nat} {v : Mem α → α} (h : Sets f c v) :
    Keeps f c v := fun m => ⟨(h m).1, Or.inl (h m).2⟩

theorem keeps_id (c : Nat) (v : Mem α → α) : Keeps (fun m => m) c v :=
  fun _ => ⟨rfl, Or.inr rfl⟩

theorem Keeps.comp {f g : Mem α → Mem α} {c : Nat} {v : Mem α → α} (hf : Keeps f c v)
    (hg : Keeps g c v) : Keeps (fun m => g (f m)) c v := by
  intro m
  obtain ⟨hv1, h1⟩ := hf m
  obtain ⟨hv2, h2⟩ := hg (f m)
  refine ⟨hv2.trans hv1, ?_⟩
  rcases h2 with h2 | h2
  · exact Or.inl (h2.trans hv1)
  · rcases h1 with h1 | h1
    · exact Or.inl (h2.trans h1)
    · exact Or.inr (h2.trans h1)

theorem Sets.comp_keeps {f g : Mem α → Mem α} {c : Nat} {v : Mem α → α} (hf : Sets f c v)
    (hg : Keeps g c v) : Sets (fun m => g (f m)) c v := by
  intro m
  obtain ⟨hv1, h1⟩ := hf m
  obtain ⟨hv2, h2⟩ := hg (f m)
  refine ⟨hv2.trans hv1, ?_⟩
  rcases h2 with h2 | h2
  · exact h2.trans hv1
  · exact h2.trans h1

theorem Keeps.comp_sets {f g : Mem α → Mem α} {c : Nat} {v : Mem α → α} (hf : Keeps f c v)
    (hg : Sets g c v) : Sets (fun m => g (f m)) c v := by
  intro m
  obtain ⟨hv1, _⟩ := hf m
  obtain ⟨hv2, h2⟩ := hg (f m)
  exact ⟨hv2.trans hv1, h2.trans hv1⟩

theorem foldl_keeps {ι : Type} (F : ι → Mem α → Mem α) (c : Nat) (v : Mem α → α) :
    ∀ L : List ι, (∀ i ∈ L, Keeps (F i) c v) →
      Keeps (fun m => L.foldl (fun s i => F i s) m) c v
  | [], _ => keeps_id c v
  | i :: L, h => by
    have h1 : Keeps (F i) c v := h i (List.mem_cons_self _ _)
    have h2 := foldl_keeps F c v L (fun j hj => h j (List.mem_cons_of_mem _ hj))
    exact h1.comp h2

theorem foldl_sets {ι : Type} (F : ι → Mem α → Mem α) (c : Nat) (v : Mem α → α) :
    ∀ L : List ι, (∀ i ∈ L, Keeps (F i) c v) → (∃ i ∈ L, Sets (F i) c v) →
      Sets (fun m => L.foldl (fun s i => F i s) m) c v
  | [], _, h => by
    obtain ⟨i, hi, _⟩ := h
    cases hi
  | i :: L, h, hex => by
    have h1 : Keeps (F i) c v := h i (List.mem_cons_self _ _)
    have hL : ∀ j ∈ L, Keeps (F j) c v := fun j hj => h j (List.mem_cons_of_mem _ hj)
    have h2 := foldl_keeps F c v L hL
    obtain ⟨j, hj, hs⟩ := hex
    rcases List.mem_cons.mp hj with rfl | hj
    · exact hs.comp_keeps h2
    · exact h1.comp_sets (foldl_sets F c v L hL ⟨j, hj, hs⟩)

theorem stridedLoop_keeps (blockDim N : Nat) (body : Nat → Mem α → Mem α) (c : Nat)
    (v : Mem α → α) (h : ∀ ij < N, Keeps (body ij) c v) :
    ∀ fuel ij, Keeps (stridedLoop blockDim N body fuel ij) c v
  | 0, _ => keeps_id c v
  | fuel + 1, ij => by
    by_cases hij : ij < N
    · have h2 := stridedLoop_keeps blockDim N body c v h fuel (ij + blockDim)
      have := (h ij hij).comp h2
      intro m
      simpa [stridedLoop, hij] using this m
    · intro m
      simp [stridedLoop, hij]

theorem stridedLoop_sets (blockDim N : Nat) (body : Nat → Mem α → Mem α) (c : Nat)
    (v : Mem α → α) (hbd : 0 < blockDim) (h : ∀ ij < N, Keeps (body ij) c v) (ij0 : Nat)
    (h0 : ij0 < N) (hs : Sets (body ij0) c v) :
    ∀ fuel ij, ij ≤ ij0 → blockDim ∣ ij0 - ij → ij0 < ij + fuel →
      Sets (stridedLoop blockDim N body fuel ij) c v
  | 0, ij, h1, _, h3 => by omega
  | fuel + 1, ij, h1, h2, h3 => by
    have hij : ij < N := by omega
    have hk := stridedLoop_keeps blockDim N body c v h fuel (ij + blockDim)
    by_cases he : ij = ij0
    · subst he
      have := hs.comp_keeps hk
      intro m
      simpa [stridedLoop, hij] using this m
    · obtain ⟨k, hk2⟩ := h2
      have hkpos : 0 < k := by
        rcases Nat.eq_zero_or_pos k with hz | hz
        · subst hz
          simp at hk2
          omega
        · exact hz
      have hle : ij + blockDim ≤ ij0 := by
        have : blockDim ≤ blockDim * k := Nat.le_mul_of_pos_right _ hkpos
        omega
      have hdvd : blockDim ∣ ij0 - (ij + blockDim) := by
        refine ⟨k - 1, ?_⟩
        have : blockDim * (k - 1) = blockDim * k - blockDim := by
          rw [Nat.mul_sub, Nat.mul_one]
        omega
      have := (h ij hij).comp_sets
        (stridedLoop_sets blockDim N body c v hbd h ij0 h0 hs fuel (ij + blockDim) hle hdvd
          (by omega))
      intro m
      simpa [stridedLoop, hij] using this m

theorem blockThreads_keeps (blockDim N : Nat) (body : Nat → Mem α → Mem α) (c : Nat)
    (v : Mem α → α) (h : ∀ ij < N, Keeps (body ij) c v) :
    Keeps (blockThreads blockDim N body) c v :=
  foldl_keeps (fun tid => stridedLoop blockDim N body N tid) c v (List.range blockDim)
    (fun tid _ => stridedLoop_keeps blockDim N body c v h N tid)

theorem blockThreads_sets (blockDim N : Nat) (body : Nat → Mem α → Mem α) (c : Nat)
    (v : Mem α → α) (hbd : 0 < blockDim) (h : ∀ ij < N, Keeps (body ij) c v) (ij0 : Nat)
    (h0 : ij0 < N) (hs : Sets (body ij0) c v) :
    Sets (blockThreads blockDim N body) c v := by
  refine foldl_sets (fun tid => stridedLoop blockDim N body N tid) c v (List.range blockDim)
    (fun tid _ => stridedLoop_keeps blockDim N body c v h N tid)
    ⟨ij0 % blockDim, List.mem_range.mpr (Nat.mod_lt _ hbd), ?_⟩
  refine stridedLoop_sets blockDim N body c v hbd h ij0 h0 hs N (ij0 % blockDim)
    (Nat.mod_le _ _) ?_ (by omega)
  exact (Nat.modEq_iff_dvd' (Nat.mod_le _ _)).mp (Nat.mod_modEq _ _)

theorem gridLaunch_keeps (numLIZ : Nat) (block : Nat → Nat → Mem α → Mem α) (c : Nat)
    (v : Mem α → α) (h : ∀ ir1 < numLIZ, ∀ ir2 < numLIZ, Keeps (block ir1 ir2) c v) :
    Keeps (gridLaunch numLIZ block) c v :=
  foldl_keeps (fun ir2 m => (List.range numLIZ).foldl (fun s ir1 => block ir1 ir2 s) m) c v
    (List.range numLIZ)
    (fun ir2 h2 => foldl_keeps (fun ir1 => block ir1 ir2) c v (List.range numLIZ)
      (fun ir1 h1 => h ir1 (List.mem_range.mp h1) ir2 (List.mem_range.mp h2)))

theorem gridLaunch_sets (numLIZ : Nat) (block : Nat → Nat → Mem α → Mem α) (c : Nat)
    (v : Mem α → α) (h : ∀ ir1 < numLIZ, ∀ ir2 < numLIZ, Keeps (block ir1 ir2) c v)
    (ir1 ir2 : Nat) (h1 : ir1 < numLIZ) (h2 : ir2 < numLIZ) (hs : Sets (block ir1 ir2) c v) :
    Sets (gridLaunch numLIZ block) c v :=
  foldl_sets (fun ir2 m => (List.range numLIZ).foldl (fun s ir1 => block ir1 ir2 s) m) c v
    (List.range numLIZ)
    (fun j hj => foldl_keeps (fun i => block i j) c v (List.range numLIZ)
      (fun i hi => h i (List.mem_range.mp hi) j (List.mem_range.mp hj)))
    ⟨ir2, List.mem_range.mpr h2,
      foldl_sets (fun i => block i ir2) c v (List.range numLIZ)
        (fun i hi => h i (List.mem_range.mp hi) ir2 h2) ⟨ir1, List.mem_range.mpr h1, hs⟩⟩

end LoopLogic

/-! ## Loops and index arithmetic -/

theorem forLoop_of_le {σ : Type} (lo hi : Nat) (body : Nat → σ → σ) (s : σ) (h : hi ≤ lo) :
    forLoop lo hi body s = s := by
  simp [forLoop, Nat.sub_eq_zero_of_le h]

theorem forLoop_succ {σ : Type} (lo hi : Nat) (body : Nat → σ → σ) (s : σ) (h : lo ≤ hi) :
    forLoop lo (hi + 1) body s = body hi (forLoop lo hi body s) := by
  have h1 : hi + 1 - lo = (hi - lo) + 1 := by omega
  have h2 : lo + (hi - lo) = hi := by omega
  simp [forLoop, h1, List.range'_concat, List.foldl_append, h2]

theorem IDX_inj {i j i2 j2 n : Nat} (hi : i < n) (hi2 : i2 < n)
    (h : IDX i j n = IDX i2 j2 n) : i = i2 ∧ j = j2 := by
  unfold IDX at h
  rcases Nat.lt_trichotomy j j2 with hlt | heq | hgt
  · have : (j + 1) * n ≤ j2 * n := Nat.mul_le_mul_right n hlt
    rw [Nat.succ_mul] at this
    omega
  · subst heq
    exact ⟨by omega, rfl⟩
  · have : (j2 + 1) * n ≤ j * n := Nat.mul_le_mul_right n hgt
    rw [Nat.succ_mul] at this
    omega

theorem IDX_lt {i j n : Nat} (hi : i < n) (hj : j < n) : IDX i j n < n * n := by
  unfold IDX
  have : (j + 1) * n ≤ n * n := Nat.mul_le_mul_right n hj
  rw [Nat.succ_mul] at this
  omega

theorem IDX_mod {i j n : Nat} (hi : i < n) : IDX i j n % n = i := by
  unfold IDX
  rw [Nat.mul_comm, Nat.mul_add_mod, Nat.mod_eq_of_lt hi]

theorem IDX_div {i j n : Nat} (hi : i < n) : IDX i j n / n = j := by
  unfold IDX
  have hn : 0 < n := by omega
  rw [Nat.mul_comm, Nat.mul_add_div hn, Nat.div_eq_of_lt hi, Nat.add_zero]

theorem pair_mod {i j k : Nat} (hi : i < k) : (j * k + i) % k = i := by
  rw [Nat.mul_comm, Nat.mul_add_mod, Nat.mod_eq_of_lt hi]

theorem pair_div {i j k : Nat} (hi : i < k) : (j * k + i) / k = j := by
  have hk : 0 < k := by omega
  rw [Nat.mul_comm, Nat.mul_add_div hk, Nat.div_eq_of_lt hi, Nat.add_zero]

theorem pair_lt {i j k n : Nat} (hi : i < k) (hj : j < n) : j * k + i < k * n := by
  have : (j + 1) * k ≤ n * k := Nat.mul_le_mul_right k hj
  rw [Nat.succ_mul, Nat.mul_comm n k] at this
  omega

theorem mod_lt_of_lt_mul {ij k n : Nat} (h : ij < k * n) : ij % k < k := by
  apply Nat.mod_lt
  rcases Nat.eq_zero_or_pos k with hz | hz
  · subst hz
    simp at h
  · exact hz

/-! ## Block layout -/

theorem BlockLayout.decode {numLIZ nsc n : Nat} {LIZlmax offsets : Mem Nat}
    (h : BlockLayout numLIZ nsc n LIZlmax offsets) {a b x y : Nat} (ha : a < numLIZ)
    (hb : b < numLIZ) (hx : x < kkrOf LIZlmax a * nsc) (hy : y < kkrOf LIZlmax b * nsc)
    (he : offsets a + x = offsets b + y) : a = b ∧ x = y := by
  by_cases hab : a = b
  · subst hab
    exact ⟨rfl, by omega⟩
  · rcases h.2 a ha b hb hab with h1 | h1 <;> omega

theorem BlockLayout.row_lt {numLIZ nsc n : Nat} {LIZlmax offsets : Mem Nat}
    (h : BlockLayout numLIZ nsc n LIZlmax offsets) {a x : Nat} (ha : a < numLIZ)
    (hx : x < kkrOf LIZlmax a * nsc) : offsets a + x < n := by
  have := h.1 a ha
  omega

/-- Two cells of blocks of the layout coincide only if they are the same cell
of the same block. -/
theorem BlockLayout.cell_inj {numLIZ nsc n : Nat} {LIZlmax offsets : Mem Nat}
    (h : BlockLayout numLIZ nsc n LIZlmax offsets) {a b a2 b2 x y x2 y2 : Nat}
    (ha : a < numLIZ) (hb : b < numLIZ) (ha2 : a2 < numLIZ) (hb2 : b2 < numLIZ)
    (hx : x < kkrOf LIZlmax a * nsc) (hy : y < kkrOf LIZlmax b * nsc)
    (hx2 : x2 < kkrOf LIZlmax a2 * nsc) (hy2 : y2 < kkrOf LIZlmax b2 * nsc)
    (he : IDX (offsets a + x) (offsets b + y) n = IDX (offsets a2 + x2) (offsets b2 + y2) n) :
    (a = a2 ∧ x = x2) ∧ (b = b2 ∧ y = y2) := by
  obtain ⟨h1, h2⟩ := IDX_inj (h.row_lt ha hx) (h.row_lt ha2 hx2) he
  exact ⟨h.decode ha ha2 hx hx2 h1, h.decode hb hb2 hy hy2 h2⟩

/-! ## The channel-pair iteration in closed form -/

theorem l3Range_of_lt {llow top : Int} (h : top < llow) : l3Range llow top = ∅ := by
  ext t
  simp only [l3Range, Finset.mem_filter, Finset.mem_Icc, Finset.not_mem_empty, iff_false]
  omega

theorem l3Range_step {llow top : Int} (h : llow ≤ top) :
    l3Range llow top = insert top (l3Range llow (top - 2)) := by
  ext t
  simp only [l3Range, Finset.mem_filter, Finset.mem_Icc, Finset.mem_insert]
  omega

theorem not_mem_l3Range_sub {llow top : Int} : top ∉ l3Range llow (top - 2) := by
  simp only [l3Range, Finset.mem_filter, Finset.mem_Icc]
  omega

theorem make_zero {K : Type} [Zero K] :
    (make_hipDoubleComplex 0 0 : deviceDoubleComplex K) = 0 := rfl

theorem gauntLoop_eq {K : Type} [CommRing K] (c : DeviceConstants K) (sm : BasisTables K)
    (lm1 lm2 : Nat) (m3 llow : Int) (cell : Nat) :
    ∀ (fuel : Nat) (l3 : Int) (devBgij : Mem (deviceDoubleComplex K)), l3 < llow + 2 * fuel →
      gauntLoop c sm lm1 lm2 m3 llow cell fuel l3 devBgij
        = Function.update devBgij cell
            (devBgij cell + ∑ t ∈ l3Range llow l3, gauntTerm c sm lm1 lm2 m3 t)
  | 0, l3, devBgij, h => by
    have hlt : l3 < llow := by omega
    simp [gauntLoop, l3Range_of_lt hlt]
  | fuel + 1, l3, devBgij, h => by
    by_cases hle : llow ≤ l3
    · have ih := gauntLoop_eq c sm lm1 lm2 m3 llow cell fuel (l3 - 2)
        (Function.update devBgij cell (devBgij cell + gauntTerm c sm lm1 lm2 m3 l3))
        (by push_cast at h; omega)
      rw [gauntLoop, if_pos hle]
      rw [show (devBgij cell + make_hipDoubleComplex
            (c.cgnt (IDX3 (Int.tdiv l3 2).toNat lm1 lm2 c.lmaxp1_cgnt c.ndlj_cgnt)) 0
              * dlmFunction sm.hfn sm.cosmp sm.sinmp sm.plm l3.toNat m3)
          = devBgij cell + gauntTerm c sm lm1 lm2 m3 l3 from rfl]
      rw [ih, Function.update_idem, Function.update_same, l3Range_step hle,
        Finset.sum_insert not_mem_l3Range_sub, add_assoc]
    · have hlt : l3 < llow := by omega
      simp [gauntLoop, hle, l3Range_of_lt hlt]

/-- The value computed for a channel pair: the Gaunt sum scaled by `pi4` and
`illp(lm2, lm1)`. -/
theorem gijChannelPair_eq {K : Type} [CommRing K] [DecidableEq K] (c : DeviceConstants K)
    (sm : BasisTables K) (prel : deviceDoubleComplex K) (pi4v : K)
    (kkri iOffset jOffset nrmat_ns ij : Nat) (devBgij : Mem (deviceDoubleComplex K)) :
    gijChannelPair c sm prel pi4v kkri iOffset jOffset nrmat_ns ij devBgij
      = Function.update devBgij (IDX (iOffset + ij % kkri) (jOffset + ij / kkri) nrmat_ns)
          ((∑ t ∈ l3Range
                (if prel = 0 then (c.lofk (ij / kkri) : Int) + c.lofk (ij % kkri)
                  else max (abs (c.mofk (ij % kkri) - c.mofk (ij / kkri)))
                    (abs ((c.lofk (ij / kkri) : Int) - c.lofk (ij % kkri))))
                ((c.lofk (ij / kkri) : Int) + c.lofk (ij % kkri)),
              gauntTerm c sm (ij / kkri) (ij % kkri) (c.mofk (ij % kkri) - c.mofk (ij / kkri)) t)
            * make_hipDoubleComplex pi4v 0 * c.illp (IDX (ij % kkri) (ij / kkri) c.ndlj_illp)) := by
  unfold gijChannelPair
  simp only []
  rw [gauntLoop_eq]
  · simp [Function.update_idem, make_zero]
  · split_ifs with h
    · push_cast
      omega
    · have : (0 : Int) ≤ max (abs (c.mofk (ij % kkri) - c.mofk (ij / kkri)))
          (abs ((c.lofk (ij / kkri) : Int) - c.lofk (ij % kkri))) :=
        le_max_of_le_left (abs_nonneg _)
      push_cast
      omega

/-! ## Iterations that store one value into one cell -/

section UpdateBodies

variable {α : Type}

theorem keeps_update_const (c2 c : Nat) (w x : α) (h : c2 = c → w = x) :
    Keeps (fun m : Mem α => Function.update m c2 w) c (fun _ => x) := by
  intro m
  refine ⟨rfl, ?_⟩
  by_cases hc : c2 = c
  · subst hc
    exact Or.inl ((Function.update_same _ _ _).trans (h rfl))
  · exact Or.inr (Function.update_noteq (Ne.symm hc) _ _)

theorem sets_update_const (c : Nat) (w : α) :
    Sets (fun m : Mem α => Function.update m c w) c (fun _ => w) :=
  fun m => ⟨rfl, Function.update_same _ _ _⟩

theorem blockThreads_update_keeps (blockDim N : Nat) (body : Nat → Mem α → Mem α)
    (cell : Nat → Nat) (val : Nat → α)
    (hbody : ∀ ij < N, ∀ m, body ij m = Function.update m (cell ij) (val ij)) (c : Nat) (x : α)
    (h : ∀ ij < N, cell ij = c → val ij = x) :
    Keeps (blockThreads blockDim N body) c (fun _ => x) := by
  refine blockThreads_keeps blockDim N body c _ (fun ij hij => ?_)
  have : body ij = fun m => Function.update m (cell ij) (val ij) := funext (hbody ij hij)
  rw [this]
  exact keeps_update_const _ _ _ _ (h ij hij)

theorem blockThreads_update_sets (blockDim N : Nat) (body : Nat → Mem α → Mem α)
    (cell : Nat → Nat) (val : Nat → α)
    (hbody : ∀ ij < N, ∀ m, body ij m = Function.update m (cell ij) (val ij)) (c : Nat) (x : α)
    (h : ∀ ij < N, cell ij = c → val ij = x) (hbd : 0 < blockDim) (ij0 : Nat) (h0 : ij0 < N)
    (hc : cell ij0 = c) :
    Sets (blockThreads blockDim N body) c (fun _ => x) := by
  refine blockThreads_sets blockDim N body c _ hbd (fun ij hij => ?_) ij0 h0 ?_
  · have : body ij = fun m => Function.update m (cell ij) (val ij) := funext (hbody ij hij)
    rw [this]
    exact keeps_update_const _ _ _ _ (h ij hij)
  · have : body ij0 = fun m => Function.update m (cell ij0) (val ij0) := funext (hbody ij0 h0)
    rw [this, hc, h ij0 h0 hc]
    exact sets_update_const c x

end UpdateBodies

/-! ## The multiply kernel -/

section Multiply

variable {α : Type} [Ring α]

theorem multiplyElement_eq (tmat_n devBgij : Mem α) (kkr1_ns iOffset jOffset nrmat_ns ij : Nat)
    (devM : Mem α) :
    multiplyElement tmat_n devBgij kkr1_ns iOffset jOffset nrmat_ns ij devM
      = Function.update devM (IDX (iOffset + ij % kkr1_ns) (jOffset + ij / kkr1_ns) nrmat_ns)
          (-∑ k ∈ Finset.range kkr1_ns, tmat_n (IDX (ij % kkr1_ns) k kkr1_ns)
            * devBgij (IDX (iOffset + k) (jOffset + ij / kkr1_ns) nrmat_ns)) := by
  unfold multiplyElement
  simp only []
  generalize IDX (iOffset + ij % kkr1_ns) (jOffset + ij / kkr1_ns) nrmat_ns = cell
  generalize hn : kkr1_ns = n
  have key : ∀ K : Nat,
      forLoop 0 K (fun k devM =>
          Function.update devM cell
            (devM cell - tmat_n (IDX (ij % n) k n)
              * devBgij (IDX (iOffset + k) (jOffset + ij / n) nrmat_ns)))
          (Function.update devM cell 0)
        = Function.update devM cell
          (-∑ k ∈ Finset.range K, tmat_n (IDX (ij % n) k n)
            * devBgij (IDX (iOffset + k) (jOffset + ij / n) nrmat_ns)) := by
    intro K
    induction K with
    | zero => simp [forLoop_of_le]
    | succ K ih =>
      rw [forLoop_succ _ _ _ _ (Nat.zero_le K), ih]
      simp only [Function.update_idem, Function.update_same, Finset.sum_range_succ]
      rw [sub_eq_add_neg, neg_add]
  exact key n


theorem tmat_index (iie blk idx ldim i k kk : Nat) :
    IDX (iie * blk) idx ldim + IDX i k kk = IDX (iie * blk + i + k * kk) idx ldim := by
  unfold IDX
  omega

theorem multiplyKernel_of_ne (blockDim : Nat) (LIZlmax LIZStoreIdx offsets : Mem Nat)
    (kkrsz_ns ispin n_spin_pola n_spin_cant iie blkSizeTmatStore tmatStoreLDim : Nat)
    (devTmatStore : Mem α) (nrmat_ns : Nat) (devBgij : Mem α) {ir1 ir2 : Nat}
    (hne : ir1 ≠ ir2) :
    buildKKRMatrixMultiplyKernelHip blockDim LIZlmax LIZStoreIdx offsets kkrsz_ns ispin
        n_spin_pola n_spin_cant iie blkSizeTmatStore tmatStoreLDim devTmatStore nrmat_ns devBgij
        ir1 ir2
      = blockThreads blockDim
          (kkrOf LIZlmax ir1 * n_spin_cant * (kkrOf LIZlmax ir2 * n_spin_cant))
          (multiplyElement
            (fun idx =>
              devTmatStore (IDX (iie * blkSizeTmatStore) (LIZStoreIdx ir1) tmatStoreLDim + idx))
            devBgij (kkrOf LIZlmax ir1 * n_spin_cant) (offsets ir1) (offsets ir2) nrmat_ns) := by
  funext devM
  simp [buildKKRMatrixMultiplyKernelHip, hne, kkrOf]

theorem multiplyKernel_of_eq (blockDim : Nat) (LIZlmax LIZStoreIdx offsets : Mem Nat)
    (kkrsz_ns ispin n_spin_pola n_spin_cant iie blkSizeTmatStore tmatStoreLDim : Nat)
    (devTmatStore : Mem α) (nrmat_ns : Nat) (devBgij : Mem α) (ir : Nat) :
    buildKKRMatrixMultiplyKernelHip blockDim LIZlmax LIZStoreIdx offsets kkrsz_ns ispin
        n_spin_pola n_spin_cant iie blkSizeTmatStore tmatStoreLDim devTmatStore nrmat_ns devBgij
        ir ir
      = fun devM => devM := by
  funext devM
  simp [buildKKRMatrixMultiplyKernelHip]

/-- The launch of the multiply kernel leaves, in the cell `(i, j)` of the block
of two distinct sites, minus the product of the t-matrix row with the BGij
column. -/
theorem multiplyLaunch_entry (blockDim numLIZ : Nat) (LIZlmax LIZStoreIdx offsets : Mem Nat)
    (kkrsz_ns ispin n_spin_pola n_spin_cant iie blkSizeTmatStore tmatStoreLDim : Nat)
    (devTmatStore : Mem α) (nrmat_ns : Nat) (devBgij devM : Mem α) (hbd : 0 < blockDim)
    (hlay : BlockLayout numLIZ n_spin_cant nrmat_ns LIZlmax offsets) (ir1 ir2 : Nat)
    (h1 : ir1 < numLIZ) (h2 : ir2 < numLIZ) (hne : ir1 ≠ ir2) (i j : Nat)
    (hi : i < kkrOf LIZlmax ir1 * n_spin_cant) (hj : j < kkrOf LIZlmax ir2 * n_spin_cant) :
    gridLaunch numLIZ
        (buildKKRMatrixMultiplyKernelHip blockDim LIZlmax LIZStoreIdx offsets kkrsz_ns ispin
          n_spin_pola n_spin_cant iie blkSizeTmatStore tmatStoreLDim devTmatStore nrmat_ns devBgij)
        devM (IDX (offsets ir1 + i) (offsets ir2 + j) nrmat_ns)
      = -∑ k ∈ Finset.range (kkrOf LIZlmax ir1 * n_spin_cant),
          devTmatStore (IDX (iie * blkSizeTmatStore + i + k * (kkrOf LIZlmax ir1 * n_spin_cant))
              (LIZStoreIdx ir1) tmatStoreLDim)
            * devBgij (IDX (offsets ir1 + k) (offsets ir2 + j) nrmat_ns) := by
  refine (gridLaunch_sets numLIZ _ _ (fun _ => _) ?_ ir1 ir2 h1 h2 ?_ devM).2
  · intro a ha b hb
    by_cases hab : a = b
    · subst hab
      rw [multiplyKernel_of_eq]
      exact keeps_id _ _
    · rw [multiplyKernel_of_ne _ _ _ _ _ _ _ _ _ _ _ _ _ _ hab]
      refine blockThreads_update_keeps blockDim _ _ _ _
        (fun ij _ m => multiplyElement_eq _ _ _ _ _ _ ij m) _ _ ?_
      intro ij hij hc
      obtain ⟨⟨rfl, hxi⟩, ⟨rfl, hyj⟩⟩ := hlay.cell_inj ha hb h1 h2 (mod_lt_of_lt_mul hij)
        (Nat.div_lt_of_lt_mul hij) hi hj hc
      simp only [hxi, hyj, tmat_index]
  · rw [multiplyKernel_of_ne _ _ _ _ _ _ _ _ _ _ _ _ _ _ hne]
    refine blockThreads_update_sets blockDim _ _ _ _
      (fun ij _ m => multiplyElement_eq _ _ _ _ _ _ ij m) _ _ ?_ hbd
      (j * (kkrOf LIZlmax ir1 * n_spin_cant) + i) (pair_lt hi hj) ?_
    · intro ij hij hc
      obtain ⟨⟨_, hxi⟩, ⟨_, hyj⟩⟩ := hlay.cell_inj h1 h2 h1 h2 (mod_lt_of_lt_mul hij)
        (Nat.div_lt_of_lt_mul hij) hi hj hc
      simp only [hxi, hyj, tmat_index]
    · simp only [pair_mod hi, pair_div hi]

/-- The launch of the multiply kernel writes no cell of a same-site block. -/
theorem multiplyLaunch_diag (blockDim numLIZ : Nat) (LIZlmax LIZStoreIdx offsets : Mem Nat)
    (kkrsz_ns ispin n_spin_pola n_spin_cant iie blkSizeTmatStore tmatStoreLDim : Nat)
    (devTmatStore : Mem α) (nrmat_ns : Nat) (devBgij devM : Mem α)
    (hlay : BlockLayout numLIZ n_spin_cant nrmat_ns LIZlmax offsets) (ir : Nat)
    (h1 : ir < numLIZ) (i j : Nat)
    (hi : i < kkrOf LIZlmax ir * n_spin_cant) (hj : j < kkrOf LIZlmax ir * n_spin_cant) :
    gridLaunch numLIZ
        (buildKKRMatrixMultiplyKernelHip blockDim LIZlmax LIZStoreIdx offsets kkrsz_ns ispin
          n_spin_pola n_spin_cant iie blkSizeTmatStore tmatStoreLDim devTmatStore nrmat_ns devBgij)
        devM (IDX (offsets ir + i) (offsets ir + j) nrmat_ns)
      = devM (IDX (offsets ir + i) (offsets ir + j) nrmat_ns) := by
  refine (gridLaunch_keeps numLIZ _ (IDX (offsets ir + i) (offsets ir + j) nrmat_ns)
    (fun m => m (IDX (offsets ir + i) (offsets ir + j) nrmat_ns)) ?_ devM).1
  intro a ha b hb
  by_cases hab : a = b
  · subst hab
    rw [multiplyKernel_of_eq]
    exact keeps_id _ _
  · rw [multiplyKernel_of_ne _ _ _ _ _ _ _ _ _ _ _ _ _ _ hab]
    refine blockThreads_keeps blockDim _ _ _ _ (fun ij hij => ?_)
    have hcell : IDX (offsets a + ij % (kkrOf LIZlmax a * n_spin_cant))
        (offsets b + ij / (kkrOf LIZlmax a * n_spin_cant)) nrmat_ns
          ≠ IDX (offsets ir + i) (offsets ir + j) nrmat_ns := by
      intro hc
      obtain ⟨⟨rfl, _⟩, ⟨rfl, _⟩⟩ := hlay.cell_inj ha hb h1 h1 (mod_lt_of_lt_mul hij)
        (Nat.div_lt_of_lt_mul hij) hi hj hc
      exact hab rfl
    intro m
    rw [multiplyElement_eq]
    exact ⟨Function.update_noteq (Ne.symm hcell) _ m,
      Or.inr (Function.update_noteq (Ne.symm hcell) _ m)⟩

end Multiply


/-! ## The Gij kernel -/

section GijKernel

variable {K : Type} [LinearOrderedField K] [RealFns K]

theorem gijKernel_of_ne (blockDim : Nat) (g : GijArgs K) {ir1 ir2 : Nat} (hne : ir1 ≠ ir2) :
    buildGijHipKernel blockDim g ir1 ir2
      = blockThreads blockDim (kkrOf g.LIZlmax ir1 * kkrOf g.LIZlmax ir2)
          (gijChannelPair g.c (gijTables g ir1 ir2) g.prel pi4 (kkrOf g.LIZlmax ir1)
            (g.offsets ir1) (g.offsets ir2) g.nrmat_ns) := by
  funext devBgij
  simp [buildGijHipKernel, hne, kkrOf, gijTables]

theorem gijKernel_of_eq (blockDim : Nat) (g : GijArgs K) (ir : Nat) :
    buildGijHipKernel blockDim g ir ir = fun devBgij => devBgij := by
  funext devBgij
  simp [buildGijHipKernel]

/-- The channel-pair iteration stores the Gij scalar of its channel pair. -/
theorem gijChannelPair_scalar (g : GijArgs K) (ir1 ir2 ij : Nat)
    (devBgij : Mem (deviceDoubleComplex K)) :
    gijChannelPair g.c (gijTables g ir1 ir2) g.prel pi4 (kkrOf g.LIZlmax ir1)
        (g.offsets ir1) (g.offsets ir2) g.nrmat_ns ij devBgij
      = Function.update devBgij
          (IDX (g.offsets ir1 + ij % kkrOf g.LIZlmax ir1)
            (g.offsets ir2 + ij / kkrOf g.LIZlmax ir1) g.nrmat_ns)
          (gijScalar g ir1 ir2 (ij % kkrOf g.LIZlmax ir1) (ij / kkrOf g.LIZlmax ir1)) := by
  have hij : ij / kkrOf g.LIZlmax ir1 * kkrOf g.LIZlmax ir1 + ij % kkrOf g.LIZlmax ir1 = ij :=
    Nat.div_add_mod' ij _
  unfold gijScalar
  rw [hij, gijChannelPair_eq, gijChannelPair_eq, Function.update_same]

/-- The launch of `buildGijHipKernel` leaves the Gij scalar of every channel
pair of two distinct sites at row `offsets[ir1]+lm2`, column `offsets[ir2]+lm1`. -/
theorem gijLaunch_entry (blockDim numLIZ n_spin_cant : Nat) (g : GijArgs K)
    (devBgij : Mem (deviceDoubleComplex K)) (hbd : 0 < blockDim) (hns : 0 < n_spin_cant)
    (hlay : BlockLayout numLIZ n_spin_cant g.nrmat_ns g.LIZlmax g.offsets) (ir1 ir2 : Nat)
    (h1 : ir1 < numLIZ) (h2 : ir2 < numLIZ) (hne : ir1 ≠ ir2) (lm2 lm1 : Nat)
    (hlm2 : lm2 < kkrOf g.LIZlmax ir1) (hlm1 : lm1 < kkrOf g.LIZlmax ir2) :
    gridLaunch numLIZ (buildGijHipKernel blockDim g) devBgij
        (IDX (g.offsets ir1 + lm2) (g.offsets ir2 + lm1) g.nrmat_ns)
      = gijScalar g ir1 ir2 lm2 lm1 := by
  have hsz : ∀ a x, x < kkrOf g.LIZlmax a → x < kkrOf g.LIZlmax a * n_spin_cant := by
    intro a x hx
    exact lt_of_lt_of_le hx (Nat.le_mul_of_pos_right _ hns)
  refine (gridLaunch_sets numLIZ _ _ (fun _ => _) ?_ ir1 ir2 h1 h2 ?_ devBgij).2
  · intro a ha b hb
    by_cases hab : a = b
    · subst hab
      rw [gijKernel_of_eq]
      exact keeps_id _ _
    · rw [gijKernel_of_ne _ _ hab]
      refine blockThreads_update_keeps blockDim _ _ _ _
        (fun ij _ m => gijChannelPair_scalar g a b ij m) _ _ ?_
      intro ij hij hc
      obtain ⟨⟨rfl, hxi⟩, ⟨rfl, hyj⟩⟩ := hlay.cell_inj ha hb h1 h2
        (hsz _ _ (mod_lt_of_lt_mul hij)) (hsz _ _ (Nat.div_lt_of_lt_mul hij))
        (hsz _ _ hlm2) (hsz _ _ hlm1) hc
      simp only [hxi, hyj]
  · rw [gijKernel_of_ne _ _ hne]
    refine blockThreads_update_sets blockDim _ _ _ _
      (fun ij _ m => gijChannelPair_scalar g ir1 ir2 ij m) _ _ ?_ hbd
      (lm1 * kkrOf g.LIZlmax ir1 + lm2) (pair_lt hlm2 hlm1) ?_
    · intro ij hij hc
      obtain ⟨⟨_, hxi⟩, ⟨_, hyj⟩⟩ := hlay.cell_inj h1 h2 h1 h2
        (hsz _ _ (mod_lt_of_lt_mul hij)) (hsz _ _ (Nat.div_lt_of_lt_mul hij))
        (hsz _ _ hlm2) (hsz _ _ hlm1) hc
      simp only [hxi, hyj]
    · simp only [pair_mod hlm2, pair_div hlm2]

/-- The launch of `buildGijHipKernel` changes no cell other than the cells
`(offsets[a]+x, offsets[b]+y)` with `a ≠ b`, `x < kkr_a` and `y < kkr_b`. -/
theorem gijLaunch_frame (blockDim numLIZ : Nat) (g : GijArgs K)
    (devBgij : Mem (deviceDoubleComplex K)) (cell : Nat)
    (hcell : ∀ a < numLIZ, ∀ b < numLIZ, a ≠ b → ∀ x < kkrOf g.LIZlmax a,
      ∀ y < kkrOf g.LIZlmax b, IDX (g.offsets a + x) (g.offsets b + y) g.nrmat_ns ≠ cell) :
    gridLaunch numLIZ (buildGijHipKernel blockDim g) devBgij cell = devBgij cell := by
  refine (gridLaunch_keeps numLIZ _ cell (fun m => m cell) ?_ devBgij).1
  intro a ha b hb
  by_cases hab : a = b
  · subst hab
    rw [gijKernel_of_eq]
    exact keeps_id _ _
  · rw [gijKernel_of_ne _ _ hab]
    refine blockThreads_keeps blockDim _ _ _ _ (fun ij hij => ?_)
    intro m
    rw [gijChannelPair_scalar]
    have hne := hcell a ha b hb hab _ (mod_lt_of_lt_mul hij) _ (Nat.div_lt_of_lt_mul hij)
    exact ⟨Function.update_noteq (Ne.symm hne) _ m,
      Or.inr (Function.update_noteq (Ne.symm hne) _ m)⟩

end GijKernel


/-! ## The spin-doubling kernel -/

section SetBGij

variable {α : Type} [Zero α]

theorem setBGij_of_active (blockDim : Nat) (n_spin_cant : Nat) (LIZlmax offsets : Mem Nat)
    (nrmat_ns ir1 ir2 : Nat) (hns : n_spin_cant ≠ 1) :
    (setBGijHip blockDim false n_spin_cant LIZlmax offsets nrmat_ns ir1 ir2 : Mem α → Mem α)
      = blockThreads blockDim (kkrOf LIZlmax ir1 * kkrOf LIZlmax ir2)
          (setBGijQuadrants (kkrOf LIZlmax ir1) (kkrOf LIZlmax ir2) (offsets ir1) (offsets ir2)
            nrmat_ns) := by
  funext devBgij
  simp [setBGijHip, hns, kkrOf]

theorem setBGij_of_one (blockDim : Nat) (fullRelativity : Bool) (LIZlmax offsets : Mem Nat)
    (nrmat_ns ir1 ir2 : Nat) :
    (setBGijHip blockDim fullRelativity 1 LIZlmax offsets nrmat_ns ir1 ir2 : Mem α → Mem α)
      = fun devBgij => devBgij := by
  funext devBgij
  simp [setBGijHip]

theorem setBGij_of_full (blockDim : Nat) (n_spin_cant : Nat) (LIZlmax offsets : Mem Nat)
    (nrmat_ns ir1 ir2 : Nat) :
    (setBGijHip blockDim true n_spin_cant LIZlmax offsets nrmat_ns ir1 ir2 : Mem α → Mem α)
      = fun devBgij => devBgij := by
  funext devBgij
  simp [setBGijHip]

theorem keeps_quadrants_zero (A B C base c : Nat) (hC : C ≠ c) :
    Keeps (fun m : Mem α =>
        Function.update (Function.update (Function.update m A 0) B 0) C
          ((Function.update (Function.update m A 0) B 0) base)) c (fun _ => 0) := by
  intro m
  refine ⟨rfl, ?_⟩
  simp only [Function.update_apply]
  rw [if_neg (Ne.symm hC)]
  by_cases hB : c = B
  · simp [hB]
  · by_cases hA : c = A
    · simp [hA]
    · simp [hA, hB]

theorem sets_quadrants_zero (A B C base c : Nat) (hC : C ≠ c) (hAB : A = c ∨ B = c) :
    Sets (fun m : Mem α =>
        Function.update (Function.update (Function.update m A 0) B 0) C
          ((Function.update (Function.update m A 0) B 0) base)) c (fun _ => 0) := by
  intro m
  refine ⟨rfl, ?_⟩
  simp only [Function.update_apply]
  rw [if_neg (Ne.symm hC)]
  by_cases hB : c = B
  · simp [hB]
  · rcases hAB with h | h
    · simp [h]
    · exact absurd h.symm hB

theorem keeps_quadrants_copy (A B C base c b0 : Nat) (hA0 : A ≠ b0) (hB0 : B ≠ b0)
    (hC0 : C ≠ b0) (hA : A ≠ c) (hB : B ≠ c) (hCc : C = c → base = b0) :
    Keeps (fun m : Mem α =>
        Function.update (Function.update (Function.update m A 0) B 0) C
          ((Function.update (Function.update m A 0) B 0) base)) c (fun m => m b0) := by
  intro m
  simp only [Function.update_apply]
  refine ⟨by simp [Ne.symm hA0, Ne.symm hB0, Ne.symm hC0], ?_⟩
  by_cases hC : c = C
  · left
    rw [if_pos hC, hCc hC.symm]
    simp [Ne.symm hA0, Ne.symm hB0]
  · right
    simp [hC, Ne.symm hA, Ne.symm hB]

theorem sets_quadrants_copy (A B C base : Nat) (hA0 : A ≠ base) (hB0 : B ≠ base)
    (hC0 : C ≠ base) :
    Sets (fun m : Mem α =>
        Function.update (Function.update (Function.update m A 0) B 0) C
          ((Function.update (Function.update m A 0) B 0) base)) C (fun m => m base) := by
  intro m
  simp only [Function.update_apply]
  exact ⟨by simp [Ne.symm hA0, Ne.symm hB0, Ne.symm hC0],
    by simp [Ne.symm hA0, Ne.symm hB0]⟩


theorem setBGijQuadrants_eq (kkri kkrj iOffset jOffset nrmat_ns ij : Nat) :
    (setBGijQuadrants kkri kkrj iOffset jOffset nrmat_ns ij : Mem α → Mem α)
      = fun m =>
        Function.update
          (Function.update
            (Function.update m (IDX (iOffset + kkri + ij % kkri) (jOffset + ij / kkri) nrmat_ns) 0)
            (IDX (iOffset + ij % kkri) (jOffset + kkrj + ij / kkri) nrmat_ns) 0)
          (IDX (iOffset + kkri + ij % kkri) (jOffset + kkrj + ij / kkri) nrmat_ns)
          ((Function.update
            (Function.update m (IDX (iOffset + kkri + ij % kkri) (jOffset + ij / kkri) nrmat_ns) 0)
            (IDX (iOffset + ij % kkri) (jOffset + kkrj + ij / kkri) nrmat_ns) 0)
            (IDX (iOffset + ij % kkri) (jOffset + ij / kkri) nrmat_ns)) := rfl

/-- After the launch of `setBGijHip` (two spin components, not fully
relativistic) the lower-left spin quadrant of every block is zero. -/
theorem setBGijLaunch_zero_rows (blockDim numLIZ : Nat) (LIZlmax offsets : Mem Nat)
    (nrmat_ns : Nat) (devBgij : Mem α) (hbd : 0 < blockDim)
    (hlay : BlockLayout numLIZ 2 nrmat_ns LIZlmax offsets) (p q : Nat) (hp : p < numLIZ)
    (hq : q < numLIZ) (i j : Nat) (hi : i < kkrOf LIZlmax p) (hj : j < kkrOf LIZlmax q) :
    gridLaunch numLIZ (setBGijHip blockDim false 2 LIZlmax offsets nrmat_ns) devBgij
        (IDX (offsets p + kkrOf LIZlmax p + i) (offsets q + j) nrmat_ns) = 0 := by
  have hC : ∀ a < numLIZ, ∀ b < numLIZ, ∀ x < kkrOf LIZlmax a, ∀ y < kkrOf LIZlmax b,
      IDX (offsets a + kkrOf LIZlmax a + x) (offsets b + kkrOf LIZlmax b + y) nrmat_ns
        ≠ IDX (offsets p + kkrOf LIZlmax p + i) (offsets q + j) nrmat_ns := by
    intro a ha b hb x hx y hy hc
    rw [Nat.add_assoc, Nat.add_assoc, Nat.add_assoc] at hc
    obtain ⟨⟨rfl, _⟩, ⟨rfl, h4⟩⟩ := hlay.cell_inj ha hb hp hq
      (by omega) (by omega) (by omega) (by omega) hc
    omega
  refine (gridLaunch_sets numLIZ _ _ (fun _ => 0) ?_ p q hp hq ?_ devBgij).2
  · intro a ha b hb
    rw [setBGij_of_active _ _ _ _ _ _ _ (by decide)]
    refine blockThreads_keeps blockDim _ _ _ _ (fun ij hij => ?_)
    rw [setBGijQuadrants_eq]
    exact keeps_quadrants_zero _ _ _ _ _
      (hC a ha b hb _ (mod_lt_of_lt_mul hij) _ (Nat.div_lt_of_lt_mul hij))
  · rw [setBGij_of_active _ _ _ _ _ _ _ (by decide)]
    refine blockThreads_sets blockDim _ _ _ _ hbd (fun ij hij => ?_)
      (j * kkrOf LIZlmax p + i) (pair_lt hi hj) ?_
    · rw [setBGijQuadrants_eq]
      exact keeps_quadrants_zero _ _ _ _ _
        (hC p hp q hq _ (mod_lt_of_lt_mul hij) _ (Nat.div_lt_of_lt_mul hij))
    · rw [setBGijQuadrants_eq]
      refine sets_quadrants_zero _ _ _ _ _ ?_ (Or.inl ?_)
      · rw [pair_mod hi, pair_div hi]
        exact hC p hp q hq i hi j hj
      · rw [pair_mod hi, pair_div hi]


/-- After the launch of `setBGijHip` (two spin components, not fully
relativistic) the upper-right spin quadrant of every block is zero. -/
theorem setBGijLaunch_zero_cols (blockDim numLIZ : Nat) (LIZlmax offsets : Mem Nat)
    (nrmat_ns : Nat) (devBgij : Mem α) (hbd : 0 < blockDim)
    (hlay : BlockLayout numLIZ 2 nrmat_ns LIZlmax offsets) (p q : Nat) (hp : p < numLIZ)
    (hq : q < numLIZ) (i j : Nat) (hi : i < kkrOf LIZlmax p) (hj : j < kkrOf LIZlmax q) :
    gridLaunch numLIZ (setBGijHip blockDim false 2 LIZlmax offsets nrmat_ns) devBgij
        (IDX (offsets p + i) (offsets q + kkrOf LIZlmax q + j) nrmat_ns) = 0 := by
  have hC : ∀ a < numLIZ, ∀ b < numLIZ, ∀ x < kkrOf LIZlmax a, ∀ y < kkrOf LIZlmax b,
      IDX (offsets a + kkrOf LIZlmax a + x) (offsets b + kkrOf LIZlmax b + y) nrmat_ns
        ≠ IDX (offsets p + i) (offsets q + kkrOf LIZlmax q + j) nrmat_ns := by
    intro a ha b hb x hx y hy hc
    simp only [Nat.add_assoc] at hc
    obtain ⟨⟨rfl, h3⟩, ⟨rfl, _⟩⟩ := hlay.cell_inj ha hb hp hq
      (by omega) (by omega) (by omega) (by omega) hc
    omega
  refine (gridLaunch_sets numLIZ _ _ (fun _ => 0) ?_ p q hp hq ?_ devBgij).2
  · intro a ha b hb
    rw [setBGij_of_active _ _ _ _ _ _ _ (by decide)]
    refine blockThreads_keeps blockDim _ _ _ _ (fun ij hij => ?_)
    rw [setBGijQuadrants_eq]
    exact keeps_quadrants_zero _ _ _ _ _
      (hC a ha b hb _ (mod_lt_of_lt_mul hij) _ (Nat.div_lt_of_lt_mul hij))
  · rw [setBGij_of_active _ _ _ _ _ _ _ (by decide)]
    refine blockThreads_sets blockDim _ _ _ _ hbd (fun ij hij => ?_)
      (j * kkrOf LIZlmax p + i) (pair_lt hi hj) ?_
    · rw [setBGijQuadrants_eq]
      exact keeps_quadrants_zero _ _ _ _ _
        (hC p hp q hq _ (mod_lt_of_lt_mul hij) _ (Nat.div_lt_of_lt_mul hij))
    · rw [setBGijQuadrants_eq]
      refine sets_quadrants_zero _ _ _ _ _ ?_ (Or.inr ?_)
      · rw [pair_mod hi, pair_div hi]
        exact hC p hp q hq i hi j hj
      · rw [pair_mod hi, pair_div hi]

/-- After the launch of `setBGijHip` (two spin components, not fully
relativistic) the lower-right spin quadrant of every block is the copy of the
upper-left quadrant, which is left as it was. -/
theorem setBGijLaunch_copy (blockDim numLIZ : Nat) (LIZlmax offsets : Mem Nat)
    (nrmat_ns : Nat) (devBgij : Mem α) (hbd : 0 < blockDim)
    (hlay : BlockLayout numLIZ 2 nrmat_ns LIZlmax offsets) (p q : Nat) (hp : p < numLIZ)
    (hq : q < numLIZ) (i j : Nat) (hi : i < kkrOf LIZlmax p) (hj : j < kkrOf LIZlmax q) :
    gridLaunch numLIZ (setBGijHip blockDim false 2 LIZlmax offsets nrmat_ns) devBgij
          (IDX (offsets p + i) (offsets q + j) nrmat_ns)
        = devBgij (IDX (offsets p + i) (offsets q + j) nrmat_ns) ∧
      gridLaunch numLIZ (setBGijHip blockDim false 2 LIZlmax offsets nrmat_ns) devBgij
          (IDX (offsets p + kkrOf LIZlmax p + i) (offsets q + kkrOf LIZlmax q + j) nrmat_ns)
        = devBgij (IDX (offsets p + i) (offsets q + j) nrmat_ns) := by
  have hA0 : ∀ a < numLIZ, ∀ b < numLIZ, ∀ x < kkrOf LIZlmax a, ∀ y < kkrOf LIZlmax b,
      IDX (offsets a + kkrOf LIZlmax a + x) (offsets b + y) nrmat_ns
        ≠ IDX (offsets p + i) (offsets q + j) nrmat_ns := by
    intro a ha b hb x hx y hy hc
    simp only [Nat.add_assoc] at hc
    obtain ⟨⟨rfl, h3⟩, ⟨rfl, _⟩⟩ := hlay.cell_inj ha hb hp hq
      (by omega) (by omega) (by omega) (by omega) hc
    omega
  have hB0 : ∀ a < numLIZ, ∀ b < numLIZ, ∀ x < kkrOf LIZlmax a, ∀ y < kkrOf LIZlmax b,
      IDX (offsets a + x) (offsets b + kkrOf LIZlmax b + y) nrmat_ns
        ≠ IDX (offsets p + i) (offsets q + j) nrmat_ns := by
    intro a ha b hb x hx y hy hc
    simp only [Nat.add_assoc] at hc
    obtain ⟨⟨rfl, _⟩, ⟨rfl, h4⟩⟩ := hlay.cell_inj ha hb hp hq
      (by omega) (by omega) (by omega) (by omega) hc
    omega
  have hC0 : ∀ a < numLIZ, ∀ b < numLIZ, ∀ x < kkrOf LIZlmax a, ∀ y < kkrOf LIZlmax b,
      IDX (offsets a + kkrOf LIZlmax a + x) (offsets b + kkrOf LIZlmax b + y) nrmat_ns
        ≠ IDX (offsets p + i) (offsets q + j) nrmat_ns := by
    intro a ha b hb x hx y hy hc
    simp only [Nat.add_assoc] at hc
    obtain ⟨⟨rfl, h3⟩, ⟨rfl, _⟩⟩ := hlay.cell_inj ha hb hp hq
      (by omega) (by omega) (by omega) (by omega) hc
    omega
  have hA : ∀ a < numLIZ, ∀ b < numLIZ, ∀ x < kkrOf LIZlmax a, ∀ y < kkrOf LIZlmax b,
      IDX (offsets a + kkrOf LIZlmax a + x) (offsets b + y) nrmat_ns
        ≠ IDX (offsets p + kkrOf LIZlmax p + i) (offsets q + kkrOf LIZlmax q + j) nrmat_ns := by
    intro a ha b hb x hx y hy hc
    simp only [Nat.add_assoc] at hc
    obtain ⟨⟨rfl, _⟩, ⟨rfl, h4⟩⟩ := hlay.cell_inj ha hb hp hq
      (by omega) (by omega) (by omega) (by omega) hc
    omega
  have hB : ∀ a < numLIZ, ∀ b < numLIZ, ∀ x < kkrOf LIZlmax a, ∀ y < kkrOf LIZlmax b,
      IDX (offsets a + x) (offsets b + kkrOf LIZlmax b + y) nrmat_ns
        ≠ IDX (offsets p + kkrOf LIZlmax p + i) (offsets q + kkrOf LIZlmax q + j) nrmat_ns := by
    intro a ha b hb x hx y hy hc
    simp only [Nat.add_assoc] at hc
    obtain ⟨⟨rfl, h3⟩, ⟨rfl, _⟩⟩ := hlay.cell_inj ha hb hp hq
      (by omega) (by omega) (by omega) (by omega) hc
    omega
  have hCc : ∀ a < numLIZ, ∀ b < numLIZ, ∀ x < kkrOf LIZlmax a, ∀ y < kkrOf LIZlmax b,
      IDX (offsets a + kkrOf LIZlmax a + x) (offsets b + kkrOf LIZlmax b + y) nrmat_ns
        = IDX (offsets p + kkrOf LIZlmax p + i) (offsets q + kkrOf LIZlmax q + j) nrmat_ns →
      IDX (offsets a + x) (offsets b + y) nrmat_ns
        = IDX (offsets p + i) (offsets q + j) nrmat_ns := by
    intro a ha b hb x hx y hy hc
    simp only [Nat.add_assoc] at hc
    obtain ⟨⟨rfl, h3⟩, ⟨rfl, h4⟩⟩ := hlay.cell_inj ha hb hp hq
      (by omega) (by omega) (by omega) (by omega) hc
    have hx2 : x = i := by omega
    have hy2 : y = j := by omega
    rw [hx2, hy2]
  have hsets := gridLaunch_sets numLIZ
    (setBGijHip blockDim false 2 LIZlmax offsets nrmat_ns)
    (IDX (offsets p + kkrOf LIZlmax p + i) (offsets q + kkrOf LIZlmax q + j) nrmat_ns)
    (fun m : Mem α => m (IDX (offsets p + i) (offsets q + j) nrmat_ns)) ?_ p q hp hq ?_ devBgij
  · exact hsets
  · intro a ha b hb
    rw [setBGij_of_active _ _ _ _ _ _ _ (by decide)]
    refine blockThreads_keeps blockDim _ _ _ _ (fun ij hij => ?_)
    rw [setBGijQuadrants_eq]
    have hx := mod_lt_of_lt_mul hij
    have hy := Nat.div_lt_of_lt_mul hij
    exact keeps_quadrants_copy _ _ _ _ _ _ (hA0 a ha b hb _ hx _ hy) (hB0 a ha b hb _ hx _ hy)
      (hC0 a ha b hb _ hx _ hy) (hA a ha b hb _ hx _ hy) (hB a ha b hb _ hx _ hy)
      (hCc a ha b hb _ hx _ hy)
  · rw [setBGij_of_active _ _ _ _ _ _ _ (by decide)]
    refine blockThreads_sets blockDim _ _ _ _ hbd (fun ij hij => ?_)
      (j * kkrOf LIZlmax p + i) (pair_lt hi hj) ?_
    · rw [setBGijQuadrants_eq]
      have hx := mod_lt_of_lt_mul hij
      have hy := Nat.div_lt_of_lt_mul hij
      exact keeps_quadrants_copy _ _ _ _ _ _ (hA0 p hp q hq _ hx _ hy) (hB0 p hp q hq _ hx _ hy)
        (hC0 p hp q hq _ hx _ hy) (hA p hp q hq _ hx _ hy) (hB p hp q hq _ hx _ hy)
        (hCc p hp q hq _ hx _ hy)
    · rw [setBGijQuadrants_eq, pair_mod hi, pair_div hi]
      apply sets_quadrants_copy
      · exact hA0 p hp q hq i hi j hj
      · exact hB0 p hp q hq i hi j hj
      · exact hC0 p hp q hq i hi j hj

end SetBGij


/-! ## Offsets and dispatch -/

theorem offsetsLMaxDifferent_eq (n_spin_cant : Nat) (LIZlmax : Mem Nat) :
    ∀ numLIZ ir, offsetsLMaxDifferent n_spin_cant (numLIZ + 1) LIZlmax ir
      = if ir < numLIZ + 1 then n_spin_cant * ∑ k ∈ Finset.range ir, (LIZlmax k + 1) ^ 2 else 0
  | 0, ir => by
    unfold offsetsLMaxDifferent
    rw [forLoop_of_le _ _ _ _ (Nat.le_refl 1)]
    rcases Nat.eq_zero_or_pos ir with h | h
    · subst h
      simp
    · have h1 : ¬ ir < 0 + 1 := by omega
      have h2 : ir ≠ 0 := by omega
      simp [h1, h2]
  | numLIZ + 1, ir => by
    have ih := offsetsLMaxDifferent_eq n_spin_cant LIZlmax numLIZ
    unfold offsetsLMaxDifferent at ih ⊢
    rw [forLoop_succ _ _ _ _ (by omega : 1 ≤ numLIZ + 1)]
    simp only [Function.update_apply]
    by_cases h : ir = numLIZ + 1
    · subst h
      rw [if_pos rfl, ih, if_pos (by omega), if_pos (by omega)]
      simp only [Nat.add_sub_cancel]
      rw [Finset.sum_range_succ (fun k => (LIZlmax k + 1) ^ 2) numLIZ]
      ring
    · rw [if_neg h, ih]
      by_cases h2 : ir < numLIZ + 1
      · rw [if_pos h2, if_pos (by omega)]
      · rw [if_neg h2, if_neg (by omega)]

theorem offsetsLMaxIdentical_eq (kkrsz_ns : Nat) :
    ∀ numLIZ ir, offsetsLMaxIdentical numLIZ kkrsz_ns ir
      = if ir < numLIZ then ir * kkrsz_ns else 0
  | 0, ir => by
    simp [offsetsLMaxIdentical, forLoop_of_le]
  | numLIZ + 1, ir => by
    have ih := offsetsLMaxIdentical_eq kkrsz_ns numLIZ
    unfold offsetsLMaxIdentical at ih ⊢
    rw [forLoop_succ _ _ _ _ (Nat.zero_le _)]
    simp only [Function.update_apply]
    by_cases h : ir = numLIZ
    · subst h
      simp
    · rw [if_neg h, ih]
      by_cases h2 : ir < numLIZ
      · rw [if_pos h2, if_pos (by omega)]
      · rw [if_neg h2, if_neg (by omega)]

theorem sum_kkr_mono (LIZlmax : Mem Nat) {i j : Nat} (h : i ≤ j) :
    ∑ k ∈ Finset.range i, kkrOf LIZlmax k ≤ ∑ k ∈ Finset.range j, kkrOf LIZlmax k :=
  Finset.sum_le_sum_of_subset (Finset.range_mono h)

/-- Offsets that are the prefix sums of the block sizes give a block layout of a
matrix whose dimension covers all blocks. -/
theorem blockLayout_of_prefix (numLIZ n_spin_cant nrmat : Nat) (LIZlmax offsets : Mem Nat)
    (hoff : ∀ ir < numLIZ, offsets ir = n_spin_cant * ∑ k ∈ Finset.range ir, kkrOf LIZlmax k)
    (hnr : ∑ k ∈ Finset.range numLIZ, kkrOf LIZlmax k ≤ nrmat) :
    BlockLayout numLIZ n_spin_cant (n_spin_cant * nrmat) LIZlmax offsets := by
  have hend : ∀ i < numLIZ, offsets i + kkrOf LIZlmax i * n_spin_cant
      = n_spin_cant * ∑ k ∈ Finset.range (i + 1), kkrOf LIZlmax k := by
    intro i hi
    rw [hoff i hi, Finset.sum_range_succ]
    ring
  have hlt : ∀ i < numLIZ, ∀ j < numLIZ, i < j →
      offsets i + kkrOf LIZlmax i * n_spin_cant ≤ offsets j := by
    intro i hi j hj hij
    rw [hend i hi, hoff j hj]
    exact Nat.mul_le_mul_left _ (sum_kkr_mono LIZlmax hij)
  refine ⟨fun i hi => ?_, fun i hi j hj hne => ?_⟩
  · rw [hend i hi]
    exact Nat.mul_le_mul_left _ (le_trans (sum_kkr_mono LIZlmax hi) hnr)
  · rcases Nat.lt_or_gt_of_ne hne with h | h
    · exact Or.inl (hlt i hi j hj h)
    · exact Or.inr (hlt j hj i hi h)

theorem kkrOf_eq_sq (LIZlmax : Mem Nat) (k : Nat) : kkrOf LIZlmax k = (LIZlmax k + 1) ^ 2 := by
  unfold kkrOf
  ring

/-- The offsets that the variable-lmax path copies to the device give a block
layout when `nrmat` covers the channels of all sites. -/
theorem blockLayout_different (numLIZ n_spin_cant nrmat : Nat) (LIZlmax devIpvt : Mem Nat)
    (hnr : ∑ k ∈ Finset.range numLIZ, (LIZlmax k + 1) ^ 2 ≤ nrmat) :
    BlockLayout numLIZ n_spin_cant (n_spin_cant * nrmat) LIZlmax
      (deviceMemcpy devIpvt (offsetsLMaxDifferent n_spin_cant numLIZ LIZlmax) numLIZ) := by
  refine blockLayout_of_prefix numLIZ n_spin_cant nrmat LIZlmax _ ?_ ?_
  · intro ir hir
    obtain ⟨n, rfl⟩ : ∃ n, numLIZ = n + 1 := ⟨numLIZ - 1, by omega⟩
    simp only [deviceMemcpy, if_pos hir, offsetsLMaxDifferent_eq, kkrOf_eq_sq]
  · simpa only [kkrOf_eq_sq] using hnr

theorem lmaxIdentical_loop (LIZlmax : Mem Nat) :
    ∀ (numLIZ : Nat) (b : Bool),
      forLoop 0 numLIZ (fun ir lmaxIdentical =>
          if LIZlmax ir ≠ LIZlmax 0 then false else lmaxIdentical) b = true
        ↔ b = true ∧ ∀ ir < numLIZ, LIZlmax ir = LIZlmax 0
  | 0, b => by simp [forLoop_of_le]
  | numLIZ + 1, b => by
    rw [forLoop_succ _ _ _ _ (Nat.zero_le _)]
    have ih := lmaxIdentical_loop LIZlmax numLIZ b
    by_cases h : LIZlmax numLIZ = LIZlmax 0
    · simp only [h, ne_eq, not_true_eq_false, if_false, ih]
      constructor
      · rintro ⟨hb, hall⟩
        refine ⟨hb, fun ir hir => ?_⟩
        rcases Nat.lt_succ_iff_lt_or_eq.mp hir with h2 | h2
        · exact hall ir h2
        · rw [h2, h]
      · rintro ⟨hb, hall⟩
        exact ⟨hb, fun ir hir => hall ir (by omega)⟩
    · simp only [h, ne_eq, not_false_eq_true, if_true]
      constructor
      · intro hf
        cases hf
      · rintro ⟨_, hall⟩
        exact absurd (hall numLIZ (by omega)) h

theorem lmaxIdentical_iff (maxlmax numLIZ : Nat) (LIZlmax : Mem Nat) (h : 0 < numLIZ) :
    lmaxIdentical maxlmax numLIZ LIZlmax = true ↔ ∀ ir < numLIZ, LIZlmax ir = maxlmax := by
  unfold lmaxIdentical
  simp only []
  rw [lmaxIdentical_loop]
  by_cases h0 : LIZlmax 0 = maxlmax
  · simp only [h0, ne_eq, not_true_eq_false, if_false, true_and]
  · simp only [h0, ne_eq, not_false_eq_true, if_true, Bool.false_eq_true, false_and, false_iff]
    intro hall
    exact h0 (hall 0 h)


/-! # The claims -/

/-- C1: after the launch of `buildKKRMatrixMultiplyKernelHip` over a block
layout, for two distinct sites `ir1`, `ir2` and every `i < kkr1*n_spin_cant`,
`j < kkr2*n_spin_cant`, the entry `M[offsets[ir1]+i, offsets[ir2]+j]` is
`-Σ_{k < kkr1*n_spin_cant} T[i,k] * BGij[offsets[ir1]+k, offsets[ir2]+j]`, where
`T[i,k]` is the store element at row `iie*blkSizeTmatStore + i + k*(kkr1*n_spin_cant)`
of column `LIZStoreIdx[ir1]`. -/
theorem C1_multiply_entry {α : Type} [Ring α] (blockDim numLIZ : Nat)
    (LIZlmax LIZStoreIdx offsets : Mem Nat)
    (kkrsz_ns ispin n_spin_pola n_spin_cant iie blkSizeTmatStore tmatStoreLDim : Nat)
    (devTmatStore : Mem α) (nrmat_ns : Nat) (devBgij devM : Mem α) (hbd : 0 < blockDim)
    (hlay : BlockLayout numLIZ n_spin_cant nrmat_ns LIZlmax offsets) (ir1 ir2 : Nat)
    (h1 : ir1 < numLIZ) (h2 : ir2 < numLIZ) (hne : ir1 ≠ ir2) (i j : Nat)
    (hi : i < kkrOf LIZlmax ir1 * n_spin_cant) (hj : j < kkrOf LIZlmax ir2 * n_spin_cant) :
    gridLaunch numLIZ
        (buildKKRMatrixMultiplyKernelHip blockDim LIZlmax LIZStoreIdx offsets kkrsz_ns ispin
          n_spin_pola n_spin_cant iie blkSizeTmatStore tmatStoreLDim devTmatStore nrmat_ns devBgij)
        devM (IDX (offsets ir1 + i) (offsets ir2 + j) nrmat_ns)
      = -∑ k ∈ Finset.range (kkrOf LIZlmax ir1 * n_spin_cant),
          devTmatStore (IDX (iie * blkSizeTmatStore + i + k * (kkrOf LIZlmax ir1 * n_spin_cant))
              (LIZStoreIdx ir1) tmatStoreLDim)
            * devBgij (IDX (offsets ir1 + k) (offsets ir2 + j) nrmat_ns) :=
  multiplyLaunch_entry blockDim numLIZ LIZlmax LIZStoreIdx offsets kkrsz_ns ispin n_spin_pola
    n_spin_cant iie blkSizeTmatStore tmatStoreLDim devTmatStore nrmat_ns devBgij devM hbd hlay
    ir1 ir2 h1 h2 hne i j hi hj

/-- C1 at the example sites: the entry `(3, 8 + 1)` of the block of sites 0 and 1. -/
theorem C1_multiply_entry_witness :
    (0 < 256 ∧ BlockLayout 2 2 10 exLIZlmax exOffsets ∧ 0 < 2 ∧ 1 < 2 ∧ 0 ≠ 1
      ∧ 3 < kkrOf exLIZlmax 0 * 2 ∧ 1 < kkrOf exLIZlmax 1 * 2)
    ∧ gridLaunch 2
        (buildKKRMatrixMultiplyKernelHip 256 exLIZlmax (fun ir => ir) exOffsets 8 0 2 2 0 100 100
          exBufferInt 10 exBufferInt)
        (fun _ => 0) (IDX (exOffsets 0 + 3) (exOffsets 1 + 1) 10)
      = -∑ k ∈ Finset.range (kkrOf exLIZlmax 0 * 2),
          exBufferInt (IDX (0 * 100 + 3 + k * (kkrOf exLIZlmax 0 * 2)) 0 100)
            * exBufferInt (IDX (exOffsets 0 + k) (exOffsets 1 + 1) 10) :=
  ⟨⟨by decide, by decide, by decide, by decide, by decide, by decide, by decide⟩,
    C1_multiply_entry 256 2 exLIZlmax (fun ir => ir) exOffsets 8 0 2 2 0 100 100 exBufferInt 10
      exBufferInt (fun _ => 0) (by decide) (by decide) 0 1 (by decide) (by decide) (by decide)
      3 1 (by decide) (by decide)⟩

/-- C9: for a LIZ with at least one site, `buildKKRMatrixHip` takes the
identical-lmax path exactly when every site's cutoff equals `lsms.maxlmax`, and
the variable-lmax path otherwise. -/
theorem C9_dispatch {K : Type} [LinearOrderedField K] [RealFns K] (lsms : LSMSSystemParameters)
    (atom : AtomData K) (c : DeviceConstants K) (sharedMemory : Mem K) (d : DeviceStorage K)
    (ispin iie : Nat) (energy prel : deviceDoubleComplex K)
    (devM : Mem (deviceDoubleComplex K)) (h : 0 < atom.numLIZ) :
    (lmaxIdentical lsms.maxlmax atom.numLIZ atom.LIZlmax = true
        ↔ ∀ ir < atom.numLIZ, atom.LIZlmax ir = lsms.maxlmax)
      ∧ ((∀ ir < atom.numLIZ, atom.LIZlmax ir = lsms.maxlmax) →
          buildKKRMatrixHip lsms atom c sharedMemory d ispin iie energy prel devM
            = buildKKRMatrixLMaxIdenticalHip lsms atom c sharedMemory d ispin iie energy prel devM)
      ∧ ((∃ ir < atom.numLIZ, atom.LIZlmax ir ≠ lsms.maxlmax) →
          buildKKRMatrixHip lsms atom c sharedMemory d ispin iie energy prel devM
            = buildKKRMatrixLMaxDifferentHip lsms atom c sharedMemory d ispin iie energy prel
                devM) := by
  have hiff := lmaxIdentical_iff lsms.maxlmax atom.numLIZ atom.LIZlmax h
  refine ⟨hiff, fun hall => ?_, fun hex => ?_⟩
  · unfold buildKKRMatrixHip
    rw [if_pos (hiff.mpr hall)]
  · have hn : ¬ lmaxIdentical lsms.maxlmax atom.numLIZ atom.LIZlmax = true := by
      intro ht
      obtain ⟨ir, hir, hne⟩ := hex
      exact hne (hiff.mp ht ir hir)
    unfold buildKKRMatrixHip
    rw [if_neg hn]

/-- C10: the variable-lmax path computes `offsets[0] = 0` and
`offsets[ir] = n_spin_cant * Σ_{k < ir} (LIZlmax[k]+1)^2` for every site; the
identical-lmax path computes `offsets[ir] = ir * n_spin_cant * kkrsz`. -/
theorem C10_offsets (n_spin_cant numLIZ kkrsz : Nat) (LIZlmax : Mem Nat) (ir : Nat)
    (hir : ir < numLIZ) :
    offsetsLMaxDifferent n_spin_cant numLIZ LIZlmax 0 = 0
      ∧ offsetsLMaxDifferent n_spin_cant numLIZ LIZlmax ir
          = n_spin_cant * ∑ k ∈ Finset.range ir, (LIZlmax k + 1) ^ 2
      ∧ offsetsLMaxIdentical numLIZ (n_spin_cant * kkrsz) ir = ir * n_spin_cant * kkrsz := by
  obtain ⟨n, rfl⟩ : ∃ n, numLIZ = n + 1 := ⟨numLIZ - 1, by omega⟩
  refine ⟨?_, ?_, ?_⟩
  · rw [offsetsLMaxDifferent_eq, if_pos (by omega)]
    simp
  · rw [offsetsLMaxDifferent_eq, if_pos hir]
  · rw [offsetsLMaxIdentical_eq, if_pos hir, Nat.mul_assoc]

/-- C10 at the example sites: the offset of the second of three sites. -/
theorem C10_offsets_witness :
    1 < 3
    ∧ (offsetsLMaxDifferent 2 3 exLIZlmax 0 = 0
      ∧ offsetsLMaxDifferent 2 3 exLIZlmax 1 = 2 * ∑ k ∈ Finset.range 1, (exLIZlmax k + 1) ^ 2
      ∧ offsetsLMaxIdentical 3 (2 * 4) 1 = 1 * 2 * 4) :=
  ⟨by decide, C10_offsets 2 3 4 exLIZlmax 1 (by decide)⟩


/-! ## The build in terms of its launches -/

section BuildLemmas

variable {K : Type} [LinearOrderedField K] [RealFns K]

theorem buildDifferent_devIpvt (lsms : LSMSSystemParameters) (atom : AtomData K)
    (c : DeviceConstants K) (sharedMemory : Mem K) (d : DeviceStorage K) (ispin iie : Nat)
    (energy prel : deviceDoubleComplex K) (devM : Mem (deviceDoubleComplex K)) :
    (buildKKRMatrixLMaxDifferentHip lsms atom c sharedMemory d ispin iie energy prel devM).1.devIpvt
      = deviceMemcpy d.devIpvt
          (offsetsLMaxDifferent lsms.n_spin_cant atom.numLIZ atom.LIZlmax) atom.numLIZ := rfl

theorem buildDifferent_devM (lsms : LSMSSystemParameters) (atom : AtomData K)
    (c : DeviceConstants K) (sharedMemory : Mem K) (d : DeviceStorage K) (ispin iie : Nat)
    (energy prel : deviceDoubleComplex K) (devM : Mem (deviceDoubleComplex K)) :
    (buildKKRMatrixLMaxDifferentHip lsms atom c sharedMemory d ispin iie energy prel devM).2
      = gridLaunch atom.numLIZ
          (buildKKRMatrixMultiplyKernelHip 256 atom.LIZlmax atom.LIZStoreIdx
            (buildKKRMatrixLMaxDifferentHip lsms atom c sharedMemory d ispin iie energy prel
              devM).1.devIpvt
            (lsms.n_spin_cant * atom.kkrsz) ispin lsms.n_spin_pola lsms.n_spin_cant iie
            d.blkSizeTmatStore d.tmatStoreLDim d.devTmatStore (lsms.n_spin_cant * atom.nrmat)
            (buildKKRMatrixLMaxDifferentHip lsms atom c sharedMemory d ispin iie energy prel
              devM).1.devBGij)
          (unitMatrixHip devM (lsms.n_spin_cant * atom.nrmat) (lsms.n_spin_cant * atom.nrmat)) :=
  rfl

theorem buildDifferent_layout (lsms : LSMSSystemParameters) (atom : AtomData K)
    (c : DeviceConstants K) (sharedMemory : Mem K) (d : DeviceStorage K) (ispin iie : Nat)
    (energy prel : deviceDoubleComplex K) (devM : Mem (deviceDoubleComplex K))
    (hnr : ∑ k ∈ Finset.range atom.numLIZ, (atom.LIZlmax k + 1) ^ 2 ≤ atom.nrmat) :
    BlockLayout atom.numLIZ lsms.n_spin_cant (lsms.n_spin_cant * atom.nrmat) atom.LIZlmax
      (buildKKRMatrixLMaxDifferentHip lsms atom c sharedMemory d ispin iie energy prel
        devM).1.devIpvt :=
  blockLayout_different atom.numLIZ lsms.n_spin_cant atom.nrmat atom.LIZlmax d.devIpvt hnr

theorem unitMatrixHip_cell {α : Type} [Zero α] [One α] (devA : Mem α) {n row col : Nat}
    (hrow : row < n) (hcol : col < n) :
    unitMatrixHip devA n n (IDX row col n) = if row = col then 1 else 0 := by
  unfold unitMatrixHip
  rw [if_pos (IDX_lt hrow hcol), IDX_mod hrow, IDX_div hrow]

theorem zeroMatrixHip_cell {α : Type} [Zero α] (devA : Mem α) {n row col : Nat}
    (hrow : row < n) (hcol : col < n) : zeroMatrixHip devA n n (IDX row col n) = 0 := by
  unfold zeroMatrixHip
  rw [if_pos (IDX_lt hrow hcol)]

/-- After a variable-lmax build the same-site blocks of `M` are the identity. -/
theorem buildDifferent_diag (lsms : LSMSSystemParameters) (atom : AtomData K)
    (c : DeviceConstants K) (sharedMemory : Mem K) (d : DeviceStorage K) (ispin iie : Nat)
    (energy prel : deviceDoubleComplex K) (devM : Mem (deviceDoubleComplex K))
    (hnr : ∑ k ∈ Finset.range atom.numLIZ, (atom.LIZlmax k + 1) ^ 2 ≤ atom.nrmat)
    (ir : Nat) (hir : ir < atom.numLIZ) (i j : Nat)
    (hi : i < kkrOf atom.LIZlmax ir * lsms.n_spin_cant)
    (hj : j < kkrOf atom.LIZlmax ir * lsms.n_spin_cant) :
    (buildKKRMatrixLMaxDifferentHip lsms atom c sharedMemory d ispin iie energy prel devM).2
        (IDX
          ((buildKKRMatrixLMaxDifferentHip lsms atom c sharedMemory d ispin iie energy prel
            devM).1.devIpvt ir + i)
          ((buildKKRMatrixLMaxDifferentHip lsms atom c sharedMemory d ispin iie energy prel
            devM).1.devIpvt ir + j)
          (lsms.n_spin_cant * atom.nrmat))
      = if i = j then 1 else 0 := by
  have hlay := buildDifferent_layout lsms atom c sharedMemory d ispin iie energy prel devM hnr
  rw [buildDifferent_devM, multiplyLaunch_diag _ _ _ _ _ _ _ _ _ _ _ _ _ _ _ _ hlay ir hir i j hi hj,
    unitMatrixHip_cell _ (hlay.row_lt hir hi) (hlay.row_lt hir hj)]
  by_cases h : i = j
  · simp [h]
  · have : ¬ (deviceMemcpy d.devIpvt
        (offsetsLMaxDifferent lsms.n_spin_cant atom.numLIZ atom.LIZlmax) atom.numLIZ ir + i
        = deviceMemcpy d.devIpvt
        (offsetsLMaxDifferent lsms.n_spin_cant atom.numLIZ atom.LIZlmax) atom.numLIZ ir + j) := by
      omega
    simp [h, buildDifferent_devIpvt, this]

end BuildLemmas

/-- C2: after a variable-lmax build (unit-matrix seeding followed by the
multiply kernel over all site pairs, `nrmat` covering the channels of all
sites) the block of `M` at `(offsets[i], offsets[i])` of size
`(lmax_i+1)^2 * n_spin_cant` is the identity for every site, and the launch of
the multiply kernel changes no entry of a same-site block, whatever `M` held. -/
theorem C2_diagonal_identity {K : Type} [LinearOrderedField K] [RealFns K]
    (lsms : LSMSSystemParameters) (atom : AtomData K)
    (c : DeviceConstants K) (sharedMemory : Mem K) (d : DeviceStorage K) (ispin iie : Nat)
    (energy prel : deviceDoubleComplex K) (devM : Mem (deviceDoubleComplex K))
    (hnr : ∑ k ∈ Finset.range atom.numLIZ, (atom.LIZlmax k + 1) ^ 2 ≤ atom.nrmat)
    (ir : Nat) (hir : ir < atom.numLIZ) (i j : Nat)
    (hi : i < kkrOf atom.LIZlmax ir * lsms.n_spin_cant)
    (hj : j < kkrOf atom.LIZlmax ir * lsms.n_spin_cant) :
    (buildKKRMatrixLMaxDifferentHip lsms atom c sharedMemory d ispin iie energy prel devM).2
        (IDX
          ((buildKKRMatrixLMaxDifferentHip lsms atom c sharedMemory d ispin iie energy prel
            devM).1.devIpvt ir + i)
          ((buildKKRMatrixLMaxDifferentHip lsms atom c sharedMemory d ispin iie energy prel
            devM).1.devIpvt ir + j)
          (lsms.n_spin_cant * atom.nrmat))
        = (if i = j then 1 else 0)
      ∧ ∀ (blockDim : Nat) (devBgij devM2 : Mem (deviceDoubleComplex K)),
          gridLaunch atom.numLIZ
              (buildKKRMatrixMultiplyKernelHip blockDim atom.LIZlmax atom.LIZStoreIdx
                (buildKKRMatrixLMaxDifferentHip lsms atom c sharedMemory d ispin iie energy prel
                  devM).1.devIpvt
                (lsms.n_spin_cant * atom.kkrsz) ispin lsms.n_spin_pola lsms.n_spin_cant iie
                d.blkSizeTmatStore d.tmatStoreLDim d.devTmatStore (lsms.n_spin_cant * atom.nrmat)
                devBgij)
              devM2
              (IDX
                ((buildKKRMatrixLMaxDifferentHip lsms atom c sharedMemory d ispin iie energy prel
                  devM).1.devIpvt ir + i)
                ((buildKKRMatrixLMaxDifferentHip lsms atom c sharedMemory d ispin iie energy prel
                  devM).1.devIpvt ir + j)
                (lsms.n_spin_cant * atom.nrmat))
            = devM2
              (IDX
                ((buildKKRMatrixLMaxDifferentHip lsms atom c sharedMemory d ispin iie energy prel
                  devM).1.devIpvt ir + i)
                ((buildKKRMatrixLMaxDifferentHip lsms atom c sharedMemory d ispin iie energy prel
                  devM).1.devIpvt ir + j)
                (lsms.n_spin_cant * atom.nrmat)) := by
  refine ⟨buildDifferent_diag lsms atom c sharedMemory d ispin iie energy prel devM hnr ir hir
    i j hi hj, fun blockDim devBgij devM2 => ?_⟩
  exact multiplyLaunch_diag _ _ _ _ _ _ _ _ _ _ _ _ _ _ _ _
    (buildDifferent_layout lsms atom c sharedMemory d ispin iie energy prel devM hnr)
    ir hir i j hi hj


/-- C2 at the example atom: the entry `(3, 3)` of the block of site 0. -/
theorem C2_diagonal_identity_witness :
    (∑ k ∈ Finset.range exAtom.numLIZ, (exAtom.LIZlmax k + 1) ^ 2 ≤ exAtom.nrmat
      ∧ 0 < exAtom.numLIZ ∧ 3 < kkrOf exAtom.LIZlmax 0 * exLsms.n_spin_cant)
    ∧ (buildKKRMatrixLMaxDifferentHip exLsms exAtom exConstants (fun _ => 0) exStorage 0 0
          ⟨1, 0⟩ ⟨1, 1⟩ (fun _ => 0)).2
        (IDX
          ((buildKKRMatrixLMaxDifferentHip exLsms exAtom exConstants (fun _ => 0) exStorage 0 0
            ⟨1, 0⟩ ⟨1, 1⟩ (fun _ => 0)).1.devIpvt 0 + 3)
          ((buildKKRMatrixLMaxDifferentHip exLsms exAtom exConstants (fun _ => 0) exStorage 0 0
            ⟨1, 0⟩ ⟨1, 1⟩ (fun _ => 0)).1.devIpvt 0 + 3)
          (exLsms.n_spin_cant * exAtom.nrmat))
        = (if 3 = 3 then 1 else 0) :=
  ⟨⟨by decide, by decide, by decide⟩,
    (C2_diagonal_identity exLsms exAtom exConstants (fun _ => 0) exStorage 0 0 ⟨1, 0⟩ ⟨1, 1⟩
      (fun _ => 0) (by decide) 0 (by decide) 3 3 (by decide) (by decide)).1⟩

section GijClaims

variable {K : Type} [LinearOrderedField K] [RealFns K]

/-- The Gij scalar is the Gaunt sum over the visited `l3`, scaled by `pi4` and
`illp(lm2, lm1)`. -/
theorem gijScalar_eq (g : GijArgs K) (ir1 ir2 lm2 lm1 : Nat)
    (hlm2 : lm2 < kkrOf g.LIZlmax ir1) :
    gijScalar g ir1 ir2 lm2 lm1
      = (∑ l3 ∈ l3Range
            (if g.prel = 0 then (g.c.lofk lm1 : Int) + g.c.lofk lm2
              else max (abs (g.c.mofk lm2 - g.c.mofk lm1))
                (abs ((g.c.lofk lm1 : Int) - g.c.lofk lm2)))
            ((g.c.lofk lm1 : Int) + g.c.lofk lm2),
          gauntTerm g.c (gijTables g ir1 ir2) lm1 lm2 (g.c.mofk lm2 - g.c.mofk lm1) l3)
        * make_hipDoubleComplex pi4 0 * g.c.illp (IDX lm2 lm1 g.c.ndlj_illp) := by
  unfold gijScalar
  rw [gijChannelPair_eq, pair_mod hlm2, pair_div hlm2, Function.update_same]

end GijClaims

/-- C3: for two spin components and non-fully-relativistic physics, after the
launches of `buildGijHipKernel` and `setBGijHip` over a block layout, for two
distinct sites and all `i < kkri`, `j < kkrj`: the two off-diagonal spin
quadrants of the block are zero, and the lower-right quadrant equals the
upper-left one, which holds the Gij scalar of the channel pair. -/
theorem C3_spin_quadrants {K : Type} [LinearOrderedField K] [RealFns K]
    (blockDimGij blockDimSet numLIZ : Nat) (g : GijArgs K)
    (devBgij : Mem (deviceDoubleComplex K)) (hbd1 : 0 < blockDimGij) (hbd2 : 0 < blockDimSet)
    (hlay : BlockLayout numLIZ 2 g.nrmat_ns g.LIZlmax g.offsets) (ir1 ir2 : Nat)
    (h1 : ir1 < numLIZ) (h2 : ir2 < numLIZ) (hne : ir1 ≠ ir2) (i j : Nat)
    (hi : i < kkrOf g.LIZlmax ir1) (hj : j < kkrOf g.LIZlmax ir2) :
    gridLaunch numLIZ (setBGijHip blockDimSet false 2 g.LIZlmax g.offsets g.nrmat_ns)
        (gridLaunch numLIZ (buildGijHipKernel blockDimGij g) devBgij)
        (IDX (g.offsets ir1 + kkrOf g.LIZlmax ir1 + i) (g.offsets ir2 + j) g.nrmat_ns) = 0
    ∧ gridLaunch numLIZ (setBGijHip blockDimSet false 2 g.LIZlmax g.offsets g.nrmat_ns)
        (gridLaunch numLIZ (buildGijHipKernel blockDimGij g) devBgij)
        (IDX (g.offsets ir1 + i) (g.offsets ir2 + kkrOf g.LIZlmax ir2 + j) g.nrmat_ns) = 0
    ∧ gridLaunch numLIZ (setBGijHip blockDimSet false 2 g.LIZlmax g.offsets g.nrmat_ns)
        (gridLaunch numLIZ (buildGijHipKernel blockDimGij g) devBgij)
        (IDX (g.offsets ir1 + kkrOf g.LIZlmax ir1 + i)
          (g.offsets ir2 + kkrOf g.LIZlmax ir2 + j) g.nrmat_ns)
      = gridLaunch numLIZ (setBGijHip blockDimSet false 2 g.LIZlmax g.offsets g.nrmat_ns)
        (gridLaunch numLIZ (buildGijHipKernel blockDimGij g) devBgij)
        (IDX (g.offsets ir1 + i) (g.offsets ir2 + j) g.nrmat_ns)
    ∧ gridLaunch numLIZ (setBGijHip blockDimSet false 2 g.LIZlmax g.offsets g.nrmat_ns)
        (gridLaunch numLIZ (buildGijHipKernel blockDimGij g) devBgij)
        (IDX (g.offsets ir1 + i) (g.offsets ir2 + j) g.nrmat_ns)
      = gijScalar g ir1 ir2 i j := by
  have hcopy := setBGijLaunch_copy blockDimSet numLIZ g.LIZlmax g.offsets g.nrmat_ns
    (gridLaunch numLIZ (buildGijHipKernel blockDimGij g) devBgij) hbd2 hlay ir1 ir2 h1 h2 i j
    hi hj
  refine ⟨setBGijLaunch_zero_rows _ _ _ _ _ _ hbd2 hlay ir1 ir2 h1 h2 i j hi hj,
    setBGijLaunch_zero_cols _ _ _ _ _ _ hbd2 hlay ir1 ir2 h1 h2 i j hi hj, ?_, ?_⟩
  · rw [hcopy.1, hcopy.2]
  · rw [hcopy.1]
    exact gijLaunch_entry blockDimGij numLIZ 2 g devBgij hbd1 (by decide) hlay ir1 ir2 h1 h2 hne
      i j hi hj

/-- C3 at the example sites: the channel pair `(lm2, lm1) = (2, 0)` of the block
of sites 0 and 1. -/
theorem C3_spin_quadrants_witness :
    (0 < 256 ∧ BlockLayout 2 2 exGijArgs.nrmat_ns exGijArgs.LIZlmax exGijArgs.offsets
      ∧ 0 < 2 ∧ 1 < 2 ∧ 0 ≠ 1 ∧ 2 < kkrOf exGijArgs.LIZlmax 0 ∧ 0 < kkrOf exGijArgs.LIZlmax 1)
    ∧ (exBgijDoubled
          (IDX (exGijArgs.offsets 0 + kkrOf exGijArgs.LIZlmax 0 + 2) (exGijArgs.offsets 1 + 0)
            exGijArgs.nrmat_ns) = 0
      ∧ exBgijDoubled
          (IDX (exGijArgs.offsets 0 + 2) (exGijArgs.offsets 1 + kkrOf exGijArgs.LIZlmax 1 + 0)
            exGijArgs.nrmat_ns) = 0
      ∧ exBgijDoubled
          (IDX (exGijArgs.offsets 0 + kkrOf exGijArgs.LIZlmax 0 + 2)
            (exGijArgs.offsets 1 + kkrOf exGijArgs.LIZlmax 1 + 0) exGijArgs.nrmat_ns)
        = exBgijDoubled
          (IDX (exGijArgs.offsets 0 + 2) (exGijArgs.offsets 1 + 0) exGijArgs.nrmat_ns)
      ∧ exBgijDoubled
          (IDX (exGijArgs.offsets 0 + 2) (exGijArgs.offsets 1 + 0) exGijArgs.nrmat_ns)
        = gijScalar exGijArgs 0 1 2 0) :=
  ⟨⟨by decide, by decide, by decide, by decide, by decide, by decide, by decide⟩,
    C3_spin_quadrants 256 256 2 exGijArgs (fun _ => 0) (by decide) (by decide) (by decide) 0 1
      (by decide) (by decide) (by decide) 2 0 (by decide) (by decide)⟩

theorem gridLaunch_id {α : Type} (numLIZ : Nat) (block : Nat → Nat → Mem α → Mem α)
    (h : ∀ ir1 ir2, block ir1 ir2 = fun m => m) (m : Mem α) : gridLaunch numLIZ block m = m := by
  funext cell
  refine (gridLaunch_keeps numLIZ block cell (fun m => m cell) (fun a _ b _ => ?_) m).1
  rw [h a b]
  exact keeps_id _ _

section BgijAssembly

variable {K : Type} [LinearOrderedField K] [RealFns K]

/-- After zeroing and the launch of `buildGijHipKernel` every cell of every
same-site block is zero. -/
theorem gijLaunch_same_site (blockDim numLIZ n_spin_cant : Nat) (g : GijArgs K)
    (devBgij : Mem (deviceDoubleComplex K)) (hns : 0 < n_spin_cant)
    (hlay : BlockLayout numLIZ n_spin_cant g.nrmat_ns g.LIZlmax g.offsets) (ir : Nat)
    (hir : ir < numLIZ) (i j : Nat) (hi : i < kkrOf g.LIZlmax ir * n_spin_cant)
    (hj : j < kkrOf g.LIZlmax ir * n_spin_cant) :
    gridLaunch numLIZ (buildGijHipKernel blockDim g)
        (zeroMatrixHip devBgij g.nrmat_ns g.nrmat_ns)
        (IDX (g.offsets ir + i) (g.offsets ir + j) g.nrmat_ns) = 0 := by
  have hsz : ∀ a x, x < kkrOf g.LIZlmax a → x < kkrOf g.LIZlmax a * n_spin_cant := by
    intro a x hx
    exact lt_of_lt_of_le hx (Nat.le_mul_of_pos_right _ hns)
  rw [gijLaunch_frame, zeroMatrixHip_cell _ (hlay.row_lt hir hi) (hlay.row_lt hir hj)]
  intro a ha b hb hab x hx y hy hc
  obtain ⟨⟨rfl, _⟩, ⟨rfl, _⟩⟩ := hlay.cell_inj ha hb hir hir (hsz _ _ hx) (hsz _ _ hy) hi hj hc
  exact hab rfl

/-- The assembled BGij: Gij scalars in the blocks of distinct sites, zero in
the same-site blocks. -/
theorem bgij_assembly (blockDimGij blockDimSet numLIZ n_spin_cant : Nat)
    (fullRelativity : Bool) (g : GijArgs K) (devBgij : Mem (deviceDoubleComplex K))
    (hbd1 : 0 < blockDimGij) (hbd2 : 0 < blockDimSet)
    (hnsc : n_spin_cant = 1 ∨ n_spin_cant = 2)
    (hlay : BlockLayout numLIZ n_spin_cant g.nrmat_ns g.LIZlmax g.offsets) :
    (∀ ir1 < numLIZ, ∀ ir2 < numLIZ, ir1 ≠ ir2 → ∀ lm2 < kkrOf g.LIZlmax ir1,
      ∀ lm1 < kkrOf g.LIZlmax ir2,
        gridLaunch numLIZ
            (setBGijHip blockDimSet fullRelativity n_spin_cant g.LIZlmax g.offsets g.nrmat_ns)
            (gridLaunch numLIZ (buildGijHipKernel blockDimGij g)
              (zeroMatrixHip devBgij g.nrmat_ns g.nrmat_ns))
            (IDX (g.offsets ir1 + lm2) (g.offsets ir2 + lm1) g.nrmat_ns)
          = gijScalar g ir1 ir2 lm2 lm1)
    ∧ (∀ ir < numLIZ, ∀ i < kkrOf g.LIZlmax ir * n_spin_cant,
      ∀ j < kkrOf g.LIZlmax ir * n_spin_cant,
        gridLaunch numLIZ
            (setBGijHip blockDimSet fullRelativity n_spin_cant g.LIZlmax g.offsets g.nrmat_ns)
            (gridLaunch numLIZ (buildGijHipKernel blockDimGij g)
              (zeroMatrixHip devBgij g.nrmat_ns g.nrmat_ns))
            (IDX (g.offsets ir + i) (g.offsets ir + j) g.nrmat_ns)
          = 0) := by
  have hns : 0 < n_spin_cant := by omega
  have hG1 := gijLaunch_entry blockDimGij numLIZ n_spin_cant g
    (zeroMatrixHip devBgij g.nrmat_ns g.nrmat_ns) hbd1 hns hlay
  have hG2 := gijLaunch_same_site blockDimGij numLIZ n_spin_cant g devBgij hns hlay
  by_cases hact : n_spin_cant = 2 ∧ fullRelativity = false
  · obtain ⟨rfl, rfl⟩ := hact
    refine ⟨fun ir1 h1 ir2 h2 hne lm2 hlm2 lm1 hlm1 => ?_, fun ir hir i hi j hj => ?_⟩
    · rw [(setBGijLaunch_copy blockDimSet numLIZ g.LIZlmax g.offsets g.nrmat_ns _ hbd2 hlay
        ir1 ir2 h1 h2 lm2 lm1 hlm2 hlm1).1]
      exact hG1 ir1 ir2 h1 h2 hne lm2 lm1 hlm2 hlm1
    · by_cases hi2 : i < kkrOf g.LIZlmax ir
      · by_cases hj2 : j < kkrOf g.LIZlmax ir
        · rw [(setBGijLaunch_copy blockDimSet numLIZ g.LIZlmax g.offsets g.nrmat_ns _ hbd2
            hlay ir ir hir hir i j hi2 hj2).1]
          exact hG2 ir hir i j hi hj
        · have hj3 : g.offsets ir + j
              = g.offsets ir + kkrOf g.LIZlmax ir + (j - kkrOf g.LIZlmax ir) := by omega
          rw [hj3]
          exact setBGijLaunch_zero_cols blockDimSet numLIZ g.LIZlmax g.offsets g.nrmat_ns _
            hbd2 hlay ir ir hir hir i (j - kkrOf g.LIZlmax ir) hi2 (by omega)
      · have hi3 : g.offsets ir + i
            = g.offsets ir + kkrOf g.LIZlmax ir + (i - kkrOf g.LIZlmax ir) := by omega
        by_cases hj2 : j < kkrOf g.LIZlmax ir
        · rw [hi3]
          exact setBGijLaunch_zero_rows blockDimSet numLIZ g.LIZlmax g.offsets g.nrmat_ns _
            hbd2 hlay ir ir hir hir (i - kkrOf g.LIZlmax ir) j (by omega) hj2
        · have hj3 : g.offsets ir + j
              = g.offsets ir + kkrOf g.LIZlmax ir + (j - kkrOf g.LIZlmax ir) := by omega
          rw [hi3, hj3, (setBGijLaunch_copy blockDimSet numLIZ g.LIZlmax g.offsets g.nrmat_ns _
            hbd2 hlay ir ir hir hir (i - kkrOf g.LIZlmax ir) (j - kkrOf g.LIZlmax ir)
            (by omega) (by omega)).2]
          exact hG2 ir hir _ _ (by omega) (by omega)
  · have hid : ∀ m : Mem (deviceDoubleComplex K),
        gridLaunch numLIZ
          (setBGijHip blockDimSet fullRelativity n_spin_cant g.LIZlmax g.offsets g.nrmat_ns) m
          = m := by
      intro m
      refine gridLaunch_id numLIZ _ (fun a b => ?_) m
      rcases hnsc with h | h
      · subst h
        exact setBGij_of_one _ _ _ _ _ _ _
      · cases hfull : fullRelativity
        · exact absurd ⟨h, hfull⟩ hact
        · exact setBGij_of_full _ _ _ _ _ _ _
    rw [hid]
    exact ⟨fun ir1 h1 ir2 h2 hne lm2 hlm2 lm1 hlm1 => hG1 ir1 ir2 h1 h2 hne lm2 lm1 hlm2 hlm1,
      fun ir hir i hi j hj => hG2 ir hir i j hi hj⟩

end BgijAssembly

/-- C7: in the BGij assembled by zeroing, `buildGijHipKernel` and `setBGijHip`
over a block layout (one or two spin components), for two distinct sites the
entry at row `offsets[ir1]+lm2`, column `offsets[ir2]+lm1` is the Gij scalar of
the channel pair (`lm2` of site `ir1`, `lm1` of site `ir2`), written out as
`(Σ_l3 cgnt(l3/2, lm1, lm2) * Dlm(l3, m2-m1)) * 4π * illp(lm2, lm1)` over the
values of `l3` that the kernel visits, with the tables that thread 0 of block
`(ir1, ir2)` has filled; and every entry of every same-site block is zero. -/
theorem C7_bgij_placement {K : Type} [LinearOrderedField K] [RealFns K]
    (blockDimGij blockDimSet numLIZ n_spin_cant : Nat)
    (fullRelativity : Bool) (g : GijArgs K) (devBgij : Mem (deviceDoubleComplex K))
    (hbd1 : 0 < blockDimGij) (hbd2 : 0 < blockDimSet)
    (hnsc : n_spin_cant = 1 ∨ n_spin_cant = 2)
    (hlay : BlockLayout numLIZ n_spin_cant g.nrmat_ns g.LIZlmax g.offsets) :
    (∀ ir1 < numLIZ, ∀ ir2 < numLIZ, ir1 ≠ ir2 → ∀ lm2 < kkrOf g.LIZlmax ir1,
      ∀ lm1 < kkrOf g.LIZlmax ir2,
        gridLaunch numLIZ
            (setBGijHip blockDimSet fullRelativity n_spin_cant g.LIZlmax g.offsets g.nrmat_ns)
            (gridLaunch numLIZ (buildGijHipKernel blockDimGij g)
              (zeroMatrixHip devBgij g.nrmat_ns g.nrmat_ns))
            (IDX (g.offsets ir1 + lm2) (g.offsets ir2 + lm1) g.nrmat_ns)
          = (∑ l3 ∈ l3Range
                (if g.prel = 0 then (g.c.lofk lm1 : Int) + g.c.lofk lm2
                  else max (abs (g.c.mofk lm2 - g.c.mofk lm1))
                    (abs ((g.c.lofk lm1 : Int) - g.c.lofk lm2)))
                ((g.c.lofk lm1 : Int) + g.c.lofk lm2),
              make_hipDoubleComplex
                  (g.c.cgnt (IDX3 (Int.tdiv l3 2).toNat lm1 lm2 g.c.lmaxp1_cgnt g.c.ndlj_cgnt)) 0
                * dlmFunction (gijTables g ir1 ir2).hfn (gijTables g ir1 ir2).cosmp
                    (gijTables g ir1 ir2).sinmp (gijTables g ir1 ir2).plm l3.toNat
                    (g.c.mofk lm2 - g.c.mofk lm1))
            * make_hipDoubleComplex pi4 0 * g.c.illp (IDX lm2 lm1 g.c.ndlj_illp))
    ∧ (∀ ir < numLIZ, ∀ i < kkrOf g.LIZlmax ir * n_spin_cant,
      ∀ j < kkrOf g.LIZlmax ir * n_spin_cant,
        gridLaunch numLIZ
            (setBGijHip blockDimSet fullRelativity n_spin_cant g.LIZlmax g.offsets g.nrmat_ns)
            (gridLaunch numLIZ (buildGijHipKernel blockDimGij g)
              (zeroMatrixHip devBgij g.nrmat_ns g.nrmat_ns))
            (IDX (g.offsets ir + i) (g.offsets ir + j) g.nrmat_ns)
          = 0) := by
  have h := bgij_assembly blockDimGij blockDimSet numLIZ n_spin_cant fullRelativity g devBgij
    hbd1 hbd2 hnsc hlay
  refine ⟨fun ir1 h1 ir2 h2 hne lm2 hlm2 lm1 hlm1 => ?_, h.2⟩
  rw [h.1 ir1 h1 ir2 h2 hne lm2 hlm2 lm1 hlm1, gijScalar_eq g ir1 ir2 lm2 lm1 hlm2]
  rfl

/-- C7 at the example sites: the entry of channel pair `(2, 0)` of sites 0 and
1, where `l1 = 0`, `l2 = 1` and the sum has the single term `l3 = 1`, and the
zero entry `(5, 1)` of the block of site 0. -/
theorem C7_bgij_placement_witness :
    (0 < 256 ∧ 0 < 256 ∧ (2 = 1 ∨ 2 = 2)
      ∧ BlockLayout 2 2 exGijArgs.nrmat_ns exGijArgs.LIZlmax exGijArgs.offsets)
    ∧ (gridLaunch 2
          (setBGijHip 256 false 2 exGijArgs.LIZlmax exGijArgs.offsets exGijArgs.nrmat_ns)
          (gridLaunch 2 (buildGijHipKernel 256 exGijArgs)
            (zeroMatrixHip (fun _ => 1) exGijArgs.nrmat_ns exGijArgs.nrmat_ns))
          (IDX (exGijArgs.offsets 0 + 2) (exGijArgs.offsets 1 + 0) exGijArgs.nrmat_ns)
        = (∑ l3 ∈ l3Range
              (if exGijArgs.prel = 0 then (exGijArgs.c.lofk 0 : Int) + exGijArgs.c.lofk 2
                else max (abs (exGijArgs.c.mofk 2 - exGijArgs.c.mofk 0))
                  (abs ((exGijArgs.c.lofk 0 : Int) - exGijArgs.c.lofk 2)))
              ((exGijArgs.c.lofk 0 : Int) + exGijArgs.c.lofk 2),
            make_hipDoubleComplex
                (exGijArgs.c.cgnt
                  (IDX3 (Int.tdiv l3 2).toNat 0 2 exGijArgs.c.lmaxp1_cgnt exGijArgs.c.ndlj_cgnt))
                0
              * dlmFunction (gijTables exGijArgs 0 1).hfn (gijTables exGijArgs 0 1).cosmp
                  (gijTables exGijArgs 0 1).sinmp (gijTables exGijArgs 0 1).plm l3.toNat
                  (exGijArgs.c.mofk 2 - exGijArgs.c.mofk 0))
          * make_hipDoubleComplex pi4 0 * exGijArgs.c.illp (IDX 2 0 exGijArgs.c.ndlj_illp)
      ∧ gridLaunch 2
          (setBGijHip 256 false 2 exGijArgs.LIZlmax exGijArgs.offsets exGijArgs.nrmat_ns)
          (gridLaunch 2 (buildGijHipKernel 256 exGijArgs)
            (zeroMatrixHip (fun _ => 1) exGijArgs.nrmat_ns exGijArgs.nrmat_ns))
          (IDX (exGijArgs.offsets 0 + 5) (exGijArgs.offsets 0 + 1) exGijArgs.nrmat_ns)
        = 0) :=
  ⟨⟨by decide, by decide, by decide, by decide⟩,
    (C7_bgij_placement 256 256 2 2 false exGijArgs (fun _ => 1) (by decide) (by decide)
      (by decide) (by decide)).1 0 (by decide) 1 (by decide) (by decide) 2 (by decide) 0
      (by decide),
    (C7_bgij_placement 256 256 2 2 false exGijArgs (fun _ => 1) (by decide) (by decide)
      (by decide) (by decide)).2 0 (by decide) 5 (by decide) 1 (by decide)⟩


/-! ## Launches on two buffers that agree on the matrix -/

section Relational

variable {σ : Type}

theorem foldl_rel {ι : Type} (R : σ → σ → Prop) (F G : ι → σ → σ) :
    ∀ (L : List ι) (s s2 : σ), (∀ i ∈ L, ∀ s s2, R s s2 → R (F i s) (G i s2)) → R s s2 →
      R (L.foldl (fun s i => F i s) s) (L.foldl (fun s i => G i s) s2)
  | [], _, _, _, h => h
  | i :: L, s, s2, hstep, h => by
    simp only [List.foldl_cons]
    exact foldl_rel R F G L _ _ (fun j hj => hstep j (List.mem_cons_of_mem _ hj))
      (hstep i (List.mem_cons_self _ _) s s2 h)

theorem stridedLoop_rel (R : σ → σ → Prop) (blockDim N : Nat) (body body2 : Nat → σ → σ)
    (hstep : ∀ ij < N, ∀ s s2, R s s2 → R (body ij s) (body2 ij s2)) :
    ∀ (fuel ij : Nat) (s s2 : σ), R s s2 →
      R (stridedLoop blockDim N body fuel ij s) (stridedLoop blockDim N body2 fuel ij s2)
  | 0, _, _, _, h => h
  | fuel + 1, ij, s, s2, h => by
    by_cases hij : ij < N
    · simp only [stridedLoop, hij, if_true]
      exact stridedLoop_rel R blockDim N body body2 hstep fuel _ _ _ (hstep ij hij s s2 h)
    · simp only [stridedLoop, hij, if_false]
      exact h

theorem blockThreads_rel (R : σ → σ → Prop) (blockDim N : Nat) (body body2 : Nat → σ → σ)
    (hstep : ∀ ij < N, ∀ s s2, R s s2 → R (body ij s) (body2 ij s2)) (s s2 : σ) (h : R s s2) :
    R (blockThreads blockDim N body s) (blockThreads blockDim N body2 s2) :=
  foldl_rel R (fun tid => stridedLoop blockDim N body N tid)
    (fun tid => stridedLoop blockDim N body2 N tid) (List.range blockDim) s s2
    (fun tid _ t t2 ht => stridedLoop_rel R blockDim N body body2 hstep N tid t t2 ht) h

theorem gridLaunch_rel (R : σ → σ → Prop) (numLIZ : Nat) (block block2 : Nat → Nat → σ → σ)
    (hstep : ∀ ir1 < numLIZ, ∀ ir2 < numLIZ, ∀ s s2, R s s2 →
      R (block ir1 ir2 s) (block2 ir1 ir2 s2)) (s s2 : σ) (h : R s s2) :
    R (gridLaunch numLIZ block s) (gridLaunch numLIZ block2 s2) :=
  foldl_rel R (fun ir2 t => (List.range numLIZ).foldl (fun u ir1 => block ir1 ir2 u) t)
    (fun ir2 t => (List.range numLIZ).foldl (fun u ir1 => block2 ir1 ir2 u) t)
    (List.range numLIZ) s s2
    (fun ir2 h2 t t2 ht =>
      foldl_rel R (fun ir1 => block ir1 ir2) (fun ir1 => block2 ir1 ir2) (List.range numLIZ)
        t t2
        (fun ir1 h1 u u2 hu =>
          hstep ir1 (List.mem_range.mp h1) ir2 (List.mem_range.mp h2) u u2 hu) ht) h

theorem gridLaunch_congr (numLIZ : Nat) (block block2 : Nat → Nat → σ → σ)
    (hb : ∀ ir1 < numLIZ, ∀ ir2 < numLIZ, block ir1 ir2 = block2 ir1 ir2) (s : σ) :
    gridLaunch numLIZ block s = gridLaunch numLIZ block2 s :=
  gridLaunch_rel Eq numLIZ block block2
    (fun ir1 h1 ir2 h2 t t2 ht => by rw [hb ir1 h1 ir2 h2, ht]) s s rfl

end Relational

theorem agreeOn_update {α : Type} {N : Nat} {m m2 : Mem α} (h : AgreeOn N m m2) (cell : Nat)
    {v v2 : α} (hv : v = v2) :
    AgreeOn N (Function.update m cell v) (Function.update m2 cell v2) := by
  intro idx hidx
  simp only [Function.update_apply, hv, h idx hidx]

section AgreeKernels

variable {K : Type} [LinearOrderedField K] [RealFns K]

theorem gijLaunch_agree (blockDim numLIZ N : Nat) (g : GijArgs K)
    (m m2 : Mem (deviceDoubleComplex K)) (h : AgreeOn N m m2) :
    AgreeOn N (gridLaunch numLIZ (buildGijHipKernel blockDim g) m)
      (gridLaunch numLIZ (buildGijHipKernel blockDim g) m2) := by
  refine gridLaunch_rel (AgreeOn N) numLIZ _ _ (fun a _ b _ s s2 hs => ?_) m m2 h
  by_cases hab : a = b
  · subst hab
    rw [gijKernel_of_eq]
    exact hs
  · rw [gijKernel_of_ne _ _ hab]
    refine blockThreads_rel (AgreeOn N) _ _ _ _ (fun ij _ t t2 ht => ?_) s s2 hs
    rw [gijChannelPair_scalar, gijChannelPair_scalar]
    exact agreeOn_update ht _ rfl

theorem setBGijLaunch_agree {α : Type} [Zero α] (blockDim numLIZ n_spin_cant : Nat)
    (fullRelativity : Bool) (LIZlmax offsets : Mem Nat) (nrmat_ns : Nat)
    (hns : 0 < n_spin_cant) (hlay : BlockLayout numLIZ n_spin_cant nrmat_ns LIZlmax offsets)
    (m m2 : Mem α) (h : AgreeOn (nrmat_ns * nrmat_ns) m m2) :
    AgreeOn (nrmat_ns * nrmat_ns)
      (gridLaunch numLIZ
        (setBGijHip blockDim fullRelativity n_spin_cant LIZlmax offsets nrmat_ns) m)
      (gridLaunch numLIZ
        (setBGijHip blockDim fullRelativity n_spin_cant LIZlmax offsets nrmat_ns) m2) := by
  refine gridLaunch_rel (AgreeOn (nrmat_ns * nrmat_ns)) numLIZ _ _
    (fun a ha b hb s s2 hs => ?_) m m2 h
  by_cases hact : n_spin_cant ≠ 1 ∧ fullRelativity = false
  · obtain ⟨hn1, rfl⟩ := hact
    rw [setBGij_of_active _ _ _ _ _ _ _ hn1]
    refine blockThreads_rel (AgreeOn (nrmat_ns * nrmat_ns)) _ _ _ _
      (fun ij hij t t2 ht => ?_) s s2 hs
    rw [setBGijQuadrants_eq]
    have hsz : ∀ a x, x < kkrOf LIZlmax a → x < kkrOf LIZlmax a * n_spin_cant := by
      intro a x hx
      exact lt_of_lt_of_le hx (Nat.le_mul_of_pos_right _ hns)
    have hbase : IDX (offsets a + ij % kkrOf LIZlmax a) (offsets b + ij / kkrOf LIZlmax a)
        nrmat_ns < nrmat_ns * nrmat_ns :=
      IDX_lt (hlay.row_lt ha (hsz _ _ (mod_lt_of_lt_mul hij)))
        (hlay.row_lt hb (hsz _ _ (Nat.div_lt_of_lt_mul hij)))
    exact agreeOn_update (agreeOn_update (agreeOn_update ht _ rfl) _ rfl) _
      (agreeOn_update (agreeOn_update ht _ rfl) _ rfl _ hbase)
  · have hid : (setBGijHip blockDim fullRelativity n_spin_cant LIZlmax offsets nrmat_ns a b
        : Mem α → Mem α) = fun t => t := by
      by_cases h1 : n_spin_cant = 1
      · subst h1
        exact setBGij_of_one _ _ _ _ _ _ _
      · cases hfull : fullRelativity
        · exact absurd ⟨h1, hfull⟩ hact
        · exact setBGij_of_full _ _ _ _ _ _ _
    rw [hid]
    exact hs

theorem multiplyLaunch_agree {α : Type} [Ring α] (blockDim numLIZ N : Nat)
    (LIZlmax LIZStoreIdx offsets : Mem Nat)
    (kkrsz_ns ispin n_spin_pola n_spin_cant iie blkSizeTmatStore tmatStoreLDim : Nat)
    (devTmatStore : Mem α) (nrmat_ns : Nat) (devBgij devBgij2 : Mem α)
    (hlay : BlockLayout numLIZ n_spin_cant nrmat_ns LIZlmax offsets)
    (hB : AgreeOn (nrmat_ns * nrmat_ns) devBgij devBgij2) (m m2 : Mem α)
    (h : AgreeOn N m m2) :
    AgreeOn N
      (gridLaunch numLIZ
        (buildKKRMatrixMultiplyKernelHip blockDim LIZlmax LIZStoreIdx offsets kkrsz_ns ispin
          n_spin_pola n_spin_cant iie blkSizeTmatStore tmatStoreLDim devTmatStore nrmat_ns
          devBgij) m)
      (gridLaunch numLIZ
        (buildKKRMatrixMultiplyKernelHip blockDim LIZlmax LIZStoreIdx offsets kkrsz_ns ispin
          n_spin_pola n_spin_cant iie blkSizeTmatStore tmatStoreLDim devTmatStore nrmat_ns
          devBgij2) m2) := by
  refine gridLaunch_rel (AgreeOn N) numLIZ _ _ (fun a ha b hb s s2 hs => ?_) m m2 h
  by_cases hab : a = b
  · subst hab
    rw [multiplyKernel_of_eq, multiplyKernel_of_eq]
    exact hs
  · rw [multiplyKernel_of_ne _ _ _ _ _ _ _ _ _ _ _ _ _ _ hab,
      multiplyKernel_of_ne _ _ _ _ _ _ _ _ _ _ _ _ _ _ hab]
    refine blockThreads_rel (AgreeOn N) _ _ _ _ (fun ij hij t t2 ht => ?_) s s2 hs
    rw [multiplyElement_eq, multiplyElement_eq]
    refine agreeOn_update ht _ ?_
    congr 1
    refine Finset.sum_congr rfl (fun k hk => ?_)
    rw [hB _ (IDX_lt (hlay.row_lt ha (Finset.mem_range.mp hk))
      (hlay.row_lt hb (Nat.div_lt_of_lt_mul hij)))]

end AgreeKernels


section Independence

variable {K : Type} [LinearOrderedField K] [RealFns K]

theorem gijKernel_congr_offsets (blockDim : Nat) (g : GijArgs K) (offsets2 : Mem Nat)
    (a b : Nat) (ha : offsets2 a = g.offsets a) (hb : offsets2 b = g.offsets b) :
    buildGijHipKernel blockDim { g with offsets := offsets2 } a b
      = buildGijHipKernel blockDim g a b := by
  funext m
  simp only [buildGijHipKernel, gijSharedMemory, ha, hb]

theorem setBGij_congr_offsets {α : Type} [Zero α] (blockDim : Nat) (fullRelativity : Bool)
    (n_spin_cant : Nat) (LIZlmax offsets offsets2 : Mem Nat) (nrmat_ns a b : Nat)
    (ha : offsets2 a = offsets a) (hb : offsets2 b = offsets b) :
    (setBGijHip blockDim fullRelativity n_spin_cant LIZlmax offsets2 nrmat_ns a b
        : Mem α → Mem α)
      = setBGijHip blockDim fullRelativity n_spin_cant LIZlmax offsets nrmat_ns a b := by
  funext m
  simp only [setBGijHip, ha, hb]

theorem multiplyKernel_congr_offsets {α : Type} [Ring α] (blockDim : Nat)
    (LIZlmax LIZStoreIdx offsets offsets2 : Mem Nat)
    (kkrsz_ns ispin n_spin_pola n_spin_cant iie blkSizeTmatStore tmatStoreLDim : Nat)
    (devTmatStore : Mem α) (nrmat_ns : Nat) (devBgij : Mem α) (a b : Nat)
    (ha : offsets2 a = offsets a) (hb : offsets2 b = offsets b) :
    buildKKRMatrixMultiplyKernelHip blockDim LIZlmax LIZStoreIdx offsets2 kkrsz_ns ispin
        n_spin_pola n_spin_cant iie blkSizeTmatStore tmatStoreLDim devTmatStore nrmat_ns devBgij
        a b
      = buildKKRMatrixMultiplyKernelHip blockDim LIZlmax LIZStoreIdx offsets kkrsz_ns ispin
        n_spin_pola n_spin_cant iie blkSizeTmatStore tmatStoreLDim devTmatStore nrmat_ns devBgij
        a b := by
  funext m
  simp only [buildKKRMatrixMultiplyKernelHip, ha, hb]

theorem agreeOn_zeroMatrixHip {α : Type} [Zero α] (devA devA2 : Mem α) (n : Nat) :
    AgreeOn (n * n) (zeroMatrixHip devA n n) (zeroMatrixHip devA2 n n) := by
  intro idx hidx
  simp only [zeroMatrixHip, if_pos hidx]

theorem agreeOn_unitMatrixHip {α : Type} [Zero α] [One α] (devA devA2 : Mem α) (n : Nat) :
    AgreeOn (n * n) (unitMatrixHip devA n n) (unitMatrixHip devA2 n n) := by
  intro idx hidx
  simp only [unitMatrixHip, if_pos hidx]

/-- The BGij assembled from two buffers and two offsets buffers that agree on
the sites is the same matrix. -/
theorem bgijStages_agree (blockDimGij blockDimSet numLIZ n_spin_cant : Nat)
    (fullRelativity : Bool) (g : GijArgs K) (offsets2 : Mem Nat)
    (devBgij devBgij2 : Mem (deviceDoubleComplex K)) (hns : 0 < n_spin_cant)
    (hlay : BlockLayout numLIZ n_spin_cant g.nrmat_ns g.LIZlmax g.offsets)
    (hoff : ∀ a < numLIZ, offsets2 a = g.offsets a) :
    AgreeOn (g.nrmat_ns * g.nrmat_ns)
      (gridLaunch numLIZ
        (setBGijHip blockDimSet fullRelativity n_spin_cant g.LIZlmax g.offsets g.nrmat_ns)
        (gridLaunch numLIZ (buildGijHipKernel blockDimGij g)
          (zeroMatrixHip devBgij g.nrmat_ns g.nrmat_ns)))
      (gridLaunch numLIZ
        (setBGijHip blockDimSet fullRelativity n_spin_cant g.LIZlmax offsets2 g.nrmat_ns)
        (gridLaunch numLIZ (buildGijHipKernel blockDimGij { g with offsets := offsets2 })
          (zeroMatrixHip devBgij2 g.nrmat_ns g.nrmat_ns))) := by
  rw [gridLaunch_congr numLIZ
      (setBGijHip blockDimSet fullRelativity n_spin_cant g.LIZlmax offsets2 g.nrmat_ns)
      (setBGijHip blockDimSet fullRelativity n_spin_cant g.LIZlmax g.offsets g.nrmat_ns)
      (fun a ha b hb => setBGij_congr_offsets _ _ _ _ _ _ _ a b (hoff a ha) (hoff b hb)),
    gridLaunch_congr numLIZ (buildGijHipKernel blockDimGij { g with offsets := offsets2 })
      (buildGijHipKernel blockDimGij g)
      (fun a ha b hb => gijKernel_congr_offsets _ _ _ a b (hoff a ha) (hoff b hb))]
  exact setBGijLaunch_agree _ _ _ _ _ _ _ hns hlay _ _
    (gijLaunch_agree _ _ _ _ _ _ (agreeOn_zeroMatrixHip _ _ _))

/-- The M assembled from two M buffers, two offsets buffers that agree on the
sites and two BGij that agree on the matrix is the same matrix. -/
theorem mStage_agree {α : Type} [Ring α] (blockDim numLIZ : Nat)
    (LIZlmax LIZStoreIdx offsets offsets2 : Mem Nat)
    (kkrsz_ns ispin n_spin_pola n_spin_cant iie blkSizeTmatStore tmatStoreLDim : Nat)
    (devTmatStore : Mem α) (nrmat_ns : Nat) (devBgij devBgij2 devM devM2 : Mem α)
    (hlay : BlockLayout numLIZ n_spin_cant nrmat_ns LIZlmax offsets)
    (hoff : ∀ a < numLIZ, offsets2 a = offsets a)
    (hB : AgreeOn (nrmat_ns * nrmat_ns) devBgij devBgij2) :
    AgreeOn (nrmat_ns * nrmat_ns)
      (gridLaunch numLIZ
        (buildKKRMatrixMultiplyKernelHip blockDim LIZlmax LIZStoreIdx offsets kkrsz_ns ispin
          n_spin_pola n_spin_cant iie blkSizeTmatStore tmatStoreLDim devTmatStore nrmat_ns
          devBgij) (unitMatrixHip devM nrmat_ns nrmat_ns))
      (gridLaunch numLIZ
        (buildKKRMatrixMultiplyKernelHip blockDim LIZlmax LIZStoreIdx offsets2 kkrsz_ns ispin
          n_spin_pola n_spin_cant iie blkSizeTmatStore tmatStoreLDim devTmatStore nrmat_ns
          devBgij2) (unitMatrixHip devM2 nrmat_ns nrmat_ns)) := by
  rw [gridLaunch_congr numLIZ
      (buildKKRMatrixMultiplyKernelHip blockDim LIZlmax LIZStoreIdx offsets2 kkrsz_ns ispin
        n_spin_pola n_spin_cant iie blkSizeTmatStore tmatStoreLDim devTmatStore nrmat_ns
        devBgij2)
      (buildKKRMatrixMultiplyKernelHip blockDim LIZlmax LIZStoreIdx offsets kkrsz_ns ispin
        n_spin_pola n_spin_cant iie blkSizeTmatStore tmatStoreLDim devTmatStore nrmat_ns
        devBgij2)
      (fun a ha b hb =>
        multiplyKernel_congr_offsets _ _ _ _ _ _ _ _ _ _ _ _ _ _ _ a b (hoff a ha) (hoff b hb))]
  exact multiplyLaunch_agree _ _ _ _ _ _ _ _ _ _ _ _ _ _ _ _ _ hlay hB _ _
    (agreeOn_unitMatrixHip _ _ _)

end Independence


section IndependenceBuild

variable {K : Type} [LinearOrderedField K] [RealFns K]

theorem buildDifferent_devBGij (lsms : LSMSSystemParameters) (atom : AtomData K)
    (c : DeviceConstants K) (sharedMemory : Mem K) (d : DeviceStorage K) (ispin iie : Nat)
    (energy prel : deviceDoubleComplex K) (devM : Mem (deviceDoubleComplex K))
    (g : GijArgs K) (offsets2 : Mem Nat)
    (hg : g = buildGijArgs lsms atom c sharedMemory prel
      (deviceMemcpy offsets2
        (offsetsLMaxDifferent lsms.n_spin_cant atom.numLIZ atom.LIZlmax) atom.numLIZ))
    (h2 : d.devIpvt = offsets2) :
    (buildKKRMatrixLMaxDifferentHip lsms atom c sharedMemory d ispin iie energy prel
        devM).1.devBGij
      = gridLaunch atom.numLIZ
          (setBGijHip 256 (decide (lsms.relativity = RelativityType.full)) lsms.n_spin_cant
            g.LIZlmax g.offsets g.nrmat_ns)
          (gridLaunch atom.numLIZ (buildGijHipKernel 256 g)
            (zeroMatrixHip d.devBGij g.nrmat_ns g.nrmat_ns)) := by
  subst hg h2
  rfl

/-- Two variable-lmax builds that differ only in the previous contents of the
BGij buffer, the offsets buffer and the M buffer give the same matrices and
the same offsets. -/
theorem buildDifferent_agree (lsms : LSMSSystemParameters) (atom : AtomData K)
    (c : DeviceConstants K) (sharedMemory : Mem K) (d d2 : DeviceStorage K) (ispin iie : Nat)
    (energy prel : deviceDoubleComplex K) (devM devM2 : Mem (deviceDoubleComplex K))
    (hnr : ∑ k ∈ Finset.range atom.numLIZ, (atom.LIZlmax k + 1) ^ 2 ≤ atom.nrmat)
    (hblk : d2.blkSizeTmatStore = d.blkSizeTmatStore)
    (hldim : d2.tmatStoreLDim = d.tmatStoreLDim) (hstore : d2.devTmatStore = d.devTmatStore) :
    AgreeOn (lsms.n_spin_cant * atom.nrmat * (lsms.n_spin_cant * atom.nrmat))
        (buildKKRMatrixLMaxDifferentHip lsms atom c sharedMemory d ispin iie energy prel devM).2
        (buildKKRMatrixLMaxDifferentHip lsms atom c sharedMemory d2 ispin iie energy prel
          devM2).2
    ∧ AgreeOn (lsms.n_spin_cant * atom.nrmat * (lsms.n_spin_cant * atom.nrmat))
        (buildKKRMatrixLMaxDifferentHip lsms atom c sharedMemory d ispin iie energy prel
          devM).1.devBGij
        (buildKKRMatrixLMaxDifferentHip lsms atom c sharedMemory d2 ispin iie energy prel
          devM2).1.devBGij
    ∧ AgreeOn atom.numLIZ
        (buildKKRMatrixLMaxDifferentHip lsms atom c sharedMemory d ispin iie energy prel
          devM).1.devIpvt
        (buildKKRMatrixLMaxDifferentHip lsms atom c sharedMemory d2 ispin iie energy prel
          devM2).1.devIpvt := by
  have hlay := blockLayout_different atom.numLIZ lsms.n_spin_cant atom.nrmat atom.LIZlmax
    d.devIpvt hnr
  have hoff : ∀ a < atom.numLIZ,
      deviceMemcpy d2.devIpvt
          (offsetsLMaxDifferent lsms.n_spin_cant atom.numLIZ atom.LIZlmax) atom.numLIZ a
        = deviceMemcpy d.devIpvt
          (offsetsLMaxDifferent lsms.n_spin_cant atom.numLIZ atom.LIZlmax) atom.numLIZ a := by
    intro a ha
    simp only [deviceMemcpy, if_pos ha]
  have hB : AgreeOn (lsms.n_spin_cant * atom.nrmat * (lsms.n_spin_cant * atom.nrmat))
      (buildKKRMatrixLMaxDifferentHip lsms atom c sharedMemory d ispin iie energy prel
        devM).1.devBGij
      (buildKKRMatrixLMaxDifferentHip lsms atom c sharedMemory d2 ispin iie energy prel
        devM2).1.devBGij := by
    rcases Nat.eq_zero_or_pos lsms.n_spin_cant with h0 | hpos
    · intro idx hidx
      rw [h0] at hidx
      simp at hidx
    · rw [buildDifferent_devBGij lsms atom c sharedMemory d ispin iie energy prel devM _ _ rfl rfl,
        buildDifferent_devBGij lsms atom c sharedMemory d2 ispin iie energy prel devM2 _ _ rfl
          rfl]
      exact bgijStages_agree 256 256 atom.numLIZ lsms.n_spin_cant _
        (buildGijArgs lsms atom c sharedMemory prel
          (deviceMemcpy d.devIpvt
            (offsetsLMaxDifferent lsms.n_spin_cant atom.numLIZ atom.LIZlmax) atom.numLIZ))
        (deviceMemcpy d2.devIpvt
          (offsetsLMaxDifferent lsms.n_spin_cant atom.numLIZ atom.LIZlmax) atom.numLIZ)
        d.devBGij d2.devBGij hpos hlay hoff
  refine ⟨?_, hB, ?_⟩
  · rw [buildDifferent_devM, buildDifferent_devM, hblk, hldim, hstore]
    exact mStage_agree 256 atom.numLIZ atom.LIZlmax atom.LIZStoreIdx _ _ _ _ _ _ _ _ _ _ _ _ _
      _ _ hlay hoff hB
  · intro a ha
    exact (hoff a ha).symm

end IndependenceBuild

/-- C8: the result of a variable-lmax build does not depend on the previous
contents of the workspace: two builds with the same inputs, started from any
two states of the BGij buffer, the offsets buffer and the M buffer, give the
same M and BGij (all `nrmat_ns * nrmat_ns` elements) and the same offsets of
the sites; in particular a build run again on the buffers left by a build
gives the same matrices. -/
theorem C8_workspace_independence {K : Type} [LinearOrderedField K] [RealFns K]
    (lsms : LSMSSystemParameters) (atom : AtomData K)
    (c : DeviceConstants K) (sharedMemory : Mem K) (d d2 : DeviceStorage K) (ispin iie : Nat)
    (energy prel : deviceDoubleComplex K) (devM devM2 : Mem (deviceDoubleComplex K))
    (hnr : ∑ k ∈ Finset.range atom.numLIZ, (atom.LIZlmax k + 1) ^ 2 ≤ atom.nrmat)
    (hblk : d2.blkSizeTmatStore = d.blkSizeTmatStore)
    (hldim : d2.tmatStoreLDim = d.tmatStoreLDim) (hstore : d2.devTmatStore = d.devTmatStore) :
    (AgreeOn (lsms.n_spin_cant * atom.nrmat * (lsms.n_spin_cant * atom.nrmat))
        (buildKKRMatrixLMaxDifferentHip lsms atom c sharedMemory d ispin iie energy prel devM).2
        (buildKKRMatrixLMaxDifferentHip lsms atom c sharedMemory d2 ispin iie energy prel
          devM2).2
      ∧ AgreeOn (lsms.n_spin_cant * atom.nrmat * (lsms.n_spin_cant * atom.nrmat))
        (buildKKRMatrixLMaxDifferentHip lsms atom c sharedMemory d ispin iie energy prel
          devM).1.devBGij
        (buildKKRMatrixLMaxDifferentHip lsms atom c sharedMemory d2 ispin iie energy prel
          devM2).1.devBGij
      ∧ AgreeOn atom.numLIZ
        (buildKKRMatrixLMaxDifferentHip lsms atom c sharedMemory d ispin iie energy prel
          devM).1.devIpvt
        (buildKKRMatrixLMaxDifferentHip lsms atom c sharedMemory d2 ispin iie energy prel
          devM2).1.devIpvt)
    ∧ (AgreeOn (lsms.n_spin_cant * atom.nrmat * (lsms.n_spin_cant * atom.nrmat))
        (buildKKRMatrixLMaxDifferentHip lsms atom c sharedMemory d ispin iie energy prel devM).2
        (buildKKRMatrixLMaxDifferentHip lsms atom c sharedMemory
          (buildKKRMatrixLMaxDifferentHip lsms atom c sharedMemory d ispin iie energy prel
            devM).1 ispin iie energy prel
          (buildKKRMatrixLMaxDifferentHip lsms atom c sharedMemory d ispin iie energy prel
            devM).2).2
      ∧ AgreeOn (lsms.n_spin_cant * atom.nrmat * (lsms.n_spin_cant * atom.nrmat))
        (buildKKRMatrixLMaxDifferentHip lsms atom c sharedMemory d ispin iie energy prel
          devM).1.devBGij
        (buildKKRMatrixLMaxDifferentHip lsms atom c sharedMemory
          (buildKKRMatrixLMaxDifferentHip lsms atom c sharedMemory d ispin iie energy prel
            devM).1 ispin iie energy prel
          (buildKKRMatrixLMaxDifferentHip lsms atom c sharedMemory d ispin iie energy prel
            devM).2).1.devBGij) := by
  refine ⟨buildDifferent_agree lsms atom c sharedMemory d d2 ispin iie energy prel devM devM2
    hnr hblk hldim hstore, ?_⟩
  have h := buildDifferent_agree lsms atom c sharedMemory d
    (buildKKRMatrixLMaxDifferentHip lsms atom c sharedMemory d ispin iie energy prel devM).1
    ispin iie energy prel devM
    (buildKKRMatrixLMaxDifferentHip lsms atom c sharedMemory d ispin iie energy prel devM).2
    hnr rfl rfl rfl
  exact ⟨h.1, h.2.1⟩

/-- C8 at the example atom, for two unrelated workspaces. -/
theorem C8_workspace_independence_witness :
    (∑ k ∈ Finset.range exAtom.numLIZ, (exAtom.LIZlmax k + 1) ^ 2 ≤ exAtom.nrmat
      ∧ exStorage.blkSizeTmatStore = exStorage.blkSizeTmatStore
      ∧ exStorage.tmatStoreLDim = exStorage.tmatStoreLDim
      ∧ exStorage.devTmatStore = exStorage.devTmatStore)
    ∧ AgreeOn (exLsms.n_spin_cant * exAtom.nrmat * (exLsms.n_spin_cant * exAtom.nrmat))
        (buildKKRMatrixLMaxDifferentHip exLsms exAtom exConstants (fun _ => 0) exStorage 0 0
          ⟨1, 0⟩ ⟨1, 1⟩ (fun _ => 0)).2
        (buildKKRMatrixLMaxDifferentHip exLsms exAtom exConstants (fun _ => 0)
          { exStorage with devBGij := fun _ => 1, devIpvt := fun _ => 5 } 0 0
          ⟨1, 0⟩ ⟨1, 1⟩ (fun _ => 1)).2 :=
  ⟨⟨by decide, rfl, rfl, rfl⟩,
    (C8_workspace_independence exLsms exAtom exConstants (fun _ => 0) exStorage
      { exStorage with devBGij := fun _ => 1, devIpvt := fun _ => 5 } 0 0 ⟨1, 0⟩ ⟨1, 1⟩
      (fun _ => 0) (fun _ => 1) (by decide) rfl rfl rfl).1.1⟩

/-- C9 at the example atom, whose second site has a smaller cutoff. -/
theorem C9_dispatch_witness :
    0 < exAtom.numLIZ
    ∧ (lmaxIdentical exLsms.maxlmax exAtom.numLIZ exAtom.LIZlmax = true
        ↔ ∀ ir < exAtom.numLIZ, exAtom.LIZlmax ir = exLsms.maxlmax) :=
  ⟨by decide,
    (C9_dispatch exLsms exAtom exConstants (fun _ => 0) exStorage 0 0 ⟨1, 0⟩ ⟨1, 1⟩ (fun _ => 0)
      (by decide)).1⟩


/-! ## Offsets of the identical-lmax path -/

section IdenticalOffsets

variable {K : Type} [LinearOrderedField K] [RealFns K]

theorem buildIdentical_devIpvt (lsms : LSMSSystemParameters) (atom : AtomData K)
    (c : DeviceConstants K) (sharedMemory : Mem K) (d : DeviceStorage K) (ispin iie : Nat)
    (energy prel : deviceDoubleComplex K) (devM : Mem (deviceDoubleComplex K)) :
    (buildKKRMatrixLMaxIdenticalHip lsms atom c sharedMemory d ispin iie energy prel
        devM).1.devIpvt
      = deviceMemcpy d.devIpvt
          (offsetsLMaxIdentical atom.numLIZ (lsms.n_spin_cant * atom.kkrsz)) atom.numLIZ := rfl

/-- With all cutoffs equal to `maxlmax` and `kkrsz = (maxlmax+1)^2` the offsets
of the identical-lmax path are the prefix sums of the variable-lmax path. -/
theorem identical_offsets_eq (n_spin_cant numLIZ maxlmax kkrsz : Nat) (LIZlmax : Mem Nat)
    (hall : ∀ ir < numLIZ, LIZlmax ir = maxlmax) (hk : kkrsz = (maxlmax + 1) ^ 2) (ir : Nat)
    (hir : ir < numLIZ) :
    offsetsLMaxIdentical numLIZ (n_spin_cant * kkrsz) ir
        = offsetsLMaxDifferent n_spin_cant numLIZ LIZlmax ir
      ∧ offsetsLMaxIdentical numLIZ (n_spin_cant * kkrsz) ir
        = ir * n_spin_cant * (LIZlmax ir + 1) ^ 2 := by
  obtain ⟨n, rfl⟩ : ∃ n, numLIZ = n + 1 := ⟨numLIZ - 1, by omega⟩
  have hsum : ∑ k ∈ Finset.range ir, (LIZlmax k + 1) ^ 2 = ir * (maxlmax + 1) ^ 2 := by
    rw [Finset.sum_congr rfl (fun k hk2 => by
      rw [hall k (lt_trans (Finset.mem_range.mp hk2) hir)] :
        ∀ k ∈ Finset.range ir, (LIZlmax k + 1) ^ 2 = (maxlmax + 1) ^ 2)]
    simp
  rw [offsetsLMaxIdentical_eq, offsetsLMaxDifferent_eq, if_pos hir, if_pos hir, hsum, hk,
    hall ir hir]
  constructor <;> ring

end IdenticalOffsets

/-- C11 (as amended): whenever `buildKKRMatrixHip` selects the identical-lmax
path (every cutoff equals `lsms.maxlmax`, at least one site) and `atom.kkrsz`
is `(lsms.maxlmax+1)^2`, the offsets it uses equal the prefix-sum offsets of the
variable-lmax path, i.e. `offsets[ir] = ir * n_spin_cant * (LIZlmax[ir]+1)^2`. -/
theorem C11_identical_offsets {K : Type} [LinearOrderedField K] [RealFns K]
    (lsms : LSMSSystemParameters) (atom : AtomData K)
    (c : DeviceConstants K) (sharedMemory : Mem K) (d : DeviceStorage K) (ispin iie : Nat)
    (energy prel : deviceDoubleComplex K) (devM : Mem (deviceDoubleComplex K))
    (hsel : lmaxIdentical lsms.maxlmax atom.numLIZ atom.LIZlmax = true)
    (hk : atom.kkrsz = (lsms.maxlmax + 1) ^ 2) (ir : Nat) (hir : ir < atom.numLIZ) :
    (buildKKRMatrixHip lsms atom c sharedMemory d ispin iie energy prel devM).1.devIpvt ir
        = offsetsLMaxDifferent lsms.n_spin_cant atom.numLIZ atom.LIZlmax ir
      ∧ (buildKKRMatrixHip lsms atom c sharedMemory d ispin iie energy prel devM).1.devIpvt ir
        = ir * lsms.n_spin_cant * (atom.LIZlmax ir + 1) ^ 2 := by
  have hall := (lmaxIdentical_iff lsms.maxlmax atom.numLIZ atom.LIZlmax (by omega)).mp hsel
  have h := identical_offsets_eq lsms.n_spin_cant atom.numLIZ lsms.maxlmax atom.kkrsz
    atom.LIZlmax hall hk ir hir
  unfold buildKKRMatrixHip
  rw [if_pos hsel, buildIdentical_devIpvt]
  simp only [deviceMemcpy, if_pos hir]
  exact h

/-- C11 (as amended) at the example atom with two sites of cutoff 1 and
`kkrsz = 4`. -/
theorem C11_identical_offsets_witness :
    (lmaxIdentical exLsmsUniform.maxlmax exAtomUniform.numLIZ exAtomUniform.LIZlmax = true
      ∧ exAtomUniform.kkrsz = (exLsmsUniform.maxlmax + 1) ^ 2 ∧ 1 < exAtomUniform.numLIZ)
    ∧ ((buildKKRMatrixHip exLsmsUniform exAtomUniform exConstants (fun _ => 0) exStorage 0 0
          ⟨1, 0⟩ ⟨1, 1⟩ (fun _ => 0)).1.devIpvt 1
        = offsetsLMaxDifferent exLsmsUniform.n_spin_cant exAtomUniform.numLIZ
            exAtomUniform.LIZlmax 1
      ∧ (buildKKRMatrixHip exLsmsUniform exAtomUniform exConstants (fun _ => 0) exStorage 0 0
          ⟨1, 0⟩ ⟨1, 1⟩ (fun _ => 0)).1.devIpvt 1
        = 1 * exLsmsUniform.n_spin_cant * (exAtomUniform.LIZlmax 1 + 1) ^ 2) :=
  ⟨⟨by decide, by decide, by decide⟩,
    C11_identical_offsets exLsmsUniform exAtomUniform exConstants (fun _ => 0) exStorage 0 0
      ⟨1, 0⟩ ⟨1, 1⟩ (fun _ => 0) (by decide) (by decide) 1 (by decide)⟩

/-- C11 as stated fails: for two sites of cutoff 1 = `maxlmax` and
`atom.kkrsz = 1`, the identical-lmax path is selected and uses
`offsets[1] = 1`, while the block of site 0 has 4 rows and the prefix-sum
offset is 4. -/
theorem C11_counterexample :
    lmaxIdentical exLsmsUniform.maxlmax exAtomMismatch.numLIZ exAtomMismatch.LIZlmax = true
    ∧ (buildKKRMatrixHip exLsmsUniform exAtomMismatch exConstants (fun _ => 0) exStorage 0 0
          ⟨1, 0⟩ ⟨1, 1⟩ (fun _ => 0)).1.devIpvt 1 = 1
    ∧ offsetsLMaxDifferent exLsmsUniform.n_spin_cant exAtomMismatch.numLIZ
          exAtomMismatch.LIZlmax 1 = 4
    ∧ 1 * exLsmsUniform.n_spin_cant * (exAtomMismatch.LIZlmax 1 + 1) ^ 2 = 4 := by
  refine ⟨by decide, ?_, by decide, by decide⟩
  have hsel : lmaxIdentical exLsmsUniform.maxlmax exAtomMismatch.numLIZ
      exAtomMismatch.LIZlmax = true := by decide
  unfold buildKKRMatrixHip
  rw [if_pos hsel, buildIdentical_devIpvt]
  decide


/-! ## Unimplemented modes -/

/-- C12 does not hold for the code: with `lsms.relativity = full` the build
returns normally. For `n_spin_cant = 1` it returns exactly what the build
with `relativity = none` returns; for any `n_spin_cant` the BGij it hands
back is the zeroed buffer with only the launch of `buildGijHipKernel` applied:
the blocks of `setBGijHip` write nothing and do not stop the build. -/
theorem C12_full_relativity_returns {K : Type} [LinearOrderedField K] [RealFns K]
    (lsms : LSMSSystemParameters) (atom : AtomData K)
    (c : DeviceConstants K) (sharedMemory : Mem K) (d : DeviceStorage K) (ispin iie : Nat)
    (energy prel : deviceDoubleComplex K) (devM : Mem (deviceDoubleComplex K)) :
    buildKKRMatrixHip { lsms with n_spin_cant := 1, relativity := RelativityType.full } atom c
        sharedMemory d ispin iie energy prel devM
      = buildKKRMatrixHip { lsms with n_spin_cant := 1, relativity := RelativityType.none } atom c
        sharedMemory d ispin iie energy prel devM
    ∧ (buildKKRMatrixLMaxDifferentHip { lsms with relativity := RelativityType.full } atom c
        sharedMemory d ispin iie energy prel devM).1.devBGij
      = gridLaunch atom.numLIZ
          (buildGijHipKernel 256 (buildGijArgs lsms atom c sharedMemory prel
            (deviceMemcpy d.devIpvt
              (offsetsLMaxDifferent lsms.n_spin_cant atom.numLIZ atom.LIZlmax) atom.numLIZ)))
          (zeroMatrixHip d.devBGij (lsms.n_spin_cant * atom.nrmat)
            (lsms.n_spin_cant * atom.nrmat))
    ∧ (buildKKRMatrixLMaxIdenticalHip { lsms with relativity := RelativityType.full } atom c
        sharedMemory d ispin iie energy prel devM).1.devBGij
      = gridLaunch atom.numLIZ
          (buildGijHipKernel 1 (buildGijArgs lsms atom c sharedMemory prel
            (deviceMemcpy d.devIpvt
              (offsetsLMaxIdentical atom.numLIZ (lsms.n_spin_cant * atom.kkrsz)) atom.numLIZ)))
          (zeroMatrixHip d.devBGij (lsms.n_spin_cant * atom.nrmat)
            (lsms.n_spin_cant * atom.nrmat)) := by
  have h1 : ∀ (t : Nat) (fr : Bool) (L o : Mem Nat) (n : Nat)
      (m : Mem (deviceDoubleComplex K)),
      gridLaunch atom.numLIZ (setBGijHip t fr 1 L o n) m = m :=
    fun t fr L o n m => gridLaunch_id _ _ (fun a b => setBGij_of_one t fr L o n a b) m
  have h2 : ∀ (t nsc : Nat) (L o : Mem Nat) (n : Nat) (m : Mem (deviceDoubleComplex K)),
      gridLaunch atom.numLIZ (setBGijHip t true nsc L o n) m = m :=
    fun t nsc L o n m => gridLaunch_id _ _ (fun a b => setBGij_of_full t nsc L o n a b) m
  refine ⟨?_, ?_, ?_⟩
  · simp only [buildKKRMatrixHip, buildKKRMatrixLMaxIdenticalHip,
      buildKKRMatrixLMaxDifferentHip, h1, buildGijArgs]
  · simp only [buildKKRMatrixLMaxDifferentHip, decide_True, h2, buildGijArgs]
  · simp only [buildKKRMatrixLMaxIdenticalHip, decide_True, h2, buildGijArgs]

/-- C13 does not hold for the code: the block function of
`buildKKRMatrixMultiplyKernelHip` is the same function for every `ispin` and
`n_spin_pola` (and so is the whole build), it reads the t-matrix through the
pointer `&devTmatStore[IDX(iie*blkSizeTmatStore, LIZStoreIdx[ir1], tmatStoreLDim)]`
and `buildTmatNHip`, which holds the collinear extraction and the warning, is
not called. For one channel, `n_spin_pola = 2`, `n_spin_cant = 1` and
`ispin = 1` the collinear extraction of `buildTmatNHip` takes element 1 of
the store (value 2), the kernel reads element 0 (value 1). -/
theorem C13_collinear_ignored {K : Type} [LinearOrderedField K] [RealFns K]
    (blockDim : Nat) (LIZlmax LIZStoreIdx offsets : Mem Nat)
    (kkrsz_ns ispin ispin2 n_spin_pola n_spin_pola2 n_spin_cant iie blkSizeTmatStore
      tmatStoreLDim : Nat) (devTmatStore : Mem (deviceDoubleComplex K)) (nrmat_ns : Nat)
    (devBgij : Mem (deviceDoubleComplex K)) (ir1 ir2 : Nat)
    (lsms : LSMSSystemParameters) (atom : AtomData K)
    (c : DeviceConstants K) (sharedMemory : Mem K) (d : DeviceStorage K)
    (energy prel : deviceDoubleComplex K) (devM : Mem (deviceDoubleComplex K)) :
    buildKKRMatrixMultiplyKernelHip blockDim LIZlmax LIZStoreIdx offsets kkrsz_ns ispin
        n_spin_pola n_spin_cant iie blkSizeTmatStore tmatStoreLDim devTmatStore nrmat_ns devBgij
        ir1 ir2 devM
      = buildKKRMatrixMultiplyKernelHip blockDim LIZlmax LIZStoreIdx offsets kkrsz_ns ispin2
        n_spin_pola2 n_spin_cant iie blkSizeTmatStore tmatStoreLDim devTmatStore nrmat_ns devBgij
        ir1 ir2 devM
    ∧ buildKKRMatrixHip { lsms with n_spin_pola := n_spin_pola } atom c sharedMemory d ispin iie
        energy prel devM
      = buildKKRMatrixHip { lsms with n_spin_pola := n_spin_pola2 } atom c sharedMemory d ispin2
        iie energy prel devM
    ∧ buildTmatNHip 1 2 1 0 2 2 1 1 0 exBufferInt 1 (fun _ => 0) 0 = 2
    ∧ exBufferInt (IDX (0 * 2) 0 2 + IDX 0 0 1) = 1 := by
  refine ⟨rfl, ?_, by decide, by decide⟩
  have hk : ∀ (t : Nat) (o : Mem Nat) (k nsc blk ldim : Nat)
      (store : Mem (deviceDoubleComplex K)) (n : Nat) (b : Mem (deviceDoubleComplex K)),
      buildKKRMatrixMultiplyKernelHip t atom.LIZlmax atom.LIZStoreIdx o k ispin n_spin_pola nsc
          iie blk ldim store n b
        = buildKKRMatrixMultiplyKernelHip t atom.LIZlmax atom.LIZStoreIdx o k ispin2
          n_spin_pola2 nsc iie blk ldim store n b := fun _ _ _ _ _ _ _ _ _ => rfl
  simp only [buildKKRMatrixHip, buildKKRMatrixLMaxIdenticalHip, buildKKRMatrixLMaxDifferentHip,
    buildGijArgs, hk]

/-! ## The Dlm combiner -/

/-- C18: `dlmFunction` returns `hfn[l]*P(l,0)` for `m = 0`,
`hfn[l]*P(l,m)*(cosmp[m] - i*sinmp[m])` for `m > 0` and
`(-1)^|m| * hfn[l]*P(l,|m|)*(cosmp[|m|] + i*sinmp[|m|])` for `m < 0`, where
`P(l,k) = plm[l(l+1)/2 + k]`. -/
theorem C18_dlm_cases {K : Type} [CommRing K] (hfn : Mem (deviceDoubleComplex K))
    (cosmp sinmp plm : Mem K) (l : Nat) (m : Int) :
    (m = 0 → dlmFunction hfn cosmp sinmp plm l m
      = hfn l * make_hipDoubleComplex (plm (l * (l + 1) / 2 + 0)) 0)
    ∧ (0 < m → dlmFunction hfn cosmp sinmp plm l m
      = hfn l * make_hipDoubleComplex (plm (l * (l + 1) / 2 + m.toNat)) 0
        * (make_hipDoubleComplex (cosmp m.toNat) 0
          - make_hipDoubleComplex 0 1 * make_hipDoubleComplex (sinmp m.toNat) 0))
    ∧ (m < 0 → dlmFunction hfn cosmp sinmp plm l m
      = (-1) ^ m.natAbs
        * (hfn l * make_hipDoubleComplex (plm (l * (l + 1) / 2 + m.natAbs)) 0
          * (make_hipDoubleComplex (cosmp m.natAbs) 0
            + make_hipDoubleComplex 0 1 * make_hipDoubleComplex (sinmp m.natAbs) 0))) := by
  have hplus : ∀ a b : K, make_hipDoubleComplex a 0
      + make_hipDoubleComplex 0 1 * make_hipDoubleComplex b 0 = make_hipDoubleComplex a b := by
    intro a b
    ext <;> simp [make_hipDoubleComplex]
  have hminus : ∀ a b : K, make_hipDoubleComplex a 0
      - make_hipDoubleComplex 0 1 * make_hipDoubleComplex b 0
        = make_hipDoubleComplex a (-b) := by
    intro a b
    ext <;> simp [make_hipDoubleComplex]
  refine ⟨?_, ?_, ?_⟩
  · intro hm
    subst hm
    simp [dlmFunction, plmIdxDev]
  · intro hm
    have h0 : m ≠ 0 := by omega
    have hn : ¬ m < 0 := by omega
    have habs : m.natAbs = m.toNat := by omega
    rw [hminus]
    simp only [dlmFunction, plmIdxDev, if_neg h0, if_neg hn, habs]
  · intro hm
    have h0 : m ≠ 0 := by omega
    rw [hplus]
    simp only [dlmFunction, plmIdxDev, if_neg h0, if_pos hm]
    rcases Nat.even_or_odd m.natAbs with he | ho
    · have hmod : ¬ m.natAbs % 2 ≠ 0 := by
        rw [Nat.even_iff] at he
        omega
      rw [if_neg hmod, he.neg_one_pow, one_mul]
    · have hmod : m.natAbs % 2 ≠ 0 := by
        rw [Nat.odd_iff] at ho
        omega
      rw [if_pos hmod, ho.neg_one_pow, neg_one_mul]


/-! ## Blocks of different site pairs -/

theorem keeps_of_frame {α : Type} (f : Mem α → Mem α) (c : Nat) (h : ∀ m, f m c = m c) :
    Keeps f c (fun m => m c) :=
  fun m => ⟨h m, Or.inr (h m)⟩

theorem blockThreads_frame {α : Type} (blockDim N : Nat) (body : Nat → Mem α → Mem α) (c : Nat)
    (h : ∀ ij < N, ∀ m, body ij m c = m c) (m : Mem α) :
    blockThreads blockDim N body m c = m c :=
  (blockThreads_keeps blockDim N body c (fun m => m c)
    (fun ij hij => keeps_of_frame _ _ (h ij hij)) m).1

theorem pos_of_lt_mul {x k n : Nat} (h : x < k * n) : 0 < n := by
  rcases Nat.eq_zero_or_pos n with hz | hz
  · subst hz
    simp at h
  · exact hz

section BlockFrames

variable {K : Type} [LinearOrderedField K] [RealFns K]

/-- A block of `buildGijHipKernel` writes no cell of the block of another site
pair. -/
theorem gijKernel_frame (blockDim numLIZ n_spin_cant : Nat) (g : GijArgs K)
    (hlay : BlockLayout numLIZ n_spin_cant g.nrmat_ns g.LIZlmax g.offsets)
    {a b a2 b2 x2 y2 : Nat} (ha : a < numLIZ) (hb : b < numLIZ) (ha2 : a2 < numLIZ)
    (hb2 : b2 < numLIZ) (hne : ¬ (a = a2 ∧ b = b2))
    (hx2 : x2 < kkrOf g.LIZlmax a2 * n_spin_cant) (hy2 : y2 < kkrOf g.LIZlmax b2 * n_spin_cant)
    (m : Mem (deviceDoubleComplex K)) :
    buildGijHipKernel blockDim g a b m (IDX (g.offsets a2 + x2) (g.offsets b2 + y2) g.nrmat_ns)
      = m (IDX (g.offsets a2 + x2) (g.offsets b2 + y2) g.nrmat_ns) := by
  have hns : 0 < n_spin_cant := pos_of_lt_mul hx2
  have hsz : ∀ s x, x < kkrOf g.LIZlmax s → x < kkrOf g.LIZlmax s * n_spin_cant := by
    intro s x hx
    exact lt_of_lt_of_le hx (Nat.le_mul_of_pos_right _ hns)
  by_cases hab : a = b
  · subst hab
    rw [gijKernel_of_eq]
  · rw [gijKernel_of_ne _ _ hab]
    refine blockThreads_frame blockDim _ _ _ (fun ij hij m => ?_) m
    rw [gijChannelPair_scalar]
    refine Function.update_noteq (fun hc => hne ?_) _ _
    obtain ⟨⟨h1, _⟩, ⟨h2, _⟩⟩ := hlay.cell_inj ha2 hb2 ha hb hx2 hy2
      (hsz _ _ (mod_lt_of_lt_mul hij)) (hsz _ _ (Nat.div_lt_of_lt_mul hij)) hc
    exact ⟨h1.symm, h2.symm⟩

/-- A block of `setBGijHip` writes no cell of the block of another site pair. -/
theorem setBGij_frame {α : Type} [Zero α] (blockDim numLIZ n_spin_cant : Nat)
    (fullRelativity : Bool) (LIZlmax offsets : Mem Nat) (nrmat_ns : Nat)
    (hlay : BlockLayout numLIZ n_spin_cant nrmat_ns LIZlmax offsets)
    {a b a2 b2 x2 y2 : Nat} (ha : a < numLIZ) (hb : b < numLIZ) (ha2 : a2 < numLIZ)
    (hb2 : b2 < numLIZ) (hne : ¬ (a = a2 ∧ b = b2))
    (hx2 : x2 < kkrOf LIZlmax a2 * n_spin_cant) (hy2 : y2 < kkrOf LIZlmax b2 * n_spin_cant)
    (m : Mem α) :
    setBGijHip blockDim fullRelativity n_spin_cant LIZlmax offsets nrmat_ns a b m
        (IDX (offsets a2 + x2) (offsets b2 + y2) nrmat_ns)
      = m (IDX (offsets a2 + x2) (offsets b2 + y2) nrmat_ns) := by
  have hns : 0 < n_spin_cant := pos_of_lt_mul hx2
  by_cases h1 : n_spin_cant = 1
  · subst h1
    rw [setBGij_of_one]
  cases fullRelativity with
  | true => rw [setBGij_of_full]
  | false =>
    rw [setBGij_of_active _ _ _ _ _ _ _ h1]
    have h2 : ∀ s, kkrOf LIZlmax s * 2 ≤ kkrOf LIZlmax s * n_spin_cant :=
      fun s => Nat.mul_le_mul_left _ (by omega)
    have key : ∀ x y, x < kkrOf LIZlmax a * 2 → y < kkrOf LIZlmax b * 2 →
        IDX (offsets a2 + x2) (offsets b2 + y2) nrmat_ns
          ≠ IDX (offsets a + x) (offsets b + y) nrmat_ns := by
      intro x y hx hy hc
      obtain ⟨⟨e1, _⟩, ⟨e2, _⟩⟩ := hlay.cell_inj ha2 hb2 ha hb hx2 hy2
        (lt_of_lt_of_le hx (h2 a)) (lt_of_lt_of_le hy (h2 b)) hc
      exact hne ⟨e1.symm, e2.symm⟩
    refine blockThreads_frame blockDim _ _ _ (fun ij hij m => ?_) m
    have hi := mod_lt_of_lt_mul hij
    have hj := Nat.div_lt_of_lt_mul hij
    have hA : IDX (offsets a2 + x2) (offsets b2 + y2) nrmat_ns
        ≠ IDX (offsets a + kkrOf LIZlmax a + ij % kkrOf LIZlmax a)
            (offsets b + ij / kkrOf LIZlmax a) nrmat_ns := by
      rw [Nat.add_assoc]
      exact key _ _ (by omega) (by omega)
    have hB : IDX (offsets a2 + x2) (offsets b2 + y2) nrmat_ns
        ≠ IDX (offsets a + ij % kkrOf LIZlmax a)
            (offsets b + kkrOf LIZlmax b + ij / kkrOf LIZlmax a) nrmat_ns := by
      rw [Nat.add_assoc]
      exact key _ _ (by omega) (by omega)
    have hC : IDX (offsets a2 + x2) (offsets b2 + y2) nrmat_ns
        ≠ IDX (offsets a + kkrOf LIZlmax a + ij % kkrOf LIZlmax a)
            (offsets b + kkrOf LIZlmax b + ij / kkrOf LIZlmax a) nrmat_ns := by
      rw [Nat.add_assoc, Nat.add_assoc]
      exact key _ _ (by omega) (by omega)
    rw [setBGijQuadrants_eq]
    simp only []
    rw [Function.update_noteq hC, Function.update_noteq hB, Function.update_noteq hA]

/-- A block of the multiply kernel writes no cell of the block of another site
pair. -/
theorem multiplyKernel_frame {α : Type} [Ring α] (blockDim numLIZ : Nat)
    (LIZlmax LIZStoreIdx offsets : Mem Nat)
    (kkrsz_ns ispin n_spin_pola n_spin_cant iie blkSizeTmatStore tmatStoreLDim : Nat)
    (devTmatStore : Mem α) (nrmat_ns : Nat) (devBgij : Mem α)
    (hlay : BlockLayout numLIZ n_spin_cant nrmat_ns LIZlmax offsets)
    {a b a2 b2 x2 y2 : Nat} (ha : a < numLIZ) (hb : b < numLIZ) (ha2 : a2 < numLIZ)
    (hb2 : b2 < numLIZ) (hne : ¬ (a = a2 ∧ b = b2))
    (hx2 : x2 < kkrOf LIZlmax a2 * n_spin_cant) (hy2 : y2 < kkrOf LIZlmax b2 * n_spin_cant)
    (m : Mem α) :
    buildKKRMatrixMultiplyKernelHip blockDim LIZlmax LIZStoreIdx offsets kkrsz_ns ispin
        n_spin_pola n_spin_cant iie blkSizeTmatStore tmatStoreLDim devTmatStore nrmat_ns devBgij
        a b m (IDX (offsets a2 + x2) (offsets b2 + y2) nrmat_ns)
      = m (IDX (offsets a2 + x2) (offsets b2 + y2) nrmat_ns) := by
  by_cases hab : a = b
  · subst hab
    rw [multiplyKernel_of_eq]
  · rw [multiplyKernel_of_ne _ _ _ _ _ _ _ _ _ _ _ _ _ _ hab]
    refine blockThreads_frame blockDim _ _ _ (fun ij hij m => ?_) m
    rw [multiplyElement_eq]
    refine Function.update_noteq (fun hc => hne ?_) _ _
    obtain ⟨⟨h1, _⟩, ⟨h2, _⟩⟩ := hlay.cell_inj ha2 hb2 ha hb hx2 hy2
      (mod_lt_of_lt_mul hij) (Nat.div_lt_of_lt_mul hij) hc
    exact ⟨h1.symm, h2.symm⟩

end BlockFrames

/-- C14: with the variable-lmax offsets and `nrmat = Σ_k (LIZlmax[k]+1)^2`,
the site intervals `[offsets[i], offsets[i] + n_spin_cant*(lmax_i+1)^2)` lie
inside `[0, nrmat_ns)` and are pairwise disjoint for distinct sites; hence a
cell of the block of the site pair `(a2, b2)` is not a cell of the block of a
different pair `(a, b)`, and the blocks `(a, b)` of `buildGijHipKernel`,
`setBGijHip` and the multiply kernel, run on the offsets copied to the device,
leave it unchanged. -/
theorem C14_disjoint_blocks {K : Type} [LinearOrderedField K] [RealFns K]
    (numLIZ n_spin_cant nrmat : Nat) (LIZlmax devIpvt : Mem Nat)
    (hnr : nrmat = ∑ k ∈ Finset.range numLIZ, (LIZlmax k + 1) ^ 2) :
    (∀ i < numLIZ, offsetsLMaxDifferent n_spin_cant numLIZ LIZlmax i
        + n_spin_cant * (LIZlmax i + 1) ^ 2 ≤ n_spin_cant * nrmat)
    ∧ (∀ i < numLIZ, ∀ j < numLIZ, i ≠ j →
        offsetsLMaxDifferent n_spin_cant numLIZ LIZlmax i + n_spin_cant * (LIZlmax i + 1) ^ 2
            ≤ offsetsLMaxDifferent n_spin_cant numLIZ LIZlmax j
          ∨ offsetsLMaxDifferent n_spin_cant numLIZ LIZlmax j
              + n_spin_cant * (LIZlmax j + 1) ^ 2
            ≤ offsetsLMaxDifferent n_spin_cant numLIZ LIZlmax i)
    ∧ (∀ a < numLIZ, ∀ b < numLIZ, ∀ a2 < numLIZ, ∀ b2 < numLIZ, ¬ (a = a2 ∧ b = b2) →
        ∀ x2 < n_spin_cant * (LIZlmax a2 + 1) ^ 2, ∀ y2 < n_spin_cant * (LIZlmax b2 + 1) ^ 2,
          (∀ x < n_spin_cant * (LIZlmax a + 1) ^ 2, ∀ y < n_spin_cant * (LIZlmax b + 1) ^ 2,
            IDX (offsetsLMaxDifferent n_spin_cant numLIZ LIZlmax a + x)
                (offsetsLMaxDifferent n_spin_cant numLIZ LIZlmax b + y) (n_spin_cant * nrmat)
              ≠ IDX (offsetsLMaxDifferent n_spin_cant numLIZ LIZlmax a2 + x2)
                (offsetsLMaxDifferent n_spin_cant numLIZ LIZlmax b2 + y2) (n_spin_cant * nrmat))
          ∧ (∀ (blockDim : Nat) (g : GijArgs K) (m : Mem (deviceDoubleComplex K)),
            buildGijHipKernel blockDim
                { g with
                  LIZlmax := LIZlmax
                  offsets := deviceMemcpy devIpvt
                    (offsetsLMaxDifferent n_spin_cant numLIZ LIZlmax) numLIZ
                  nrmat_ns := n_spin_cant * nrmat } a b m
                (IDX (offsetsLMaxDifferent n_spin_cant numLIZ LIZlmax a2 + x2)
                  (offsetsLMaxDifferent n_spin_cant numLIZ LIZlmax b2 + y2) (n_spin_cant * nrmat))
              = m (IDX (offsetsLMaxDifferent n_spin_cant numLIZ LIZlmax a2 + x2)
                  (offsetsLMaxDifferent n_spin_cant numLIZ LIZlmax b2 + y2)
                  (n_spin_cant * nrmat)))
          ∧ (∀ (blockDim : Nat) (fullRelativity : Bool) (m : Mem (deviceDoubleComplex K)),
            setBGijHip blockDim fullRelativity n_spin_cant LIZlmax
                (deviceMemcpy devIpvt (offsetsLMaxDifferent n_spin_cant numLIZ LIZlmax) numLIZ)
                (n_spin_cant * nrmat) a b m
                (IDX (offsetsLMaxDifferent n_spin_cant numLIZ LIZlmax a2 + x2)
                  (offsetsLMaxDifferent n_spin_cant numLIZ LIZlmax b2 + y2) (n_spin_cant * nrmat))
              = m (IDX (offsetsLMaxDifferent n_spin_cant numLIZ LIZlmax a2 + x2)
                  (offsetsLMaxDifferent n_spin_cant numLIZ LIZlmax b2 + y2)
                  (n_spin_cant * nrmat)))
          ∧ (∀ (blockDim : Nat) (LIZStoreIdx : Mem Nat)
              (kkrsz_ns ispin n_spin_pola iie blkSizeTmatStore tmatStoreLDim : Nat)
              (devTmatStore devBgij m : Mem (deviceDoubleComplex K)),
            buildKKRMatrixMultiplyKernelHip blockDim LIZlmax LIZStoreIdx
                (deviceMemcpy devIpvt (offsetsLMaxDifferent n_spin_cant numLIZ LIZlmax) numLIZ)
                kkrsz_ns ispin n_spin_pola n_spin_cant iie blkSizeTmatStore tmatStoreLDim
                devTmatStore (n_spin_cant * nrmat) devBgij a b m
                (IDX (offsetsLMaxDifferent n_spin_cant numLIZ LIZlmax a2 + x2)
                  (offsetsLMaxDifferent n_spin_cant numLIZ LIZlmax b2 + y2) (n_spin_cant * nrmat))
              = m (IDX (offsetsLMaxDifferent n_spin_cant numLIZ LIZlmax a2 + x2)
                  (offsetsLMaxDifferent n_spin_cant numLIZ LIZlmax b2 + y2)
                  (n_spin_cant * nrmat)))) := by
  have hk : ∀ i, n_spin_cant * (LIZlmax i + 1) ^ 2 = kkrOf LIZlmax i * n_spin_cant := by
    intro i
    rw [kkrOf_eq_sq, Nat.mul_comm]
  have hhost : deviceMemcpy (offsetsLMaxDifferent n_spin_cant numLIZ LIZlmax)
      (offsetsLMaxDifferent n_spin_cant numLIZ LIZlmax) numLIZ
        = offsetsLMaxDifferent n_spin_cant numLIZ LIZlmax := by
    funext idx
    simp [deviceMemcpy]
  have hlay0 := blockLayout_different numLIZ n_spin_cant nrmat LIZlmax
    (offsetsLMaxDifferent n_spin_cant numLIZ LIZlmax) (le_of_eq hnr.symm)
  rw [hhost] at hlay0
  have hlay := blockLayout_different numLIZ n_spin_cant nrmat LIZlmax devIpvt
    (le_of_eq hnr.symm)
  have hdev : ∀ i < numLIZ,
      deviceMemcpy devIpvt (offsetsLMaxDifferent n_spin_cant numLIZ LIZlmax) numLIZ i
        = offsetsLMaxDifferent n_spin_cant numLIZ LIZlmax i := by
    intro i hi
    simp [deviceMemcpy, hi]
  simp only [hk]
  refine ⟨hlay0.1, hlay0.2, ?_⟩
  intro a ha b hb a2 ha2 b2 hb2 hne x2 hx2 y2 hy2
  rw [← hdev a2 ha2, ← hdev b2 hb2]
  refine ⟨?_, ?_, ?_, ?_⟩
  · intro x hx y hy hc
    rw [hdev a2 ha2, hdev b2 hb2] at hc
    obtain ⟨⟨e1, _⟩, ⟨e2, _⟩⟩ := hlay0.cell_inj ha hb ha2 hb2 hx hy hx2 hy2 hc
    exact hne ⟨e1, e2⟩
  · intro blockDim g m
    exact gijKernel_frame blockDim numLIZ n_spin_cant
      { g with
        LIZlmax := LIZlmax
        offsets := deviceMemcpy devIpvt
          (offsetsLMaxDifferent n_spin_cant numLIZ LIZlmax) numLIZ
        nrmat_ns := n_spin_cant * nrmat } hlay ha hb ha2 hb2 hne hx2 hy2 m
  · intro blockDim fullRelativity m
    exact setBGij_frame blockDim numLIZ n_spin_cant fullRelativity LIZlmax _ _ hlay ha hb ha2
      hb2 hne hx2 hy2 m
  · intro blockDim LIZStoreIdx kkrsz_ns ispin n_spin_pola iie blkSizeTmatStore tmatStoreLDim
      devTmatStore devBgij m
    exact multiplyKernel_frame blockDim numLIZ LIZlmax LIZStoreIdx _ kkrsz_ns ispin n_spin_pola
      n_spin_cant iie blkSizeTmatStore tmatStoreLDim devTmatStore _ devBgij hlay ha hb ha2 hb2
      hne hx2 hy2 m

/-- C14 at the example sites (cutoffs 1 and 0, two spin components,
`nrmat = 4 + 1`). -/
theorem C14_disjoint_blocks_witness :
    (5 = ∑ k ∈ Finset.range 2, (exLIZlmax k + 1) ^ 2)
    ∧ (offsetsLMaxDifferent 2 2 exLIZlmax 0 + 2 * (exLIZlmax 0 + 1) ^ 2
          ≤ offsetsLMaxDifferent 2 2 exLIZlmax 1
        ∨ offsetsLMaxDifferent 2 2 exLIZlmax 1 + 2 * (exLIZlmax 1 + 1) ^ 2
          ≤ offsetsLMaxDifferent 2 2 exLIZlmax 0) :=
  ⟨by decide,
    (@C14_disjoint_blocks ℚ _ _ 2 2 5 exLIZlmax (fun _ => 0) (by decide)).2.1 0 (by decide) 1
      (by decide) (by decide)⟩


/-! ## The Hankel table -/

theorem forLoop_fst {σ τ : Type} (lo hi : Nat) (f : Nat → σ → σ) (g : Nat → σ × τ → τ) (s : σ)
    (t : τ) :
    (forLoop lo hi (fun i st => (f i st.1, g i st)) (s, t)).1 = forLoop lo hi f s := by
  unfold forLoop
  generalize List.range' lo (hi - lo) = L
  induction L generalizing s t with
  | nil => rfl
  | cons i L ih => exact ih _ _

theorem foldl_log {σ τ : Type} (f : Nat → σ → σ) (z : τ) (L : List Nat) (s : σ)
    (t : List τ) :
    (L.foldl (fun st i => (f i st.1, st.2 ++ [z])) (s, t)).2
      = t ++ List.replicate L.length z := by
  induction L generalizing s t with
  | nil => simp
  | cons i L ih =>
    rw [List.foldl_cons, ih]
    simp [List.replicate_succ]

theorem forLoop_log {σ τ : Type} (lo hi : Nat) (f : Nat → σ → σ) (z : τ) (s : σ)
    (t : List τ) :
    (forLoop lo hi (fun i st => (f i st.1, st.2 ++ [z])) (s, t)).2
      = t ++ List.replicate (hi - lo) z := by
  unfold forLoop
  rw [foldl_log, List.length_range']

theorem div_x {K : Type} [Add K] [Sub K] [Mul K] [Div K] (a b : deviceDoubleComplex K) :
    (a / b).x = (a.x * b.x + a.y * b.y) / (b.x * b.x + b.y * b.y) := rfl

theorem div_y {K : Type} [Add K] [Sub K] [Mul K] [Div K] (a b : deviceDoubleComplex K) :
    (a / b).y = (a.y * b.x - a.x * b.y) / (b.x * b.x + b.y * b.y) := rfl

theorem loadComplex_store_same {K : Type} (sharedMemory : Mem K) (p l : Nat) (v : deviceDoubleComplex K) :
    loadComplex (storeComplex sharedMemory p l v) p l = v := by
  ext <;> simp [loadComplex, storeComplex]

theorem loadComplex_store_ne {K : Type} (sharedMemory : Mem K) (p l l2 : Nat)
    (v : deviceDoubleComplex K) (h : l2 ≠ l) :
    loadComplex (storeComplex sharedMemory p l v) p l2 = loadComplex sharedMemory p l2 := by
  have h1 : p + 2 * l2 ≠ p + 2 * l := by omega
  have h2 : p + 2 * l2 ≠ p + 2 * l + 1 := by omega
  have h3 : p + 2 * l2 + 1 ≠ p + 2 * l := by omega
  have h4 : 2 * l2 ≠ 2 * l := by omega
  ext <;> simp [loadComplex, storeComplex, Function.update_apply, h1, h2, h3, h4]

section Hankel

variable {K : Type} [LinearOrderedField K] [RealFns K]

/-- The recurrence loop of `calculateHankelHip` leaves `h[k]` in `hfn[k]`. -/
theorem hankel_recurrence_loop (z : deviceDoubleComplex K) (hfn : Nat) (s : Mem K)
    (h0 : loadComplex s hfn 0 = specHankel z 0) (h1 : loadComplex s hfn 1 = specHankel z 1) :
    ∀ n k, k ≤ max n 1 →
      loadComplex
        (forLoop 1 n (fun l sharedMemory =>
          storeComplex sharedMemory hfn (l + 1)
            ((make_hipDoubleComplex (2 * (l : K) + 1) 0 * loadComplex sharedMemory hfn l / z)
              - loadComplex sharedMemory hfn (l - 1))) s) hfn k
        = specHankel z k := by
  intro n
  induction n with
  | zero =>
    intro k hk
    rw [forLoop_of_le _ _ _ _ (by omega)]
    have : k = 0 ∨ k = 1 := by
      simp at hk
      omega
    rcases this with rfl | rfl
    · exact h0
    · exact h1
  | succ n ih =>
    intro k hk
    rcases Nat.eq_zero_or_pos n with hn | hn
    · subst hn
      rw [forLoop_of_le _ _ _ _ (by omega)]
      have : k = 0 ∨ k = 1 := by
        simp at hk
        omega
      rcases this with rfl | rfl
      · exact h0
      · exact h1
    · rw [forLoop_succ _ _ _ _ hn]
      have hmax : max (n + 1) 1 = n + 1 := by omega
      have hmax2 : max n 1 = n := by omega
      rw [hmax] at hk
      by_cases hkn : k = n + 1
      · subst hkn
        rw [loadComplex_store_same, ih n (by omega), ih (n - 1) (by omega)]
        obtain ⟨j, rfl⟩ : ∃ j, n = j + 1 := ⟨n - 1, by omega⟩
        simp only [Nat.add_sub_cancel, specHankel]
      · rw [loadComplex_store_ne _ _ _ _ _ hkn]
        exact ih k (by omega)

/-- The scaling loop of `calculateHankelHip` replaces `hfn[k]` by
`(-hfn[k]) * w * ilp1[k]`. -/
theorem hankel_scale_loop (w : deviceDoubleComplex K) (ilp1 : Mem (deviceDoubleComplex K))
    (hfn : Nat) (s : Mem K) :
    ∀ n k,
      loadComplex
        (forLoop 0 n (fun l sharedMemory =>
          storeComplex sharedMemory hfn l
            (((-(loadComplex sharedMemory hfn l)) * w) * ilp1 l)) s) hfn k
        = if k < n then ((-(loadComplex s hfn k)) * w) * ilp1 k else loadComplex s hfn k := by
  intro n
  induction n with
  | zero =>
    intro k
    rw [forLoop_of_le _ _ _ _ (le_refl 0)]
    simp
  | succ n ih =>
    intro k
    rw [forLoop_succ _ _ _ _ (Nat.zero_le n)]
    by_cases hkn : k = n
    · subst hkn
      rw [loadComplex_store_same, ih, if_neg (lt_irrefl _), if_pos (Nat.lt_succ_self _)]
    · rw [loadComplex_store_ne _ _ _ _ _ hkn, ih]
      by_cases hlt : k < n
      · rw [if_pos hlt, if_pos (by omega)]
      · rw [if_neg hlt, if_neg (by omega)]

theorem calculateHankelHip_entry (prel : deviceDoubleComplex K) (r : K) (lend : Nat)
    (ilp1 : Mem (deviceDoubleComplex K)) (hfn : Nat) (sharedMemory : Mem K) (l : Nat)
    (hl : l ≤ lend) :
    loadComplex (calculateHankelHip prel r lend ilp1 hfn sharedMemory) hfn l
      = ((-(specHankel (prel * make_hipDoubleComplex r 0) l))
          * (complexExp (make_hipDoubleComplex 0 1 * (prel * make_hipDoubleComplex r 0))
              / make_hipDoubleComplex r 0))
        * ilp1 l := by
  unfold calculateHankelHip
  simp only []
  rw [hankel_scale_loop, if_pos (by omega), hankel_recurrence_loop _ _ _ ?_ ?_ _ _ (by omega)]
  · rw [loadComplex_store_ne _ _ _ _ _ (by omega), loadComplex_store_same]
    rfl
  · rw [loadComplex_store_same]
    rfl

theorem calculateHankelHipLogged_fst (prel : deviceDoubleComplex K) (r : K) (lend : Nat)
    (ilp1 : Mem (deviceDoubleComplex K)) (hfn : Nat) (sharedMemory : Mem K) :
    (calculateHankelHipLogged prel r lend ilp1 hfn sharedMemory).1
      = calculateHankelHip prel r lend ilp1 hfn sharedMemory := by
  unfold calculateHankelHipLogged calculateHankelHip
  simp only []
  rw [forLoop_fst 1 lend
    (fun l sharedMemory =>
      storeComplex sharedMemory hfn (l + 1)
        ((make_hipDoubleComplex (2 * (l : K) + 1) 0 * loadComplex sharedMemory hfn l
            / (prel * make_hipDoubleComplex r 0))
          - loadComplex sharedMemory hfn (l - 1)))
    (fun _ st => st.2 ++ [prel * make_hipDoubleComplex r 0])]

theorem calculateHankelHipLogged_snd (prel : deviceDoubleComplex K) (r : K) (lend : Nat)
    (ilp1 : Mem (deviceDoubleComplex K)) (hfn : Nat) (sharedMemory : Mem K) :
    (calculateHankelHipLogged prel r lend ilp1 hfn sharedMemory).2
      = [prel * make_hipDoubleComplex r 0]
        ++ List.replicate (lend - 1) (prel * make_hipDoubleComplex r 0)
        ++ [make_hipDoubleComplex r 0] := by
  unfold calculateHankelHipLogged
  simp only []
  rw [forLoop_log 1 lend
    (fun l sharedMemory =>
      storeComplex sharedMemory hfn (l + 1)
        ((make_hipDoubleComplex (2 * (l : K) + 1) 0 * loadComplex sharedMemory hfn l
            / (prel * make_hipDoubleComplex r 0))
          - loadComplex sharedMemory hfn (l - 1)))
    (prel * make_hipDoubleComplex r 0)]




/-- For `prel ≠ 0` and `r ≠ 0` no divisor of `calculateHankelHip` is zero. -/
theorem hankel_divisors_ne_zero (prel : deviceDoubleComplex K) (r : K) (lend : Nat)
    (ilp1 : Mem (deviceDoubleComplex K)) (hfn : Nat) (sharedMemory : Mem K) (hp : prel ≠ 0)
    (hr : r ≠ 0) :
    ∀ d ∈ (calculateHankelHipLogged prel r lend ilp1 hfn sharedMemory).2, d ≠ 0 := by
  have hz : prel * make_hipDoubleComplex r 0 ≠ 0 := by
    intro h
    apply hp
    have hx := congrArg deviceDoubleComplex.x h
    have hy := congrArg deviceDoubleComplex.y h
    simp [make_hipDoubleComplex, hr] at hx hy
    ext
    · exact hx
    · exact hy
  have hr0 : make_hipDoubleComplex r 0 ≠ (0 : deviceDoubleComplex K) := by
    intro h
    exact hr (congrArg deviceDoubleComplex.x h)
  intro d hd
  rw [calculateHankelHipLogged_snd] at hd
  simp only [List.mem_append, List.mem_singleton, List.mem_replicate] at hd
  rcases hd with (rfl | ⟨_, rfl⟩) | rfl
  · exact hz
  · exact hz
  · exact hr0

end Hankel

/-- C16 does not hold for the code: for `prel = 0` (any `r`, any `lend`) the
first division of `calculateHankelHip`, `sqrtm1/z` in the assignment to
`hfn[1]`, has the divisor `z = prel*r = 0`; the logged function is
`calculateHankelHip` itself with the list of its divisors. -/
theorem C16_division_by_zero {K : Type} [LinearOrderedField K] [RealFns K] (r : K) (lend : Nat)
    (ilp1 : Mem (deviceDoubleComplex K)) (hfn : Nat) (sharedMemory : Mem K) :
    (calculateHankelHipLogged 0 r lend ilp1 hfn sharedMemory).1
        = calculateHankelHip 0 r lend ilp1 hfn sharedMemory
    ∧ (calculateHankelHipLogged 0 r lend ilp1 hfn sharedMemory).2.head? = some 0
    ∧ (0 : deviceDoubleComplex K)
        ∈ (calculateHankelHipLogged 0 r lend ilp1 hfn sharedMemory).2 := by
  refine ⟨calculateHankelHipLogged_fst _ _ _ _ _ _, ?_, ?_⟩
  · rw [calculateHankelHipLogged_snd]
    simp
  · rw [calculateHankelHipLogged_snd]
    simp

/-- C17 (as amended): for every `l ≤ lend`, with `z = prel*r`,
`calculateHankelHip` leaves `hfn[l] = (-h[l]) * (exp(i*z)/r) * ilp1[l]`, where
`h[0] = -i`, `h[1] = -1 - i/z` and `h[l+1] = (2l+1)*h[l]/z - h[l-1]`. -/
theorem C17_hankel_table {K : Type} [LinearOrderedField K] [RealFns K]
    (prel : deviceDoubleComplex K) (r : K) (lend : Nat)
    (ilp1 : Mem (deviceDoubleComplex K)) (hfn : Nat) (sharedMemory : Mem K) (l : Nat)
    (hl : l ≤ lend) :
    loadComplex (calculateHankelHip prel r lend ilp1 hfn sharedMemory) hfn l
      = ((-(specHankel (prel * make_hipDoubleComplex r 0) l))
          * (complexExp (make_hipDoubleComplex 0 1 * (prel * make_hipDoubleComplex r 0))
              / make_hipDoubleComplex r 0))
        * ilp1 l :=
  calculateHankelHip_entry prel r lend ilp1 hfn sharedMemory l hl

/-- C17 (as amended) at `prel = 1 + i`, `r = 5`, `lend = 2`, entry `l = 2`. -/
theorem C17_hankel_table_witness :
    (2 : Nat) ≤ 2
    ∧ loadComplex (calculateHankelHip (⟨1, 1⟩ : deviceDoubleComplex ℚ) 5 2 exConstants.ilp1 0
          (fun _ => 0)) 0 2
      = ((-(specHankel ((⟨1, 1⟩ : deviceDoubleComplex ℚ) * make_hipDoubleComplex 5 0) 2))
          * (complexExp (make_hipDoubleComplex 0 1
                * ((⟨1, 1⟩ : deviceDoubleComplex ℚ) * make_hipDoubleComplex 5 0))
              / make_hipDoubleComplex 5 0))
        * exConstants.ilp1 2 :=
  ⟨le_refl 2, C17_hankel_table ⟨1, 1⟩ 5 2 exConstants.ilp1 0 (fun _ => 0) 2 (le_refl 2)⟩

/-- C17 as stated fails: for `prel = 1`, `r = 1`, `lend = 0` and `ilp1[0] = i`
(with the stand-in functions `exp q = 1 + q`, `cos q = 1`, `sin q = q`, for
which `exp(i*z)/r = 1 + i`) the code leaves `hfn[0] = -1 - i`, while
`h[0] * (exp(i*z)/r) * ilp1[0] = 1 + i`: the code stores the negated value. -/
theorem C17_counterexample :
    loadComplex (calculateHankelHip (⟨1, 0⟩ : deviceDoubleComplex ℚ) 1 0 (fun _ => ⟨0, 1⟩) 0
        (fun _ => 0)) 0 0 = ⟨-1, -1⟩
    ∧ specHankel ((⟨1, 0⟩ : deviceDoubleComplex ℚ) * make_hipDoubleComplex 1 0) 0
        * (complexExp (make_hipDoubleComplex 0 1
              * ((⟨1, 0⟩ : deviceDoubleComplex ℚ) * make_hipDoubleComplex 1 0))
            / make_hipDoubleComplex 1 0)
        * ⟨0, 1⟩ = ⟨1, 1⟩
    ∧ loadComplex (calculateHankelHip (⟨1, 0⟩ : deviceDoubleComplex ℚ) 1 0 (fun _ => ⟨0, 1⟩) 0
        (fun _ => 0)) 0 0
      ≠ specHankel ((⟨1, 0⟩ : deviceDoubleComplex ℚ) * make_hipDoubleComplex 1 0) 0
        * (complexExp (make_hipDoubleComplex 0 1
              * ((⟨1, 0⟩ : deviceDoubleComplex ℚ) * make_hipDoubleComplex 1 0))
            / make_hipDoubleComplex 1 0)
        * ⟨0, 1⟩ := by
  have hexp : complexExp (make_hipDoubleComplex 0 1
        * ((⟨1, 0⟩ : deviceDoubleComplex ℚ) * make_hipDoubleComplex 1 0))
      / make_hipDoubleComplex 1 0 = ⟨1, 1⟩ := by
    ext <;> simp [complexExp, make_hipDoubleComplex, div_x, div_y, RealFns.exp,
      RealFns.cos, RealFns.sin]
  have hcode : loadComplex (calculateHankelHip (⟨1, 0⟩ : deviceDoubleComplex ℚ) 1 0
      (fun _ => ⟨0, 1⟩) 0 (fun _ => 0)) 0 0 = ⟨-1, -1⟩ := by
    rw [calculateHankelHip_entry _ _ _ _ _ _ _ (le_refl 0), hexp]
    ext <;> simp [specHankel, make_hipDoubleComplex]
  have hspec : specHankel ((⟨1, 0⟩ : deviceDoubleComplex ℚ) * make_hipDoubleComplex 1 0) 0
        * (complexExp (make_hipDoubleComplex 0 1
              * ((⟨1, 0⟩ : deviceDoubleComplex ℚ) * make_hipDoubleComplex 1 0))
            / make_hipDoubleComplex 1 0)
        * ⟨0, 1⟩ = ⟨1, 1⟩ := by
    rw [hexp]
    ext <;> simp [specHankel, make_hipDoubleComplex]
  refine ⟨hcode, hspec, ?_⟩
  rw [hcode, hspec]
  decide


/-! ## The azimuthal powers -/

theorem normSq_pow {K : Type} [CommRing K] (u : deviceDoubleComplex K) (m : Nat) :
    (u ^ m).x * (u ^ m).x + (u ^ m).y * (u ^ m).y = (u.x * u.x + u.y * u.y) ^ m := by
  induction m with
  | zero => simp
  | succ m ih =>
    rw [pow_succ, pow_succ, ← ih]
    simp only [deviceDoubleComplex.mul_x, deviceDoubleComplex.mul_y]
    ring

section SinCos

variable {K : Type} [LinearOrderedField K] [RealFns K]

/-- The angle-addition loop of `calculateSinCosPowersHip` leaves the components
of `u^k` in `cosmp[k]` and `sinmp[k]` when it starts from `1` and `u`. -/
theorem sincos_loop (u : deviceDoubleComplex K) (sinmp cosmp : Nat) (s : Mem K)
    (hc0 : s (cosmp + 0) = 1) (hs0 : s (sinmp + 0) = 0) (hc1 : s (cosmp + 1) = u.x)
    (hs1 : s (sinmp + 1) = u.y) :
    ∀ n, 1 ≤ n → (∀ a ≤ n, ∀ b ≤ n, sinmp + a ≠ cosmp + b) → ∀ k ≤ n,
      forLoop 2 (n + 1) (fun m sharedMemory =>
          let sharedMemory := Function.update sharedMemory (cosmp + m)
            (sharedMemory (cosmp + (m - 1)) * sharedMemory (cosmp + 1)
              - sharedMemory (sinmp + (m - 1)) * sharedMemory (sinmp + 1))
          Function.update sharedMemory (sinmp + m)
            (sharedMemory (sinmp + (m - 1)) * sharedMemory (cosmp + 1)
              + sharedMemory (cosmp + (m - 1)) * sharedMemory (sinmp + 1))) s (cosmp + k)
          = (u ^ k).x
      ∧ forLoop 2 (n + 1) (fun m sharedMemory =>
          let sharedMemory := Function.update sharedMemory (cosmp + m)
            (sharedMemory (cosmp + (m - 1)) * sharedMemory (cosmp + 1)
              - sharedMemory (sinmp + (m - 1)) * sharedMemory (sinmp + 1))
          Function.update sharedMemory (sinmp + m)
            (sharedMemory (sinmp + (m - 1)) * sharedMemory (cosmp + 1)
              + sharedMemory (cosmp + (m - 1)) * sharedMemory (sinmp + 1))) s (sinmp + k)
          = (u ^ k).y := by
  intro n
  induction n with
  | zero =>
    intro h
    omega
  | succ n ih =>
    intro _ hdisj k hk
    rcases Nat.eq_zero_or_pos n with hn | hn
    · subst hn
      rw [forLoop_of_le _ _ _ _ (le_refl 2)]
      have : k = 0 ∨ k = 1 := by omega
      rcases this with rfl | rfl
      · exact ⟨by rw [hc0, pow_zero]; rfl, by rw [hs0, pow_zero]; rfl⟩
      · exact ⟨by rw [hc1, pow_one], by rw [hs1, pow_one]⟩
    · have ih2 := ih hn (fun a ha b hb => hdisj a (by omega) b (by omega))
      rw [forLoop_succ _ _ _ _ (by omega : 2 ≤ n + 1)]
      generalize forLoop 2 (n + 1) _ s = t at ih2 ⊢
      have e1 : sinmp + (n + 1 - 1) ≠ cosmp + (n + 1) := hdisj _ (by omega) _ (by omega)
      have e2 : sinmp + 1 ≠ cosmp + (n + 1) := hdisj _ (by omega) _ (by omega)
      have e3 : cosmp + (n + 1 - 1) ≠ cosmp + (n + 1) := by omega
      have e4 : cosmp + 1 ≠ cosmp + (n + 1) := by omega
      have e5 : cosmp + (n + 1) ≠ sinmp + (n + 1) :=
        fun h => hdisj _ (by omega) _ (by omega) h.symm
      have hn1 : n + 1 - 1 = n := by omega
      rw [Function.update_noteq e1, Function.update_noteq e2, Function.update_noteq e3,
        Function.update_noteq e4]
      rw [hn1] at *
      rw [(ih2 n (le_refl n)).1, (ih2 n (le_refl n)).2, (ih2 1 hn).1, (ih2 1 hn).2, pow_one]
      by_cases hkn : k = n + 1
      · subst hkn
        rw [Function.update_noteq e5, Function.update_same, Function.update_same, pow_succ]
        simp only [deviceDoubleComplex.mul_x, deviceDoubleComplex.mul_y]
        refine ⟨trivial, ?_⟩
        ring
      · have f1 : cosmp + k ≠ sinmp + (n + 1) :=
          fun h => hdisj _ (by omega) _ (by omega) h.symm
        have f2 : cosmp + k ≠ cosmp + (n + 1) := by omega
        have f3 : sinmp + k ≠ sinmp + (n + 1) := by omega
        have f4 : sinmp + k ≠ cosmp + (n + 1) := hdisj _ (by omega) _ (by omega)
        rw [Function.update_noteq f1, Function.update_noteq f2, Function.update_noteq f3,
          Function.update_noteq f4]
        exact ih2 k (by omega)

/-- The tables of `calculateSinCosPowersHip` hold the components of `u^m`. -/
theorem calculateSinCosPowersHip_entry (rij : Nat → K) (lend sinmp cosmp : Nat)
    (sharedMemory : Mem K) (hlend : 1 ≤ lend)
    (hdisj : ∀ a ≤ lend, ∀ b ≤ lend, sinmp + a ≠ cosmp + b) (m : Nat) (hm : m ≤ lend) :
    calculateSinCosPowersHip rij lend sinmp cosmp sharedMemory (cosmp + m)
        = (specAzimuth rij ^ m).x
      ∧ calculateSinCosPowersHip rij lend sinmp cosmp sharedMemory (sinmp + m)
        = (specAzimuth rij ^ m).y := by
  have d00 : sinmp ≠ cosmp := hdisj 0 (by omega) 0 (by omega)
  have d01 : sinmp ≠ cosmp + 1 := hdisj 0 (by omega) 1 (by omega)
  have d10 : sinmp + 1 ≠ cosmp := hdisj 1 (by omega) 0 (by omega)
  have d11 : sinmp + 1 ≠ cosmp + 1 := hdisj 1 (by omega) 1 (by omega)
  have c01 : cosmp ≠ cosmp + 1 := by omega
  have s01 : sinmp ≠ sinmp + 1 := by omega
  unfold calculateSinCosPowersHip
  simp only []
  refine sincos_loop (specAzimuth rij) sinmp cosmp _ ?_ ?_ ?_ ?_ lend hlend hdisj m hm
  · split_ifs <;>
      simp [Function.update_apply, d00, d01, d10, d11, c01, s01, d00.symm, d01.symm, d10.symm,
        d11.symm]
  · split_ifs <;>
      simp [Function.update_apply, d00, d01, d10, d11, c01, s01, d00.symm, d01.symm, d10.symm,
        d11.symm]
  · unfold specAzimuth
    split_ifs <;>
      simp [Function.update_apply, d00, d01, d10, d11, c01, s01, d00.symm, d01.symm, d10.symm,
        d11.symm, make_hipDoubleComplex]
  · unfold specAzimuth
    split_ifs <;>
      simp [Function.update_apply, d00, d01, d10, d11, c01, s01, d00.symm, d01.symm, d10.symm,
        d11.symm, make_hipDoubleComplex]

end SinCos


/-- C19: for `lend ≥ 1` and tables `sinmp[0..lend]`, `cosmp[0..lend]` that do
not overlap, `calculateSinCosPowersHip` yields `cosmp[m] + i*sinmp[m] = u^m`
for every `m ≤ lend`, with `u = (rij_x + i*rij_y)/pmag` if
`pmag = sqrt(rij_x^2 + rij_y^2)` exceeds `1e-6` and `u = 0` otherwise; in
particular `cosmp[0] = 1`, `sinmp[0] = 0`, off the pole (where `sqrt` is exact,
`pmag*pmag = rij_x^2 + rij_y^2`) `cosmp[m]^2 + sinmp[m]^2 = 1`, and at the pole
all harmonics `m ≥ 1` are `0`. -/
theorem C19_sincos_powers {K : Type} [LinearOrderedField K] [RealFns K] (rij : Nat → K)
    (lend sinmp cosmp : Nat) (sharedMemory : Mem K) (hlend : 1 ≤ lend)
    (hdisj : ∀ a ≤ lend, ∀ b ≤ lend, sinmp + a ≠ cosmp + b) :
    (∀ m ≤ lend,
      make_hipDoubleComplex
          (calculateSinCosPowersHip rij lend sinmp cosmp sharedMemory (cosmp + m))
          (calculateSinCosPowersHip rij lend sinmp cosmp sharedMemory (sinmp + m))
        = specAzimuth rij ^ m)
    ∧ calculateSinCosPowersHip rij lend sinmp cosmp sharedMemory (cosmp + 0) = 1
    ∧ calculateSinCosPowersHip rij lend sinmp cosmp sharedMemory (sinmp + 0) = 0
    ∧ (RealFns.sqrt (rij 0 * rij 0 + rij 1 * rij 1) > 1 / 1000000 →
        RealFns.sqrt (rij 0 * rij 0 + rij 1 * rij 1)
            * RealFns.sqrt (rij 0 * rij 0 + rij 1 * rij 1)
          = rij 0 * rij 0 + rij 1 * rij 1 →
        ∀ m ≤ lend,
          calculateSinCosPowersHip rij lend sinmp cosmp sharedMemory (cosmp + m) ^ 2
            + calculateSinCosPowersHip rij lend sinmp cosmp sharedMemory (sinmp + m) ^ 2 = 1)
    ∧ (¬ RealFns.sqrt (rij 0 * rij 0 + rij 1 * rij 1) > 1 / 1000000 →
        ∀ m, 1 ≤ m → m ≤ lend →
          calculateSinCosPowersHip rij lend sinmp cosmp sharedMemory (cosmp + m) = 0
            ∧ calculateSinCosPowersHip rij lend sinmp cosmp sharedMemory (sinmp + m) = 0) := by
  have key := calculateSinCosPowersHip_entry rij lend sinmp cosmp sharedMemory hlend hdisj
  refine ⟨?_, ?_, ?_, ?_, ?_⟩
  · intro m hm
    exact deviceDoubleComplex.ext_xy (key m hm).1 (key m hm).2
  · rw [(key 0 (by omega)).1, pow_zero]
    rfl
  · rw [(key 0 (by omega)).2, pow_zero]
    rfl
  · intro hgt hsq m hm
    have hp0 : RealFns.sqrt (rij 0 * rij 0 + rij 1 * rij 1) ≠ 0 :=
      ne_of_gt (lt_trans (by norm_num) hgt)
    have hu : (specAzimuth rij).x * (specAzimuth rij).x
        + (specAzimuth rij).y * (specAzimuth rij).y = 1 := by
      unfold specAzimuth
      rw [if_pos hgt]
      simp only [make_hipDoubleComplex]
      generalize RealFns.sqrt (rij 0 * rij 0 + rij 1 * rij 1) = p at hp0 hsq
      have : rij 0 / p * (rij 0 / p) + rij 1 / p * (rij 1 / p)
          = (rij 0 * rij 0 + rij 1 * rij 1) / (p * p) := by ring
      rw [this, ← hsq, div_self (mul_ne_zero hp0 hp0)]
    rw [(key m hm).1, (key m hm).2, pow_two, pow_two, normSq_pow, hu, one_pow]
  · intro hle m hm1 hm
    have hu : specAzimuth rij = 0 := by
      unfold specAzimuth
      rw [if_neg hle]
    rw [(key m hm).1, (key m hm).2, hu, zero_pow (by omega)]
    exact ⟨rfl, rfl⟩

/-- C19 at the separation `(3, 4, 0)` of the example sites, `lend = 2`, with
`sinmp` at word 6 and `cosmp` at word 9 of the shared memory. -/
theorem C19_sincos_powers_witness :
    (1 ≤ 2 ∧ ∀ a ≤ 2, ∀ b ≤ 2, 6 + a ≠ 9 + b)
    ∧ make_hipDoubleComplex
          (calculateSinCosPowersHip (sitesRij exAtom.LIZPos 1 0) 2 6 9 (fun _ => 0) (9 + 2))
          (calculateSinCosPowersHip (sitesRij exAtom.LIZPos 1 0) 2 6 9 (fun _ => 0) (6 + 2))
        = specAzimuth (sitesRij exAtom.LIZPos 1 0) ^ 2 :=
  ⟨⟨by decide, fun a ha b hb => by omega⟩,
    (C19_sincos_powers (sitesRij exAtom.LIZPos 1 0) 2 6 9 (fun _ => 0) (by decide)
      (fun a ha b hb => by omega)).1 2 (le_refl 2)⟩


/-! ## The Legendre table -/

theorem plmIdxDev_succ (l : Nat) : plmIdxDev (l + 1) 0 = plmIdxDev l 0 + (l + 1) := by
  unfold plmIdxDev
  have h : (l + 1) * (l + 1 + 1) = l * (l + 1) + (l + 1) * 2 := by ring
  rw [h, Nat.add_mul_div_right _ _ (by norm_num : 0 < 2)]
  omega

theorem plmIdxDev_add (l m : Nat) : plmIdxDev l m = plmIdxDev l 0 + m := rfl

theorem plmIdxDev_row_lt {l l2 : Nat} (h : l < l2) : plmIdxDev l 0 + l < plmIdxDev l2 0 := by
  induction l2 with
  | zero => omega
  | succ k ih =>
    rw [plmIdxDev_succ]
    rcases Nat.lt_or_ge l k with hlt | hge
    · have := ih hlt
      omega
    · have : l = k := by omega
      subst this
      omega

/-- The index `plmIdxDev` is injective on the entries `m ≤ l`. -/
theorem plmIdxDev_inj {l m l2 m2 : Nat} (hm : m ≤ l) (hm2 : m2 ≤ l2)
    (h : plmIdxDev l m = plmIdxDev l2 m2) : l = l2 ∧ m = m2 := by
  rw [plmIdxDev_add l m, plmIdxDev_add l2 m2] at h
  rcases Nat.lt_trichotomy l l2 with hlt | heq | hgt
  · have := plmIdxDev_row_lt hlt
    omega
  · subst heq
    exact ⟨rfl, by omega⟩
  · have := plmIdxDev_row_lt hgt
    omega

section Legendre

variable {K : Type} [LinearOrderedField K] [RealFns K]

/-- Storing the entry `(M + n0, M)` of the table keeps the entries that already
hold their value and adds this one. -/
theorem legendre_write (x : K) (lmax Plm : Nat) (t : Mem K) (D : Nat → Nat → Prop)
    (hInv : ∀ m n, m + n ≤ lmax → D m n → t (Plm + plmIdxDev (m + n) m) = specLegendre x m n)
    (M n0 : Nat) (v : K) (hv : v = specLegendre x M n0) :
    ∀ m n, m + n ≤ lmax → (D m n ∨ (m = M ∧ n = n0)) →
      Function.update t (Plm + plmIdxDev (M + n0) M) v (Plm + plmIdxDev (m + n) m)
        = specLegendre x m n := by
  intro m n hmn hD
  by_cases he : m = M ∧ n = n0
  · obtain ⟨rfl, rfl⟩ := he
    rw [Function.update_same, hv]
  · have hne : Plm + plmIdxDev (m + n) m ≠ Plm + plmIdxDev (M + n0) M := by
      intro hc
      have := plmIdxDev_inj (Nat.le_add_right m n) (Nat.le_add_right M n0)
        (Nat.add_left_cancel hc)
      exact he ⟨this.2, by omega⟩
    rw [Function.update_noteq hne]
    rcases hD with hD | hD
    · exact hInv m n hmn hD
    · exact absurd hD he

/-- The loop over the diagonal and the sub-diagonal. -/
theorem legendre_diag_loop (x : K) (lmax Plm : Nat) (s : Mem K)
    (hs : s (Plm + plmIdxDev 0 0) = specLegendreDiag x 0) :
    ∀ M, M ≤ lmax → ∀ m n, m + n ≤ M → n ≤ 1 →
      forLoop 1 (M + 1) (fun m sharedMemory =>
          let sharedMemory := Function.update sharedMemory (Plm + plmIdxDev m m)
            (-(RealFns.sqrt (((2 * m + 1 : Nat) : K) / ((2 * m : Nat) : K)))
              * RealFns.sqrt (1 - x * x)
              * sharedMemory (Plm + plmIdxDev (m - 1) (m - 1)))
          Function.update sharedMemory (Plm + plmIdxDev m (m - 1))
            (RealFns.sqrt (((2 * m + 1 : Nat) : K)) * x
              * sharedMemory (Plm + plmIdxDev (m - 1) (m - 1)))) s
          (Plm + plmIdxDev (m + n) m)
        = specLegendre x m n := by
  intro M
  induction M with
  | zero =>
    intro _ m n hmn hn
    rw [forLoop_of_le _ _ _ _ (le_refl 1)]
    have hm0 : m = 0 := by omega
    have hn0 : n = 0 := by omega
    subst hm0 hn0
    exact hs
  | succ M ih =>
    intro hM m n hmn hn
    have ih2 := ih (by omega)
    rw [forLoop_succ _ _ _ _ (by omega : 1 ≤ M + 1)]
    generalize forLoop 1 (M + 1) _ s = t at ih2 ⊢
    have hM1 : M + 1 - 1 = M := by omega
    rw [hM1]
    have e1 : Plm + plmIdxDev M M ≠ Plm + plmIdxDev (M + 1) (M + 1) := by
      intro hc
      have := plmIdxDev_inj (le_refl M) (le_refl (M + 1)) (Nat.add_left_cancel hc)
      omega
    rw [Function.update_noteq e1]
    have hMM : t (Plm + plmIdxDev M M) = specLegendreDiag x M := by
      have := ih2 M 0 (by omega) (by omega)
      rwa [Nat.add_zero] at this
    rw [hMM]
    have step1 := legendre_write x (M + 1) Plm t (fun m n => m + n ≤ M ∧ n ≤ 1)
      (fun m n _ hD => ih2 m n hD.1 hD.2) (M + 1) 0
      (-(RealFns.sqrt (((2 * (M + 1) + 1 : Nat) : K) / ((2 * (M + 1) : Nat) : K)))
        * RealFns.sqrt (1 - x * x) * specLegendreDiag x M) rfl
    have step2 := legendre_write x (M + 1) Plm _ _ step1 M 1
      (RealFns.sqrt (((2 * (M + 1) + 1 : Nat) : K)) * x * specLegendreDiag x M) rfl
    rw [Nat.add_zero] at step2
    refine step2 m n hmn ?_
    by_cases h1 : m + n ≤ M
    · exact Or.inl (Or.inl ⟨h1, hn⟩)
    · have : (m = M + 1 ∧ n = 0) ∨ (m = M ∧ n = 1) := by omega
      rcases this with h | h
      · exact Or.inl (Or.inr h)
      · exact Or.inr h

/-- The loop over `l` for one column `M` of the table. -/
theorem legendre_column_loop (x : K) (lmax Plm M : Nat) (hM : M + 1 ≤ lmax) :
    ∀ j, M + 2 + j ≤ lmax + 1 → ∀ t : Mem K,
      (∀ m n, m + n ≤ lmax → (n ≤ 1 ∨ m < M) →
        t (Plm + plmIdxDev (m + n) m) = specLegendre x m n) →
      ∀ m n, m + n ≤ lmax → (n ≤ 1 ∨ m < M ∨ (m = M ∧ m + n < M + 2 + j)) →
        forLoop (M + 2) (M + 2 + j) (fun l sharedMemory =>
            let a_lm := RealFns.sqrt
              (((4 * (l : Int) * l - 1 : Int) : K) / (((l : Int) * l - M * M : Int) : K))
            let b_lm := RealFns.sqrt
              (((((l : Int) - 1) * (l - 1) - M * M : Int) : K)
                / ((4 * ((l : Int) - 1) * (l - 1) - 1 : Int) : K))
            Function.update sharedMemory (Plm + plmIdxDev l M)
              (a_lm * (x * sharedMemory (Plm + plmIdxDev (l - 1) M)
                - b_lm * sharedMemory (Plm + plmIdxDev (l - 2) M)))) t
            (Plm + plmIdxDev (m + n) m)
          = specLegendre x m n := by
  intro j
  induction j with
  | zero =>
    intro _ t ht m n hmn hD
    rw [forLoop_of_le _ _ _ _ (le_refl _)]
    refine ht m n hmn ?_
    rcases hD with h | h | h
    · exact Or.inl h
    · exact Or.inr h
    · exact Or.inl (by omega)
  | succ j ih =>
    intro hj t ht
    have ih2 := ih (by omega) t ht
    rw [← Nat.add_assoc, forLoop_succ _ _ _ _ (by omega : M + 2 ≤ M + 2 + j)]
    generalize forLoop (M + 2) (M + 2 + j) _ t = u at ih2 ⊢
    have h1 : M + 2 + j - 1 = M + (j + 1) := by omega
    have h2 : M + 2 + j - 2 = M + j := by omega
    have h0 : M + 2 + j = M + (j + 2) := by omega
    rw [h1, h2, ih2 M (j + 1) (by omega) (Or.inr (Or.inr ⟨rfl, by omega⟩)),
      ih2 M j (by omega) (Or.inr (Or.inr ⟨rfl, by omega⟩)), h0]
    intro m n hmn hD
    refine legendre_write x lmax Plm u
      (fun m n => n ≤ 1 ∨ m < M ∨ (m = M ∧ m + n < M + (j + 2))) ?_ M (j + 2) _ rfl m n hmn ?_
    · intro m n hmn hD
      rw [← h0] at hD
      exact ih2 m n hmn hD
    · by_cases he : m = M ∧ n = j + 2
      · exact Or.inr he
      · left
        rcases hD with h | h | h
        · exact Or.inl h
        · exact Or.inr (Or.inl h)
        · exact Or.inr (Or.inr ⟨h.1, by omega⟩)

end Legendre


section LegendreTable

variable {K : Type} [LinearOrderedField K] [RealFns K]

/-- The loop over the columns of the table. -/
theorem legendre_outer_loop (x : K) (lmax Plm : Nat) :
    ∀ M, M ≤ lmax → ∀ t : Mem K,
      (∀ m n, m + n ≤ lmax → n ≤ 1 → t (Plm + plmIdxDev (m + n) m) = specLegendre x m n) →
      ∀ m n, m + n ≤ lmax → (n ≤ 1 ∨ m < M) →
        forLoop 0 M (fun m sharedMemory =>
          forLoop (m + 2) (lmax + 1) (fun l sharedMemory =>
            let a_lm := RealFns.sqrt
              (((4 * (l : Int) * l - 1 : Int) : K) / (((l : Int) * l - m * m : Int) : K))
            let b_lm := RealFns.sqrt
              (((((l : Int) - 1) * (l - 1) - m * m : Int) : K)
                / ((4 * ((l : Int) - 1) * (l - 1) - 1 : Int) : K))
            Function.update sharedMemory (Plm + plmIdxDev l m)
              (a_lm * (x * sharedMemory (Plm + plmIdxDev (l - 1) m)
                - b_lm * sharedMemory (Plm + plmIdxDev (l - 2) m)))) sharedMemory) t
            (Plm + plmIdxDev (m + n) m)
          = specLegendre x m n := by
  intro M
  induction M with
  | zero =>
    intro _ t ht m n hmn hD
    rw [forLoop_of_le _ _ _ _ (le_refl 0)]
    exact ht m n hmn (by omega)
  | succ M ih =>
    intro hM t ht m n hmn hD
    have ih2 := ih (by omega) t ht
    rw [forLoop_succ _ _ _ _ (Nat.zero_le M)]
    generalize forLoop 0 M _ t = u at ih2 ⊢
    have hj : lmax + 1 = M + 2 + (lmax - M - 1) := by omega
    simp only []
    rw [hj]
    refine legendre_column_loop x lmax Plm M hM (lmax - M - 1) (by omega) u ih2 m n hmn ?_
    rcases hD with h | h
    · exact Or.inl h
    · by_cases hm : m < M
      · exact Or.inr (Or.inl hm)
      · exact Or.inr (Or.inr ⟨by omega, by omega⟩)

/-- Every entry `(l, m) = (m + n, m)` with `l ≤ lmax` of the table left by
`associatedLegendreFunctionNormalizedHip` is the value given by the
recurrences, whatever the shared memory held before. -/
theorem associatedLegendre_entry (x : K) (lmax Plm : Nat) (sharedMemory : Mem K) (m n : Nat)
    (hmn : m + n ≤ lmax) :
    associatedLegendreFunctionNormalizedHip x lmax Plm sharedMemory (Plm + plmIdxDev (m + n) m)
      = specLegendre x m n := by
  have h00 : plmIdxDev 0 0 = 0 := rfl
  unfold associatedLegendreFunctionNormalizedHip
  simp only []
  by_cases h : lmax < 1
  · rw [if_pos h]
    have hm0 : m = 0 := by omega
    have hn0 : n = 0 := by omega
    subst hm0 hn0
    rw [Nat.add_zero 0, h00, Function.update_same]
    rfl
  · rw [if_neg h]
    refine legendre_outer_loop x lmax Plm lmax (le_refl _) _ ?_ m n hmn (by omega)
    intro m n hmn hn
    refine legendre_diag_loop x lmax Plm _ ?_ lmax (le_refl _) m n hmn hn
    rw [h00, Function.update_same]
    rfl

end LegendreTable

/-! ## The order of the accesses to the Legendre table -/

theorem accessGood_congr {D D2 : Nat → Nat → Prop} {st : List Nat × Bool}
    (h : ∀ m n, D m n ↔ D2 m n) (hg : AccessGood D st) : AccessGood D2 st := by
  refine ⟨hg.1, fun k => ?_⟩
  rw [hg.2 k]
  constructor
  · rintro ⟨m, n, hD, hk⟩
    exact ⟨m, n, (h m n).mp hD, hk⟩
  · rintro ⟨m, n, hD, hk⟩
    exact ⟨m, n, (h m n).mpr hD, hk⟩

theorem accessGood_load {D : Nat → Nat → Prop} {st : List Nat × Bool} (hg : AccessGood D st)
    (m n : Nat) (hD : D m n) : AccessGood D (loadChecked (plmIdxDev (m + n) m) st) := by
  refine ⟨?_, hg.2⟩
  have hmem : plmIdxDev (m + n) m ∈ st.1 := (hg.2 _).mpr ⟨m, n, hD, rfl⟩
  simp [loadChecked, hg.1, hmem]

theorem accessGood_store {D : Nat → Nat → Prop} {st : List Nat × Bool} (hg : AccessGood D st)
    (M n0 : Nat) (hD : ¬ D M n0) :
    AccessGood (fun m n => D m n ∨ (m = M ∧ n = n0))
      (storeChecked (plmIdxDev (M + n0) M) st) := by
  have hmem : plmIdxDev (M + n0) M ∉ st.1 := by
    intro hc
    obtain ⟨m, n, hDmn, hk⟩ := (hg.2 _).mp hc
    have := plmIdxDev_inj (Nat.le_add_right M n0) (Nat.le_add_right m n) hk
    have hm : m = M := this.2.symm
    have hn : n = n0 := by omega
    subst hm hn
    exact hD hDmn
  refine ⟨by simp [storeChecked, hg.1, hmem], fun k => ?_⟩
  simp only [storeChecked, List.mem_cons, hg.2 k]
  constructor
  · rintro (rfl | ⟨m, n, hDmn, hk⟩)
    · exact ⟨M, n0, Or.inr ⟨rfl, rfl⟩, rfl⟩
    · exact ⟨m, n, Or.inl hDmn, hk⟩
  · rintro ⟨m, n, hDmn | ⟨rfl, rfl⟩, hk⟩
    · exact Or.inr ⟨m, n, hDmn, hk⟩
    · exact Or.inl hk

theorem accessGood_init :
    AccessGood (fun m n => n ≤ 1 ∧ m + n ≤ 0) (storeChecked 0 ([], true)) := by
  have h0 : AccessGood (fun _ _ => False) (([], true) : List Nat × Bool) :=
    ⟨rfl, fun k => by simp⟩
  have h1 := accessGood_store h0 0 0 (fun h => h)
  have h00 : plmIdxDev (0 + 0) 0 = 0 := rfl
  rw [h00] at h1
  refine accessGood_congr (fun m n => ?_) h1
  constructor
  · rintro (h | ⟨rfl, rfl⟩)
    · exact absurd h (fun h => h)
    · exact ⟨by omega, by omega⟩
  · rintro ⟨h1, h2⟩
    exact Or.inr ⟨by omega, by omega⟩

/-- The accesses of the loop over the diagonal and the sub-diagonal. -/
theorem access_diag_loop (st : List Nat × Bool)
    (hst : AccessGood (fun m n => n ≤ 1 ∧ m + n ≤ 0) st) :
    ∀ M, AccessGood (fun m n => n ≤ 1 ∧ m + n ≤ M)
      (forLoop 1 (M + 1) (fun m st =>
        let st := loadChecked (plmIdxDev (m - 1) (m - 1)) st
        let st := storeChecked (plmIdxDev m m) st
        let st := loadChecked (plmIdxDev (m - 1) (m - 1)) st
        storeChecked (plmIdxDev m (m - 1)) st) st) := by
  intro M
  induction M with
  | zero =>
    rw [forLoop_of_le _ _ _ _ (le_refl 1)]
    exact hst
  | succ M ih =>
    rw [forLoop_succ _ _ _ _ (by omega : 1 ≤ M + 1)]
    generalize forLoop 1 (M + 1) _ st = t at ih ⊢
    have hM1 : M + 1 - 1 = M := by omega
    have e1 : plmIdxDev M M = plmIdxDev (M + 0) M := rfl
    have e2 : plmIdxDev (M + 1) (M + 1) = plmIdxDev (M + 1 + 0) (M + 1) := rfl
    rw [hM1, e1, e2]
    have s1 := accessGood_load ih M 0 ⟨by omega, by omega⟩
    have s2 := accessGood_store s1 (M + 1) 0 (fun h => by omega)
    have s3 := accessGood_load s2 M 0 (Or.inl ⟨by omega, by omega⟩)
    have s4 := accessGood_store s3 M 1 (fun h => by omega)
    refine accessGood_congr (fun m n => ?_) s4
    constructor
    · rintro ((h | h) | h) <;> exact ⟨by omega, by omega⟩
    · rintro ⟨h1, h2⟩
      by_cases h : m + n ≤ M
      · exact Or.inl (Or.inl ⟨h1, h⟩)
      · have : (m = M + 1 ∧ n = 0) ∨ (m = M ∧ n = 1) := by omega
        rcases this with h | h
        · exact Or.inl (Or.inr h)
        · exact Or.inr h

/-- The accesses of the loop over `l` for one column `M`. -/
theorem access_column_loop (lmax M : Nat) (hM : M + 1 ≤ lmax) :
    ∀ j, M + 2 + j ≤ lmax + 1 → ∀ st : List Nat × Bool,
      AccessGood (fun m n => m + n ≤ lmax ∧ (n ≤ 1 ∨ m < M)) st →
      AccessGood (fun m n => m + n ≤ lmax ∧ (n ≤ 1 ∨ m < M ∨ (m = M ∧ m + n < M + 2 + j)))
        (forLoop (M + 2) (M + 2 + j) (fun l st =>
          let st := loadChecked (plmIdxDev (l - 1) M) st
          let st := loadChecked (plmIdxDev (l - 2) M) st
          storeChecked (plmIdxDev l M) st) st) := by
  intro j
  induction j with
  | zero =>
    intro _ st hst
    rw [forLoop_of_le _ _ _ _ (le_refl _)]
    refine accessGood_congr (fun m n => ?_) hst
    constructor
    · rintro ⟨h1, h2⟩
      exact ⟨h1, by omega⟩
    · rintro ⟨h1, h2⟩
      exact ⟨h1, by omega⟩
  | succ j ih =>
    intro hj st hst
    have ih2 := ih (by omega) st hst
    rw [← Nat.add_assoc, forLoop_succ _ _ _ _ (by omega : M + 2 ≤ M + 2 + j)]
    generalize forLoop (M + 2) (M + 2 + j) _ st = t at ih2 ⊢
    have h1 : M + 2 + j - 1 = M + (j + 1) := by omega
    have h2 : M + 2 + j - 2 = M + j := by omega
    have h0 : plmIdxDev (M + 2 + j) M = plmIdxDev (M + (j + 2)) M := by
      rw [show M + 2 + j = M + (j + 2) by omega]
    rw [h1, h2, h0]
    have s1 := accessGood_load ih2 M (j + 1) ⟨by omega, by omega⟩
    have s2 := accessGood_load s1 M j ⟨by omega, by omega⟩
    have s3 := accessGood_store s2 M (j + 2) (fun h => by omega)
    refine accessGood_congr (fun m n => ?_) s3
    constructor
    · rintro (⟨h1, h2⟩ | ⟨rfl, rfl⟩)
      · exact ⟨h1, by omega⟩
      · exact ⟨by omega, by omega⟩
    · rintro ⟨h1, h2⟩
      by_cases he : m = M ∧ n = j + 2
      · exact Or.inr he
      · exact Or.inl ⟨h1, by omega⟩

/-- The accesses of the loop over the columns. -/
theorem access_outer_loop (lmax : Nat) (st : List Nat × Bool)
    (hst : AccessGood (fun m n => n ≤ 1 ∧ m + n ≤ lmax) st) :
    ∀ M, M ≤ lmax →
      AccessGood (fun m n => m + n ≤ lmax ∧ (n ≤ 1 ∨ m < M))
        (forLoop 0 M (fun m st =>
          forLoop (m + 2) (lmax + 1) (fun l st =>
            let st := loadChecked (plmIdxDev (l - 1) m) st
            let st := loadChecked (plmIdxDev (l - 2) m) st
            storeChecked (plmIdxDev l m) st) st) st) := by
  intro M
  induction M with
  | zero =>
    intro _
    rw [forLoop_of_le _ _ _ _ (le_refl 0)]
    refine accessGood_congr (fun m n => ?_) hst
    constructor
    · rintro ⟨h1, h2⟩
      exact ⟨h2, Or.inl h1⟩
    · rintro ⟨h1, h2⟩
      exact ⟨by omega, h1⟩
  | succ M ih =>
    intro hM
    have ih2 := ih (by omega)
    rw [forLoop_succ _ _ _ _ (Nat.zero_le M)]
    generalize forLoop 0 M _ st = t at ih2 ⊢
    have hj : lmax + 1 = M + 2 + (lmax - M - 1) := by omega
    simp only []
    rw [hj]
    refine accessGood_congr (fun m n => ?_)
      (access_column_loop lmax M hM (lmax - M - 1) (by omega) t ih2)
    rw [← hj]
    constructor
    · rintro ⟨h1, h2⟩
      exact ⟨h1, by omega⟩
    · rintro ⟨h1, h2⟩
      exact ⟨h1, by omega⟩

/-- Every load of `associatedLegendreFunctionNormalizedHip` is of an entry
stored before, every store is to an entry not accessed before, and the entries
stored are exactly those with `m ≤ l ≤ lmax`. -/
theorem associatedLegendreChecked_ok (lmax : Nat) :
    (associatedLegendreChecked lmax).2 = true
    ∧ ∀ k, k ∈ (associatedLegendreChecked lmax).1
        ↔ ∃ l m, m ≤ l ∧ l ≤ lmax ∧ k = plmIdxDev l m := by
  have key : AccessGood (fun m n => m + n ≤ lmax) (associatedLegendreChecked lmax) := by
    unfold associatedLegendreChecked
    simp only []
    by_cases h : lmax < 1
    · rw [if_pos h]
      refine accessGood_congr (fun m n => ?_) accessGood_init
      constructor
      · rintro ⟨h1, h2⟩
        omega
      · intro h1
        exact ⟨by omega, by omega⟩
    · rw [if_neg h]
      refine accessGood_congr (fun m n => ?_)
        (access_outer_loop lmax _ (access_diag_loop _ accessGood_init lmax) lmax (le_refl _))
      constructor
      · rintro ⟨h1, h2⟩
        exact h1
      · intro h1
        exact ⟨h1, by omega⟩
  refine ⟨key.1, fun k => ?_⟩
  rw [key.2 k]
  constructor
  · rintro ⟨m, n, h, hk⟩
    exact ⟨m + n, m, by omega, h, hk⟩
  · rintro ⟨l, m, hml, hl, hk⟩
    refine ⟨m, l - m, by omega, ?_⟩
    rw [hk, show m + (l - m) = l by omega]

/-- C20: for every `lmax` and `x`, in the table that
`associatedLegendreFunctionNormalizedHip` returns, `P(l,m) = Plm[l(l+1)/2+m]`,
`P(0,0) = sqrt(1/(4*pi))`, `P(m,m) = -sqrt((2m+1)/(2m)) * sqrt(1-x^2) *
P(m-1,m-1)` and `P(m,m-1) = sqrt(2m+1) * x * P(m-1,m-1)` for `1 ≤ m ≤ lmax`,
`P(l,m) = a_lm*(x*P(l-1,m) - b_lm*P(l-2,m))` for `m+2 ≤ l ≤ lmax`; every
entry with `m ≤ l ≤ lmax` is the same whatever the memory held before the
call; and in the program order of the accesses every load is of an entry
stored before, every store is to an entry not stored (hence not loaded)
before, and the entries stored are exactly those with `m ≤ l ≤ lmax`. -/
theorem C20_legendre_table {K : Type} [LinearOrderedField K] [RealFns K] (x : K)
    (lmax Plm : Nat) (sharedMemory : Mem K) :
    associatedLegendreFunctionNormalizedHip x lmax Plm sharedMemory (Plm + plmIdxDev 0 0)
        = RealFns.sqrt (1 / (4 * RealFns.acos (-1)))
    ∧ (∀ m, 1 ≤ m → m ≤ lmax →
        associatedLegendreFunctionNormalizedHip x lmax Plm sharedMemory (Plm + plmIdxDev m m)
            = -(RealFns.sqrt (((2 * m + 1 : Nat) : K) / ((2 * m : Nat) : K)))
              * RealFns.sqrt (1 - x * x)
              * associatedLegendreFunctionNormalizedHip x lmax Plm sharedMemory
                  (Plm + plmIdxDev (m - 1) (m - 1))
          ∧ associatedLegendreFunctionNormalizedHip x lmax Plm sharedMemory
              (Plm + plmIdxDev m (m - 1))
            = RealFns.sqrt (((2 * m + 1 : Nat) : K)) * x
              * associatedLegendreFunctionNormalizedHip x lmax Plm sharedMemory
                  (Plm + plmIdxDev (m - 1) (m - 1)))
    ∧ (∀ m l, m + 2 ≤ l → l ≤ lmax →
        associatedLegendreFunctionNormalizedHip x lmax Plm sharedMemory (Plm + plmIdxDev l m)
          = RealFns.sqrt
              (((4 * (l : Int) * l - 1 : Int) : K) / (((l : Int) * l - m * m : Int) : K))
            * (x * associatedLegendreFunctionNormalizedHip x lmax Plm sharedMemory
                  (Plm + plmIdxDev (l - 1) m)
              - RealFns.sqrt
                  (((((l : Int) - 1) * (l - 1) - m * m : Int) : K)
                    / ((4 * ((l : Int) - 1) * (l - 1) - 1 : Int) : K))
                * associatedLegendreFunctionNormalizedHip x lmax Plm sharedMemory
                    (Plm + plmIdxDev (l - 2) m)))
    ∧ (∀ (initial : Mem K) (m l : Nat), m ≤ l → l ≤ lmax →
        associatedLegendreFunctionNormalizedHip x lmax Plm initial (Plm + plmIdxDev l m)
          = associatedLegendreFunctionNormalizedHip x lmax Plm sharedMemory
              (Plm + plmIdxDev l m))
    ∧ (associatedLegendreChecked lmax).2 = true
    ∧ (∀ k, k ∈ (associatedLegendreChecked lmax).1
        ↔ ∃ l m, m ≤ l ∧ l ≤ lmax ∧ k = plmIdxDev l m) := by
  have key := associatedLegendre_entry x lmax Plm
  refine ⟨?_, ?_, ?_, ?_, associatedLegendreChecked_ok lmax⟩
  · exact key sharedMemory 0 0 (by omega)
  · intro m hm1 hm
    obtain ⟨k, rfl⟩ : ∃ k, m = k + 1 := ⟨m - 1, by omega⟩
    have hkk := key sharedMemory k 0 (by omega)
    have hd := key sharedMemory (k + 1) 0 (by omega)
    have hs := key sharedMemory k 1 (by omega)
    rw [Nat.add_zero] at hkk hd
    rw [Nat.add_sub_cancel, hkk, hd, hs]
    exact ⟨rfl, rfl⟩
  · intro m l hml hl
    obtain ⟨n, rfl⟩ : ∃ n, l = m + (n + 2) := ⟨l - m - 2, by omega⟩
    have h1 : m + (n + 2) - 1 = m + (n + 1) := by omega
    have h2 : m + (n + 2) - 2 = m + n := by omega
    rw [h1, h2, key sharedMemory m (n + 2) hl, key sharedMemory m (n + 1) (by omega),
      key sharedMemory m n (by omega)]
    rfl
  · intro initial m l hml hl
    obtain ⟨n, rfl⟩ : ∃ n, l = m + n := ⟨l - m, by omega⟩
    rw [key initial m n hl, key sharedMemory m n hl]


/-! ## Two sites with `lmax = 0` -/

theorem storeComplex_frame {K : Type} (sharedMemory : Mem K) (p l : Nat)
    (v : deviceDoubleComplex K) (idx : Nat) (h1 : idx ≠ p + 2 * l) (h2 : idx ≠ p + 2 * l + 1) :
    storeComplex sharedMemory p l v idx = sharedMemory idx := by
  unfold storeComplex
  rw [Function.update_noteq h2, Function.update_noteq h1]

theorem forLoop_frame {α : Type} (lo hi : Nat) (body : Nat → Mem α → Mem α) (idx : Nat)
    (h : ∀ i, lo ≤ i → i < hi → ∀ s, body i s idx = s idx) (s : Mem α) :
    forLoop lo hi body s idx = s idx := by
  induction hi with
  | zero => rw [forLoop_of_le _ _ _ _ (Nat.zero_le lo)]
  | succ n ih =>
    rcases Nat.lt_or_ge n lo with hlt | hge
    · rw [forLoop_of_le _ _ _ _ (by omega)]
    · rw [forLoop_succ _ _ _ _ hge, h n hge (Nat.lt_succ_self n)]
      exact ih (fun i hi1 hi2 => h i hi1 (by omega))

section LmaxZero

variable {K : Type} [LinearOrderedField K] [RealFns K]

/-- The function `calculateHankelHip` writes only the words of
`hfn[0 .. max lend 1]`. -/
theorem calculateHankelHip_frame (prel : deviceDoubleComplex K) (r : K) (lend : Nat)
    (ilp1 : Mem (deviceDoubleComplex K)) (hfn : Nat) (sharedMemory : Mem K) (idx : Nat)
    (h : idx < hfn ∨ hfn + 2 * max lend 1 + 2 ≤ idx) :
    calculateHankelHip prel r lend ilp1 hfn sharedMemory idx = sharedMemory idx := by
  have hmax : 1 ≤ max lend 1 := le_max_right _ _
  have hmax2 : lend ≤ max lend 1 := le_max_left _ _
  unfold calculateHankelHip
  rw [forLoop_frame _ _ _ _ (fun l _ hl s => storeComplex_frame s hfn l _ idx (by omega)
      (by omega)),
    forLoop_frame _ _ _ _ (fun l _ hl s => storeComplex_frame s hfn (l + 1) _ idx (by omega)
      (by omega)),
    storeComplex_frame _ _ _ _ _ (by omega) (by omega),
    storeComplex_frame _ _ _ _ _ (by omega) (by omega)]

/-- The shared memory that thread 0 leaves for two sites with `lmax = 0`: the
Hankel table, then `plm[0]`, then `cosmp[0]`, `sinmp[0]`, `cosmp[1]` and
`sinmp[1]`, in the order of the stores. -/
theorem thread0_lmax_zero (prel : deviceDoubleComplex K) (r x : K) (rij : Nat → K)
    (ilp1 : Mem (deviceDoubleComplex K)) (hfn sinmp cosmp plm : Nat) (sharedMemory : Mem K) :
    calculateSinCosPowersHip rij 0 sinmp cosmp
        (associatedLegendreFunctionNormalizedHip x 0 plm
          (calculateHankelHip prel r 0 ilp1 hfn sharedMemory))
      = Function.update (Function.update (Function.update (Function.update (Function.update
          (calculateHankelHip prel r 0 ilp1 hfn sharedMemory)
          (plm + 0) (RealFns.sqrt (1 / (4 * RealFns.acos (-1)))))
          (cosmp + 0) 1) (sinmp + 0) 0)
          (cosmp + 1)
            (if RealFns.sqrt (rij 0 * rij 0 + rij 1 * rij 1) > 1 / 1000000 then
              rij 0 / RealFns.sqrt (rij 0 * rij 0 + rij 1 * rij 1) else 0))
          (sinmp + 1)
            (if RealFns.sqrt (rij 0 * rij 0 + rij 1 * rij 1) > 1 / 1000000 then
              rij 1 / RealFns.sqrt (rij 0 * rij 0 + rij 1 * rij 1) else 0) := by
  unfold calculateSinCosPowersHip associatedLegendreFunctionNormalizedHip
  simp only []
  rw [if_pos (by omega : 0 < 1), forLoop_of_le _ _ _ _ (by omega : 0 + 1 ≤ 2)]
  split_ifs <;> rfl

/-- For two sites with `lmax = 0` the channel-pair loop reads
`hfn[0] = (-h[0]) * (exp(i*z)/r) * ilp1[0]` when the Hankel table starts at
word 0 and the other tables after word 1. -/
theorem gijTables_hfn_zero (g : GijArgs K) (ir1 ir2 : Nat)
    (hl : g.LIZlmax ir1 + g.LIZlmax ir2 = 0) (hh : g.hfnOffset / 8 = 0)
    (hs : 2 ≤ g.sinmpOffset / 8) (hc : 2 ≤ g.cosmpOffset / 8) (hp : 2 ≤ g.plmOffset / 8) :
    (gijTables g ir1 ir2).hfn 0
      = ((-(specHankel (g.prel * make_hipDoubleComplex
              (RealFns.sqrt (sitesRij g.LIZPos ir1 ir2 0 * sitesRij g.LIZPos ir1 ir2 0
                + sitesRij g.LIZPos ir1 ir2 1 * sitesRij g.LIZPos ir1 ir2 1
                + sitesRij g.LIZPos ir1 ir2 2 * sitesRij g.LIZPos ir1 ir2 2)) 0) 0))
          * (complexExp (make_hipDoubleComplex 0 1 * (g.prel * make_hipDoubleComplex
              (RealFns.sqrt (sitesRij g.LIZPos ir1 ir2 0 * sitesRij g.LIZPos ir1 ir2 0
                + sitesRij g.LIZPos ir1 ir2 1 * sitesRij g.LIZPos ir1 ir2 1
                + sitesRij g.LIZPos ir1 ir2 2 * sitesRij g.LIZPos ir1 ir2 2)) 0))
              / make_hipDoubleComplex
              (RealFns.sqrt (sitesRij g.LIZPos ir1 ir2 0 * sitesRij g.LIZPos ir1 ir2 0
                + sitesRij g.LIZPos ir1 ir2 1 * sitesRij g.LIZPos ir1 ir2 1
                + sitesRij g.LIZPos ir1 ir2 2 * sitesRij g.LIZPos ir1 ir2 2)) 0))
        * g.c.ilp1 0 := by
  rw [← calculateHankelHip_entry g.prel _ 0 g.c.ilp1 (g.hfnOffset / 8) g.sharedMemory 0
    (le_refl 0)]
  unfold gijTables tablesOf gijSharedMemory
  simp only []
  rw [hl, thread0_lmax_zero]
  unfold loadComplex
  rw [hh]
  rw [Function.update_noteq (by omega), Function.update_noteq (by omega),
    Function.update_noteq (by omega), Function.update_noteq (by omega),
    Function.update_noteq (by omega), Function.update_noteq (by omega),
    Function.update_noteq (by omega), Function.update_noteq (by omega),
    Function.update_noteq (by omega), Function.update_noteq (by omega)]

/-- For two sites with `lmax = 0` the channel-pair loop reads
`plm[0] = sqrt(1/(4*pi))` when word `plm[0]` is neither `cosmp[0]`, `cosmp[1]`,
`sinmp[0]` nor `sinmp[1]`. -/
theorem gijTables_plm_zero (g : GijArgs K) (ir1 ir2 : Nat)
    (hl : g.LIZlmax ir1 + g.LIZlmax ir2 = 0)
    (hs : g.sinmpOffset / 8 + 1 < g.plmOffset / 8)
    (hc : g.cosmpOffset / 8 + 1 < g.plmOffset / 8) :
    (gijTables g ir1 ir2).plm 0 = RealFns.sqrt (1 / (4 * RealFns.acos (-1))) := by
  unfold gijTables tablesOf gijSharedMemory
  simp only []
  rw [hl, thread0_lmax_zero]
  rw [Function.update_noteq (by omega), Function.update_noteq (by omega),
    Function.update_noteq (by omega), Function.update_noteq (by omega), Function.update_same]

/-- For two sites with `lmax = 0` the channel-pair loop reads in `plm[0]` the
value stored to `cosmp[1]` when the two are the same word (and `sinmp[1]` is
another one). -/
theorem gijTables_plm_clobbered (g : GijArgs K) (ir1 ir2 : Nat)
    (hl : g.LIZlmax ir1 + g.LIZlmax ir2 = 0)
    (hs : g.sinmpOffset / 8 + 1 ≠ g.plmOffset / 8)
    (hc : g.cosmpOffset / 8 + 1 = g.plmOffset / 8) :
    (gijTables g ir1 ir2).plm 0
      = if RealFns.sqrt (sitesRij g.LIZPos ir1 ir2 0 * sitesRij g.LIZPos ir1 ir2 0
            + sitesRij g.LIZPos ir1 ir2 1 * sitesRij g.LIZPos ir1 ir2 1) > 1 / 1000000 then
          sitesRij g.LIZPos ir1 ir2 0
            / RealFns.sqrt (sitesRij g.LIZPos ir1 ir2 0 * sitesRij g.LIZPos ir1 ir2 0
              + sitesRij g.LIZPos ir1 ir2 1 * sitesRij g.LIZPos ir1 ir2 1)
        else 0 := by
  unfold gijTables tablesOf gijSharedMemory
  simp only []
  rw [hl, thread0_lmax_zero, Function.update_noteq (by omega), ← hc, Nat.add_zero,
    Function.update_same]

/-- The Gij scalar of the channel pair `(0, 0)` when `lofk[0] = 0` and
`mofk[0] = 0`: the single term `l3 = 0`. -/
theorem gijScalar_zero_zero (g : GijArgs K) (ir1 ir2 : Nat) (hlofk : g.c.lofk 0 = 0)
    (hmofk : g.c.mofk 0 = 0) :
    gijScalar g ir1 ir2 0 0
      = make_hipDoubleComplex (g.c.cgnt (IDX3 0 0 0 g.c.lmaxp1_cgnt g.c.ndlj_cgnt)) 0
          * ((gijTables g ir1 ir2).hfn 0
            * make_hipDoubleComplex ((gijTables g ir1 ir2).plm (plmIdxDev 0 0)) 0)
          * make_hipDoubleComplex pi4 0 * g.c.illp (IDX 0 0 g.c.ndlj_illp) := by
  have hk : 0 < kkrOf g.LIZlmax ir1 := by
    unfold kkrOf
    exact Nat.mul_pos (Nat.succ_pos _) (Nat.succ_pos _)
  rw [gijScalar_eq g ir1 ir2 0 0 hk, hlofk, hmofk]
  have hlow : (if g.prel = 0 then ((0 : Nat) : Int) + (0 : Nat)
      else max (abs ((0 : Int) - 0)) (abs (((0 : Nat) : Int) - (0 : Nat)))) = 0 := by
    split_ifs <;> simp
  rw [hlow]
  have htop : ((0 : Nat) : Int) + (0 : Nat) = 0 := by simp
  rw [htop, l3Range_step (le_refl _), l3Range_of_lt (by omega)]
  simp [gauntTerm, dlmFunction]

end LmaxZero


section LmaxZeroBuild

variable {K : Type} [LinearOrderedField K] [RealFns K]

/-- When `lsms.maxlmax ≥ 1`, for two sites with `lmax = 0` (and `lofk[0] = 0`,
`mofk[0] = 0`) the channel-pair loop reads `plm[0] = sqrt(1/(4*pi))` and the
Gij scalar is `4*pi * illp(0,0) * cgnt(0,0,0) * hfn[0] * sqrt(1/(4*pi))`. -/
theorem lmax_zero_of_maxlmax_pos (lsms : LSMSSystemParameters) (atom : AtomData K)
    (c : DeviceConstants K) (sharedMemory : Mem K) (prel : deviceDoubleComplex K)
    (devOffsets : Mem Nat) (ir1 ir2 : Nat) (hM : 1 ≤ lsms.maxlmax)
    (h1 : atom.LIZlmax ir1 = 0) (h2 : atom.LIZlmax ir2 = 0) (hlofk : c.lofk 0 = 0)
    (hmofk : c.mofk 0 = 0) :
    (gijTables (buildGijArgs lsms atom c sharedMemory prel devOffsets) ir1 ir2).plm 0
        = RealFns.sqrt (1 / (4 * RealFns.acos (-1)))
    ∧ gijScalar (buildGijArgs lsms atom c sharedMemory prel devOffsets) ir1 ir2 0 0
        = make_hipDoubleComplex pi4 0 * c.illp (IDX 0 0 c.ndlj_illp)
          * make_hipDoubleComplex (c.cgnt (IDX3 0 0 0 c.lmaxp1_cgnt c.ndlj_cgnt)) 0
          * (gijTables (buildGijArgs lsms atom c sharedMemory prel devOffsets) ir1 ir2).hfn 0
          * make_hipDoubleComplex (RealFns.sqrt (1 / (4 * RealFns.acos (-1)))) 0 := by
  have hl : (buildGijArgs lsms atom c sharedMemory prel devOffsets).LIZlmax ir1
      + (buildGijArgs lsms atom c sharedMemory prel devOffsets).LIZlmax ir2 = 0 := by
    simp only [buildGijArgs, h1, h2]
  have hp : (gijTables (buildGijArgs lsms atom c sharedMemory prel devOffsets) ir1 ir2).plm 0
      = RealFns.sqrt (1 / (4 * RealFns.acos (-1))) := by
    refine gijTables_plm_zero _ ir1 ir2 hl ?_ ?_
    · simp only [buildGijArgs, sharedMemoryBGijHip]
      omega
    · simp only [buildGijArgs, sharedMemoryBGijHip]
      omega
  refine ⟨hp, ?_⟩
  have h00 : plmIdxDev 0 0 = 0 := rfl
  rw [gijScalar_zero_zero _ ir1 ir2 hlofk hmofk, h00, hp]
  simp only [buildGijArgs]
  ring

end LmaxZeroBuild

/-- C15 does not hold for the code when `lsms.maxlmax = 0`: the offsets of
`sharedMemoryBGijHip` then make `cosmp[1]` the same word as `plm[0]`, and for
two sites with `lmax = 0` the store to `cosmp[1]` in
`calculateSinCosPowersHip` comes after the Legendre table is filled. The
channel-pair loop reads `plm[0] = rij_x/pmag` (or `0` at the pole) and the Gij
scalar (with `lofk[0] = 0`, `mofk[0] = 0`) is
`4*pi * illp(0,0) * cgnt(0,0,0) * hfn[0] * plm[0]` with that value. For the
example sites at `(0,0,0)` and `(3,4,0)` the value read is `3/5`, where the
stand-in functions give `sqrt(1/(4*pi)) = 1/12`. -/
theorem C15_lmax_zero_clobbered {K : Type} [LinearOrderedField K] [RealFns K]
    (lsms : LSMSSystemParameters) (atom : AtomData K)
    (c : DeviceConstants K) (sharedMemory : Mem K) (prel : deviceDoubleComplex K)
    (devOffsets : Mem Nat) (ir1 ir2 : Nat) :
    (gijTables (buildGijArgs { lsms with maxlmax := 0 } { atom with LIZlmax := fun _ => 0 } c
        sharedMemory prel devOffsets) ir1 ir2).plm 0
      = (if RealFns.sqrt (sitesRij atom.LIZPos ir1 ir2 0 * sitesRij atom.LIZPos ir1 ir2 0
            + sitesRij atom.LIZPos ir1 ir2 1 * sitesRij atom.LIZPos ir1 ir2 1) > 1 / 1000000 then
          sitesRij atom.LIZPos ir1 ir2 0
            / RealFns.sqrt (sitesRij atom.LIZPos ir1 ir2 0 * sitesRij atom.LIZPos ir1 ir2 0
              + sitesRij atom.LIZPos ir1 ir2 1 * sitesRij atom.LIZPos ir1 ir2 1)
        else 0)
    ∧ gijScalar (buildGijArgs { lsms with maxlmax := 0 } { atom with LIZlmax := fun _ => 0 }
        { c with lofk := fun _ => 0, mofk := fun _ => 0 } sharedMemory prel devOffsets)
        ir1 ir2 0 0
      = make_hipDoubleComplex pi4 0 * c.illp (IDX 0 0 c.ndlj_illp)
          * make_hipDoubleComplex (c.cgnt (IDX3 0 0 0 c.lmaxp1_cgnt c.ndlj_cgnt)) 0
          * (gijTables (buildGijArgs { lsms with maxlmax := 0 }
              { atom with LIZlmax := fun _ => 0 }
              { c with lofk := fun _ => 0, mofk := fun _ => 0 } sharedMemory prel devOffsets)
              ir1 ir2).hfn 0
          * make_hipDoubleComplex
              (if RealFns.sqrt (sitesRij atom.LIZPos ir1 ir2 0 * sitesRij atom.LIZPos ir1 ir2 0
                  + sitesRij atom.LIZPos ir1 ir2 1 * sitesRij atom.LIZPos ir1 ir2 1)
                  > 1 / 1000000 then
                sitesRij atom.LIZPos ir1 ir2 0
                  / RealFns.sqrt (sitesRij atom.LIZPos ir1 ir2 0 * sitesRij atom.LIZPos ir1 ir2 0
                    + sitesRij atom.LIZPos ir1 ir2 1 * sitesRij atom.LIZPos ir1 ir2 1)
              else 0) 0
    ∧ (gijTables (buildGijArgs exLsmsOne exAtomS exConstants (fun _ => 0) ⟨1, 1⟩ (fun ir => ir))
        1 0).plm 0 = 3 / 5
    ∧ RealFns.sqrt (1 / (4 * RealFns.acos (-1 : ℚ))) = 1 / 12 := by
  have hclob : ∀ (c2 : DeviceConstants K),
      (gijTables (buildGijArgs { lsms with maxlmax := 0 } { atom with LIZlmax := fun _ => 0 } c2
        sharedMemory prel devOffsets) ir1 ir2).plm 0
      = (if RealFns.sqrt (sitesRij atom.LIZPos ir1 ir2 0 * sitesRij atom.LIZPos ir1 ir2 0
            + sitesRij atom.LIZPos ir1 ir2 1 * sitesRij atom.LIZPos ir1 ir2 1) > 1 / 1000000 then
          sitesRij atom.LIZPos ir1 ir2 0
            / RealFns.sqrt (sitesRij atom.LIZPos ir1 ir2 0 * sitesRij atom.LIZPos ir1 ir2 0
              + sitesRij atom.LIZPos ir1 ir2 1 * sitesRij atom.LIZPos ir1 ir2 1)
        else 0) := fun c2 =>
    gijTables_plm_clobbered _ ir1 ir2 rfl (by simp [buildGijArgs, sharedMemoryBGijHip])
      (by simp [buildGijArgs, sharedMemoryBGijHip])
  have h00 : plmIdxDev 0 0 = 0 := rfl
  refine ⟨hclob c, ?_, ?_, ?_⟩
  · rw [gijScalar_zero_zero _ ir1 ir2 rfl rfl, h00, hclob]
    simp only [buildGijArgs]
    ring
  · rw [gijTables_plm_clobbered
      (buildGijArgs exLsmsOne exAtomS exConstants (fun _ => 0) ⟨1, 1⟩ (fun ir => ir)) 1 0 rfl
      (by decide) (by decide)]
    simp [buildGijArgs, sitesRij, exAtomS, RealFns.sqrt]
    norm_num
  · simp [RealFns.sqrt, RealFns.acos]
    norm_num


/-! ## The entries written by the Hankel and the azimuthal tables -/

theorem storeComplex_x {K : Type} (sharedMemory : Mem K) (p l : Nat)
    (v : deviceDoubleComplex K) : storeComplex sharedMemory p l v (p + 2 * l) = v.x := by
  unfold storeComplex
  rw [Function.update_noteq (by omega), Function.update_same]

theorem storeComplex_y {K : Type} (sharedMemory : Mem K) (p l : Nat)
    (v : deviceDoubleComplex K) : storeComplex sharedMemory p l v (p + 2 * l + 1) = v.y := by
  unfold storeComplex
  rw [Function.update_same]

section WrittenEntries

variable {K : Type} [LinearOrderedField K] [RealFns K]

/-- With `lend = 0` the function `calculateHankelHip` leaves `-1 - i/z` in
`hfn[1]`, the words `hfn + 2` and `hfn + 3`. -/
theorem calculateHankelHip_lend_zero (prel : deviceDoubleComplex K) (r : K)
    (ilp1 : Mem (deviceDoubleComplex K)) (hfn : Nat) (sharedMemory : Mem K) :
    calculateHankelHip prel r 0 ilp1 hfn sharedMemory (hfn + 2)
        = (make_hipDoubleComplex (-1) 0
            - make_hipDoubleComplex 0 1 / (prel * make_hipDoubleComplex r 0)).x
    ∧ calculateHankelHip prel r 0 ilp1 hfn sharedMemory (hfn + 3)
        = (make_hipDoubleComplex (-1) 0
            - make_hipDoubleComplex 0 1 / (prel * make_hipDoubleComplex r 0)).y := by
  unfold calculateHankelHip
  rw [forLoop_of_le _ _ _ _ (by omega : 0 ≤ 1), forLoop_succ _ _ _ _ (le_refl 0),
    forLoop_of_le _ _ _ _ (le_refl 0)]
  constructor
  · rw [storeComplex_frame _ _ _ _ _ (by omega) (by omega)]
    exact storeComplex_x _ hfn 1 _
  · rw [storeComplex_frame _ _ _ _ _ (by omega) (by omega)]
    exact storeComplex_y _ hfn 1 _

/-- With `lend = 0` the function `calculateSinCosPowersHip` is the four stores
to `cosmp[0]`, `sinmp[0]`, `cosmp[1]` and `sinmp[1]`. -/
theorem calculateSinCosPowersHip_lend_zero (rij : Nat → K) (sinmp cosmp : Nat)
    (sharedMemory : Mem K) :
    calculateSinCosPowersHip rij 0 sinmp cosmp sharedMemory
      = Function.update (Function.update (Function.update (Function.update sharedMemory
          (cosmp + 0) 1) (sinmp + 0) 0)
          (cosmp + 1)
            (if RealFns.sqrt (rij 0 * rij 0 + rij 1 * rij 1) > 1 / 1000000 then
              rij 0 / RealFns.sqrt (rij 0 * rij 0 + rij 1 * rij 1) else 0))
          (sinmp + 1)
            (if RealFns.sqrt (rij 0 * rij 0 + rij 1 * rij 1) > 1 / 1000000 then
              rij 1 / RealFns.sqrt (rij 0 * rij 0 + rij 1 * rij 1) else 0) := by
  unfold calculateSinCosPowersHip
  simp only []
  rw [forLoop_of_le _ _ _ _ (by omega : 0 + 1 ≤ 2)]
  split_ifs <;> rfl

/-- The function `calculateSinCosPowersHip` writes only the words of
`sinmp[0 .. max lend 1]` and `cosmp[0 .. max lend 1]`. -/
theorem calculateSinCosPowersHip_frame (rij : Nat → K) (lend sinmp cosmp : Nat)
    (sharedMemory : Mem K) (idx : Nat)
    (hs : idx < sinmp ∨ sinmp + max lend 1 < idx)
    (hc : idx < cosmp ∨ cosmp + max lend 1 < idx) :
    calculateSinCosPowersHip rij lend sinmp cosmp sharedMemory idx = sharedMemory idx := by
  have hmax : 1 ≤ max lend 1 := le_max_right _ _
  have hmax2 : lend ≤ max lend 1 := le_max_left _ _
  unfold calculateSinCosPowersHip
  simp only []
  rw [forLoop_frame _ _ _ _ (fun m _ hm s => by
    rw [Function.update_noteq (by omega), Function.update_noteq (by omega)])]
  split_ifs
  · rw [Function.update_noteq (by omega), Function.update_noteq (by omega),
      Function.update_noteq (by omega), Function.update_noteq (by omega)]
  · rw [Function.update_noteq (by omega), Function.update_noteq (by omega),
      Function.update_noteq (by omega), Function.update_noteq (by omega)]

/-- When `1 ≤ lend ≤ 2*maxlmax`, the stores of `calculateHankelHip` and
`calculateSinCosPowersHip` stay inside the regions that `sharedMemoryBGijHip`
lays out for `hfn`, `sinmp` and `cosmp`: every word outside the region of the
table is left unchanged. -/
theorem tables_in_region (maxlmax ndlm lend : Nat) (h1 : 1 ≤ lend) (h2 : lend ≤ 2 * maxlmax)
    (prel : deviceDoubleComplex K) (r : K) (rij : Nat → K)
    (ilp1 : Mem (deviceDoubleComplex K)) (sharedMemory : Mem K) (idx : Nat) :
    ((sharedMemoryBGijHip maxlmax ndlm).sinmpOffset / 8 ≤ idx →
      calculateHankelHip prel r lend ilp1 ((sharedMemoryBGijHip maxlmax ndlm).hfnOffset / 8)
        sharedMemory idx = sharedMemory idx)
    ∧ ((idx < (sharedMemoryBGijHip maxlmax ndlm).sinmpOffset / 8
        ∨ (sharedMemoryBGijHip maxlmax ndlm).plmOffset / 8 ≤ idx) →
      calculateSinCosPowersHip rij lend ((sharedMemoryBGijHip maxlmax ndlm).sinmpOffset / 8)
        ((sharedMemoryBGijHip maxlmax ndlm).cosmpOffset / 8) sharedMemory idx
        = sharedMemory idx) := by
  have hmax : max lend 1 = lend := max_eq_left h1
  constructor
  · intro h
    refine calculateHankelHip_frame _ _ _ _ _ _ _ (Or.inr ?_)
    rw [hmax]
    simp only [sharedMemoryBGijHip] at h ⊢
    omega
  · intro h
    refine calculateSinCosPowersHip_frame _ _ _ _ _ _ ?_ ?_
    · rw [hmax]
      simp only [sharedMemoryBGijHip] at h ⊢
      omega
    · rw [hmax]
      simp only [sharedMemoryBGijHip] at h ⊢
      omega

end WrittenEntries

/-- C21 does not hold for the code at `lend = 0`: `calculateHankelHip` stores
`hfn[1] = -1 - i/z` and `calculateSinCosPowersHip` stores `cosmp[1]` and
`sinmp[1]` whatever `lend` is. With the layout of `sharedMemoryBGijHip` for
`maxlmax = 0` (one entry per table), `hfn[1]` lands on the words of `sinmp[0]`
and `cosmp[0]`, `cosmp[1]` on the word of `plm[0]` and `sinmp[1]` on the word of
`cosmp[0]`. -/
theorem C21_index_one_written {K : Type} [LinearOrderedField K] [RealFns K]
    (prel : deviceDoubleComplex K) (r : K) (rij : Nat → K)
    (ilp1 : Mem (deviceDoubleComplex K)) (sharedMemory : Mem K) (ndlm : Nat) :
    calculateHankelHip prel r 0 ilp1 ((sharedMemoryBGijHip 0 ndlm).hfnOffset / 8) sharedMemory
        ((sharedMemoryBGijHip 0 ndlm).sinmpOffset / 8 + 0)
      = (make_hipDoubleComplex (-1) 0
          - make_hipDoubleComplex 0 1 / (prel * make_hipDoubleComplex r 0)).x
    ∧ calculateHankelHip prel r 0 ilp1 ((sharedMemoryBGijHip 0 ndlm).hfnOffset / 8) sharedMemory
        ((sharedMemoryBGijHip 0 ndlm).cosmpOffset / 8 + 0)
      = (make_hipDoubleComplex (-1) 0
          - make_hipDoubleComplex 0 1 / (prel * make_hipDoubleComplex r 0)).y
    ∧ calculateSinCosPowersHip rij 0 ((sharedMemoryBGijHip 0 ndlm).sinmpOffset / 8)
        ((sharedMemoryBGijHip 0 ndlm).cosmpOffset / 8) sharedMemory
        ((sharedMemoryBGijHip 0 ndlm).plmOffset / 8 + 0)
      = (if RealFns.sqrt (rij 0 * rij 0 + rij 1 * rij 1) > 1 / 1000000 then
          rij 0 / RealFns.sqrt (rij 0 * rij 0 + rij 1 * rij 1) else 0)
    ∧ calculateSinCosPowersHip rij 0 ((sharedMemoryBGijHip 0 ndlm).sinmpOffset / 8)
        ((sharedMemoryBGijHip 0 ndlm).cosmpOffset / 8) sharedMemory
        ((sharedMemoryBGijHip 0 ndlm).cosmpOffset / 8 + 0)
      = (if RealFns.sqrt (rij 0 * rij 0 + rij 1 * rij 1) > 1 / 1000000 then
          rij 1 / RealFns.sqrt (rij 0 * rij 0 + rij 1 * rij 1) else 0) := by
  have hh : (sharedMemoryBGijHip 0 ndlm).hfnOffset / 8 = 0 := by simp [sharedMemoryBGijHip]
  have hs : (sharedMemoryBGijHip 0 ndlm).sinmpOffset / 8 = 2 := by simp [sharedMemoryBGijHip]
  have hc : (sharedMemoryBGijHip 0 ndlm).cosmpOffset / 8 = 3 := by simp [sharedMemoryBGijHip]
  have hp : (sharedMemoryBGijHip 0 ndlm).plmOffset / 8 = 4 := by simp [sharedMemoryBGijHip]
  rw [hh, hs, hc, hp]
  refine ⟨(calculateHankelHip_lend_zero prel r ilp1 0 sharedMemory).1,
    (calculateHankelHip_lend_zero prel r ilp1 0 sharedMemory).2, ?_, ?_⟩
  · rw [calculateSinCosPowersHip_lend_zero, Function.update_noteq (by omega)]
    exact Function.update_same _ _ _
  · rw [calculateSinCosPowersHip_lend_zero]
    exact Function.update_same _ _ _


/-! ## The arguments of the Dlm evaluations -/

/-- The loop `gauntLoop` is the fold of its accumulation step over the visited
values of `l3`. -/
theorem gauntLoop_eq_visits {K : Type} [CommRing K] (c : DeviceConstants K)
    (sm : BasisTables K) (lm1 lm2 : Nat) (m3 llow : Int) (cell : Nat) :
    ∀ (fuel : Nat) (l3 : Int) (devBgij : Mem (deviceDoubleComplex K)),
      gauntLoop c sm lm1 lm2 m3 llow cell fuel l3 devBgij
        = (gauntLoopVisits llow fuel l3).foldl
            (fun devBgij t =>
              Function.update devBgij cell
                (devBgij cell
                  + make_hipDoubleComplex
                      (c.cgnt (IDX3 (Int.tdiv t 2).toNat lm1 lm2 c.lmaxp1_cgnt c.ndlj_cgnt)) 0
                    * dlmFunction sm.hfn sm.cosmp sm.sinmp sm.plm t.toNat m3)) devBgij
  | 0, l3, devBgij => rfl
  | fuel + 1, l3, devBgij => by
    by_cases h : llow ≤ l3
    · simp only [gauntLoop, gauntLoopVisits, if_pos h, List.foldl_cons]
      exact gauntLoop_eq_visits c sm lm1 lm2 m3 llow cell fuel (l3 - 2) _
    · simp only [gauntLoop, gauntLoopVisits, if_neg h, List.foldl_nil]

theorem mem_gauntLoopVisits {llow : Int} :
    ∀ (fuel : Nat) (top t : Int), t ∈ gauntLoopVisits llow fuel top → llow ≤ t ∧ t ≤ top
  | 0, top, t, h => by simp [gauntLoopVisits] at h
  | fuel + 1, top, t, h => by
    by_cases hl : llow ≤ top
    · simp only [gauntLoopVisits, if_pos hl, List.mem_cons] at h
      rcases h with rfl | h
      · exact ⟨hl, le_refl _⟩
      · have := mem_gauntLoopVisits fuel (top - 2) t h
        exact ⟨this.1, by omega⟩
    · simp [gauntLoopVisits, if_neg hl] at h

/-- Iteration `ij` of the channel-pair loop in terms of its Dlm evaluations:
the cell is zeroed, every pair `(l3, m3)` of `gijChannelPairVisits` adds
`cgnt(l3/2, lm1, lm2) * dlmFunction(…, l3, m3)`, and the cell is scaled. -/
theorem gijChannelPair_eq_visits {K : Type} [CommRing K] [DecidableEq K]
    (c : DeviceConstants K) (sm : BasisTables K) (prel : deviceDoubleComplex K) (pi4v : K)
    (kkri iOffset jOffset nrmat_ns ij : Nat) (devBgij : Mem (deviceDoubleComplex K)) :
    gijChannelPair c sm prel pi4v kkri iOffset jOffset nrmat_ns ij devBgij
      = Function.update
          ((gijChannelPairVisits c prel kkri ij).foldl
            (fun devBgij p =>
              Function.update devBgij
                (IDX (iOffset + ij % kkri) (jOffset + ij / kkri) nrmat_ns)
                (devBgij (IDX (iOffset + ij % kkri) (jOffset + ij / kkri) nrmat_ns)
                  + make_hipDoubleComplex
                      (c.cgnt (IDX3 (Int.tdiv p.1 2).toNat (ij / kkri) (ij % kkri)
                        c.lmaxp1_cgnt c.ndlj_cgnt)) 0
                    * dlmFunction sm.hfn sm.cosmp sm.sinmp sm.plm p.1.toNat p.2))
            (Function.update devBgij
              (IDX (iOffset + ij % kkri) (jOffset + ij / kkri) nrmat_ns)
              (make_hipDoubleComplex 0 0)))
          (IDX (iOffset + ij % kkri) (jOffset + ij / kkri) nrmat_ns)
          ((gijChannelPairVisits c prel kkri ij).foldl
            (fun devBgij p =>
              Function.update devBgij
                (IDX (iOffset + ij % kkri) (jOffset + ij / kkri) nrmat_ns)
                (devBgij (IDX (iOffset + ij % kkri) (jOffset + ij / kkri) nrmat_ns)
                  + make_hipDoubleComplex
                      (c.cgnt (IDX3 (Int.tdiv p.1 2).toNat (ij / kkri) (ij % kkri)
                        c.lmaxp1_cgnt c.ndlj_cgnt)) 0
                    * dlmFunction sm.hfn sm.cosmp sm.sinmp sm.plm p.1.toNat p.2))
            (Function.update devBgij
              (IDX (iOffset + ij % kkri) (jOffset + ij / kkri) nrmat_ns)
              (make_hipDoubleComplex 0 0))
            (IDX (iOffset + ij % kkri) (jOffset + ij / kkri) nrmat_ns)
            * make_hipDoubleComplex pi4v 0 * c.illp (IDX (ij % kkri) (ij / kkri) c.ndlj_illp)) := by
  unfold gijChannelPair gijChannelPairVisits
  simp only [gauntLoop_eq_visits, List.foldl_map]

/-- C23: when the index tables satisfy `|mofk[k]| ≤ lofk[k] ≤ lmax` for every
`k < (lmax+1)^2` (for the cutoffs `lmax1`, `lmax2` of the two sites), every
call `dlmFunction(…, l3, m3)` of iteration `ij < kkri*kkrj` of the channel-pair
loop, also under the override for `prel = 0`, has `|m3| ≤ l3 ≤ lmax1 + lmax2`;
so the indices of its reads `hfn[l3]`, `plm[l3(l3+1)/2 + |m3|]`, `cosmp[|m3|]`,
`sinmp[|m3|]` are those of entries filled for `lend = lmax1 + lmax2`, and the
first Gaunt index `l3/2` is at most `(lmax1+lmax2)/2`. -/
theorem C23_dlm_arguments {K : Type} [CommRing K] [DecidableEq K] (c : DeviceConstants K)
    (prel : deviceDoubleComplex K) (lmax1 lmax2 ij : Nat)
    (htab1 : ∀ k < (lmax1 + 1) * (lmax1 + 1),
      abs (c.mofk k) ≤ (c.lofk k : Int) ∧ c.lofk k ≤ lmax1)
    (htab2 : ∀ k < (lmax2 + 1) * (lmax2 + 1),
      abs (c.mofk k) ≤ (c.lofk k : Int) ∧ c.lofk k ≤ lmax2)
    (hij : ij < (lmax1 + 1) * (lmax1 + 1) * ((lmax2 + 1) * (lmax2 + 1))) :
    ∀ p ∈ gijChannelPairVisits c prel ((lmax1 + 1) * (lmax1 + 1)) ij,
      (abs p.2 ≤ p.1 ∧ p.1 ≤ ((lmax1 + lmax2 : Nat) : Int))
      ∧ p.1.toNat ≤ lmax1 + lmax2
      ∧ p.2.natAbs ≤ p.1.toNat
      ∧ plmIdxDev p.1.toNat p.2.natAbs ≤ plmIdxDev (lmax1 + lmax2) (lmax1 + lmax2)
      ∧ p.2.natAbs ≤ lmax1 + lmax2
      ∧ (Int.tdiv p.1 2).toNat ≤ (lmax1 + lmax2) / 2 := by
  intro p hp
  have h2 := htab1 (ij % ((lmax1 + 1) * (lmax1 + 1))) (mod_lt_of_lt_mul hij)
  have h1 := htab2 (ij / ((lmax1 + 1) * (lmax1 + 1))) (Nat.div_lt_of_lt_mul hij)
  simp only [gijChannelPairVisits, List.mem_map] at hp
  obtain ⟨t, ht, rfl⟩ := hp
  dsimp only
  have hb := mem_gauntLoopVisits _ _ _ ht
  generalize c.lofk (ij / ((lmax1 + 1) * (lmax1 + 1))) = l1 at h1 hb
  generalize c.mofk (ij / ((lmax1 + 1) * (lmax1 + 1))) = m1 at h1 hb
  generalize c.lofk (ij % ((lmax1 + 1) * (lmax1 + 1))) = l2 at h2 hb
  generalize c.mofk (ij % ((lmax1 + 1) * (lmax1 + 1))) = m2 at h2 hb
  have ha1 := abs_le.mp h1.1
  have ha2 := abs_le.mp h2.1
  have hm3 : abs (m2 - m1) ≤ t := by
    by_cases hprel : prel = 0
    · rw [if_pos hprel] at hb
      exact abs_le.mpr ⟨by omega, by omega⟩
    · rw [if_neg hprel] at hb
      exact le_trans (le_max_left _ _) hb.1
  have hm3b := abs_le.mp hm3
  have ht0 : 0 ≤ t := le_trans (abs_nonneg _) hm3
  have htop : t ≤ ((lmax1 + lmax2 : Nat) : Int) := by
    have := hb.2
    omega
  have htn : t.toNat ≤ lmax1 + lmax2 := by omega
  have hmn : (m2 - m1).natAbs ≤ t.toNat := by omega
  refine ⟨⟨hm3, htop⟩, htn, hmn, ?_, by omega, ?_⟩
  · rw [plmIdxDev_add, plmIdxDev_add (lmax1 + lmax2)]
    rcases Nat.lt_or_ge t.toNat (lmax1 + lmax2) with hlt | hge
    · have := plmIdxDev_row_lt hlt
      omega
    · have : t.toNat = lmax1 + lmax2 := by omega
      rw [this]
      omega
  · rw [Int.tdiv_eq_ediv ht0 (by omega)]
    omega

/-- C23 at the example tables: the cutoffs 1 and 0 of the example sites and the
channel pair `ij = 3`. -/
theorem C23_dlm_arguments_witness :
    ((∀ k < (1 + 1) * (1 + 1),
        abs (exConstants.mofk k) ≤ (exConstants.lofk k : Int) ∧ exConstants.lofk k ≤ 1)
      ∧ (∀ k < (0 + 1) * (0 + 1),
        abs (exConstants.mofk k) ≤ (exConstants.lofk k : Int) ∧ exConstants.lofk k ≤ 0)
      ∧ 3 < (1 + 1) * (1 + 1) * ((0 + 1) * (0 + 1)))
    ∧ ∀ p ∈ gijChannelPairVisits exConstants (⟨1, 1⟩ : deviceDoubleComplex ℚ)
          ((1 + 1) * (1 + 1)) 3,
        (abs p.2 ≤ p.1 ∧ p.1 ≤ ((1 + 0 : Nat) : Int))
        ∧ p.1.toNat ≤ 1 + 0
        ∧ p.2.natAbs ≤ p.1.toNat
        ∧ plmIdxDev p.1.toNat p.2.natAbs ≤ plmIdxDev (1 + 0) (1 + 0)
        ∧ p.2.natAbs ≤ 1 + 0
        ∧ (Int.tdiv p.1 2).toNat ≤ (1 + 0) / 2 :=
  ⟨⟨by decide, by decide, by decide⟩,
    C23_dlm_arguments exConstants ⟨1, 1⟩ 1 0 3 (by decide) (by decide) (by decide)⟩


/-! ## Sites separated along the z axis -/

theorem dlmFunction_of_tables_zero {K : Type} [CommRing K] (hfn : Mem (deviceDoubleComplex K))
    (cosmp sinmp plm : Mem K) (l : Nat) (m : Int) (hm : m ≠ 0) (hc : cosmp m.natAbs = 0)
    (hs : sinmp m.natAbs = 0) : dlmFunction hfn cosmp sinmp plm l m = 0 := by
  have hz : (make_hipDoubleComplex (0 : K) (-0) : deviceDoubleComplex K) = 0 := by
    rw [neg_zero]
    rfl
  unfold dlmFunction
  simp only [if_neg hm, hc, hs, make_zero, hz, mul_zero, neg_zero, ite_self]

section Pole

variable {K : Type} [LinearOrderedField K] [RealFns K]

/-- At the pole the tables `cosmp` and `sinmp` that the channel-pair loop reads
are zero in every entry `1 ≤ k ≤ lend`, when the two tables do not overlap. -/
theorem gijTables_pole (g : GijArgs K) (ir1 ir2 : Nat)
    (hlend : 1 ≤ g.LIZlmax ir1 + g.LIZlmax ir2)
    (hdisj : ∀ a ≤ g.LIZlmax ir1 + g.LIZlmax ir2, ∀ b ≤ g.LIZlmax ir1 + g.LIZlmax ir2,
      g.sinmpOffset / 8 + a ≠ g.cosmpOffset / 8 + b)
    (hpole : ¬ RealFns.sqrt (sitesRij g.LIZPos ir1 ir2 0 * sitesRij g.LIZPos ir1 ir2 0
      + sitesRij g.LIZPos ir1 ir2 1 * sitesRij g.LIZPos ir1 ir2 1) > 1 / 1000000)
    (k : Nat) (hk1 : 1 ≤ k) (hk : k ≤ g.LIZlmax ir1 + g.LIZlmax ir2) :
    (gijTables g ir1 ir2).cosmp k = 0 ∧ (gijTables g ir1 ir2).sinmp k = 0 := by
  have hu : specAzimuth (sitesRij g.LIZPos ir1 ir2) = 0 := by
    unfold specAzimuth
    rw [if_neg hpole]
  have key := calculateSinCosPowersHip_entry (sitesRij g.LIZPos ir1 ir2)
    (g.LIZlmax ir1 + g.LIZlmax ir2) (g.sinmpOffset / 8) (g.cosmpOffset / 8)
    (associatedLegendreFunctionNormalizedHip
      (sitesRij g.LIZPos ir1 ir2 2
        / RealFns.sqrt (sitesRij g.LIZPos ir1 ir2 0 * sitesRij g.LIZPos ir1 ir2 0
          + sitesRij g.LIZPos ir1 ir2 1 * sitesRij g.LIZPos ir1 ir2 1
          + sitesRij g.LIZPos ir1 ir2 2 * sitesRij g.LIZPos ir1 ir2 2))
      (g.LIZlmax ir1 + g.LIZlmax ir2) (g.plmOffset / 8)
      (calculateHankelHip g.prel
        (RealFns.sqrt (sitesRij g.LIZPos ir1 ir2 0 * sitesRij g.LIZPos ir1 ir2 0
          + sitesRij g.LIZPos ir1 ir2 1 * sitesRij g.LIZPos ir1 ir2 1
          + sitesRij g.LIZPos ir1 ir2 2 * sitesRij g.LIZPos ir1 ir2 2))
        (g.LIZlmax ir1 + g.LIZlmax ir2) g.c.ilp1 (g.hfnOffset / 8) g.sharedMemory))
    hlend hdisj k hk
  rw [hu, zero_pow (by omega)] at key
  exact ⟨key.1, key.2⟩

/-- At the pole the Gij scalar of a channel pair with `m1 ≠ m2` is zero. -/
theorem gijScalar_pole (g : GijArgs K) (ir1 ir2 lm2 lm1 : Nat)
    (hlm2 : lm2 < kkrOf g.LIZlmax ir1)
    (hdisj : ∀ a ≤ g.LIZlmax ir1 + g.LIZlmax ir2, ∀ b ≤ g.LIZlmax ir1 + g.LIZlmax ir2,
      g.sinmpOffset / 8 + a ≠ g.cosmpOffset / 8 + b)
    (hpole : ¬ RealFns.sqrt (sitesRij g.LIZPos ir1 ir2 0 * sitesRij g.LIZPos ir1 ir2 0
      + sitesRij g.LIZPos ir1 ir2 1 * sitesRij g.LIZPos ir1 ir2 1) > 1 / 1000000)
    (hm3 : (g.c.mofk lm2 - g.c.mofk lm1).natAbs ≤ g.LIZlmax ir1 + g.LIZlmax ir2)
    (hm : g.c.mofk lm1 ≠ g.c.mofk lm2) :
    gijScalar g ir1 ir2 lm2 lm1 = 0 := by
  have hne : g.c.mofk lm2 - g.c.mofk lm1 ≠ 0 := by
    intro h
    exact hm (by omega)
  have htab := gijTables_pole g ir1 ir2 (by omega) hdisj hpole
    (g.c.mofk lm2 - g.c.mofk lm1).natAbs (by omega) hm3
  rw [gijScalar_eq g ir1 ir2 lm2 lm1 hlm2, Finset.sum_eq_zero, zero_mul, zero_mul]
  intro l3 _
  unfold gauntTerm
  rw [dlmFunction_of_tables_zero _ _ _ _ _ _ hne htab.1 htab.2, mul_zero]

end Pole

theorem gauntLoopVisits_of_lt {llow top : Int} (h : top < llow) :
    ∀ fuel : Nat, gauntLoopVisits llow fuel top = []
  | 0 => rfl
  | fuel + 1 => by
    simp only [gauntLoopVisits, if_neg (not_le.mpr h)]

/-- For `prel = 0` the channel-pair iteration calls `dlmFunction` once, with
`l3 = l1 + l2`. -/
theorem gijChannelPairVisits_prel_zero {K : Type} [CommRing K] [DecidableEq K]
    (c : DeviceConstants K) (kkri lm2 lm1 : Nat) (hlm2 : lm2 < kkri) :
    gijChannelPairVisits c (0 : deviceDoubleComplex K) kkri (lm1 * kkri + lm2)
      = [((c.lofk lm1 : Int) + c.lofk lm2, c.mofk lm2 - c.mofk lm1)] := by
  unfold gijChannelPairVisits
  simp only [pair_mod hlm2, pair_div hlm2, if_true]
  rw [gauntLoopVisits, if_pos (le_refl _), gauntLoopVisits_of_lt (by omega)]
  rfl

/-- C24 holds for `prel ≠ 0` and does not hold for the code at `prel = 0`.
Two distinct sites are separated along the z axis
(`sqrt(rij_x^2 + rij_y^2) ≤ 1e-6`), their cutoffs are at most `lsms.maxlmax`,
the index tables have `|mofk[k]| ≤ lofk[k] ≤ lmax` for `k < (lmax+1)^2`, and
the channel pair has `m1 ≠ m2`. With `r` the distance of the sites:
* if `prel ≠ 0` and `r ≠ 0`, no division of `calculateHankelHip` in the block
  has a zero divisor and the entry that the launch of `buildGijHipKernel`
  writes for the channel pair is zero, for every Gaunt table;
* if `prel = 0`, the first division of `calculateHankelHip` in the block
  (`sqrtm1/z`, for `hfn[1]`) has the divisor zero, and the only call
  `dlmFunction(…, l3, m3)` for the channel pair has `l3 = l1 + l2 ≥ 1`, so the
  entry is computed from an `hfn[l3]` that results from that division. -/
theorem C24_pole_entries {K : Type} [LinearOrderedField K] [RealFns K]
    (blockDim numLIZ : Nat) (lsms : LSMSSystemParameters) (atom : AtomData K)
    (c : DeviceConstants K) (sharedMemory : Mem K) (prel : deviceDoubleComplex K)
    (devOffsets : Mem Nat) (devBgij : Mem (deviceDoubleComplex K)) (hbd : 0 < blockDim)
    (hns : 0 < lsms.n_spin_cant)
    (hlay : BlockLayout numLIZ lsms.n_spin_cant (lsms.n_spin_cant * atom.nrmat) atom.LIZlmax
      devOffsets)
    (ir1 ir2 : Nat) (h1 : ir1 < numLIZ) (h2 : ir2 < numLIZ) (hne : ir1 ≠ ir2) (lm2 lm1 : Nat)
    (hlm2 : lm2 < kkrOf atom.LIZlmax ir1) (hlm1 : lm1 < kkrOf atom.LIZlmax ir2)
    (hmax1 : atom.LIZlmax ir1 ≤ lsms.maxlmax) (hmax2 : atom.LIZlmax ir2 ≤ lsms.maxlmax)
    (htab1 : ∀ k < kkrOf atom.LIZlmax ir1,
      abs (c.mofk k) ≤ (c.lofk k : Int) ∧ c.lofk k ≤ atom.LIZlmax ir1)
    (htab2 : ∀ k < kkrOf atom.LIZlmax ir2,
      abs (c.mofk k) ≤ (c.lofk k : Int) ∧ c.lofk k ≤ atom.LIZlmax ir2)
    (hpole : RealFns.sqrt (sitesRij atom.LIZPos ir1 ir2 0 * sitesRij atom.LIZPos ir1 ir2 0
      + sitesRij atom.LIZPos ir1 ir2 1 * sitesRij atom.LIZPos ir1 ir2 1) ≤ 1 / 1000000)
    (hm : c.mofk lm1 ≠ c.mofk lm2) :
    (prel ≠ 0 →
      RealFns.sqrt (sitesRij atom.LIZPos ir1 ir2 0 * sitesRij atom.LIZPos ir1 ir2 0
        + sitesRij atom.LIZPos ir1 ir2 1 * sitesRij atom.LIZPos ir1 ir2 1
        + sitesRij atom.LIZPos ir1 ir2 2 * sitesRij atom.LIZPos ir1 ir2 2) ≠ 0 →
      (∀ z ∈ (calculateHankelHipLogged prel
            (RealFns.sqrt (sitesRij atom.LIZPos ir1 ir2 0 * sitesRij atom.LIZPos ir1 ir2 0
              + sitesRij atom.LIZPos ir1 ir2 1 * sitesRij atom.LIZPos ir1 ir2 1
              + sitesRij atom.LIZPos ir1 ir2 2 * sitesRij atom.LIZPos ir1 ir2 2))
            (atom.LIZlmax ir1 + atom.LIZlmax ir2) c.ilp1
            ((sharedMemoryBGijHip lsms.maxlmax lsms.ndlm).hfnOffset / 8) sharedMemory).2,
          z ≠ 0)
      ∧ gridLaunch numLIZ
          (buildGijHipKernel blockDim (buildGijArgs lsms atom c sharedMemory prel devOffsets))
          devBgij
          (IDX (devOffsets ir1 + lm2) (devOffsets ir2 + lm1) (lsms.n_spin_cant * atom.nrmat))
        = 0)
    ∧ (prel = 0 →
      (calculateHankelHipLogged prel
          (RealFns.sqrt (sitesRij atom.LIZPos ir1 ir2 0 * sitesRij atom.LIZPos ir1 ir2 0
            + sitesRij atom.LIZPos ir1 ir2 1 * sitesRij atom.LIZPos ir1 ir2 1
            + sitesRij atom.LIZPos ir1 ir2 2 * sitesRij atom.LIZPos ir1 ir2 2))
          (atom.LIZlmax ir1 + atom.LIZlmax ir2) c.ilp1
          ((sharedMemoryBGijHip lsms.maxlmax lsms.ndlm).hfnOffset / 8) sharedMemory).2.head?
        = some 0
      ∧ gijChannelPairVisits c prel (kkrOf atom.LIZlmax ir1) (lm1 * kkrOf atom.LIZlmax ir1 + lm2)
        = [((c.lofk lm1 : Int) + c.lofk lm2, c.mofk lm2 - c.mofk lm1)]
      ∧ 1 ≤ c.lofk lm1 + c.lofk lm2) := by
  have ha2 := abs_le.mp (htab1 lm2 hlm2).1
  have ha1 := abs_le.mp (htab2 lm1 hlm1).1
  have hb2 := (htab1 lm2 hlm2).2
  have hb1 := (htab2 lm1 hlm1).2
  refine ⟨fun hprel hr => ⟨hankel_divisors_ne_zero _ _ _ _ _ _ hprel hr, ?_⟩, fun hprel => ?_⟩
  · have hentry := gijLaunch_entry blockDim numLIZ lsms.n_spin_cant
      (buildGijArgs lsms atom c sharedMemory prel devOffsets) devBgij hbd hns hlay ir1 ir2 h1 h2
      hne lm2 lm1 hlm2 hlm1
    have hscalar := gijScalar_pole (buildGijArgs lsms atom c sharedMemory prel devOffsets) ir1
      ir2 lm2 lm1 hlm2
      (by
        intro a ha b hb
        simp only [buildGijArgs, sharedMemoryBGijHip] at ha hb ⊢
        omega)
      (not_lt.mpr hpole)
      (by
        simp only [buildGijArgs]
        omega)
      hm
    exact hentry.trans hscalar
  · subst hprel
    refine ⟨?_, gijChannelPairVisits_prel_zero c _ lm2 lm1 hlm2, ?_⟩
    · rw [calculateHankelHipLogged_snd]
      simp
    · omega

/-- C24 at the example sites `(0,0,0)` and `(0,0,5)`, channel pair
`(lm2, lm1) = (1, 0)` with `m2 = -1`, `m1 = 0`: the entry is zero for
`prel = 1 + i`, and for `prel = 0` the first divisor of the Hankel routine is
zero and the entry is computed from `hfn[1]`. -/
theorem C24_pole_entries_witness :
    (0 < 256 ∧ 0 < exLsms.n_spin_cant
      ∧ BlockLayout 2 exLsms.n_spin_cant (exLsms.n_spin_cant * exAtomZ.nrmat) exAtomZ.LIZlmax
          exOffsets
      ∧ 0 < 2 ∧ 1 < 2 ∧ 0 ≠ 1 ∧ 1 < kkrOf exAtomZ.LIZlmax 0 ∧ 0 < kkrOf exAtomZ.LIZlmax 1
      ∧ exAtomZ.LIZlmax 0 ≤ exLsms.maxlmax ∧ exAtomZ.LIZlmax 1 ≤ exLsms.maxlmax
      ∧ RealFns.sqrt (sitesRij exAtomZ.LIZPos 0 1 0 * sitesRij exAtomZ.LIZPos 0 1 0
          + sitesRij exAtomZ.LIZPos 0 1 1 * sitesRij exAtomZ.LIZPos 0 1 1) ≤ 1 / 1000000
      ∧ exConstants.mofk 0 ≠ exConstants.mofk 1)
    ∧ ((⟨1, 1⟩ : deviceDoubleComplex ℚ) ≠ 0
      ∧ RealFns.sqrt (sitesRij exAtomZ.LIZPos 0 1 0 * sitesRij exAtomZ.LIZPos 0 1 0
          + sitesRij exAtomZ.LIZPos 0 1 1 * sitesRij exAtomZ.LIZPos 0 1 1
          + sitesRij exAtomZ.LIZPos 0 1 2 * sitesRij exAtomZ.LIZPos 0 1 2) ≠ 0)
    ∧ gridLaunch 2
        (buildGijHipKernel 256
          (buildGijArgs exLsms exAtomZ exConstants (fun _ => 0) ⟨1, 1⟩ exOffsets))
        (fun _ => 0) (IDX (exOffsets 0 + 1) (exOffsets 1 + 0) (exLsms.n_spin_cant * exAtomZ.nrmat))
      = 0
    ∧ (calculateHankelHipLogged (0 : deviceDoubleComplex ℚ)
          (RealFns.sqrt (sitesRij exAtomZ.LIZPos 0 1 0 * sitesRij exAtomZ.LIZPos 0 1 0
            + sitesRij exAtomZ.LIZPos 0 1 1 * sitesRij exAtomZ.LIZPos 0 1 1
            + sitesRij exAtomZ.LIZPos 0 1 2 * sitesRij exAtomZ.LIZPos 0 1 2))
          (exAtomZ.LIZlmax 0 + exAtomZ.LIZlmax 1) exConstants.ilp1
          ((sharedMemoryBGijHip exLsms.maxlmax exLsms.ndlm).hfnOffset / 8) (fun _ => 0)).2.head?
        = some 0
    ∧ gijChannelPairVisits exConstants (0 : deviceDoubleComplex ℚ) (kkrOf exAtomZ.LIZlmax 0)
          (0 * kkrOf exAtomZ.LIZlmax 0 + 1)
        = [((exConstants.lofk 0 : Int) + exConstants.lofk 1,
            exConstants.mofk 1 - exConstants.mofk 0)] :=
  have hpole : RealFns.sqrt (sitesRij exAtomZ.LIZPos 0 1 0 * sitesRij exAtomZ.LIZPos 0 1 0
      + sitesRij exAtomZ.LIZPos 0 1 1 * sitesRij exAtomZ.LIZPos 0 1 1) ≤ (1 / 1000000 : ℚ) := by
    simp [sitesRij, exAtomZ, RealFns.sqrt]
  have hprel : (⟨1, 1⟩ : deviceDoubleComplex ℚ) ≠ 0 := by
    intro h
    have hx := congrArg deviceDoubleComplex.x h
    simp at hx
  have hr : RealFns.sqrt (sitesRij exAtomZ.LIZPos 0 1 0 * sitesRij exAtomZ.LIZPos 0 1 0
      + sitesRij exAtomZ.LIZPos 0 1 1 * sitesRij exAtomZ.LIZPos 0 1 1
      + sitesRij exAtomZ.LIZPos 0 1 2 * sitesRij exAtomZ.LIZPos 0 1 2) ≠ (0 : ℚ) := by
    norm_num [sitesRij, exAtomZ, RealFns.sqrt]
  ⟨⟨by decide, by decide, by decide, by decide, by decide, by decide, by decide, by decide,
      by decide, by decide, hpole, by decide⟩,
    ⟨hprel, hr⟩,
    ((C24_pole_entries 256 2 exLsms exAtomZ exConstants (fun _ => 0) ⟨1, 1⟩ exOffsets
      (fun _ => 0) (by decide) (by decide) (by decide) 0 1 (by decide) (by decide) (by decide)
      1 0 (by decide) (by decide) (by decide) (by decide) (by decide) (by decide) hpole
      (by decide)).1 hprel hr).2,
    ((C24_pole_entries 256 2 exLsms exAtomZ exConstants (fun _ => 0) 0 exOffsets
      (fun _ => 0) (by decide) (by decide) (by decide) 0 1 (by decide) (by decide) (by decide)
      1 0 (by decide) (by decide) (by decide) (by decide) (by decide) (by decide) hpole
      (by decide)).2 rfl).1,
    ((C24_pole_entries 256 2 exLsms exAtomZ exConstants (fun _ => 0) 0 exOffsets
      (fun _ => 0) (by decide) (by decide) (by decide) 0 1 (by decide) (by decide) (by decide)
      1 0 (by decide) (by decide) (by decide) (by decide) (by decide) (by decide) hpole
      (by decide)).2 rfl).2.1⟩


/-! ## The Legendre table at the poles -/

section LegendrePoles

variable {K : Type} [LinearOrderedField K] [RealFns K]

theorem specLegendreDiag_pole (x : K) (hy : RealFns.sqrt (1 - x * x) = 0) :
    ∀ m, 1 ≤ m → specLegendreDiag x m = 0
  | 0, h => by omega
  | m + 1, _ => by
    rw [specLegendreDiag, hy, mul_zero, zero_mul]

theorem specLegendre_pole_pair (x : K) (hy : RealFns.sqrt (1 - x * x) = 0) (m : Nat)
    (hm : 1 ≤ m) : ∀ n, specLegendre x m n = 0 ∧ specLegendre x m (n + 1) = 0
  | 0 => by
    constructor
    · rw [specLegendre, specLegendreDiag_pole x hy m hm]
    · rw [specLegendre, specLegendreDiag_pole x hy m hm, mul_zero]
  | n + 1 => by
    have ih := specLegendre_pole_pair x hy m hm n
    refine ⟨ih.2, ?_⟩
    rw [specLegendre, ih.1, ih.2, mul_zero, mul_zero, sub_zero, mul_zero]

/-- The column `m = 0` of the table at a pole `x*x = 1`, from the two
identities of the square root that its recurrence uses. -/
theorem specLegendre_pole_zero (x : K) (hxx : x * x = 1) (lmax : Nat)
    (h1 : RealFns.sqrt (3 : K) * RealFns.sqrt (1 / (4 * RealFns.acos (-1 : K)))
      = RealFns.sqrt (3 / (4 * RealFns.acos (-1 : K))))
    (hstep : ∀ l : Nat, 2 ≤ l → l ≤ lmax →
      RealFns.sqrt ((4 * (l : K) * l - 1) / ((l : K) * l))
          * (RealFns.sqrt ((2 * (l : K) - 1) / (4 * RealFns.acos (-1)))
            - RealFns.sqrt ((((l : K) - 1) * ((l : K) - 1)) / (4 * ((l : K) - 1) * ((l : K) - 1) - 1))
              * RealFns.sqrt ((2 * (l : K) - 3) / (4 * RealFns.acos (-1))))
        = RealFns.sqrt ((2 * (l : K) + 1) / (4 * RealFns.acos (-1)))) :
    ∀ n, n + 1 ≤ lmax →
      specLegendre x 0 n
        = x ^ n * RealFns.sqrt ((2 * (n : K) + 1) / (4 * RealFns.acos (-1 : K)))
      ∧ specLegendre x 0 (n + 1)
        = x ^ (n + 1)
          * RealFns.sqrt ((2 * ((n + 1 : Nat) : K) + 1) / (4 * RealFns.acos (-1 : K)))
  | 0, _ => by
    constructor
    · rw [specLegendre, specLegendreDiag]
      simp
    · rw [specLegendre, specLegendreDiag, pow_one, mul_assoc, mul_comm x, ← mul_assoc]
      have e3 : ((2 * (0 + 1) + 1 : Nat) : K) = 3 := by norm_num
      have e3b : (2 * ((0 + 1 : Nat) : K) + 1) = 3 := by norm_num
      rw [e3, e3b, h1, mul_comm]
  | n + 1, hn => by
    have ih := specLegendre_pole_zero x hxx lmax h1 hstep n (by omega)
    refine ⟨ih.2, ?_⟩
    have hs := hstep (n + 2) (by omega) (by omega)
    rw [specLegendre, ih.1, ih.2]
    have ea : (((4 * ((0 + (n + 2) : Nat) : Int) * ((0 + (n + 2) : Nat) : Int) - 1 : Int) : K)
        / ((((0 + (n + 2) : Nat) : Int) * ((0 + (n + 2) : Nat) : Int)
            - ((0 : Nat) : Int) * ((0 : Nat) : Int) : Int) : K))
        = (4 * ((n + 2 : Nat) : K) * ((n + 2 : Nat) : K) - 1)
          / (((n + 2 : Nat) : K) * ((n + 2 : Nat) : K)) := by
      push_cast
      ring
    have eb : ((((((0 + (n + 2) : Nat) : Int) - 1) * (((0 + (n + 2) : Nat) : Int) - 1)
            - ((0 : Nat) : Int) * ((0 : Nat) : Int) : Int) : K)
          / ((4 * (((0 + (n + 2) : Nat) : Int) - 1) * (((0 + (n + 2) : Nat) : Int) - 1) - 1
              : Int) : K))
        = ((((n + 2 : Nat) : K) - 1) * (((n + 2 : Nat) : K) - 1))
          / (4 * (((n + 2 : Nat) : K) - 1) * (((n + 2 : Nat) : K) - 1) - 1) := by
      push_cast
      ring
    have e1 : (2 * ((n + 1 : Nat) : K) + 1) = 2 * ((n + 2 : Nat) : K) - 1 := by
      push_cast
      ring
    have e2 : (2 * (n : K) + 1) = 2 * ((n + 2 : Nat) : K) - 3 := by
      push_cast
      ring
    have e3 : (2 * ((n + 1 + 1 : Nat) : K) + 1) = 2 * ((n + 2 : Nat) : K) + 1 := by
      push_cast
      ring
    rw [ea, eb, e1, e2, e3, ← hs]
    have hx2 : x ^ (n + 1 + 1) = x ^ n := by
      rw [pow_succ, pow_succ, mul_assoc, hxx, mul_one]
    have hx3 : x * (x ^ (n + 1)) = x ^ n := by
      rw [pow_succ, mul_comm, mul_assoc, hxx, mul_one]
    rw [hx2, ← mul_assoc x, hx3]
    ring

end LegendrePoles


section SqrtLaws

variable {K : Type} [LinearOrderedField K] [RealFns K]

/-- The identities of the square root used along the column `m = 0` at a pole
follow from `sqrt(a*b) = sqrt a * sqrt b` and `sqrt(a*a) = a` on the
non-negative numbers, when `acos(-1) > 0`. -/
theorem pole_identities_of_sqrt_laws
    (hmul : ∀ a b : K, 0 ≤ a → 0 ≤ b → RealFns.sqrt (a * b) = RealFns.sqrt a * RealFns.sqrt b)
    (hsq : ∀ a : K, 0 ≤ a → RealFns.sqrt (a * a) = a)
    (hpi : (0 : K) < RealFns.acos (-1)) :
    RealFns.sqrt (0 : K) = 0
    ∧ RealFns.sqrt (3 : K) * RealFns.sqrt (1 / (4 * RealFns.acos (-1 : K)))
        = RealFns.sqrt (3 / (4 * RealFns.acos (-1 : K)))
    ∧ ∀ l : Nat, 2 ≤ l →
      RealFns.sqrt ((4 * (l : K) * l - 1) / ((l : K) * l))
          * (RealFns.sqrt ((2 * (l : K) - 1) / (4 * RealFns.acos (-1)))
            - RealFns.sqrt ((((l : K) - 1) * ((l : K) - 1)) / (4 * ((l : K) - 1) * ((l : K) - 1) - 1))
              * RealFns.sqrt ((2 * (l : K) - 3) / (4 * RealFns.acos (-1))))
        = RealFns.sqrt ((2 * (l : K) + 1) / (4 * RealFns.acos (-1))) := by
  have hp4 : (0 : K) < 4 * RealFns.acos (-1) := by linarith
  refine ⟨?_, ?_, ?_⟩
  · have := hsq 0 (le_refl 0)
    rwa [mul_zero] at this
  · rw [← hmul 3 _ (by norm_num) (div_nonneg zero_le_one hp4.le)]
    congr 1
    ring
  · intro l hl
    have hL : (2 : K) ≤ (l : K) := by exact_mod_cast hl
    generalize (l : K) = L at hL
    generalize 4 * RealFns.acos (-1 : K) = p at hp4
    have hA : (0 : K) < 2 * L - 1 := by linarith
    have hB : (0 : K) < 2 * L - 3 := by linarith
    have hC : (0 : K) < L - 1 := by linarith
    have hL0 : (0 : K) < L := by linarith
    have hq : (0 : K) ≤ 1 / ((2 * L - 1) * p) := div_nonneg zero_le_one (mul_pos hA hp4).le
    have hden : (4 * (L - 1) * (L - 1) - 1) = (2 * L - 3) * (2 * L - 1) := by ring
    have e1 : RealFns.sqrt ((2 * L - 1) / p)
        = (2 * L - 1) * RealFns.sqrt (1 / ((2 * L - 1) * p)) :=
      calc RealFns.sqrt ((2 * L - 1) / p)
          = RealFns.sqrt ((2 * L - 1) * (2 * L - 1) * (1 / ((2 * L - 1) * p))) := by
            congr 1
            field_simp
            ring
        _ = RealFns.sqrt ((2 * L - 1) * (2 * L - 1)) * RealFns.sqrt (1 / ((2 * L - 1) * p)) :=
            hmul _ _ (mul_nonneg hA.le hA.le) hq
        _ = (2 * L - 1) * RealFns.sqrt (1 / ((2 * L - 1) * p)) := by rw [hsq _ hA.le]
    have e2 : RealFns.sqrt ((L - 1) * (L - 1) / (4 * (L - 1) * (L - 1) - 1))
          * RealFns.sqrt ((2 * L - 3) / p)
        = (L - 1) * RealFns.sqrt (1 / ((2 * L - 1) * p)) :=
      calc RealFns.sqrt ((L - 1) * (L - 1) / (4 * (L - 1) * (L - 1) - 1))
            * RealFns.sqrt ((2 * L - 3) / p)
          = RealFns.sqrt ((L - 1) * (L - 1) / (4 * (L - 1) * (L - 1) - 1)
              * ((2 * L - 3) / p)) :=
            (hmul _ _ (div_nonneg (mul_nonneg hC.le hC.le)
              (by rw [hden]; exact (mul_pos hB hA).le)) (div_nonneg hB.le hp4.le)).symm
        _ = RealFns.sqrt ((L - 1) * (L - 1) * (1 / ((2 * L - 1) * p))) := by
            congr 1
            rw [hden]
            field_simp
            ring
        _ = RealFns.sqrt ((L - 1) * (L - 1)) * RealFns.sqrt (1 / ((2 * L - 1) * p)) :=
            hmul _ _ (mul_nonneg hC.le hC.le) hq
        _ = (L - 1) * RealFns.sqrt (1 / ((2 * L - 1) * p)) := by rw [hsq _ hC.le]
    have hnum : (0 : K) ≤ 4 * L * L - 1 := by nlinarith
    have e3 : RealFns.sqrt ((4 * L * L - 1) / (L * L)) * L
        = RealFns.sqrt ((4 * L * L - 1)) :=
      calc RealFns.sqrt ((4 * L * L - 1) / (L * L)) * L
          = RealFns.sqrt ((4 * L * L - 1) / (L * L)) * RealFns.sqrt (L * L) := by
            rw [hsq _ hL0.le]
        _ = RealFns.sqrt ((4 * L * L - 1) / (L * L) * (L * L)) :=
            (hmul _ _ (div_nonneg hnum (mul_nonneg hL0.le hL0.le))
              (mul_nonneg hL0.le hL0.le)).symm
        _ = RealFns.sqrt ((4 * L * L - 1)) := by
            congr 1
            field_simp
    have hnum : (0 : K) ≤ 4 * L * L - 1 := by nlinarith
    rw [e1, e2, ← sub_mul, show (2 * L - 1 - (L - 1)) = L by ring, ← mul_assoc, e3,
      ← hmul _ _ hnum hq]
    congr 1
    field_simp
    ring

end SqrtLaws

/-- The table of `associatedLegendreFunctionNormalizedHip` at a pole for any
scalars, from the identities of the square root that the column `m = 0` uses:
`sqrt 0 = 0`, `sqrt 3 * sqrt(1/(4*pi)) = sqrt(3/(4*pi))` and
`a_l0 * (sqrt((2l-1)/(4*pi)) - b_l0 * sqrt((2l-3)/(4*pi))) = sqrt((2l+1)/(4*pi))`
for `2 ≤ l ≤ lmax`. -/
theorem legendre_poles_of_identities {K : Type} [LinearOrderedField K] [RealFns K] (x : K)
    (lmax Plm : Nat) (sharedMemory : Mem K) (hx : x = 1 ∨ x = -1)
    (h0 : RealFns.sqrt (0 : K) = 0)
    (h1 : RealFns.sqrt (3 : K) * RealFns.sqrt (1 / (4 * RealFns.acos (-1 : K)))
      = RealFns.sqrt (3 / (4 * RealFns.acos (-1 : K))))
    (hstep : ∀ l : Nat, 2 ≤ l → l ≤ lmax →
      RealFns.sqrt ((4 * (l : K) * l - 1) / ((l : K) * l))
          * (RealFns.sqrt ((2 * (l : K) - 1) / (4 * RealFns.acos (-1)))
            - RealFns.sqrt ((((l : K) - 1) * ((l : K) - 1)) / (4 * ((l : K) - 1) * ((l : K) - 1) - 1))
              * RealFns.sqrt ((2 * (l : K) - 3) / (4 * RealFns.acos (-1))))
        = RealFns.sqrt ((2 * (l : K) + 1) / (4 * RealFns.acos (-1)))) :
    (∀ l ≤ lmax,
      associatedLegendreFunctionNormalizedHip x lmax Plm sharedMemory (Plm + plmIdxDev l 0)
        = x ^ l * RealFns.sqrt ((2 * (l : K) + 1) / (4 * RealFns.acos (-1 : K))))
    ∧ (∀ l m, 1 ≤ m → m ≤ l → l ≤ lmax →
      associatedLegendreFunctionNormalizedHip x lmax Plm sharedMemory (Plm + plmIdxDev l m)
        = 0) := by
  have hxx : x * x = 1 := by
    rcases hx with rfl | rfl <;> ring
  have hy : RealFns.sqrt (1 - x * x) = 0 := by
    rw [hxx, sub_self, h0]
  constructor
  · intro l hl
    have he := associatedLegendre_entry x lmax Plm sharedMemory 0 l (by omega)
    rw [Nat.zero_add] at he
    rw [he]
    rcases Nat.eq_zero_or_pos l with h | h
    · subst h
      rw [specLegendre, specLegendreDiag]
      simp
    · obtain ⟨n, rfl⟩ : ∃ n, l = n + 1 := ⟨l - 1, by omega⟩
      exact (specLegendre_pole_zero x hxx lmax h1 hstep n hl).2
  · intro l m hm hml hl
    obtain ⟨n, rfl⟩ : ∃ n, l = m + n := ⟨l - m, by omega⟩
    rw [associatedLegendre_entry x lmax Plm sharedMemory m n hl]
    exact (specLegendre_pole_pair x hy m hm n).1

/-- C25: with `double` read as the real numbers and the libm functions as the
real `sqrt`, `exp`, `cos`, `sin`, `acos` and `asin`: at the poles `x = 1` and
`x = -1`, for every `lmax` (every table pointer and every initial shared
memory) the table left by `associatedLegendreFunctionNormalizedHip` is
`P(l,0) = x^l * sqrt((2l+1)/(4*pi))` for `l ≤ lmax` and `P(l,m) = 0` for
`1 ≤ m ≤ l ≤ lmax`. -/
theorem C25_legendre_poles (x : ℝ) (lmax Plm : Nat) (sharedMemory : Mem ℝ)
    (hx : x = 1 ∨ x = -1) :
    (∀ l ≤ lmax,
      @associatedLegendreFunctionNormalizedHip ℝ _
          (RealFns.mk Real.sqrt Real.exp Real.cos Real.sin Real.arccos Real.arcsin)
          x lmax Plm sharedMemory (Plm + plmIdxDev l 0)
        = x ^ l * Real.sqrt ((2 * (l : ℝ) + 1) / (4 * Real.pi)))
    ∧ (∀ l m, 1 ≤ m → m ≤ l → l ≤ lmax →
      @associatedLegendreFunctionNormalizedHip ℝ _
          (RealFns.mk Real.sqrt Real.exp Real.cos Real.sin Real.arccos Real.arcsin)
          x lmax Plm sharedMemory (Plm + plmIdxDev l m)
        = 0) := by
  have hlaws := @pole_identities_of_sqrt_laws ℝ _
    (RealFns.mk Real.sqrt Real.exp Real.cos Real.sin Real.arccos Real.arcsin)
    (fun a b ha _ => Real.sqrt_mul ha b) (fun a ha => Real.sqrt_mul_self ha)
    (by
      show (0 : ℝ) < Real.arccos (-1)
      rw [Real.arccos_neg_one]
      exact Real.pi_pos)
  have h := @legendre_poles_of_identities ℝ _
    (RealFns.mk Real.sqrt Real.exp Real.cos Real.sin Real.arccos Real.arcsin)
    x lmax Plm sharedMemory hx hlaws.1 hlaws.2.1 (fun l h2 _ => hlaws.2.2 l h2)
  have hpi : Real.arccos (-1) = Real.pi := Real.arccos_neg_one
  refine ⟨fun l hl => ?_, h.2⟩
  have h1 := h.1 l hl
  rw [← hpi]
  exact h1

/-- C25 at the pole `x = -1` with `lmax = 3`: the entries `P(3,0)`, whose
value `-sqrt(7/(4*pi))` is reached through the recurrence at `l = 2` and
`l = 3`, and `P(3,2) = 0`. -/
theorem C25_legendre_poles_witness :
    ((-1 : ℝ) = 1 ∨ (-1 : ℝ) = -1)
    ∧ @associatedLegendreFunctionNormalizedHip ℝ _
          (RealFns.mk Real.sqrt Real.exp Real.cos Real.sin Real.arccos Real.arcsin)
          (-1) 3 12 (fun _ => 0) (12 + plmIdxDev 3 0)
        = (-1) ^ 3 * Real.sqrt ((2 * ((3 : Nat) : ℝ) + 1) / (4 * Real.pi))
    ∧ @associatedLegendreFunctionNormalizedHip ℝ _
          (RealFns.mk Real.sqrt Real.exp Real.cos Real.sin Real.arccos Real.arcsin)
          (-1) 3 12 (fun _ => 0) (12 + plmIdxDev 3 2)
        = 0 :=
  ⟨Or.inr rfl,
    (C25_legendre_poles (-1) 3 12 (fun _ => 0) (Or.inr rfl)).1 3 (le_refl 3),
    (C25_legendre_poles (-1) 3 12 (fun _ => 0) (Or.inr rfl)).2 3 2 (by decide) (by decide)
      (le_refl 3)⟩


/-! ## Strided loops and the sequential loop -/

section Strided

variable {σ : Type}

theorem stridedLoop_eq_foldl (blockDim N : Nat) (body : Nat → σ → σ) :
    ∀ (fuel ij : Nat) (s : σ),
      stridedLoop blockDim N body fuel ij s
        = (stridedVisits blockDim N fuel ij).foldl (fun s ij => body ij s) s
  | 0, _, _ => rfl
  | fuel + 1, ij, s => by
    by_cases h : ij < N
    · simp only [stridedLoop, stridedVisits, if_pos h, List.foldl_cons]
      exact stridedLoop_eq_foldl blockDim N body fuel (ij + blockDim) _
    · simp only [stridedLoop, stridedVisits, if_neg h, List.foldl_nil]

/-- A block is the fold of the loop body over the visited values of `ij`. -/
theorem blockThreads_eq_foldl (blockDim N : Nat) (body : Nat → σ → σ) (s : σ) :
    blockThreads blockDim N body s
      = (blockVisits blockDim N).foldl (fun s ij => body ij s) s := by
  unfold blockThreads blockVisits
  generalize List.range blockDim = T
  induction T generalizing s with
  | nil => rfl
  | cons tid T ih =>
    rw [List.foldl_cons, List.flatMap_cons, List.foldl_append, ih, stridedLoop_eq_foldl]

theorem mem_stridedVisits (blockDim N : Nat) :
    ∀ (fuel ij x : Nat),
      x ∈ stridedVisits blockDim N fuel ij ↔ ∃ k < fuel, x = ij + k * blockDim ∧ x < N
  | 0, ij, x => by simp [stridedVisits]
  | fuel + 1, ij, x => by
    by_cases h : ij < N
    · simp only [stridedVisits, if_pos h, List.mem_cons,
        mem_stridedVisits blockDim N fuel (ij + blockDim) x]
      constructor
      · rintro (rfl | ⟨k, hk, rfl, hx⟩)
        · exact ⟨0, by omega, by omega, h⟩
        · exact ⟨k + 1, by omega, by rw [Nat.succ_mul]; omega, hx⟩
      · rintro ⟨k, hk, rfl, hx⟩
        rcases Nat.eq_zero_or_pos k with h0 | h0
        · subst h0
          left
          omega
        · right
          obtain ⟨j, rfl⟩ : ∃ j, k = j + 1 := ⟨k - 1, by omega⟩
          exact ⟨j, by omega, by rw [Nat.succ_mul]; omega, hx⟩
    · simp only [stridedVisits, if_neg h, List.not_mem_nil, false_iff]
      rintro ⟨k, _, rfl, hx⟩
      have : ij ≤ ij + k * blockDim := Nat.le_add_right _ _
      omega

theorem nodup_stridedVisits (blockDim N : Nat) (hbd : 1 ≤ blockDim) :
    ∀ (fuel ij : Nat), (stridedVisits blockDim N fuel ij).Nodup
  | 0, _ => List.nodup_nil
  | fuel + 1, ij => by
    by_cases h : ij < N
    · simp only [stridedVisits, if_pos h, List.nodup_cons]
      refine ⟨?_, nodup_stridedVisits blockDim N hbd fuel (ij + blockDim)⟩
      intro hmem
      obtain ⟨k, _, hx, _⟩ := (mem_stridedVisits blockDim N fuel (ij + blockDim) ij).mp hmem
      have : 0 ≤ k * blockDim := Nat.zero_le _
      omega
    · simp only [stridedVisits, if_neg h]
      exact List.nodup_nil

theorem mem_blockVisits (blockDim N : Nat) (hbd : 1 ≤ blockDim) (x : Nat) :
    x ∈ blockVisits blockDim N ↔ x < N := by
  simp only [blockVisits, List.mem_flatMap, List.mem_range, mem_stridedVisits]
  constructor
  · rintro ⟨tid, _, k, _, _, hx⟩
    exact hx
  · intro hx
    refine ⟨x % blockDim, Nat.mod_lt _ hbd, x / blockDim, ?_, ?_, hx⟩
    · exact lt_of_le_of_lt (Nat.div_le_self _ _) hx
    · rw [Nat.add_comm]
      exact (Nat.div_add_mod' x blockDim).symm

theorem nodup_blockVisits (blockDim N : Nat) (hbd : 1 ≤ blockDim) :
    (blockVisits blockDim N).Nodup := by
  unfold blockVisits
  rw [List.nodup_flatMap]
  refine ⟨fun tid _ => nodup_stridedVisits blockDim N hbd N tid,
    (List.nodup_range blockDim).pairwise_of_forall_ne ?_⟩
  intro a ha b hb hab
  rw [Function.onFun, List.disjoint_left]
  intro x hxa hxb
  obtain ⟨k, _, rfl, _⟩ := (mem_stridedVisits blockDim N N a _).mp hxa
  obtain ⟨k2, _, hx2, _⟩ := (mem_stridedVisits blockDim N N b _).mp hxb
  have ha2 := List.mem_range.mp ha
  have hb2 := List.mem_range.mp hb
  have hm := congrArg (fun t => t % blockDim) hx2
  simp only [Nat.add_mul_mod_self_right, Nat.mod_eq_of_lt ha2, Nat.mod_eq_of_lt hb2] at hm
  exact hab hm

/-- Over all threads of a block every `ij < N` is visited exactly once. -/
theorem blockVisits_perm (blockDim N : Nat) (hbd : 1 ≤ blockDim) :
    (blockVisits blockDim N).Perm (List.range N) :=
  (List.perm_ext_iff_of_nodup (nodup_blockVisits blockDim N hbd) (List.nodup_range N)).mpr
    (fun x => by rw [mem_blockVisits blockDim N hbd, List.mem_range])

/-- Iterations that commute can be run in any order: every list that holds each
`ij < N` exactly once gives the result of the sequential loop. -/
theorem foldl_perm_eq_forLoop (N : Nat) (body : Nat → σ → σ)
    (hcomm : ∀ i < N, ∀ j < N, ∀ s, body j (body i s) = body i (body j s)) (L : List Nat)
    (hL : L.Perm (List.range N)) (s : σ) :
    L.foldl (fun s ij => body ij s) s = forLoop 0 N body s := by
  unfold forLoop
  rw [Nat.sub_zero, ← List.range_eq_range']
  refine List.Perm.foldl_eq' hL ?_ s
  intro x hx y hy z
  have hx2 := List.mem_range.mp (hL.mem_iff.mp hx)
  have hy2 := List.mem_range.mp (hL.mem_iff.mp hy)
  exact hcomm x hx2 y hy2 z

/-- A block whose iterations commute computes what the sequential loop
computes, for every thread count. -/
theorem blockThreads_eq_forLoop (blockDim N : Nat) (hbd : 1 ≤ blockDim) (body : Nat → σ → σ)
    (hcomm : ∀ i < N, ∀ j < N, ∀ s, body j (body i s) = body i (body j s)) (s : σ) :
    blockThreads blockDim N body s = forLoop 0 N body s := by
  rw [blockThreads_eq_foldl]
  exact foldl_perm_eq_forLoop N body hcomm _ (blockVisits_perm blockDim N hbd) s

theorem stridedVisits_one (N : Nat) :
    ∀ (fuel ij : Nat), stridedVisits 1 N fuel ij = List.range' ij (min fuel (N - ij))
  | 0, ij => by simp [stridedVisits]
  | fuel + 1, ij => by
    by_cases h : ij < N
    · have hmin : min (fuel + 1) (N - ij) = min fuel (N - (ij + 1)) + 1 := by omega
      simp only [stridedVisits, if_pos h, stridedVisits_one N fuel (ij + 1), hmin,
        List.range'_succ]
    · have hmin : min (fuel + 1) (N - ij) = 0 := by omega
      simp only [stridedVisits, if_neg h, hmin, List.range'_zero]

/-- A block of one thread is the sequential loop `ij = 0 .. N-1`. -/
theorem blockThreads_one (N : Nat) (body : Nat → σ → σ) (s : σ) :
    blockThreads 1 N body s = forLoop 0 N body s := by
  rw [blockThreads_eq_foldl]
  unfold blockVisits forLoop
  have h1 : List.range 1 = [0] := rfl
  rw [h1, List.flatMap_cons, List.flatMap_nil, List.append_nil, stridedVisits_one]
  simp

end Strided


/-! ## The iterations of the three kernels commute -/

theorem update_bodies_comm {α : Type} (N : Nat) (body : Nat → Mem α → Mem α)
    (cell : Nat → Nat) (val : Nat → α)
    (hbody : ∀ ij < N, ∀ m, body ij m = Function.update m (cell ij) (val ij))
    (hinj : ∀ i < N, ∀ j < N, cell i = cell j → i = j) :
    ∀ i < N, ∀ j < N, ∀ s, body j (body i s) = body i (body j s) := by
  intro i hi j hj s
  by_cases hij : i = j
  · subst hij
    rfl
  · rw [hbody i hi, hbody j hj, hbody j hj, hbody i hi]
    exact Function.update_comm (fun h => hij (hinj i hi j hj h)) _ _ _

theorem pair_cell_inj {kkri kkrj n iOffset jOffset i j : Nat} (hrow : iOffset + kkri ≤ n)
    (hi : i < kkri * kkrj) (hj : j < kkri * kkrj)
    (h : IDX (iOffset + i % kkri) (jOffset + i / kkri) n
      = IDX (iOffset + j % kkri) (jOffset + j / kkri) n) : i = j := by
  have hi2 := mod_lt_of_lt_mul hi
  have hj2 := mod_lt_of_lt_mul hj
  obtain ⟨h1, h2⟩ := IDX_inj (by omega) (by omega) h
  have e1 := Nat.div_add_mod i kkri
  have e2 := Nat.div_add_mod j kkri
  have h3 : i % kkri = j % kkri := by omega
  have h4 : i / kkri = j / kkri := by omega
  rw [← e1, ← e2, h3, h4]

theorem quadrants_comm {α : Type} [Zero α] (A B C b A2 B2 C2 b2 : Nat) (hbA : b ≠ A)
    (hbB : b ≠ B) (hbA2 : b ≠ A2) (hbB2 : b ≠ B2) (hbC2 : b ≠ C2) (hb2A : b2 ≠ A)
    (hb2B : b2 ≠ B) (hb2C : b2 ≠ C) (hb2A2 : b2 ≠ A2) (hb2B2 : b2 ≠ B2) (hCC : C ≠ C2)
    (hCA2 : C ≠ A2) (hCB2 : C ≠ B2) (hC2A : C2 ≠ A) (hC2B : C2 ≠ B) (m : Mem α) :
    Function.update
        (Function.update
          (Function.update
            (Function.update (Function.update (Function.update m A2 0) B2 0) C2
              ((Function.update (Function.update m A2 0) B2 0) b2)) A 0) B 0) C
        ((Function.update
          (Function.update
            (Function.update (Function.update (Function.update m A2 0) B2 0) C2
              ((Function.update (Function.update m A2 0) B2 0) b2)) A 0) B 0) b)
      = Function.update
        (Function.update
          (Function.update
            (Function.update (Function.update (Function.update m A 0) B 0) C
              ((Function.update (Function.update m A 0) B 0) b)) A2 0) B2 0) C2
        ((Function.update
          (Function.update
            (Function.update (Function.update (Function.update m A 0) B 0) C
              ((Function.update (Function.update m A 0) B 0) b)) A2 0) B2 0) b2) := by
  have r1 : (Function.update
          (Function.update
            (Function.update (Function.update (Function.update m A2 0) B2 0) C2
              ((Function.update (Function.update m A2 0) B2 0) b2)) A 0) B 0) b = m b := by
    rw [Function.update_noteq hbB, Function.update_noteq hbA, Function.update_noteq hbC2,
      Function.update_noteq hbB2, Function.update_noteq hbA2]
  have r2 : (Function.update
          (Function.update
            (Function.update (Function.update (Function.update m A 0) B 0) C
              ((Function.update (Function.update m A 0) B 0) b)) A2 0) B2 0) b2 = m b2 := by
    rw [Function.update_noteq hb2B2, Function.update_noteq hb2A2, Function.update_noteq hb2C,
      Function.update_noteq hb2B, Function.update_noteq hb2A]
  have r3 : (Function.update (Function.update m A2 0) B2 0) b2 = m b2 := by
    rw [Function.update_noteq hb2B2, Function.update_noteq hb2A2]
  have r4 : (Function.update (Function.update m A 0) B 0) b = m b := by
    rw [Function.update_noteq hbB, Function.update_noteq hbA]
  rw [r1, r2, r3, r4]
  funext c
  simp only [Function.update_apply]
  by_cases h1 : c = C
  · subst h1
    simp [hCC, hCA2, hCB2]
  · by_cases h2 : c = C2
    · subst h2
      simp [hC2A, hC2B, hCC.symm]
    · simp [h1, h2]
      split_ifs <;> rfl

section KernelLoops

variable {K : Type} [LinearOrderedField K] [RealFns K]

/-- Two iterations of the channel-pair loop of `buildGijHipKernel` commute. -/
theorem gijChannelPair_comm (g : GijArgs K) (ir1 ir2 : Nat)
    (hrow : g.offsets ir1 + kkrOf g.LIZlmax ir1 ≤ g.nrmat_ns) :
    ∀ i < kkrOf g.LIZlmax ir1 * kkrOf g.LIZlmax ir2,
      ∀ j < kkrOf g.LIZlmax ir1 * kkrOf g.LIZlmax ir2, ∀ s,
        gijChannelPair g.c (gijTables g ir1 ir2) g.prel pi4 (kkrOf g.LIZlmax ir1)
            (g.offsets ir1) (g.offsets ir2) g.nrmat_ns j
            (gijChannelPair g.c (gijTables g ir1 ir2) g.prel pi4 (kkrOf g.LIZlmax ir1)
              (g.offsets ir1) (g.offsets ir2) g.nrmat_ns i s)
          = gijChannelPair g.c (gijTables g ir1 ir2) g.prel pi4 (kkrOf g.LIZlmax ir1)
            (g.offsets ir1) (g.offsets ir2) g.nrmat_ns i
            (gijChannelPair g.c (gijTables g ir1 ir2) g.prel pi4 (kkrOf g.LIZlmax ir1)
              (g.offsets ir1) (g.offsets ir2) g.nrmat_ns j s) :=
  update_bodies_comm _ _ _ _ (fun ij _ m => gijChannelPair_scalar g ir1 ir2 ij m)
    (fun i hi j hj h => pair_cell_inj hrow hi hj h)

/-- Two iterations of the loop of the multiply kernel commute. -/
theorem multiplyElement_comm {α : Type} [Ring α] (tmat_n devBgij : Mem α)
    (kkr1_ns kkr2_ns iOffset jOffset nrmat_ns : Nat) (hrow : iOffset + kkr1_ns ≤ nrmat_ns) :
    ∀ i < kkr1_ns * kkr2_ns, ∀ j < kkr1_ns * kkr2_ns, ∀ s,
      multiplyElement tmat_n devBgij kkr1_ns iOffset jOffset nrmat_ns j
          (multiplyElement tmat_n devBgij kkr1_ns iOffset jOffset nrmat_ns i s)
        = multiplyElement tmat_n devBgij kkr1_ns iOffset jOffset nrmat_ns i
          (multiplyElement tmat_n devBgij kkr1_ns iOffset jOffset nrmat_ns j s) :=
  update_bodies_comm _ _ _ _ (fun ij _ m => multiplyElement_eq _ _ _ _ _ _ ij m)
    (fun i hi j hj h => pair_cell_inj hrow hi hj h)

/-- Two iterations of the loop of `setBGijHip` commute. -/
theorem setBGijQuadrants_comm {α : Type} [Zero α] (kkri kkrj iOffset jOffset nrmat_ns : Nat)
    (hrow : iOffset + 2 * kkri ≤ nrmat_ns) :
    ∀ i < kkri * kkrj, ∀ j < kkri * kkrj, ∀ s : Mem α,
      setBGijQuadrants kkri kkrj iOffset jOffset nrmat_ns j
          (setBGijQuadrants kkri kkrj iOffset jOffset nrmat_ns i s)
        = setBGijQuadrants kkri kkrj iOffset jOffset nrmat_ns i
          (setBGijQuadrants kkri kkrj iOffset jOffset nrmat_ns j s) := by
  intro i hi j hj s
  by_cases hij : i = j
  · subst hij
    rfl
  have hi1 := mod_lt_of_lt_mul hi
  have hj1 := mod_lt_of_lt_mul hj
  have hi2 := Nat.div_lt_of_lt_mul hi
  have hj2 := Nat.div_lt_of_lt_mul hj
  have hpair : ¬ (i % kkri = j % kkri ∧ i / kkri = j / kkri) := by
    rintro ⟨h3, h4⟩
    apply hij
    rw [← Nat.div_add_mod i kkri, ← Nat.div_add_mod j kkri, h3, h4]
  have key : ∀ r c r2 c2 : Nat, r < nrmat_ns → r2 < nrmat_ns → (r ≠ r2 ∨ c ≠ c2) →
      IDX r c nrmat_ns ≠ IDX r2 c2 nrmat_ns := by
    intro r c r2 c2 hr hr2 hd h
    obtain ⟨e1, e2⟩ := IDX_inj hr hr2 h
    omega
  rw [setBGijQuadrants_eq, setBGijQuadrants_eq]
  generalize i % kkri = x at hi1 hpair
  generalize i / kkri = y at hi2 hpair
  generalize j % kkri = x2 at hj1 hpair
  generalize j / kkri = y2 at hj2 hpair
  exact (quadrants_comm _ _ _ _ _ _ _ _
    (key _ _ _ _ (by omega) (by omega) (by omega))
    (key _ _ _ _ (by omega) (by omega) (by omega))
    (key _ _ _ _ (by omega) (by omega) (by omega))
    (key _ _ _ _ (by omega) (by omega) (by omega))
    (key _ _ _ _ (by omega) (by omega) (by omega))
    (key _ _ _ _ (by omega) (by omega) (by omega))
    (key _ _ _ _ (by omega) (by omega) (by omega))
    (key _ _ _ _ (by omega) (by omega) (by omega))
    (key _ _ _ _ (by omega) (by omega) (by omega))
    (key _ _ _ _ (by omega) (by omega) (by omega))
    (key _ _ _ _ (by omega) (by omega) (by omega))
    (key _ _ _ _ (by omega) (by omega) (by omega))
    (key _ _ _ _ (by omega) (by omega) (by omega))
    (key _ _ _ _ (by omega) (by omega) (by omega))
    (key _ _ _ _ (by omega) (by omega) (by omega)) s).symm

/-- The block of `buildGijHipKernel` is the sequential channel-pair loop. -/
theorem gijKernel_eq_forLoop (blockDim : Nat) (hbd : 1 ≤ blockDim) (g : GijArgs K)
    (ir1 ir2 : Nat) (hne : ir1 ≠ ir2)
    (hrow : g.offsets ir1 + kkrOf g.LIZlmax ir1 ≤ g.nrmat_ns)
    (devBgij : Mem (deviceDoubleComplex K)) :
    buildGijHipKernel blockDim g ir1 ir2 devBgij
      = forLoop 0 (kkrOf g.LIZlmax ir1 * kkrOf g.LIZlmax ir2)
          (gijChannelPair g.c (gijTables g ir1 ir2) g.prel pi4 (kkrOf g.LIZlmax ir1)
            (g.offsets ir1) (g.offsets ir2) g.nrmat_ns) devBgij := by
  rw [gijKernel_of_ne _ _ hne]
  exact blockThreads_eq_forLoop blockDim _ hbd _ (gijChannelPair_comm g ir1 ir2 hrow) devBgij

/-- The block of the multiply kernel is the sequential loop over its entries. -/
theorem multiplyKernel_eq_forLoop {α : Type} [Ring α] (blockDim : Nat) (hbd : 1 ≤ blockDim)
    (LIZlmax LIZStoreIdx offsets : Mem Nat)
    (kkrsz_ns ispin n_spin_pola n_spin_cant iie blkSizeTmatStore tmatStoreLDim : Nat)
    (devTmatStore : Mem α) (nrmat_ns : Nat) (devBgij : Mem α) (ir1 ir2 : Nat)
    (hne : ir1 ≠ ir2) (hrow : offsets ir1 + kkrOf LIZlmax ir1 * n_spin_cant ≤ nrmat_ns)
    (devM : Mem α) :
    buildKKRMatrixMultiplyKernelHip blockDim LIZlmax LIZStoreIdx offsets kkrsz_ns ispin
        n_spin_pola n_spin_cant iie blkSizeTmatStore tmatStoreLDim devTmatStore nrmat_ns devBgij
        ir1 ir2 devM
      = forLoop 0 (kkrOf LIZlmax ir1 * n_spin_cant * (kkrOf LIZlmax ir2 * n_spin_cant))
          (multiplyElement
            (fun idx =>
              devTmatStore (IDX (iie * blkSizeTmatStore) (LIZStoreIdx ir1) tmatStoreLDim + idx))
            devBgij (kkrOf LIZlmax ir1 * n_spin_cant) (offsets ir1) (offsets ir2) nrmat_ns)
          devM := by
  rw [multiplyKernel_of_ne _ _ _ _ _ _ _ _ _ _ _ _ _ _ hne]
  exact blockThreads_eq_forLoop blockDim _ hbd _
    (multiplyElement_comm _ _ _ _ _ _ _ hrow) devM

/-- The block of `setBGijHip`, when it is active, is the sequential loop over
the channel pairs. -/
theorem setBGij_eq_forLoop {α : Type} [Zero α] (blockDim : Nat) (hbd : 1 ≤ blockDim)
    (n_spin_cant : Nat) (LIZlmax offsets : Mem Nat) (nrmat_ns ir1 ir2 : Nat)
    (hns : n_spin_cant ≠ 1) (hrow : offsets ir1 + 2 * kkrOf LIZlmax ir1 ≤ nrmat_ns)
    (devBgij : Mem α) :
    setBGijHip blockDim false n_spin_cant LIZlmax offsets nrmat_ns ir1 ir2 devBgij
      = forLoop 0 (kkrOf LIZlmax ir1 * kkrOf LIZlmax ir2)
          (setBGijQuadrants (kkrOf LIZlmax ir1) (kkrOf LIZlmax ir2) (offsets ir1) (offsets ir2)
            nrmat_ns) devBgij := by
  rw [setBGij_of_active _ _ _ _ _ _ _ hns]
  exact blockThreads_eq_forLoop blockDim _ hbd _
    (setBGijQuadrants_comm _ _ _ _ _ hrow) devBgij

end KernelLoops


/-- C22: for every thread count `blockDim ≥ 1` and every `N`, the strided
loops of all threads of a block visit every `ij < N` exactly once (the list
of visited values is a permutation of `0 .. N-1`), a block is the fold of the
loop body over the visited values, one thread gives the sequential loop, and
for iterations that commute every thread count and every order give the
result of the sequential loop. The iterations of `buildGijHipKernel`,
`setBGijHip` and `buildKKRMatrixMultiplyKernelHip` commute (their rows lie
inside the matrix, so each writes only its own entries), hence a block with
`blockDim` threads computes what the block with one thread, the sequential
loop, computes. -/
theorem C22_strided_loops {K : Type} [LinearOrderedField K] [RealFns K] (blockDim N : Nat)
    (hbd : 1 ≤ blockDim) :
    (blockVisits blockDim N).Perm (List.range N)
    ∧ (∀ (body : Nat → Mem (deviceDoubleComplex K) → Mem (deviceDoubleComplex K))
        (s : Mem (deviceDoubleComplex K)),
        blockThreads blockDim N body s
            = (blockVisits blockDim N).foldl (fun s ij => body ij s) s
          ∧ blockThreads 1 N body s = forLoop 0 N body s
          ∧ ((∀ i < N, ∀ j < N, ∀ t, body j (body i t) = body i (body j t)) →
              blockThreads blockDim N body s = forLoop 0 N body s
                ∧ ∀ L : List Nat, L.Perm (List.range N) →
                  L.foldl (fun s ij => body ij s) s = forLoop 0 N body s))
    ∧ (∀ (g : GijArgs K) (ir1 ir2 : Nat),
        g.offsets ir1 + kkrOf g.LIZlmax ir1 ≤ g.nrmat_ns →
        (∀ i < kkrOf g.LIZlmax ir1 * kkrOf g.LIZlmax ir2,
          ∀ j < kkrOf g.LIZlmax ir1 * kkrOf g.LIZlmax ir2, ∀ t,
            gijChannelPair g.c (gijTables g ir1 ir2) g.prel pi4 (kkrOf g.LIZlmax ir1)
                (g.offsets ir1) (g.offsets ir2) g.nrmat_ns j
                (gijChannelPair g.c (gijTables g ir1 ir2) g.prel pi4 (kkrOf g.LIZlmax ir1)
                  (g.offsets ir1) (g.offsets ir2) g.nrmat_ns i t)
              = gijChannelPair g.c (gijTables g ir1 ir2) g.prel pi4 (kkrOf g.LIZlmax ir1)
                (g.offsets ir1) (g.offsets ir2) g.nrmat_ns i
                (gijChannelPair g.c (gijTables g ir1 ir2) g.prel pi4 (kkrOf g.LIZlmax ir1)
                  (g.offsets ir1) (g.offsets ir2) g.nrmat_ns j t))
        ∧ ∀ devBgij : Mem (deviceDoubleComplex K),
          buildGijHipKernel blockDim g ir1 ir2 devBgij
              = buildGijHipKernel 1 g ir1 ir2 devBgij
            ∧ (ir1 ≠ ir2 →
              buildGijHipKernel blockDim g ir1 ir2 devBgij
                = forLoop 0 (kkrOf g.LIZlmax ir1 * kkrOf g.LIZlmax ir2)
                    (gijChannelPair g.c (gijTables g ir1 ir2) g.prel pi4
                      (kkrOf g.LIZlmax ir1) (g.offsets ir1) (g.offsets ir2) g.nrmat_ns)
                    devBgij))
    ∧ (∀ (fullRelativity : Bool) (n_spin_cant : Nat) (LIZlmax offsets : Mem Nat)
        (nrmat_ns ir1 ir2 : Nat), offsets ir1 + 2 * kkrOf LIZlmax ir1 ≤ nrmat_ns →
        (∀ i < kkrOf LIZlmax ir1 * kkrOf LIZlmax ir2,
          ∀ j < kkrOf LIZlmax ir1 * kkrOf LIZlmax ir2,
          ∀ t : Mem (deviceDoubleComplex K),
            setBGijQuadrants (kkrOf LIZlmax ir1) (kkrOf LIZlmax ir2) (offsets ir1)
                (offsets ir2) nrmat_ns j
                (setBGijQuadrants (kkrOf LIZlmax ir1) (kkrOf LIZlmax ir2) (offsets ir1)
                  (offsets ir2) nrmat_ns i t)
              = setBGijQuadrants (kkrOf LIZlmax ir1) (kkrOf LIZlmax ir2) (offsets ir1)
                (offsets ir2) nrmat_ns i
                (setBGijQuadrants (kkrOf LIZlmax ir1) (kkrOf LIZlmax ir2) (offsets ir1)
                  (offsets ir2) nrmat_ns j t))
        ∧ ∀ devBgij : Mem (deviceDoubleComplex K),
          setBGijHip blockDim fullRelativity n_spin_cant LIZlmax offsets nrmat_ns ir1 ir2
              devBgij
              = setBGijHip 1 fullRelativity n_spin_cant LIZlmax offsets nrmat_ns ir1 ir2
                devBgij
            ∧ (n_spin_cant ≠ 1 →
              setBGijHip blockDim false n_spin_cant LIZlmax offsets nrmat_ns ir1 ir2 devBgij
                = forLoop 0 (kkrOf LIZlmax ir1 * kkrOf LIZlmax ir2)
                    (setBGijQuadrants (kkrOf LIZlmax ir1) (kkrOf LIZlmax ir2) (offsets ir1)
                      (offsets ir2) nrmat_ns) devBgij))
    ∧ (∀ (LIZlmax LIZStoreIdx offsets : Mem Nat)
        (kkrsz_ns ispin n_spin_pola n_spin_cant iie blkSizeTmatStore tmatStoreLDim : Nat)
        (devTmatStore : Mem (deviceDoubleComplex K)) (nrmat_ns : Nat)
        (devBgij : Mem (deviceDoubleComplex K)) (ir1 ir2 : Nat),
        offsets ir1 + kkrOf LIZlmax ir1 * n_spin_cant ≤ nrmat_ns →
        ∀ devM : Mem (deviceDoubleComplex K),
          buildKKRMatrixMultiplyKernelHip blockDim LIZlmax LIZStoreIdx offsets kkrsz_ns ispin
              n_spin_pola n_spin_cant iie blkSizeTmatStore tmatStoreLDim devTmatStore nrmat_ns
              devBgij ir1 ir2 devM
              = buildKKRMatrixMultiplyKernelHip 1 LIZlmax LIZStoreIdx offsets kkrsz_ns ispin
                n_spin_pola n_spin_cant iie blkSizeTmatStore tmatStoreLDim devTmatStore
                nrmat_ns devBgij ir1 ir2 devM
            ∧ (ir1 ≠ ir2 →
              buildKKRMatrixMultiplyKernelHip blockDim LIZlmax LIZStoreIdx offsets kkrsz_ns
                  ispin n_spin_pola n_spin_cant iie blkSizeTmatStore tmatStoreLDim devTmatStore
                  nrmat_ns devBgij ir1 ir2 devM
                = forLoop 0
                    (kkrOf LIZlmax ir1 * n_spin_cant * (kkrOf LIZlmax ir2 * n_spin_cant))
                    (multiplyElement
                      (fun idx =>
                        devTmatStore
                          (IDX (iie * blkSizeTmatStore) (LIZStoreIdx ir1) tmatStoreLDim + idx))
                      devBgij (kkrOf LIZlmax ir1 * n_spin_cant) (offsets ir1) (offsets ir2)
                      nrmat_ns) devM)) := by
  refine ⟨blockVisits_perm blockDim N hbd, ?_, ?_, ?_, ?_⟩
  · intro body s
    exact ⟨blockThreads_eq_foldl blockDim N body s, blockThreads_one N body s,
      fun hcomm => ⟨blockThreads_eq_forLoop blockDim N hbd body hcomm s,
        fun L hL => foldl_perm_eq_forLoop N body hcomm L hL s⟩⟩
  · intro g ir1 ir2 hrow
    refine ⟨gijChannelPair_comm g ir1 ir2 hrow, fun devBgij => ?_⟩
    by_cases hne : ir1 = ir2
    · subst hne
      exact ⟨by rw [gijKernel_of_eq, gijKernel_of_eq], fun h => absurd rfl h⟩
    · exact ⟨by rw [gijKernel_eq_forLoop blockDim hbd g ir1 ir2 hne hrow,
          gijKernel_eq_forLoop 1 (le_refl 1) g ir1 ir2 hne hrow],
        fun _ => gijKernel_eq_forLoop blockDim hbd g ir1 ir2 hne hrow devBgij⟩
  · intro fullRelativity n_spin_cant LIZlmax offsets nrmat_ns ir1 ir2 hrow
    refine ⟨setBGijQuadrants_comm _ _ _ _ _ hrow, fun devBgij => ⟨?_, fun hns =>
      setBGij_eq_forLoop blockDim hbd n_spin_cant LIZlmax offsets nrmat_ns ir1 ir2 hns hrow
        devBgij⟩⟩
    by_cases hns : n_spin_cant = 1
    · subst hns
      rw [setBGij_of_one, setBGij_of_one]
    · cases fullRelativity with
      | true => rw [setBGij_of_full, setBGij_of_full]
      | false =>
        rw [setBGij_eq_forLoop blockDim hbd n_spin_cant LIZlmax offsets nrmat_ns ir1 ir2 hns
            hrow,
          setBGij_eq_forLoop 1 (le_refl 1) n_spin_cant LIZlmax offsets nrmat_ns ir1 ir2 hns hrow]
  · intro LIZlmax LIZStoreIdx offsets kkrsz_ns ispin n_spin_pola n_spin_cant iie
      blkSizeTmatStore tmatStoreLDim devTmatStore nrmat_ns devBgij ir1 ir2 hrow devM
    by_cases hne : ir1 = ir2
    · subst hne
      exact ⟨by rw [multiplyKernel_of_eq, multiplyKernel_of_eq], fun h => absurd rfl h⟩
    · exact ⟨by rw [multiplyKernel_eq_forLoop blockDim hbd _ _ _ _ _ _ _ _ _ _ _ _ _ _ _ hne hrow,
          multiplyKernel_eq_forLoop 1 (le_refl 1) _ _ _ _ _ _ _ _ _ _ _ _ _ _ _ hne hrow],
        fun _ => multiplyKernel_eq_forLoop blockDim hbd _ _ _ _ _ _ _ _ _ _ _ _ _ _ _ hne hrow
          devM⟩

/-- C22 with 256 threads and `N = 5`: the threads visit `0, 1, 2, 3, 4`, each
once. -/
theorem C22_strided_loops_witness :
    1 ≤ 256 ∧ (blockVisits 256 5).Perm (List.range 5) :=
  ⟨by decide, (@C22_strided_loops ℚ _ _ 256 5 (by decide)).1⟩


/-! ## The orbitals of the single-atom program -/

theorem forLoop_add {K : Type} [Ring K] (v : Nat → K) (r : Mem K) :
    ∀ size : Nat,
      forLoop 0 size (fun i rhotot => Function.update rhotot i (rhotot i + v i)) r
        = fun i => if i < size then r i + v i else r i := by
  intro size
  induction size with
  | zero =>
    rw [forLoop_of_le _ _ _ _ (le_refl 0)]
    funext i
    simp
  | succ n ih =>
    rw [forLoop_succ _ _ _ _ (Nat.zero_le n), ih]
    funext i
    by_cases h : i = n
    · subst h
      simp
    · rw [Function.update_noteq h]
      by_cases h2 : i < n
      · rw [if_pos h2, if_pos (by omega)]
      · rw [if_neg h2, if_neg (by omega)]

theorem forLoop_clear {K : Type} [Ring K] (r : Mem K) :
    ∀ size : Nat,
      forLoop 0 size (fun i rhotot => Function.update rhotot i 0) r
        = fun i => if i < size then 0 else r i := by
  intro size
  induction size with
  | zero =>
    rw [forLoop_of_le _ _ _ _ (le_refl 0)]
    funext i
    simp
  | succ n ih =>
    rw [forLoop_succ _ _ _ _ (Nat.zero_le n), ih]
    funext i
    by_cases h : i = n
    · subst h
      simp
    · rw [Function.update_noteq h]
      by_cases h2 : i < n
      · rw [if_pos h2, if_pos (by omega)]
      · rw [if_neg h2, if_neg (by omega)]

theorem orbitalCapacity_ge {K : Type} (orbital : AtomOrbital K) : 2 ≤ orbitalCapacity orbital := by
  unfold orbitalCapacity
  have := abs_nonneg orbital.l
  omega

theorem capacity_sum_nonneg {K : Type} (orbitals : List (AtomOrbital K)) :
    0 ≤ (orbitals.map orbitalCapacity).sum := by
  induction orbitals with
  | nil => simp
  | cons o rest ih =>
    have := orbitalCapacity_ge o
    simp only [List.map_cons, List.sum_cons]
    omega

theorem occupiedDensity_of_nonpos {K : Type} [Ring K] :
    ∀ (orbitals : List (AtomOrbital K)) (missing : Int) (i : Nat), missing ≤ 0 →
      occupiedDensity orbitals (occupations (orbitals.map orbitalCapacity) missing) i = 0
  | [], _, _, _ => rfl
  | o :: rest, missing, i, h => by
    have hc := orbitalCapacity_ge o
    have hocc : min (orbitalCapacity o) (max missing 0) = 0 := by omega
    simp only [List.map_cons, occupations, occupiedDensity, hocc, Int.cast_zero, mul_zero,
      zero_add, sub_zero]
    exact occupiedDensity_of_nonpos rest missing i h

/-- The loop of `accumulateDensities`, started at orbital `orbitalIdx` with
`missing` electrons missing, ends with the densities of the remaining orbitals
added, when the remaining orbitals can hold the missing electrons. -/
theorem accumulateLoop_eq {K : Type} [CommRing K] (orbitals : List (AtomOrbital K))
    (size : Nat) :
    ∀ (fuel : Nat) (missing : Int) (orbitalIdx : Nat) (r : Mem K), missing ≤ fuel →
      missing ≤ ((orbitals.drop orbitalIdx).map orbitalCapacity).sum →
      accumulateLoop orbitals size fuel missing orbitalIdx r
        = AccumulateResult.finished (fun i =>
            if i < size then
              r i + occupiedDensity (orbitals.drop orbitalIdx)
                (occupations ((orbitals.drop orbitalIdx).map orbitalCapacity) missing) i
            else r i)
  | 0, missing, orbitalIdx, r, hf, _ => by
    have h0 : ¬ missing > 0 := by omega
    simp only [accumulateLoop, if_neg h0]
    congr 1
    funext i
    rw [occupiedDensity_of_nonpos _ _ _ (by omega), add_zero, ite_self]
  | fuel + 1, missing, orbitalIdx, r, hf, hcap => by
    by_cases h0 : missing > 0
    · have hlen : orbitalIdx < orbitals.length := by
        by_contra hc
        rw [List.drop_eq_nil_of_le (by omega)] at hcap
        simp at hcap
        omega
      have hdrop : orbitals.drop orbitalIdx
          = orbitals[orbitalIdx] :: orbitals.drop (orbitalIdx + 1) :=
        List.drop_eq_getElem_cons hlen
      have hget : orbitals[orbitalIdx]? = some orbitals[orbitalIdx] :=
        List.getElem?_eq_getElem hlen
      have hc := orbitalCapacity_ge orbitals[orbitalIdx]
      have hdef : orbitalCapacity orbitals[orbitalIdx]
          = 2 * (2 * abs orbitals[orbitalIdx].l + 1) := rfl
      have hnn := capacity_sum_nonneg (orbitals.drop (orbitalIdx + 1))
      rw [hdrop] at hcap ⊢
      simp only [List.map_cons, List.sum_cons] at hcap
      simp only [accumulateLoop, if_pos h0, hget]
      by_cases hfull : missing ≥ 2 * (2 * abs orbitals[orbitalIdx].l + 1)
      · have hocc : min (orbitalCapacity orbitals[orbitalIdx]) (max missing 0)
            = orbitalCapacity orbitals[orbitalIdx] := by
          omega
        rw [if_pos hfull, forLoop_add,
          accumulateLoop_eq orbitals size fuel _ (orbitalIdx + 1) _
            (by omega) (by omega)]
        congr 1
        funext i
        simp only [List.map_cons, occupations, occupiedDensity, hocc]
        by_cases hi : i < size
        · simp only [if_pos hi, hdef]
          push_cast
          ring
        · simp only [if_neg hi]
      · have hocc : min (orbitalCapacity orbitals[orbitalIdx]) (max missing 0) = missing := by
          omega
        rw [if_neg hfull, forLoop_add,
          accumulateLoop_eq orbitals size fuel 0 (orbitalIdx + 1) _ (by omega) hnn]
        congr 1
        funext i
        simp only [List.map_cons, occupations, occupiedDensity, hocc, sub_self]
        by_cases hi : i < size
        · simp only [if_pos hi]
          ring
        · simp only [if_neg hi]
    · simp only [accumulateLoop, if_neg h0]
      congr 1
      funext i
      rw [occupiedDensity_of_nonpos _ _ _ (by omega), add_zero, ite_self]

theorem occupations_length : ∀ (capacities : List Int) (missing : Int),
    (occupations capacities missing).length = capacities.length
  | [], _ => rfl
  | c :: rest, missing => by
    simp only [occupations, List.length_cons, occupations_length rest]

theorem occupations_bounds : ∀ (capacities : List Int) (missing : Int),
    (∀ c ∈ capacities, 0 ≤ c) →
      List.Forall₂ (fun occ c => 0 ≤ occ ∧ occ ≤ c) (occupations capacities missing) capacities
  | [], _, _ => List.Forall₂.nil
  | c :: rest, missing, h => by
    have hc := h c (List.mem_cons_self _ _)
    exact List.Forall₂.cons ⟨by omega, by omega⟩
      (occupations_bounds rest _ (fun x hx => h x (List.mem_cons_of_mem _ hx)))

theorem occupations_sum : ∀ (capacities : List Int) (missing : Int),
    (∀ c ∈ capacities, 0 ≤ c) → 0 ≤ missing → missing ≤ capacities.sum →
      (occupations capacities missing).sum = missing
  | [], missing, _, h0, h1 => by
    simp only [List.sum_nil] at h1
    simp only [occupations, List.sum_nil]
    omega
  | c :: rest, missing, h, h0, h1 => by
    have hc := h c (List.mem_cons_self _ _)
    have hr : ∀ x ∈ rest, 0 ≤ x := fun x hx => h x (List.mem_cons_of_mem _ hx)
    have hrest : 0 ≤ rest.sum := List.sum_nonneg hr
    simp only [List.sum_cons] at h1
    simp only [occupations, List.sum_cons]
    rw [occupations_sum rest _ hr (by omega) (by omega)]
    omega


theorem initOrbitals_capacity (Z : Int) :
    ((initOrbitals Z).map (fun p => 2 * (2 * p.2 + 1))).sum
      = if Z < 3 then 2 else if Z < 11 then 10 else if Z < 19 then 18
        else if Z < 37 then 36 else if Z < 55 then 54 else if Z < 87 then 86 else 118 := by
  unfold initOrbitals
  split_ifs <;> rfl

theorem initOrbitals_l_nonneg (Z : Int) : ∀ p ∈ initOrbitals Z, 0 ≤ p.2 := by
  unfold initOrbitals
  split_ifs <;> decide

theorem capacity_of_perm {K : Type} (orbitals : List (AtomOrbital K)) (Z : Int)
    (hperm : (orbitals.map (fun o => (o.n, o.l))).Perm (initOrbitals Z)) :
    (∀ o ∈ orbitals, orbitalCapacity o = 2 * (2 * o.l + 1))
      ∧ (orbitals.map orbitalCapacity).sum
          = ((initOrbitals Z).map (fun p => 2 * (2 * p.2 + 1))).sum := by
  have hl : ∀ o ∈ orbitals, orbitalCapacity o = 2 * (2 * o.l + 1) := by
    intro o ho
    have hmem : (o.n, o.l) ∈ initOrbitals Z :=
      hperm.subset (List.mem_map.mpr ⟨o, ho, rfl⟩)
    have h0 := initOrbitals_l_nonneg Z _ hmem
    unfold orbitalCapacity
    rw [abs_of_nonneg h0]
  refine ⟨hl, ?_⟩
  rw [← (hperm.map (fun p => 2 * (2 * p.2 + 1))).sum_eq, List.map_map]
  exact congrArg List.sum (List.map_congr_left hl)

theorem forall₂_imp_of_mem {α β : Type} {R S : α → β → Prop} :
    ∀ {as : List α} {bs : List β}, List.Forall₂ R as bs →
      (∀ b ∈ bs, ∀ a, R a b → S a b) → List.Forall₂ S as bs
  | _, _, List.Forall₂.nil, _ => List.Forall₂.nil
  | _, _, List.Forall₂.cons h t, himp =>
    List.Forall₂.cons (himp _ (List.mem_cons_self _ _) _ h)
      (forall₂_imp_of_mem t (fun b hb a hr => himp b (List.mem_cons_of_mem _ hb) a hr))

/-- C26: for an atomic number `1 ≤ Z ≤ 118` the orbitals of `initOrbitals Z`
have total capacity `Σ 2 (2 l + 1)` equal to 2, 10, 18, 36, 54, 86 or 118
according to the shell that holds `Z`, hence at least `Z`; and for every list
of orbitals that carries the `(n, l)` pairs of `initOrbitals Z` in any order,
`accumulateDensities` finishes (its loop neither reads past the end of the list
nor runs out of steps) with `rhotot[i] = Σ_k rho_k[i] * occ_k` for `i` below the
size of `rhotot`, where the occupations `occ_k`, one for each orbital, satisfy
`0 ≤ occ_k ≤ 2 (2 l_k + 1)` and sum to `Z`. -/
theorem C26_accumulate_densities {K : Type} [CommRing K] (Z : Int) (hlo : 1 ≤ Z)
    (hhi : Z ≤ 118) :
    Z ≤ ((initOrbitals Z).map (fun p => 2 * (2 * p.2 + 1))).sum
      ∧ ((initOrbitals Z).map (fun p => 2 * (2 * p.2 + 1))).sum
          = (if Z ≤ 2 then 2 else if Z ≤ 10 then 10 else if Z ≤ 18 then 18
            else if Z ≤ 36 then 36 else if Z ≤ 54 then 54 else if Z ≤ 86 then 86 else 118)
      ∧ ∀ (orbitals : List (AtomOrbital K)) (size : Nat) (rhotot : Mem K),
          (orbitals.map (fun o => (o.n, o.l))).Perm (initOrbitals Z) →
            accumulateDensities orbitals Z size rhotot
                = AccumulateResult.finished (fun i =>
                    if i < size then
                      occupiedDensity orbitals
                        (occupations (orbitals.map orbitalCapacity) Z) i
                    else rhotot i)
              ∧ (occupations (orbitals.map orbitalCapacity) Z).length = orbitals.length
              ∧ List.Forall₂ (fun occ o => 0 ≤ occ ∧ occ ≤ 2 * (2 * o.l + 1))
                  (occupations (orbitals.map orbitalCapacity) Z) orbitals
              ∧ (occupations (orbitals.map orbitalCapacity) Z).sum = Z := by
  have hcap := initOrbitals_capacity Z
  have hge : Z ≤ ((initOrbitals Z).map (fun p => 2 * (2 * p.2 + 1))).sum := by
    rw [hcap]
    split_ifs <;> omega
  refine ⟨hge, ?_, ?_⟩
  · rw [hcap]
    split_ifs <;> omega
  · intro orbitals size rhotot hperm
    obtain ⟨hl, hsum⟩ := capacity_of_perm orbitals Z hperm
    have hnn : ∀ c ∈ orbitals.map orbitalCapacity, (0 : Int) ≤ c := by
      intro c hc
      obtain ⟨o, _, rfl⟩ := List.mem_map.mp hc
      have := orbitalCapacity_ge o
      omega
    refine ⟨?_, ?_, ?_, ?_⟩
    · unfold accumulateDensities
      rw [forLoop_clear, accumulateLoop_eq orbitals size _ Z 0 _
        (by rw [Int.toNat_of_nonneg (by omega)])
        (by rw [List.drop_zero, hsum]; exact hge)]
      congr 1
      funext i
      by_cases hi : i < size
      · simp only [if_pos hi, List.drop_zero, zero_add]
      · simp only [if_neg hi]
    · rw [occupations_length, List.length_map]
    · have hb := occupations_bounds (orbitals.map orbitalCapacity) Z hnn
      rw [List.forall₂_map_right_iff] at hb
      exact forall₂_imp_of_mem hb (fun o ho occ h => by rw [← hl o ho]; exact h)
    · exact occupations_sum _ Z hnn (by omega) (by rw [hsum]; exact hge)

theorem C26_accumulate_densities_witness :
    (1 : Int) ≤ 3 ∧ (3 : Int) ≤ 118
      ∧ accumulateDensities exOrbitals 3 2 (fun _ => 7)
          = AccumulateResult.finished (fun i =>
              if i < 2 then
                occupiedDensity exOrbitals (occupations (exOrbitals.map orbitalCapacity) 3) i
              else 7)
      ∧ occupations (exOrbitals.map orbitalCapacity) 3 = [2, 1, 0] :=
  ⟨by decide, by decide,
    ((@C26_accumulate_densities ℚ _ 3 (by decide) (by decide)).2.2 exOrbitals 2 (fun _ => 7)
      (List.Perm.swap _ _ _)).1,
    by decide⟩

/-! ## The build with an identity t-matrix store -/

section IdentityStore

variable {K : Type} [LinearOrderedField K] [RealFns K]

theorem buildIdentical_devM (lsms : LSMSSystemParameters) (atom : AtomData K)
    (c : DeviceConstants K) (sharedMemory : Mem K) (d : DeviceStorage K) (ispin iie : Nat)
    (energy prel : deviceDoubleComplex K) (devM : Mem (deviceDoubleComplex K)) :
    (buildKKRMatrixLMaxIdenticalHip lsms atom c sharedMemory d ispin iie energy prel devM).2
      = gridLaunch atom.numLIZ
          (buildKKRMatrixMultiplyKernelHip 256 atom.LIZlmax atom.LIZStoreIdx
            (buildKKRMatrixLMaxIdenticalHip lsms atom c sharedMemory d ispin iie energy prel
              devM).1.devIpvt
            (lsms.n_spin_cant * atom.kkrsz) ispin lsms.n_spin_pola lsms.n_spin_cant iie
            d.blkSizeTmatStore d.tmatStoreLDim d.devTmatStore (lsms.n_spin_cant * atom.nrmat)
            (buildKKRMatrixLMaxIdenticalHip lsms atom c sharedMemory d ispin iie energy prel
              devM).1.devBGij)
          (unitMatrixHip devM (lsms.n_spin_cant * atom.nrmat) (lsms.n_spin_cant * atom.nrmat)) :=
  rfl

/-- The offsets that the identical-lmax path copies to the device give a block
layout when every cutoff is `maxlmax`, `kkrsz = (maxlmax+1)^2` and `nrmat`
covers the channels of all sites. -/
theorem buildIdentical_layout (lsms : LSMSSystemParameters) (atom : AtomData K)
    (c : DeviceConstants K) (sharedMemory : Mem K) (d : DeviceStorage K) (ispin iie : Nat)
    (energy prel : deviceDoubleComplex K) (devM : Mem (deviceDoubleComplex K))
    (hnr : ∑ k ∈ Finset.range atom.numLIZ, (atom.LIZlmax k + 1) ^ 2 ≤ atom.nrmat)
    (hall : ∀ ir < atom.numLIZ, atom.LIZlmax ir = lsms.maxlmax)
    (hk : atom.kkrsz = (lsms.maxlmax + 1) ^ 2) :
    BlockLayout atom.numLIZ lsms.n_spin_cant (lsms.n_spin_cant * atom.nrmat) atom.LIZlmax
      (buildKKRMatrixLMaxIdenticalHip lsms atom c sharedMemory d ispin iie energy prel
        devM).1.devIpvt := by
  refine blockLayout_of_prefix atom.numLIZ lsms.n_spin_cant atom.nrmat atom.LIZlmax _ ?_ ?_
  · intro ir hir
    obtain ⟨n, hn⟩ : ∃ n, atom.numLIZ = n + 1 := ⟨atom.numLIZ - 1, by omega⟩
    rw [buildIdentical_devIpvt]
    simp only [deviceMemcpy, if_pos hir]
    rw [(identical_offsets_eq lsms.n_spin_cant atom.numLIZ lsms.maxlmax atom.kkrsz atom.LIZlmax
      hall hk ir hir).1, hn, offsetsLMaxDifferent_eq, if_pos (by omega)]
    simp only [kkrOf_eq_sq]
  · simpa only [kkrOf_eq_sq] using hnr

end IdentityStore

/-- With identity t-matrix blocks in the store, the launch of the multiply
kernel on the unit matrix leaves minus the BGij entry in every cell of a block
of two distinct sites and the unit matrix in the same-site blocks. -/
theorem multiplyLaunch_identity_store {α : Type} [Ring α] (blockDim numLIZ : Nat)
    (LIZlmax LIZStoreIdx offsets : Mem Nat)
    (kkrsz_ns ispin n_spin_pola n_spin_cant iie blkSizeTmatStore tmatStoreLDim : Nat)
    (devTmatStore : Mem α) (nrmat_ns : Nat) (devBgij devM : Mem α) (hbd : 0 < blockDim)
    (hlay : BlockLayout numLIZ n_spin_cant nrmat_ns LIZlmax offsets)
    (hT : ∀ ir < numLIZ, ∀ i < kkrOf LIZlmax ir * n_spin_cant,
      ∀ k < kkrOf LIZlmax ir * n_spin_cant,
        devTmatStore
            (IDX (iie * blkSizeTmatStore + i + k * (kkrOf LIZlmax ir * n_spin_cant))
              (LIZStoreIdx ir) tmatStoreLDim)
          = if i = k then 1 else 0) :
    (∀ ir1 < numLIZ, ∀ ir2 < numLIZ, ir1 ≠ ir2 →
      ∀ i < kkrOf LIZlmax ir1 * n_spin_cant, ∀ j < kkrOf LIZlmax ir2 * n_spin_cant,
        gridLaunch numLIZ
            (buildKKRMatrixMultiplyKernelHip blockDim LIZlmax LIZStoreIdx offsets kkrsz_ns ispin
              n_spin_pola n_spin_cant iie blkSizeTmatStore tmatStoreLDim devTmatStore nrmat_ns
              devBgij)
            (unitMatrixHip devM nrmat_ns nrmat_ns)
            (IDX (offsets ir1 + i) (offsets ir2 + j) nrmat_ns)
          = -devBgij (IDX (offsets ir1 + i) (offsets ir2 + j) nrmat_ns))
    ∧ (∀ ir < numLIZ, ∀ i < kkrOf LIZlmax ir * n_spin_cant,
      ∀ j < kkrOf LIZlmax ir * n_spin_cant,
        gridLaunch numLIZ
            (buildKKRMatrixMultiplyKernelHip blockDim LIZlmax LIZStoreIdx offsets kkrsz_ns ispin
              n_spin_pola n_spin_cant iie blkSizeTmatStore tmatStoreLDim devTmatStore nrmat_ns
              devBgij)
            (unitMatrixHip devM nrmat_ns nrmat_ns)
            (IDX (offsets ir + i) (offsets ir + j) nrmat_ns)
          = if i = j then 1 else 0) := by
  refine ⟨fun ir1 h1 ir2 h2 hne i hi j hj => ?_, fun ir hir i hi j hj => ?_⟩
  · rw [multiplyLaunch_entry _ _ _ _ _ _ _ _ _ _ _ _ _ _ _ _ hbd hlay ir1 ir2 h1 h2 hne i j hi hj]
    congr 1
    rw [Finset.sum_eq_single i]
    · rw [hT ir1 h1 i hi i hi, if_pos rfl, one_mul]
    · intro k hk hki
      rw [hT ir1 h1 i hi k (Finset.mem_range.mp hk), if_neg (Ne.symm hki), zero_mul]
    · intro hni
      exact absurd (Finset.mem_range.mpr hi) hni
  · rw [multiplyLaunch_diag _ _ _ _ _ _ _ _ _ _ _ _ _ _ _ _ hlay ir hir i j hi hj,
      unitMatrixHip_cell _ (hlay.row_lt hir hi) (hlay.row_lt hir hj)]
    by_cases h : i = j
    · simp [h]
    · have : ¬ (offsets ir + i = offsets ir + j) := by omega
      simp [h, this]

/-- C6 holds where the Gij kernel divides by no zero and does not hold for the
code at `prel = 0`. The t-matrix store block of every site is the identity of
that site's block size, `nrmat` covers the channels of all sites, and
`atom.kkrsz` is `(maxlmax+1)^2` when the identical-lmax path is taken.
* If `prel ≠ 0` and all distinct sites are at non-zero distance, no division of
  `calculateHankelHip` in any block has a zero divisor, and after a build by
  `buildKKRMatrixHip` (either path) every entry of every off-diagonal block of
  `M` is minus the corresponding entry of `BGij`, and every diagonal block of
  `M` is the identity.
* If `prel = 0`, in every block of two distinct sites the first division of
  `calculateHankelHip` (`sqrtm1/z`, for `hfn[1]`) has the divisor zero, so that
  `hfn[l]`, `l ≥ 1`, the entries of `BGij` computed from them and the sums of
  the multiply kernel that these enter are not numbers in the code. -/
theorem C6_identity_store {K : Type} [LinearOrderedField K] [RealFns K]
    (lsms : LSMSSystemParameters) (atom : AtomData K)
    (c : DeviceConstants K) (sharedMemory : Mem K) (d : DeviceStorage K) (ispin iie : Nat)
    (energy prel : deviceDoubleComplex K) (devM : Mem (deviceDoubleComplex K))
    (hnr : ∑ k ∈ Finset.range atom.numLIZ, (atom.LIZlmax k + 1) ^ 2 ≤ atom.nrmat)
    (hk : (∀ ir < atom.numLIZ, atom.LIZlmax ir = lsms.maxlmax) →
      atom.kkrsz = (lsms.maxlmax + 1) ^ 2)
    (hT : ∀ ir < atom.numLIZ, ∀ i < kkrOf atom.LIZlmax ir * lsms.n_spin_cant,
      ∀ k < kkrOf atom.LIZlmax ir * lsms.n_spin_cant,
        d.devTmatStore
            (IDX (iie * d.blkSizeTmatStore + i + k * (kkrOf atom.LIZlmax ir * lsms.n_spin_cant))
              (atom.LIZStoreIdx ir) d.tmatStoreLDim)
          = if i = k then 1 else 0) :
    (prel ≠ 0 →
      (∀ ir1 < atom.numLIZ, ∀ ir2 < atom.numLIZ, ir1 ≠ ir2 →
        RealFns.sqrt (sitesRij atom.LIZPos ir1 ir2 0 * sitesRij atom.LIZPos ir1 ir2 0
          + sitesRij atom.LIZPos ir1 ir2 1 * sitesRij atom.LIZPos ir1 ir2 1
          + sitesRij atom.LIZPos ir1 ir2 2 * sitesRij atom.LIZPos ir1 ir2 2) ≠ 0) →
      (∀ ir1 < atom.numLIZ, ∀ ir2 < atom.numLIZ, ir1 ≠ ir2 →
        ∀ z ∈ (calculateHankelHipLogged prel
              (RealFns.sqrt (sitesRij atom.LIZPos ir1 ir2 0 * sitesRij atom.LIZPos ir1 ir2 0
                + sitesRij atom.LIZPos ir1 ir2 1 * sitesRij atom.LIZPos ir1 ir2 1
                + sitesRij atom.LIZPos ir1 ir2 2 * sitesRij atom.LIZPos ir1 ir2 2))
              (atom.LIZlmax ir1 + atom.LIZlmax ir2) c.ilp1
              ((sharedMemoryBGijHip lsms.maxlmax lsms.ndlm).hfnOffset / 8) sharedMemory).2,
          z ≠ 0)
      ∧ (∀ ir1 < atom.numLIZ, ∀ ir2 < atom.numLIZ, ir1 ≠ ir2 →
        ∀ i < kkrOf atom.LIZlmax ir1 * lsms.n_spin_cant,
        ∀ j < kkrOf atom.LIZlmax ir2 * lsms.n_spin_cant,
          (buildKKRMatrixHip lsms atom c sharedMemory d ispin iie energy prel devM).2
              (IDX
                ((buildKKRMatrixHip lsms atom c sharedMemory d ispin iie energy prel
                  devM).1.devIpvt ir1 + i)
                ((buildKKRMatrixHip lsms atom c sharedMemory d ispin iie energy prel
                  devM).1.devIpvt ir2 + j)
                (lsms.n_spin_cant * atom.nrmat))
            = -(buildKKRMatrixHip lsms atom c sharedMemory d ispin iie energy prel
                  devM).1.devBGij
                (IDX
                  ((buildKKRMatrixHip lsms atom c sharedMemory d ispin iie energy prel
                    devM).1.devIpvt ir1 + i)
                  ((buildKKRMatrixHip lsms atom c sharedMemory d ispin iie energy prel
                    devM).1.devIpvt ir2 + j)
                  (lsms.n_spin_cant * atom.nrmat)))
      ∧ (∀ ir < atom.numLIZ, ∀ i < kkrOf atom.LIZlmax ir * lsms.n_spin_cant,
        ∀ j < kkrOf atom.LIZlmax ir * lsms.n_spin_cant,
          (buildKKRMatrixHip lsms atom c sharedMemory d ispin iie energy prel devM).2
              (IDX
                ((buildKKRMatrixHip lsms atom c sharedMemory d ispin iie energy prel
                  devM).1.devIpvt ir + i)
                ((buildKKRMatrixHip lsms atom c sharedMemory d ispin iie energy prel
                  devM).1.devIpvt ir + j)
                (lsms.n_spin_cant * atom.nrmat))
            = if i = j then 1 else 0))
    ∧ (prel = 0 →
      ∀ ir1 < atom.numLIZ, ∀ ir2 < atom.numLIZ, ir1 ≠ ir2 →
        (calculateHankelHipLogged prel
            (RealFns.sqrt (sitesRij atom.LIZPos ir1 ir2 0 * sitesRij atom.LIZPos ir1 ir2 0
              + sitesRij atom.LIZPos ir1 ir2 1 * sitesRij atom.LIZPos ir1 ir2 1
              + sitesRij atom.LIZPos ir1 ir2 2 * sitesRij atom.LIZPos ir1 ir2 2))
            (atom.LIZlmax ir1 + atom.LIZlmax ir2) c.ilp1
            ((sharedMemoryBGijHip lsms.maxlmax lsms.ndlm).hfnOffset / 8) sharedMemory).2.head?
          = some 0) := by
  refine ⟨fun hprel hr => ⟨fun ir1 h1 ir2 h2 hne =>
    hankel_divisors_ne_zero _ _ _ _ _ _ hprel (hr ir1 h1 ir2 h2 hne), ?_⟩, ?_⟩
  · rcases Nat.eq_zero_or_pos atom.numLIZ with h0 | hpos
    · exact ⟨fun ir1 h1 => absurd h1 (by omega), fun ir hir => absurd hir (by omega)⟩
    · by_cases hsel : lmaxIdentical lsms.maxlmax atom.numLIZ atom.LIZlmax = true
      · have hall := (lmaxIdentical_iff lsms.maxlmax atom.numLIZ atom.LIZlmax hpos).mp hsel
        have hlay := buildIdentical_layout lsms atom c sharedMemory d ispin iie energy prel devM
          hnr hall (hk hall)
        have hb : buildKKRMatrixHip lsms atom c sharedMemory d ispin iie energy prel devM
            = buildKKRMatrixLMaxIdenticalHip lsms atom c sharedMemory d ispin iie energy prel
                devM := by
          unfold buildKKRMatrixHip
          rw [if_pos hsel]
        rw [hb, buildIdentical_devM]
        exact multiplyLaunch_identity_store 256 atom.numLIZ atom.LIZlmax atom.LIZStoreIdx _ _ _
          _ _ _ _ _ _ _ _ _ (by decide) hlay hT
      · have hlay := buildDifferent_layout lsms atom c sharedMemory d ispin iie energy prel devM
          hnr
        have hb : buildKKRMatrixHip lsms atom c sharedMemory d ispin iie energy prel devM
            = buildKKRMatrixLMaxDifferentHip lsms atom c sharedMemory d ispin iie energy prel
                devM := by
          unfold buildKKRMatrixHip
          rw [if_neg hsel]
        rw [hb, buildDifferent_devM]
        exact multiplyLaunch_identity_store 256 atom.numLIZ atom.LIZlmax atom.LIZStoreIdx _ _ _
          _ _ _ _ _ _ _ _ _ (by decide) hlay hT
  · intro hprel ir1 _ ir2 _ _
    subst hprel
    rw [calculateHankelHipLogged_snd]
    simp

/-- C6 at two sites of cutoff 1 with two spin components (8×8 blocks, the
identical-lmax path) and a store that holds the 8×8 identity for each site:
for `prel = 1 + i` the entry `(5, 2)` of the block of sites 0 and 1, and for
`prel = 0` the zero divisor in the block of sites 0 and 1. -/
theorem C6_identity_store_witness :
    (∑ k ∈ Finset.range exAtomUniform.numLIZ, (exAtomUniform.LIZlmax k + 1) ^ 2
        ≤ exAtomUniform.nrmat
      ∧ ((∀ ir < exAtomUniform.numLIZ, exAtomUniform.LIZlmax ir = exLsms.maxlmax) →
          exAtomUniform.kkrsz = (exLsms.maxlmax + 1) ^ 2)
      ∧ (∀ ir < exAtomUniform.numLIZ, ∀ i < kkrOf exAtomUniform.LIZlmax ir * exLsms.n_spin_cant,
        ∀ k < kkrOf exAtomUniform.LIZlmax ir * exLsms.n_spin_cant,
          exStorageIdentity.devTmatStore
              (IDX (0 * exStorageIdentity.blkSizeTmatStore + i
                  + k * (kkrOf exAtomUniform.LIZlmax ir * exLsms.n_spin_cant))
                (exAtomUniform.LIZStoreIdx ir) exStorageIdentity.tmatStoreLDim)
            = if i = k then 1 else 0))
    ∧ ((⟨1, 1⟩ : deviceDoubleComplex ℚ) ≠ 0
      ∧ (∀ ir1 < exAtomUniform.numLIZ, ∀ ir2 < exAtomUniform.numLIZ, ir1 ≠ ir2 →
        RealFns.sqrt
            (sitesRij exAtomUniform.LIZPos ir1 ir2 0 * sitesRij exAtomUniform.LIZPos ir1 ir2 0
              + sitesRij exAtomUniform.LIZPos ir1 ir2 1 * sitesRij exAtomUniform.LIZPos ir1 ir2 1
              + sitesRij exAtomUniform.LIZPos ir1 ir2 2 * sitesRij exAtomUniform.LIZPos ir1 ir2 2)
          ≠ 0))
    ∧ lmaxIdentical exLsms.maxlmax exAtomUniform.numLIZ exAtomUniform.LIZlmax = true
    ∧ (buildKKRMatrixHip exLsms exAtomUniform exConstants (fun _ => 0) exStorageIdentity 0 0
          ⟨1, 0⟩ ⟨1, 1⟩ (fun _ => 0)).2
        (IDX
          ((buildKKRMatrixHip exLsms exAtomUniform exConstants (fun _ => 0) exStorageIdentity 0 0
            ⟨1, 0⟩ ⟨1, 1⟩ (fun _ => 0)).1.devIpvt 0 + 5)
          ((buildKKRMatrixHip exLsms exAtomUniform exConstants (fun _ => 0) exStorageIdentity 0 0
            ⟨1, 0⟩ ⟨1, 1⟩ (fun _ => 0)).1.devIpvt 1 + 2)
          (exLsms.n_spin_cant * exAtomUniform.nrmat))
      = -(buildKKRMatrixHip exLsms exAtomUniform exConstants (fun _ => 0) exStorageIdentity 0 0
            ⟨1, 0⟩ ⟨1, 1⟩ (fun _ => 0)).1.devBGij
          (IDX
            ((buildKKRMatrixHip exLsms exAtomUniform exConstants (fun _ => 0) exStorageIdentity
              0 0 ⟨1, 0⟩ ⟨1, 1⟩ (fun _ => 0)).1.devIpvt 0 + 5)
            ((buildKKRMatrixHip exLsms exAtomUniform exConstants (fun _ => 0) exStorageIdentity
              0 0 ⟨1, 0⟩ ⟨1, 1⟩ (fun _ => 0)).1.devIpvt 1 + 2)
            (exLsms.n_spin_cant * exAtomUniform.nrmat))
    ∧ (calculateHankelHipLogged (0 : deviceDoubleComplex ℚ)
          (RealFns.sqrt
            (sitesRij exAtomUniform.LIZPos 0 1 0 * sitesRij exAtomUniform.LIZPos 0 1 0
              + sitesRij exAtomUniform.LIZPos 0 1 1 * sitesRij exAtomUniform.LIZPos 0 1 1
              + sitesRij exAtomUniform.LIZPos 0 1 2 * sitesRij exAtomUniform.LIZPos 0 1 2))
          (exAtomUniform.LIZlmax 0 + exAtomUniform.LIZlmax 1) exConstants.ilp1
          ((sharedMemoryBGijHip exLsms.maxlmax exLsms.ndlm).hfnOffset / 8) (fun _ => 0)).2.head?
        = some 0 :=
  have hk : (∀ ir < exAtomUniform.numLIZ, exAtomUniform.LIZlmax ir = exLsms.maxlmax) →
      exAtomUniform.kkrsz = (exLsms.maxlmax + 1) ^ 2 := fun _ => by decide
  have hT : ∀ ir < exAtomUniform.numLIZ,
      ∀ i < kkrOf exAtomUniform.LIZlmax ir * exLsms.n_spin_cant,
      ∀ k < kkrOf exAtomUniform.LIZlmax ir * exLsms.n_spin_cant,
        exStorageIdentity.devTmatStore
            (IDX (0 * exStorageIdentity.blkSizeTmatStore + i
                + k * (kkrOf exAtomUniform.LIZlmax ir * exLsms.n_spin_cant))
              (exAtomUniform.LIZStoreIdx ir) exStorageIdentity.tmatStoreLDim)
          = if i = k then 1 else 0 := by
    intro ir hir i hi k hk
    simp only [kkrOf, exAtomUniform, exLsms] at hir hi hk
    have hidx : IDX (0 * 100 + i + k * ((1 + 1) * (1 + 1) * 2)) ir 100
        = ir * 100 + i + 8 * k := by
      unfold IDX
      ring
    have e1 : (ir * 100 + i + 8 * k) % 100 % 8 = i := by omega
    have e2 : (ir * 100 + i + 8 * k) % 100 / 8 = k := by omega
    simp only [exStorageIdentity, kkrOf, exAtomUniform, exLsms, hidx, e1, e2]
  have hprel : (⟨1, 1⟩ : deviceDoubleComplex ℚ) ≠ 0 := by
    intro h
    have hx := congrArg deviceDoubleComplex.x h
    simp at hx
  have hr : ∀ ir1 < exAtomUniform.numLIZ, ∀ ir2 < exAtomUniform.numLIZ, ir1 ≠ ir2 →
      RealFns.sqrt
          (sitesRij exAtomUniform.LIZPos ir1 ir2 0 * sitesRij exAtomUniform.LIZPos ir1 ir2 0
            + sitesRij exAtomUniform.LIZPos ir1 ir2 1 * sitesRij exAtomUniform.LIZPos ir1 ir2 1
            + sitesRij exAtomUniform.LIZPos ir1 ir2 2 * sitesRij exAtomUniform.LIZPos ir1 ir2 2)
        ≠ 0 := by
    intro ir1 h1 ir2 h2 hne
    simp only [exAtomUniform] at h1 h2
    interval_cases ir1 <;> interval_cases ir2 <;>
      first
        | exact absurd rfl hne
        | norm_num [sitesRij, exAtomUniform, RealFns.sqrt]
  ⟨⟨by decide, hk, hT⟩, ⟨hprel, hr⟩, by decide,
    ((C6_identity_store exLsms exAtomUniform exConstants (fun _ => 0) exStorageIdentity 0 0
      ⟨1, 0⟩ ⟨1, 1⟩ (fun _ => 0) (by decide) hk hT).1 hprel hr).2.1 0 (by decide) 1 (by decide)
      (by decide) 5 (by decide) 2 (by decide),
    (C6_identity_store exLsms exAtomUniform exConstants (fun _ => 0) exStorageIdentity 0 0
      ⟨1, 0⟩ 0 (fun _ => 0) (by decide) hk hT).2 rfl 0 (by decide) 1 (by decide) (by decide)⟩

end LSMS
